import Mathlib

/-!
# Dihedral Smith-Waterman engine (`FPGA/align.cc`)

A shallow embedding of the synthesizable alignment kernel and of its all-pairs
driver, followed by theorems about them.

* Machine integers are modelled as `Int` with explicit wrap-around:
  `angle_type` is `std::int16_t`, `unsigned_angle_type` is `std::uint16_t`,
  `index_type` is `std::int16_t`, `score_type` is `std::int32_t`.
* The buffers of `align_one` are arrays of the declared size, the streams are
  lists (front of the list is the next element to be read).
-/

namespace Align

/-! ## Machine integers -/

/-- Conversion of an integer to `std::int16_t` (`angle_type`, `index_type`). -/
def toInt16 (x : Int) : Int := (x + 32768) % 65536 - 32768

/-- Conversion of an integer to `std::uint16_t` (`unsigned_angle_type`, `size_type`). -/
def toUInt16 (x : Int) : Int := x % 65536

/-- Conversion of an integer to `std::uint32_t` (`seq_count_type`). -/
def toUInt32 (x : Int) : Int := x % 4294967296

/-- Conversion of an integer to `std::size_t` (64 bits on the simulation host). -/
def toSizeT (x : Int) : Int := x % 18446744073709551616

/-- Conversion of an integer to `std::int32_t` (`score_type`). -/
def toInt32 (x : Int) : Int := (x + 2147483648) % 4294967296 - 2147483648

/-! ## Constants of `align.hh` -/

@[simp] def MAX_SEQ_SIZE : Int := 512
@[simp] def WIN_COLS : Int := 16
@[simp] def WIN_ROWS : Int := MAX_SEQ_SIZE
@[simp] def WIN_ROWS_MASK : Int := WIN_ROWS - 1
@[simp] def WIN_DIAGS : Int := WIN_ROWS + WIN_COLS - 1
@[simp] def WIN_COUNT_HOR : Int := MAX_SEQ_SIZE / WIN_COLS

/-- The pair of backbone angles `struct Dihedral { angle_type phi; angle_type psi; }`. -/
structure Dihedral where
  phi : Int
  psi : Int
deriving DecidableEq, Repr, Inhabited

/-! ## Scoring primitive -/

/-- The loop of `array_max`: `if (arr[i] > result) result = arr[i]`. -/
def array_max_loop (result : Int) : List Int → Int
  | [] => result
  | x :: rest => array_max_loop (if x > result then x else result) rest

/-- The function `array_max` of `align.cc`; the source requires `N > 0`. -/
def array_max (arr : List Int) : Int :=
  match arr with
  | [] => 0
  | a :: rest => array_max_loop a rest

/-- The function `angle_abs_diff` of `align.cc`. The two operands are converted to
`unsigned_angle_type`, subtracted, the difference is converted to `angle_type`, and
its absolute value (taken after integer promotion) is converted to the unsigned
return type. -/
def angle_abs_diff (x y : Int) : Int :=
  let signed_diff := toInt16 (toUInt16 x - toUInt16 y)
  toUInt16 (if signed_diff < 0 then -signed_diff else signed_diff)

/-- The function `dihedral_score` of `align.cc`, every `score_type` operation wrapping
modulo `2^32`. -/
def dihedral_score (angle1 angle2 : Dihedral) (offset : Int) : Int :=
  let dphi := angle_abs_diff angle1.phi angle2.phi
  let dpsi := angle_abs_diff angle1.psi angle2.psi
  toInt32 (offset - toInt32 (toInt32 (dphi * dphi) + toInt32 (dpsi * dpsi)))

/-! ## Single-pair aligner -/

/-- A buffer of `n` elements (`T buf[n]`). -/
structure Buf (n : Nat) (α : Type) where
  data : Array α
  size_eq : data.size = n

/-- The read `buf[k]`; an index outside the buffer yields the default value. -/
def Buf.get {n : Nat} {α : Type} [Inhabited α] (b : Buf n α) (k : Int) : α :=
  if 0 ≤ k then b.data.getD k.toNat default else default

/-- The assignment `buf[k] = v`; an index outside the buffer leaves it unchanged. -/
def Buf.set {n : Nat} {α : Type} (b : Buf n α) (k : Int) (v : α) : Buf n α :=
  if 0 ≤ k then ⟨b.data.setD k.toNat v, by rw [Array.size_setD]; exact b.size_eq⟩ else b

/-- The buffer whose `n` elements all equal `v`. -/
def Buf.fill (n : Nat) {α : Type} (v : α) : Buf n α := ⟨Array.mkArray n v, by simp⟩

/-- Every variable that `align_one` declares outside its loops, and the two
streams it reads. `seq_ver` and `seq_hor` have static storage duration; all other
buffers and registers are declared without an initial value under
synthesis. `lah_buf_rc` is `lah_buf[r][c]`, `hor_prop_buf_next_cells_k` is
`hor_prop_buf_next_cells[k]`. -/
structure State where
  seq_ver : Buf 512 Dihedral
  seq_hor : Buf 16 Dihedral
  hor_prop_buf : Buf 512 Int
  diag_buf_old : Buf 16 Int
  diag_buf_new : Buf 16 Int
  max_valid_row : Int
  max_valid_col : Int
  lah_buf_00 : Int
  lah_buf_01 : Int
  lah_buf_10 : Int
  lah_buf_11 : Int
  diag_buf_old_next_cell : Int
  diag_buf_new_next_cell : Int
  hor_prop_buf_next_cells_0 : Int
  hor_prop_buf_next_cells_1 : Int
  max_score : Int
  cur_score : Int
  seq_hor_read_reg : Dihedral
  seq_ver_read_reg : Dihedral
  seq_hor_comp_reg : Dihedral
  seq_ver_comp_reg : Dihedral
  in_bounds : Bool
  stream_size_ver : Int
  stream_size_hor : Int
  stream_ver : List Dihedral
  stream_hor : List Dihedral

/-- Front element of a stream. Reading an empty `hls::stream` in C simulation
yields a value-initialised element. -/
def stream_front (s : List Dihedral) : Dihedral :=
  match s with
  | [] => { phi := 0, psi := 0 }
  | x :: _ => x

/-- Lines 192-198: read the horizontal propagation buffer at the beginning of each
diagonal, and update its temporary shift register. -/
def read_hor_prop (h i j : Int) (st : State) : State :=
  if j = 0 ∧ i < WIN_ROWS then
    { st with
      hor_prop_buf_next_cells_0 := if 0 < i then st.hor_prop_buf_next_cells_1 else 0
      hor_prop_buf_next_cells_1 := if 0 < h then st.hor_prop_buf.get i else 0 }
  else st

/-- Lines 200-207: update the left column of the lookahead window. -/
def update_lah (i j : Int) (st : State) : State :=
  if j = 0 then
    { st with
      lah_buf_00 := if i < 1 then 0 else st.hor_prop_buf_next_cells_0
      lah_buf_10 := if i < 0 then 0 else st.hor_prop_buf_next_cells_1 }
  else
    { st with
      lah_buf_00 := st.lah_buf_01
      lah_buf_10 := st.lah_buf_11 }

/-- Lines 209-220: read ahead in the diagonal buffers, respecting boundary conditions. -/
def read_ahead (i j : Int) (st : State) : State :=
  let st : State :=
    { st with
      diag_buf_old_next_cell := if j ≤ i - 2 then st.diag_buf_old.get j else 0
      diag_buf_new_next_cell := if j ≤ i - 1 then st.diag_buf_new.get j else 0 }
  { st with
    lah_buf_01 := if i < 2 then 0 else st.diag_buf_old_next_cell
    lah_buf_11 := if i < 1 then 0 else st.diag_buf_new_next_cell }

/-- Lines 222-234: the write-enable signal `in_bounds` for row `r`, and the row and
column boundaries that are set at the first cell of a window. -/
def set_boundaries (h i j r : Int) (st : State) : State :=
  let st : State := { st with in_bounds := decide (0 ≤ r ∧ r < WIN_ROWS) }
  if i = 0 ∧ j = 0 then
    { st with
      max_valid_row := if h = 0 then WIN_ROWS else st.max_valid_row
      max_valid_col := WIN_COLS }
  else st

/-- Lines 236-267: read in the vertical sequence buffer if necessary. -/
def read_ver (should_read_ver_stream : Bool) (h j r : Int) (st : State) : State :=
  if h = 0 ∧ j = 0 then
    if st.stream_size_ver = 0 then
      if r < st.max_valid_row then { st with max_valid_row := r } else st
    else
      if st.in_bounds = true then
        let st : State :=
          if should_read_ver_stream = true then
            { st with
              seq_ver_read_reg := stream_front st.stream_ver
              stream_ver := st.stream_ver.tail
              seq_ver := st.seq_ver.set r (stream_front st.stream_ver) }
          else st
        { st with stream_size_ver := toInt16 (st.stream_size_ver - 1) }
      else st
  else st

/-- Lines 269-285: read in the horizontal sequence buffer if necessary. -/
def read_hor (r c : Int) (st : State) : State :=
  if r = 0 then
    if st.stream_size_hor = 0 then
      if c < st.max_valid_col then { st with max_valid_col := c } else st
    else
      { st with
        seq_hor_read_reg := stream_front st.stream_hor
        stream_hor := st.stream_hor.tail
        seq_hor := st.seq_hor.set c (stream_front st.stream_hor)
        stream_size_hor := toInt16 (st.stream_size_hor - 1) }
  else st

/-- Lines 294-311: select the two operands and compute the score of the cell. -/
def compute_score (scoring_offset gap_penalty : Int) (should_read_ver_stream : Bool)
    (h j r c : Int) (st : State) : State :=
  let st : State :=
    { st with seq_hor_comp_reg := if r = 0 then st.seq_hor_read_reg else st.seq_hor.get c }
  let st : State :=
    { st with
      seq_ver_comp_reg :=
        if h = 0 ∧ j = 0 ∧ should_read_ver_stream = true then st.seq_ver_read_reg
        else st.seq_ver.get (toUInt16 r % (WIN_ROWS_MASK + 1)) }
  { st with
    cur_score := array_max [
      toInt32 (st.lah_buf_00
        + dihedral_score st.seq_ver_comp_reg st.seq_hor_comp_reg scoring_offset),
      toInt32 (st.lah_buf_10 + gap_penalty),
      toInt32 (st.lah_buf_11 + gap_penalty),
      0] }

/-- Lines 313-322: accumulate the maximum if the cell is valid. -/
def accumulate_max (r c : Int) (st : State) : State :=
  if st.in_bounds = true ∧ r < st.max_valid_row ∧ c < st.max_valid_col then
    if st.cur_score > st.max_score then { st with max_score := st.cur_score } else st
  else st

/-- Lines 324-335: shift the values in the diagonal buffers, and propagate the cells of
the last column of each row rightwards. -/
def shift_and_propagate (j r c : Int) (st : State) : State :=
  let st : State :=
    { st with
      diag_buf_old := st.diag_buf_old.set j st.diag_buf_new_next_cell
      diag_buf_new := st.diag_buf_new.set j st.cur_score }
  if c = WIN_COLS - 1 then
    if st.in_bounds = true then { st with hor_prop_buf := st.hor_prop_buf.set r st.cur_score }
    else st
  else st

/-- Body of `col_loop` in `align_one` (lines 188-337 of `align.cc`): the work done
for window `h`, diagonal `i`, column offset `j`, on the cell of row `r = i - j` and
column `c = j` of the window. -/
def cell_step (scoring_offset gap_penalty : Int) (should_read_ver_stream : Bool)
    (h i j : Int) (st : State) : State :=
  let r := i - j
  let c := j
  let st := read_hor_prop h i j st
  let st := update_lah i j st
  let st := read_ahead i j st
  let st := set_boundaries h i j r st
  let st := read_ver should_read_ver_stream h j r st
  let st := read_hor r c st
  let st := compute_score scoring_offset gap_penalty should_read_ver_stream h j r c st
  let st := accumulate_max r c st
  shift_and_propagate j r c st

/-- The loop `col_loop`: `k` iterations remain, the next one is for column offset `j`.
It is entered with `k = WIN_COLS` and `j = 0`. -/
def col_loop (scoring_offset gap_penalty : Int) (should_read_ver_stream : Bool)
    (h i : Int) : Nat → Int → State → State
  | 0, _, st => st
  | k + 1, j, st =>
    col_loop scoring_offset gap_penalty should_read_ver_stream h i k (j + 1)
      (cell_step scoring_offset gap_penalty should_read_ver_stream h i j st)

/-- The loop `diag_loop`: at most `k` diagonals remain, the next one is `i`; the
loop is left early after diagonal `stream_size_ver_orig + WIN_COLS - 1`.
It is entered with `k = WIN_DIAGS` and `i = 0`. -/
def diag_loop (scoring_offset gap_penalty : Int) (should_read_ver_stream : Bool)
    (stream_size_ver_orig : Int) (h : Int) : Nat → Int → State → State
  | 0, _, st => st
  | k + 1, i, st =>
    let st := col_loop scoring_offset gap_penalty should_read_ver_stream h i WIN_COLS.toNat 0 st
    if i = stream_size_ver_orig + WIN_COLS - 1 then st
    else diag_loop scoring_offset gap_penalty should_read_ver_stream stream_size_ver_orig h k (i + 1) st

/-- The loop `hor_window_loop`: at most `k` windows remain, the next one is `h`; the
loop is left early once the horizontal stream is exhausted.
It is entered with `k = WIN_COUNT_HOR` and `h = 0`. -/
def hor_window_loop (scoring_offset gap_penalty : Int) (should_read_ver_stream : Bool)
    (stream_size_ver_orig : Int) : Nat → Int → State → State
  | 0, _, st => st
  | k + 1, h, st =>
    let st := diag_loop scoring_offset gap_penalty should_read_ver_stream stream_size_ver_orig h
      WIN_DIAGS.toNat 0 st
    if st.stream_size_hor = 0 then st
    else hor_window_loop scoring_offset gap_penalty should_read_ver_stream stream_size_ver_orig k (h + 1) st

/-- The function `align_one` of `align.cc`. The argument `st0` gives the contents
of the static buffers left by the previous call and the arbitrary initial contents
of the variables declared without a value. The result is the state on return: its
`max_score` is the returned score, `stream_ver` and `stream_hor` are what is left
on the two streams. -/
def align_one (st0 : State) (stream_ver : List Dihedral) (stream_size_ver : Int)
    (stream_hor : List Dihedral) (stream_size_hor : Int)
    (scoring_offset gap_penalty : Int) (should_read_ver_stream : Bool) : State :=
  hor_window_loop scoring_offset gap_penalty should_read_ver_stream stream_size_ver
    WIN_COUNT_HOR.toNat 0
    { st0 with
      max_score := 0
      stream_ver := stream_ver
      stream_size_ver := stream_size_ver
      stream_hor := stream_hor
      stream_size_hor := stream_size_hor }

/-- Initial contents of the buffers in C simulation (the branch of `align_one`
without `__SYNTHESIS__`); the registers that have no initial value are taken as 0. -/
def sim_state : State where
  seq_ver := Buf.fill 512 { phi := -1, psi := -1 }
  seq_hor := Buf.fill 16 { phi := -1, psi := -1 }
  hor_prop_buf := Buf.fill 512 (-1)
  diag_buf_old := Buf.fill 16 1000
  diag_buf_new := Buf.fill 16 1000
  max_valid_row := 0
  max_valid_col := 0
  lah_buf_00 := 0
  lah_buf_01 := 0
  lah_buf_10 := 0
  lah_buf_11 := 0
  diag_buf_old_next_cell := 0
  diag_buf_new_next_cell := 0
  hor_prop_buf_next_cells_0 := 0
  hor_prop_buf_next_cells_1 := 0
  max_score := 0
  cur_score := 0
  seq_hor_read_reg := { phi := 0, psi := 0 }
  seq_ver_read_reg := { phi := 0, psi := 0 }
  seq_hor_comp_reg := { phi := 0, psi := 0 }
  seq_ver_comp_reg := { phi := 0, psi := 0 }
  in_bounds := false
  stream_size_ver := 0
  stream_size_hor := 0
  stream_ver := []
  stream_hor := []

/-! ## The top-level function `align` -/

/-- The type `axi_out_score_type` (`ap_axis<32, 1, 1, 1>`): a 32-bit signed `data`
word with its side-band signals `keep` and `strb` (4 bits each) and `last`. -/
structure axi_out_score_type where
  data : Int
  keep : Int
  strb : Int
  last : Bool
deriving DecidableEq, Repr

/-- What `align` works on: the static buffers of `align_one` (inside `statics`), the
three input streams and the output stream. -/
structure AlignPorts where
  statics : State
  stream_ver : List Dihedral
  streams_hor : List Dihedral
  stream_sizes_hor : List Int
  out_scores : List axi_out_score_type

/-- Front element of the stream of lengths (0 when the stream is empty). -/
def sizes_front (s : List Int) : Int :=
  match s with
  | [] => 0
  | x :: _ => x

/-- Body of `align_loop` in `align` (lines 385-411 of `align.cc`), for the iteration of
index `i`. `junk t` gives the arbitrary initial contents of the non-static variables
of the `t`-th call of `align_one`; the static buffers are carried from call to call. -/
def align_body (junk : Nat → State) (stream_size_ver : Int) (num_streams_hor : Int)
    (scoring_offset gap_penalty : Int) (i : Int) (should_read_ver_stream : Bool)
    (ps : AlignPorts) : AlignPorts :=
  let stream_size_hor := sizes_front ps.stream_sizes_hor
  let st0 : State :=
    { junk i.toNat with seq_ver := ps.statics.seq_ver, seq_hor := ps.statics.seq_hor }
  let res := align_one st0 ps.stream_ver stream_size_ver ps.streams_hor stream_size_hor
    scoring_offset gap_penalty should_read_ver_stream
  let axi_score : axi_out_score_type :=
    { data := res.max_score
      keep := 15
      strb := 15
      last := decide (i = toUInt32 (num_streams_hor - 1)) }
  { statics := res
    stream_ver := res.stream_ver
    streams_hor := res.stream_hor
    stream_sizes_hor := ps.stream_sizes_hor.tail
    out_scores := ps.out_scores ++ [axi_score] }

/-- The loop `align_loop` of `align`: `k` iterations remain, the next one has index
`i`; the vertical stream is read in the first iteration only. -/
def align_loop (junk : Nat → State) (stream_size_ver : Int) (num_streams_hor : Int)
    (scoring_offset gap_penalty : Int) : Nat → Int → Bool → AlignPorts → AlignPorts
  | 0, _, _, ps => ps
  | k + 1, i, should_read_ver_stream, ps =>
    align_loop junk stream_size_ver num_streams_hor scoring_offset gap_penalty k (i + 1) false
      (align_body junk stream_size_ver num_streams_hor scoring_offset gap_penalty i
        should_read_ver_stream ps)

/-- The function `align` of `align.cc`. -/
def align (junk : Nat → State) (statics : State)
    (stream_ver : List Dihedral) (stream_size_ver : Int)
    (streams_hor : List Dihedral) (stream_sizes_hor : List Int) (num_streams_hor : Int)
    (scoring_offset gap_penalty : Int) (out_scores : List axi_out_score_type) : AlignPorts :=
  align_loop junk stream_size_ver num_streams_hor scoring_offset gap_penalty
    num_streams_hor.toNat 0 true
    { statics := statics
      stream_ver := stream_ver
      streams_hor := streams_hor
      stream_sizes_hor := stream_sizes_hor
      out_scores := out_scores }

/-! ## The all-pairs driver of `FPGA/main.cc` -/

/-- The elements `[begin, end)` of a vector, as `fill_stream` writes them to a stream. -/
def fill_stream {α : Type} (v : List α) (b e : Int) : List α :=
  (v.drop b.toNat).take (e.toNat - b.toNat)

/-- Loop-carried state of the driver: `ver_begin`, the output stream, and the static
buffers of `align_one`. -/
structure MainState where
  ver_begin : Int
  statics : State
  out_scores : List axi_out_score_type

/-- Body of the pair loop of `main` (lines 99-132 of `main.cc`), for the iteration of
index `i`. -/
def main_body (junk : Nat → Nat → State) (lengths : List Int) (sequences : List Dihedral)
    (scoring_offset gap_penalty : Int) (i : Int) (ms : MainState) : MainState :=
  let ver_end := toSizeT (ms.ver_begin + lengths.getD i.toNat 0)
  let hor_begin := ver_end
  let hor_end : Int := sequences.length
  let stream_ver := fill_stream sequences ms.ver_begin ver_end
  let streams_hor := fill_stream sequences hor_begin hor_end
  let stream_sizes_hor := fill_stream lengths (i + 1) lengths.length
  let ps := align (junk i.toNat) ms.statics stream_ver (toInt16 stream_ver.length)
    streams_hor stream_sizes_hor (toUInt32 stream_sizes_hor.length)
    scoring_offset gap_penalty ms.out_scores
  { ver_begin := ver_end, statics := ps.statics, out_scores := ps.out_scores }

/-- The pair loop of `main` (lines 98-133 of `main.cc`): `k` iterations remain, the next
one has index `i`. -/
def main_loop (junk : Nat → Nat → State) (lengths : List Int) (sequences : List Dihedral)
    (scoring_offset gap_penalty : Int) : Nat → Int → MainState → MainState
  | 0, _, ms => ms
  | k + 1, i, ms =>
    main_loop junk lengths sequences scoring_offset gap_penalty k (i + 1)
      (main_body junk lengths sequences scoring_offset gap_penalty i ms)

/-- The alignment part of `main`: the loop runs while `i < lengths.size() - 1`, computed
in `std::size_t`; the result is the content of `out_scores` after the loop. -/
def main (junk : Nat → Nat → State) (statics : State) (lengths : List Int)
    (sequences : List Dihedral) (scoring_offset gap_penalty : Int) :
    List axi_out_score_type :=
  (main_loop junk lengths sequences scoring_offset gap_penalty
    (toSizeT ((lengths.length : Int) - 1)).toNat 0
    { ver_begin := 0, statics := statics, out_scores := [] }).out_scores

/-! ## The textbook recurrence of the specification -/

/-- One cell of the recurrence, `max(0, diag + sim(v, h, s), left + g, top + g)`,
the additions being those of `score_type`. -/
def sw_cell (diag left top : Int) (v h : Dihedral) (s g : Int) : Int :=
  max 0 (max (toInt32 (diag + dihedral_score v h s))
    (max (toInt32 (left + g)) (toInt32 (top + g))))

/-- A row of the matrix with its boundary column: entry `0` is `M[r, -1] = 0` and
entry `c + 1` is `M[r, c]`, given the row above (`above (c + 1)` is `M[r - 1, c]`). -/
def sw_row (H : List Dihedral) (s g : Int) (v : Dihedral) (above : Nat → Int) : Nat → Int
  | 0 => 0
  | c + 1 =>
    sw_cell (above c) (sw_row H s g v above c) (above (c + 1)) v
      (H.getD c { phi := 0, psi := 0 }) s g

/-- The matrix with its boundary: row `0` is `M[-1, *] = 0` and row `r + 1` is row `r`
of `M`. -/
def sw_table (V H : List Dihedral) (s g : Int) : Nat → Nat → Int
  | 0 => fun _ => 0
  | r + 1 => sw_row H s g (V.getD r { phi := 0, psi := 0 }) (sw_table V H s g r)

/-- The entry `M[r, c]` of the local-alignment matrix of `V` (vertical) and `H`
(horizontal). -/
def sw_matrix (V H : List Dihedral) (s g : Int) (r c : Nat) : Int :=
  sw_table V H s g (r + 1) (c + 1)

/-- The local-alignment score: the maximum of `M[r, c]` over `r < m`, `c < n`, and 0
when there is no cell. -/
def sw_score (V H : List Dihedral) (s g : Int) : Int :=
  (List.range V.length).foldl
    (fun acc r => (List.range H.length).foldl (fun acc c => max acc (sw_matrix V H s g r c)) acc)
    0

/-- The scores the driver is to emit for the sequences `S`: group `i` holds the scores
of `S_i` against `S_{i+1}, ..., S_{N-1}` in this order. -/
def pair_scores (S : List (List Dihedral)) (s g : Int) : List (List Int) :=
  (List.range (S.length - 1)).map fun i =>
    (List.range (S.length - 1 - i)).map fun t =>
      sw_score (S.getD i []) (S.getD (i + 1 + t) []) s g


/-! ## The ARM driver (`ARM/seq_file.c`, `ARM/align_fpga.c`)

The driver runs on the processing system of a Zynq-7000 device (`ps7` in
`ARM/main.c`), a 32-bit ARM core: `size_t` has 32 bits and memory is little-endian.
The FatFs calls are modelled on a medium without faults: `f_read` delivers the bytes
that are left, up to the requested count, and `f_write` stores the bytes it is given as
long as the file stays below 4 GiB. -/

/-- Conversion of an integer to `size_t` on the ARM target. -/
def toSizeArm (x : Int) : Int := x % 4294967296

/-- A byte of a file or of memory. -/
abbrev Byte := Fin 256

/-- The low byte of an integer. -/
def toByte (x : Int) : Byte := ⟨(x % 256).toNat, by omega⟩

/-- The four bytes of a 32-bit value (`seq_count_type`, `score_type`) in memory. -/
def encode_u32 (x : Int) : List Byte :=
  [toByte x, toByte (x / 256), toByte (x / 65536), toByte (x / 16777216)]

/-- The unsigned 32-bit value held by four bytes of memory. -/
def decode_u32 (b : List Byte) : Int :=
  (b.getD 0 0).val + 256 * (b.getD 1 0).val + 65536 * (b.getD 2 0).val
    + 16777216 * (b.getD 3 0).val

/-- The signed 16-bit value (`index_type`, `angle_type`) held by two bytes of memory. -/
def decode_i16 (b0 b1 : Byte) : Int := toInt16 ((b0.val : Int) + 256 * (b1.val : Int))

/-- The two bytes of a 16-bit value in memory. -/
def encode_i16 (x : Int) : List Byte := [toByte x, toByte (x / 256)]

/-- An array of `index_type` read from bytes of memory. -/
def decode_i16s : List Byte → List Int
  | b0 :: b1 :: rest => decode_i16 b0 b1 :: decode_i16s rest
  | _ => []

/-- An array of `Dihedral` read from bytes of memory. -/
def decode_dihedrals : List Byte → List Dihedral
  | b0 :: b1 :: b2 :: b3 :: rest =>
    { phi := decode_i16 b0 b1, psi := decode_i16 b2 b3 } :: decode_dihedrals rest
  | _ => []

/-- The bytes of an array of `score_type` in memory. -/
def encode_scores (scores : List Int) : List Byte :=
  scores.flatMap encode_u32

/-- The result codes of FatFs that the driver distinguishes. -/
inductive FRESULT where
  | FR_OK
  | FR_DISK_ERR
  | FR_INT_ERR
deriving DecidableEq, Repr

/-- An open file (`FIL`): its content and the position of the read/write pointer. -/
structure FIL where
  data : List Byte
  fptr : Nat

/-- The call `f_read(file, buf, btr, &br)`: what was read into `buf` (its length is
`br`) and the file afterwards. -/
def f_read (file : FIL) (btr : Int) : FRESULT × List Byte × FIL :=
  let buf := (file.data.drop file.fptr).take btr.toNat
  (FRESULT.FR_OK, buf, { file with fptr := file.fptr + buf.length })

/-- The call `f_write(file, buf, btw, &bw)`, `buf` being the bytes of memory that start
at the buffer: the number `bw` of bytes written and the file afterwards. FatFs keeps the
position of the pointer in a 32-bit `DWORD` and a file cannot reach 4 GiB: a write that
would carry the pointer past `2^32 - 1` stores nothing. -/
def f_write (file : FIL) (buf : List Byte) (btw : Int) : FRESULT × Int × FIL :=
  let btw := if 4294967296 ≤ (file.fptr : Int) + btw then 0 else btw
  let bytes := buf.take btw.toNat
  (FRESULT.FR_OK, (bytes.length : Int),
    { data := file.data.take file.fptr ++ bytes ++ file.data.drop (file.fptr + bytes.length)
      fptr := file.fptr + bytes.length })

/-- The function `f_read_chk` of `seq_file.c`. -/
def f_read_chk (file : FIL) (size : Int) : FRESULT × List Byte × FIL :=
  let (result, buf, file) := f_read file size
  if result ≠ FRESULT.FR_OK then (result, buf, file)
  else ((if (buf.length : Int) = size then FRESULT.FR_OK else FRESULT.FR_INT_ERR), buf, file)

/-- The function `f_write_chk` of `seq_file.c`. -/
def f_write_chk (file : FIL) (buf : List Byte) (size : Int) : FRESULT × FIL :=
  let (result, bytes_written, file) := f_write file buf size
  if result ≠ FRESULT.FR_OK then (result, file)
  else ((if bytes_written = size then FRESULT.FR_OK else FRESULT.FR_INT_ERR), file)

/-- The function `pad_file` of `seq_file.c`; `sector_size` is `sizeof file->fs->win`
(512 in the reference configuration of FatFs). -/
def pad_file (sector_size : Int) (file : FIL) (total_bytes_written : Int) : FRESULT × FIL :=
  let last_partial_chunk_size := total_bytes_written % sector_size
  if last_partial_chunk_size ≠ 0 then
    let trailing_size := toSizeArm (sector_size - last_partial_chunk_size)
    let zeros : List Byte := List.replicate trailing_size.toNat 0
    f_write_chk file zeros (zeros.length : Int)
  else (FRESULT.FR_OK, file)

/-- The loop of `total_seq_len`: `k` iterations remain, the next one has index `i`. An
index beyond the array reads 0. -/
def total_seq_len_loop (seq_lens : List Int) : Nat → Nat → Int → Int
  | 0, _, len => len
  | k + 1, i, len => total_seq_len_loop seq_lens k (i + 1) (toSizeArm (len + seq_lens.getD i 0))

/-- The function `total_seq_len` of `align_fpga.c`. -/
def total_seq_len (seq_lens : List Int) (num_seqs : Int) : Int :=
  total_seq_len_loop seq_lens num_seqs.toNat 0 0

/-- The structure `Sequences` of `align_fpga.h`. -/
structure Sequences where
  buffer : List Dihedral
  sequence_lengths : List Int
  num_sequences : Int

/-- The function `read_sequences_from_file` of `seq_file.c`: its result, the value of
the out parameter `seqs` when it is populated, and the file afterwards. Allocation is
taken to succeed. -/
def read_sequences_from_file (file : FIL) : FRESULT × Option Sequences × FIL :=
  -- first, read the number of sequences in the file
  let (fresult, bytes, file) := f_read_chk file 4
  if fresult ≠ FRESULT.FR_OK then (fresult, none, file)
  else
    let num_seqs := decode_u32 bytes
    -- then read the length of each sequence
    let seq_lens_bufsize := toSizeArm (num_seqs * 2)
    let (fresult, bytes, file) := f_read_chk file seq_lens_bufsize
    if fresult ≠ FRESULT.FR_OK then (fresult, none, file)
    else
      let seq_lens := decode_i16s bytes
      -- finally, read actual sequence data
      let seq_bufsize := toSizeArm (total_seq_len seq_lens num_seqs * 4)
      let (fresult, bytes, file) := f_read_chk file seq_bufsize
      if fresult ≠ FRESULT.FR_OK then (fresult, none, file)
      else
        (FRESULT.FR_OK,
          some { buffer := decode_dihedrals bytes
                 sequence_lengths := seq_lens
                 num_sequences := num_seqs },
          file)

/-- The elements `[start, start + count)` of an array, as a DMA transfer of `count`
elements from `start` delivers them. -/
def dma_slice {α : Type} (a : List α) (start count : Int) : List α :=
  (a.drop start.toNat).take count.toNat

/-- The variables that the pair loop of `run_align` updates: the output file,
`total_bytes_written`, `num_seqs_hor`, `len_hor`, and the pointer `seq_ver` as an index
into `seqs->buffer`. -/
structure RunState where
  out_file : FIL
  total_bytes_written : Int
  num_seqs_hor : Int
  len_hor : Int
  seq_ver : Int

/-- Body of the pair loop of `run_align` (lines 154-242 of `align_fpga.c`) for the
iteration of index `i`. `block i ver len_ver hor sizes num` is the content of
`out_scores` once the alignment block has processed the data of the three transfers.
The result is `none` when `CHK_FOP` aborts. -/
def run_align_body (block : Nat → List Dihedral → Int → List Dihedral → List Int → Int → List Int)
    (seqs : Sequences) (i : Int) (rs : RunState) : Option RunState :=
  let len_ver := seqs.sequence_lengths.getD i.toNat 0
  let seqs_hor := rs.seq_ver + len_ver
  let len_hor := toSizeArm (rs.len_hor - len_ver)
  let num_seqs_hor := toSizeArm (rs.num_seqs_hor - 1)
  let out_scores := block i.toNat
    (dma_slice seqs.buffer rs.seq_ver (toSizeArm len_ver)) len_ver
    (dma_slice seqs.buffer seqs_hor len_hor)
    (dma_slice seqs.sequence_lengths (i + 1) num_seqs_hor) num_seqs_hor
  -- write scores to file
  let score_bufsize := toSizeArm (num_seqs_hor * 4)
  let (result, out_file) := f_write_chk rs.out_file (encode_scores out_scores) score_bufsize
  if result ≠ FRESULT.FR_OK then none
  else
    some
      { out_file := out_file
        total_bytes_written := toSizeArm (rs.total_bytes_written + score_bufsize)
        num_seqs_hor := num_seqs_hor
        len_hor := len_hor
        seq_ver := seqs_hor }

/-- The pair loop of `run_align`: `k` iterations remain, the next one has index `i`. -/
def run_align_loop (block : Nat → List Dihedral → Int → List Dihedral → List Int → Int → List Int)
    (seqs : Sequences) : Nat → Int → RunState → Option RunState
  | 0, _, rs => some rs
  | k + 1, i, rs =>
    match run_align_body block seqs i rs with
    | none => none
    | some rs => run_align_loop block seqs k (i + 1) rs

/-- Number of iterations of the pair loop of `run_align`: it runs while
`i < seqs->num_sequences - 1`, computed in `seq_count_type`. -/
def run_align_iterations (num_sequences : Int) : Nat :=
  (toUInt32 (num_sequences - 1)).toNat

/-- What `run_align` leaves: the output file, and the value of `total_bytes_written`
that it passed to `pad_file`. -/
structure RunResult where
  out_file : FIL
  total_bytes_written : Int

/-- The function `run_align` of `align_fpga.c`, every DMA transfer succeeding. The result
is `none` when `CHK_FOP` aborts. -/
def run_align (sector_size : Int)
    (block : Nat → List Dihedral → Int → List Dihedral → List Int → Int → List Int)
    (seqs : Sequences) (out_file : FIL) : Option RunResult :=
  -- compute total length of sequences
  let seq_len := total_seq_len seqs.sequence_lengths seqs.num_sequences
  -- write number of sequences to output file
  let (result, out_file) := f_write_chk out_file (encode_u32 seqs.num_sequences) 4
  if result ≠ FRESULT.FR_OK then none
  else
    match run_align_loop block seqs (run_align_iterations seqs.num_sequences) 0
        { out_file := out_file
          total_bytes_written := toSizeArm (0 + 4)
          num_seqs_hor := toSizeArm seqs.num_sequences
          len_hor := seq_len
          seq_ver := 0 } with
    | none => none
    | some rs =>
      -- pad the file by rounding up to the sector size
      let (result, out_file) := pad_file sector_size rs.out_file rs.total_bytes_written
      if result ≠ FRESULT.FR_OK then none
      else some { out_file := out_file, total_bytes_written := rs.total_bytes_written }

/-- Sum of the values that `score_bufsize` takes in `k` iterations of the pair loop of
`run_align`, the first of which starts with `num_seqs_hor = M`. -/
def score_bytes : Nat → Int → Int
  | 0, _ => 0
  | k + 1, M => toSizeArm ((M - 1) * 4) + score_bytes k (M - 1)

/-- An alignment block that delivers prescribed groups of scores: the group of index `i`
in the iteration of index `i`. -/
def replay_block (G : List (List Int)) :
    Nat → List Dihedral → Int → List Dihedral → List Int → Int → List Int :=
  fun i _ _ _ _ _ => G.getD i []

/-- Number of zero bytes that bring a payload of `t` bytes to a multiple of the sector
size `S`. -/
def padding_size (S t : Int) : Int := (S - t % S) % S

/-! ## The decoder of the score file (`FPGA/test/multi_gen_random_seqs.c`) -/

/-- The call `fread(&x, 4, 1, file)` on the bytes that are left of a stream: the item
read and the rest of the stream, or `none` when fewer than 4 bytes are left. -/
def fread4 (file : List Byte) : Option (List Byte × List Byte) :=
  if 4 ≤ file.length then some (file.take 4, file.drop 4) else none

/-- The inner loop of `dump_score`: the scores of one group; `k` iterations remain. -/
def dump_score_group : Nat → List Byte → Option (List Int × List Byte)
  | 0, file => some ([], file)
  | k + 1, file =>
    match fread4 file with
    | none => none
    | some (item, file) =>
      match dump_score_group k file with
      | none => none
      | some (scores, file) => some (toInt32 (decode_u32 item) :: scores, file)

/-- The outer loop of `dump_score`: `k` iterations remain, the next one has index `i`. -/
def dump_score_groups (num_seqs : Int) : Nat → Int → List Byte → Option (List (List Int) × List Byte)
  | 0, _, file => some ([], file)
  | k + 1, i, file =>
    match dump_score_group (num_seqs - toUInt32 (i + 1)).toNat file with
    | none => none
    | some (group, file) =>
      match dump_score_groups num_seqs k (i + 1) file with
      | none => none
      | some (groups, file) => some (group :: groups, file)

/-- The function `dump_score`: the groups of scores it prints and the bytes it leaves
unread, or `none` when the stream ends before a value that it reads. The source ignores
the result of `fread` and goes on printing in that case, with `num_seqs` left at 0 or
partly read and `next_score` uninitialised; that output is not modelled. -/
def dump_score (file : List Byte) : Option (List (List Int) × List Byte) :=
  match fread4 file with
  | none => none
  | some (item, file) =>
    let num_seqs := decode_u32 item
    dump_score_groups num_seqs (toUInt32 (num_seqs - 1)).toNat 0 file

/-! ## The invariant of the antidiagonal sweep -/

/-- What a call of `align_one` is compared with: the two sequences as functions of the
index (`Vf`, `Hf`), their lengths `m` and `n`, the contents `sv k` and `sh k` of the two
streams once `k` elements have been read, and a matrix `T`. -/
structure Ctx where
  s : Int
  g : Int
  sr : Bool
  m : Int
  n : Int
  Vf : Int → Dihedral
  Hf : Int → Dihedral
  sv : Int → List Dihedral
  sh : Int → List Dihedral
  T : Int → Int → Int

/-- The context is coherent: the lengths are within the window height, the streams
deliver the sequences (the vertical one only matters when it is read), and `T`
satisfies the recurrence with zero boundary. -/
structure Ctx.ok (C : Ctx) : Prop where
  m_nonneg : 0 ≤ C.m
  m_le : C.m ≤ 512
  n_nonneg : 0 ≤ C.n
  n_le : C.n ≤ 512
  sv_step : C.sr = true → ∀ k, 0 ≤ k → k < C.m → C.sv k = C.Vf k :: C.sv (k + 1)
  sh_step : ∀ k, 0 ≤ k → k < C.n → C.sh k = C.Hf k :: C.sh (k + 1)
  T_neg : ∀ r c, r < 0 ∨ c < 0 → C.T r c = 0
  T_rec : ∀ r c, 0 ≤ r → r < C.m → 0 ≤ c → c < C.n →
    C.T r c = array_max [
      toInt32 (C.T (r - 1) (c - 1) + dihedral_score (C.Vf r) (C.Hf c) C.s),
      toInt32 (C.T r (c - 1) + C.g),
      toInt32 (C.T (r - 1) c + C.g),
      0]

/-- Number of diagonals of the current window whose first cell (`j = 0`) has been
processed when the sweep is about to process `(i, j)`. -/
def dcount (i j : Int) : Int := if j = 0 then i else i + 1

/-- Number of cells of row 0 of the current window that have been processed when the
sweep is about to process `(i, j)`. -/
def ecount (i j : Int) : Int := min 16 (if i < j then i + 1 else i)

/-- The cell `(r, c)` of the current window has been processed when the sweep is about
to process `(i, j)`. -/
def proc (i j r c : Int) : Prop := r + c < i ∨ (r + c = i ∧ c < j)

/-- The state of `align_one` when it is about to process column offset `j` of diagonal
`i` of window `h`. -/
structure Inv (C : Ctx) (h i j : Int) (st : State) : Prop where
  ver_size : h = 0 → st.stream_size_ver = C.m - min C.m (dcount i j)
  ver_stream : h = 0 → C.sr = true → st.stream_ver = C.sv (min C.m (dcount i j))
  ver_stream_hi : 0 < h → C.sr = true → st.stream_ver = C.sv C.m
  seq_ver : ∀ r, 0 ≤ r → r < C.m → (C.sr = true → h = 0 → r < dcount i j) →
    st.seq_ver.get r = C.Vf r
  mvr_hi : (0 < h ∨ C.m < dcount i j) → st.max_valid_row = C.m
  mvr_lo : h = 0 → 0 < dcount i j → dcount i j ≤ C.m → st.max_valid_row = 512
  hor_size : st.stream_size_hor = (C.n - 16 * h) - min (C.n - 16 * h) (ecount i j)
  hor_stream : st.stream_hor = C.sh (16 * h + min (C.n - 16 * h) (ecount i j))
  seq_hor : ∀ c, 0 ≤ c → c < ecount i j → c < C.n - 16 * h →
    st.seq_hor.get c = C.Hf (16 * h + c)
  mvc_hi : C.n - 16 * h < ecount i j → st.max_valid_col = C.n - 16 * h
  mvc_lo : 0 < ecount i j → ecount i j ≤ C.n - 16 * h → st.max_valid_col = 16
  diag_new : ∀ c, 0 ≤ c → c < 16 → c < C.n - 16 * h →
    ∀ r, r = (if c < j then i - c else i - 1 - c) → 0 ≤ r → r < C.m →
      st.diag_buf_new.get c = C.T r (16 * h + c)
  diag_old : ∀ c, 0 ≤ c → c < 16 → c < C.n - 16 * h →
    ∀ r, r = (if c < j then i - 1 - c else i - 2 - c) → 0 ≤ r → r < C.m →
      st.diag_buf_old.get c = C.T r (16 * h + c)
  lah : 1 ≤ j → j < 16 → j ≤ i → i - j < C.m → j < C.n - 16 * h →
    st.lah_buf_01 = C.T (i - j - 1) (16 * h + j - 1)
      ∧ st.lah_buf_11 = C.T (i - j) (16 * h + j - 1)
  hpnc : 1 ≤ dcount i j → dcount i j - 1 < C.m →
    st.hor_prop_buf_next_cells_1 = C.T (dcount i j - 1) (16 * h - 1)
  prop_old : 0 < h → ∀ r, 0 ≤ r → r < C.m → ¬ proc i j r 15 →
    st.hor_prop_buf.get r = C.T r (16 * h - 1)
  prop_new : 16 ≤ C.n - 16 * h → ∀ r, 0 ≤ r → r < C.m → proc i j r 15 →
    st.hor_prop_buf.get r = C.T r (16 * h + 15)
  max_ub : ∀ r c, 0 ≤ r → r < C.m → 0 ≤ c → c < C.n →
    (c < 16 * h ∨ (c < 16 * h + 16 ∧ proc i j r (c - 16 * h))) → C.T r c ≤ st.max_score
  max_wit : st.max_score = 0 ∨
    ∃ r c, 0 ≤ r ∧ r < C.m ∧ 0 ≤ c ∧ c < C.n ∧ st.max_score = C.T r c

/-- What holds when `align_one` returns. -/
structure Done (C : Ctx) (st : State) : Prop where
  max_ub : ∀ r c, 0 ≤ r → r < C.m → 0 ≤ c → c < C.n → C.T r c ≤ st.max_score
  max_wit : st.max_score = 0 ∨
    ∃ r c, 0 ≤ r ∧ r < C.m ∧ 0 ≤ c ∧ c < C.n ∧ st.max_score = C.T r c
  seq_ver : ∀ r, 0 ≤ r → r < C.m → st.seq_ver.get r = C.Vf r
  stream_ver : C.sr = true → st.stream_ver = C.sv C.m
  stream_hor : st.stream_hor = C.sh C.n

/-- The matrix of the specification with integer indices: `Tz V H s g r c` is `M[r, c]`,
and 0 when `r < 0` or `c < 0`. -/
def Tz (V H : List Dihedral) (s g : Int) (r c : Int) : Int :=
  sw_table V H s g (r + 1).toNat (c + 1).toNat

/-- The context in which `align_one` processes the sequences `V` and `H`, the horizontal
stream holding `H` followed by `restH`, and the vertical stream holding `sv k` once `k`
elements have been read. -/
def listCtx (s g : Int) (sr : Bool) (V H : List Dihedral) (sv : Int → List Dihedral)
    (restH : List Dihedral) : Ctx where
  s := s
  g := g
  sr := sr
  m := V.length
  n := H.length
  Vf := fun r => V.getD r.toNat { phi := 0, psi := 0 }
  Hf := fun c => H.getD c.toNat { phi := 0, psi := 0 }
  sv := sv
  sh := fun k => H.drop k.toNat ++ restH
  T := Tz V H s g

/-- The first `m` elements of the resident vertical buffer `seq_ver`. -/
def resident (st : State) (m : Nat) : List Dihedral :=
  (List.range m).map fun (r : Nat) => st.seq_ver.get (r : Int)

/-- The scores of every sequence against the ones after it, in the order in which the
driver computes them. -/
def tri_scores (s g : Int) : List (List Dihedral) → List Int
  | [] => []
  | V :: rest => rest.map (fun H => sw_score V H s g) ++ tri_scores s g rest

/-- The squared distance `dphi^2 + dpsi^2` of two dihedrals, as an exact integer. -/
def sq_dist (a b : Dihedral) : Int :=
  angle_abs_diff a.phi b.phi * angle_abs_diff a.phi b.phi
    + angle_abs_diff a.psi b.psi * angle_abs_diff a.psi b.psi

/-- Two copies of the dihedral `(0, 0)`. -/
def zeros2 : List Dihedral := [{ phi := 0, psi := 0 }, { phi := 0, psi := 0 }]

/-- The sequence set of scenario T4 of the specification. -/
def triangle : List (List Dihedral) :=
  [[{ phi := 0, psi := 0 }, { phi := 0, psi := 0 }],
   [{ phi := 0, psi := 0 }, { phi := 0, psi := 0 }],
   [{ phi := 32767, psi := 32767 }, { phi := 32767, psi := 32767 }]]

/-- A sequence of 17 distinct dihedrals (one more than the window width), as in
scenario T6 of the specification. -/
def seq17 : List Dihedral :=
  (List.range 17).map fun (k : Nat) => { phi := 1000 * (k : Int), psi := 777 * (k : Int) }

/-- The horizontal sequence of scenario T3 of the specification. -/
def quarter2 : List Dihedral := [{ phi := 16384, psi := 16384 }, { phi := 16384, psi := 16384 }]

/-- The bytes of an input container: the count, the lengths, and the bytes that follow
them, in the layout that `generate` of `multi_gen_random_seqs.c` writes. -/
def container (lens : List Int) (rest : List Byte) : List Byte :=
  encode_u32 lens.length ++ lens.flatMap encode_i16 ++ rest

/-- An input container that declares 2097152 sequences of length 512 and holds no
sequence data at all. -/
def overflow_file : List Byte := container (List.replicate 2097152 512) []

/-- An input container that declares one sequence of length 513 and holds 513 dihedrals. -/
def long_file : List Byte := container [513] (List.replicate 2052 0)

/-- An input container that declares two sequences of lengths -1 and 1 and holds no
sequence data. -/
def negative_file : List Byte := container [-1, 1] []

/-- The empty set of sequences, as `read_sequences_from_file` delivers it for an input
container that consists of the count 0. -/
def seqs0 : Sequences := { buffer := [], sequence_lengths := [], num_sequences := 0 }

/-- A set of three empty sequences. -/
def seqs3 : Sequences := { buffer := [], sequence_lengths := [0, 0, 0], num_sequences := 3 }

/-- Two groups of scores for a set of three sequences. -/
def groups3 : List (List Int) := [[5, -7], [9]]

/-- An output file that has just been created. -/
def new_file : FIL := { data := [], fptr := 0 }

/-- What `run_align` leaves for `seqs3` when the block delivers `groups3` and the sector
size is 512: the count 3, the scores 5, -7 and 9, and 496 bytes of padding. -/
def run3 : RunResult :=
  { out_file :=
      { data := [3, 0, 0, 0, 5, 0, 0, 0, 249, 255, 255, 255, 9, 0, 0, 0] ++ List.replicate 496 0
        fptr := 512 }
    total_bytes_written := 16 }

/-! ## The sweep without the early exit of the diagonal loop -/

/-- The loop `diag_loop` with its early exit removed: all the `k` remaining diagonals are
run. -/
def diag_loop_no_break (scoring_offset gap_penalty : Int) (should_read_ver_stream : Bool)
    (h : Int) : Nat → Int → State → State
  | 0, _, st => st
  | k + 1, i, st =>
    diag_loop_no_break scoring_offset gap_penalty should_read_ver_stream h k (i + 1)
      (col_loop scoring_offset gap_penalty should_read_ver_stream h i WIN_COLS.toNat 0 st)

/-- The loop `hor_window_loop` over `diag_loop_no_break`. -/
def hor_window_loop_no_break (scoring_offset gap_penalty : Int) (should_read_ver_stream : Bool) :
    Nat → Int → State → State
  | 0, _, st => st
  | k + 1, h, st =>
    let st := diag_loop_no_break scoring_offset gap_penalty should_read_ver_stream h
      WIN_DIAGS.toNat 0 st
    if st.stream_size_hor = 0 then st
    else hor_window_loop_no_break scoring_offset gap_penalty should_read_ver_stream k (h + 1) st

/-- The variant of `align_one` that always runs all `WIN_DIAGS` diagonals of every
window. -/
def align_one_no_break (st0 : State) (stream_ver : List Dihedral) (stream_size_ver : Int)
    (stream_hor : List Dihedral) (stream_size_hor : Int)
    (scoring_offset gap_penalty : Int) (should_read_ver_stream : Bool) : State :=
  hor_window_loop_no_break scoring_offset gap_penalty should_read_ver_stream
    WIN_COUNT_HOR.toNat 0
    { st0 with
      max_score := 0
      stream_ver := stream_ver
      stream_size_ver := stream_size_ver
      stream_hor := stream_hor
      stream_size_hor := stream_size_hor }

/-! ## The cells that the sweep visits -/

/-- One execution of the body of `col_loop`: the window `h`, the diagonal `i`, the column
offset `j`, and the state `st` in which the body is entered. -/
structure Visit where
  h : Int
  i : Int
  j : Int
  st : State

/-- The executions of the body during `col_loop`, in order. -/
def col_loop_trace (scoring_offset gap_penalty : Int) (should_read_ver_stream : Bool)
    (h i : Int) : Nat → Int → State → List Visit
  | 0, _, _ => []
  | k + 1, j, st =>
    { h := h, i := i, j := j, st := st } ::
      col_loop_trace scoring_offset gap_penalty should_read_ver_stream h i k (j + 1)
        (cell_step scoring_offset gap_penalty should_read_ver_stream h i j st)

/-- The executions of the body during `diag_loop`, in order. -/
def diag_loop_trace (scoring_offset gap_penalty : Int) (should_read_ver_stream : Bool)
    (stream_size_ver_orig : Int) (h : Int) : Nat → Int → State → List Visit
  | 0, _, _ => []
  | k + 1, i, st =>
    col_loop_trace scoring_offset gap_penalty should_read_ver_stream h i WIN_COLS.toNat 0 st
      ++ (if i = stream_size_ver_orig + WIN_COLS - 1 then []
          else diag_loop_trace scoring_offset gap_penalty should_read_ver_stream
            stream_size_ver_orig h k (i + 1)
            (col_loop scoring_offset gap_penalty should_read_ver_stream h i WIN_COLS.toNat 0 st))

/-- The executions of the body during `hor_window_loop`, in order. -/
def hor_window_loop_trace (scoring_offset gap_penalty : Int) (should_read_ver_stream : Bool)
    (stream_size_ver_orig : Int) : Nat → Int → State → List Visit
  | 0, _, _ => []
  | k + 1, h, st =>
    diag_loop_trace scoring_offset gap_penalty should_read_ver_stream stream_size_ver_orig h
        WIN_DIAGS.toNat 0 st
      ++ (if (diag_loop scoring_offset gap_penalty should_read_ver_stream stream_size_ver_orig h
                WIN_DIAGS.toNat 0 st).stream_size_hor = 0 then []
          else hor_window_loop_trace scoring_offset gap_penalty should_read_ver_stream
            stream_size_ver_orig k (h + 1)
            (diag_loop scoring_offset gap_penalty should_read_ver_stream stream_size_ver_orig h
              WIN_DIAGS.toNat 0 st))

/-- The executions of the body of `col_loop` during a call of `align_one`, in order. -/
def align_one_trace (st0 : State) (stream_ver : List Dihedral) (stream_size_ver : Int)
    (stream_hor : List Dihedral) (stream_size_hor : Int)
    (scoring_offset gap_penalty : Int) (should_read_ver_stream : Bool) : List Visit :=
  hor_window_loop_trace scoring_offset gap_penalty should_read_ver_stream stream_size_ver
    WIN_COUNT_HOR.toNat 0
    { st0 with
      max_score := 0
      stream_ver := stream_ver
      stream_size_ver := stream_size_ver
      stream_hor := stream_hor
      stream_size_hor := stream_size_hor }

/-- The visit `a` comes before the visit `b` in the order of the three nested loops. -/
def Visit.before (a b : Visit) : Prop :=
  a.h < b.h ∨ (a.h = b.h ∧ (a.i < b.i ∨ (a.i = b.i ∧ a.j < b.j)))

/-- The condition of line 314, `in_bounds && r < max_valid_row && c < max_valid_col`, as
the body of `col_loop` evaluates it when entered in state `st`. -/
def max_update_enabled (scoring_offset gap_penalty : Int) (should_read_ver_stream : Bool)
    (h i j : Int) (st : State) : Bool :=
  let r := i - j
  let c := j
  let st := read_hor_prop h i j st
  let st := update_lah i j st
  let st := read_ahead i j st
  let st := set_boundaries h i j r st
  let st := read_ver should_read_ver_stream h j r st
  let st := read_hor r c st
  let st := compute_score scoring_offset gap_penalty should_read_ver_stream h j r c st
  decide (st.in_bounds = true ∧ r < st.max_valid_row ∧ c < st.max_valid_col)

/-- The number of executions of the body for diagonal `i` and column offset `j` of
window `h` in a list of visits. -/
def visit_count (tr : List Visit) (h i j : Int) : Nat :=
  (tr.filter fun e => decide (e.h = h ∧ e.i = i ∧ e.j = j)).length

/-- The arrays of `align_one`. -/
inductive BufName where
  | seq_ver
  | seq_hor
  | hor_prop_buf
  | diag_buf_old
  | diag_buf_new
deriving DecidableEq, Repr

/-- The number of elements of each array. -/
def BufName.size : BufName → Int
  | BufName.seq_ver => WIN_ROWS
  | BufName.seq_hor => WIN_COLS
  | BufName.hor_prop_buf => WIN_ROWS
  | BufName.diag_buf_old => WIN_COLS
  | BufName.diag_buf_new => WIN_COLS

/-- An access to an element of an array. -/
structure Access where
  buf : BufName
  index : Int
  write : Bool
deriving DecidableEq, Repr

/-- The array accesses of one execution of the body of `col_loop` (lines 188-337 of
`align.cc`), those in the arguments of `hls_debug` included, in program order. The sizes
of the two streams are those on entry: `stream_size_ver` changes only after line 254 and
`stream_size_hor` only after line 280. -/
def cell_accesses (should_read_ver_stream : Bool) (h i j : Int) (st : State) : List Access :=
  let r := i - j
  let c := j
  let in_bounds := decide (0 ≤ r ∧ r < WIN_ROWS)
  let masked := toUInt16 r % (WIN_ROWS_MASK + 1)
  (if j = 0 ∧ i < WIN_ROWS ∧ 0 < h then [{ buf := BufName.hor_prop_buf, index := i, write := false }]
    else [])
  ++ (if j ≤ i - 2 then [{ buf := BufName.diag_buf_old, index := j, write := false }] else [])
  ++ (if j ≤ i - 1 then [{ buf := BufName.diag_buf_new, index := j, write := false }] else [])
  ++ (if h = 0 ∧ j = 0 ∧ st.stream_size_ver ≠ 0 then
        (if in_bounds = true ∧ should_read_ver_stream = true then
          [{ buf := BufName.seq_ver, index := r, write := true }] else [])
        ++ [{ buf := BufName.seq_ver, index := masked, write := false }]
      else [])
  ++ (if r = 0 then
        (if st.stream_size_hor ≠ 0 then
          [{ buf := BufName.seq_hor, index := c, write := true },
           { buf := BufName.seq_hor, index := c, write := false }]
         else [])
      else [{ buf := BufName.seq_hor, index := c, write := false }])
  ++ (if h = 0 ∧ j = 0 ∧ should_read_ver_stream = true then []
      else [{ buf := BufName.seq_ver, index := masked, write := false }])
  ++ [{ buf := BufName.diag_buf_old, index := j, write := true },
      { buf := BufName.diag_buf_new, index := j, write := true }]
  ++ (if c = WIN_COLS - 1 ∧ in_bounds = true then
        [{ buf := BufName.hor_prop_buf, index := r, write := true }] else [])

/-- The vertical stream has delivered the first `d` elements of `V` to `seq_ver`: `d`
elements are gone from the stream `V ++ restV`, `seq_ver[r] = V[r]` for `r < d`, and every
other element of `seq_ver` is as in `st0`. -/
def VerRead (V restV : List Dihedral) (st0 : State) (d : Int) (st : State) : Prop :=
  st.stream_size_ver = V.length - d
    ∧ st.stream_ver = V.drop d.toNat ++ restV
    ∧ ∀ r : Int, st.seq_ver.get r
        = if 0 ≤ r ∧ r < d then V.getD r.toNat { phi := 0, psi := 0 } else st0.seq_ver.get r

/-! ## The recurrence in unbounded integers -/

/-- One cell of the recurrence of the specification,
`max(0, diag + sim(v, h), left + g, top + g)` with `sim(v, h) = s - (dphi^2 + dpsi^2)`,
every operation being that of the integers. -/
def exact_cell (diag left top : Int) (v h : Dihedral) (s g : Int) : Int :=
  max 0 (max (diag + (s - sq_dist v h)) (max (left + g) (top + g)))

/-- A row of the exact matrix with its boundary column, given the row above. -/
def exact_row (H : List Dihedral) (s g : Int) (v : Dihedral) (above : Nat → Int) : Nat → Int
  | 0 => 0
  | c + 1 =>
    exact_cell (above c) (exact_row H s g v above c) (above (c + 1)) v
      (H.getD c { phi := 0, psi := 0 }) s g

/-- The exact matrix with its boundary: row 0 and column 0 are the zero boundary. -/
def exact_table (V H : List Dihedral) (s g : Int) : Nat → Nat → Int
  | 0 => fun _ => 0
  | r + 1 => exact_row H s g (V.getD r { phi := 0, psi := 0 }) (exact_table V H s g r)

/-- The entry `M[r, c]` of the Smith-Waterman matrix in unbounded integers. -/
def exact_matrix (V H : List Dihedral) (s g : Int) (r c : Nat) : Int :=
  exact_table V H s g (r + 1) (c + 1)

/-- The Smith-Waterman score in unbounded integers: the maximum of the exact matrix, and
0 when there is no cell. -/
def exact_score (V H : List Dihedral) (s g : Int) : Int :=
  (List.range V.length).foldl
    (fun acc r =>
      (List.range H.length).foldl (fun acc c => max acc (exact_matrix V H s g r c)) acc)
    0

/-! ## Concrete inputs for the pair loop of `run_align` -/

/-- The three sequences of `triangle` as `read_sequences_from_file` stores them: the
dihedrals back to back in `buffer`, and the three lengths. -/
def seqs_triangle : Sequences :=
  { buffer := triangle.flatten, sequence_lengths := [2, 2, 2], num_sequences := 3 }

/-- The variables of the pair loop of `run_align` on `seqs_triangle` after the iteration
of index 0, when the block delivers `groups3`, the output file was empty and 4 bytes
had been counted. -/
def after_first : RunState :=
  { out_file := { data := [5, 0, 0, 0, 249, 255, 255, 255], fptr := 8 }
    total_bytes_written := 12
    num_seqs_hor := 2
    len_hor := 4
    seq_ver := 2 }

/-! ## The operations inside `dihedral_score` -/

/-- The sum `dphi * dphi + dpsi * dpsi` of `dihedral_score`, as an integer, before it is
stored in a `score_type`; each of the two products is a `score_type` value. -/
def squares_sum (angle1 angle2 : Dihedral) : Int :=
  let dphi := angle_abs_diff angle1.phi angle2.phi
  let dpsi := angle_abs_diff angle1.psi angle2.psi
  toInt32 (dphi * dphi) + toInt32 (dpsi * dpsi)

/-- A sequence that holds the single dihedral `(-32768, -32768)`, half a turn away from
`(0, 0)` in both angles. -/
def half_turn : List Dihedral := [{ phi := -32768, psi := -32768 }]

/-- A sequence that holds the single dihedral `(0, 0)`. -/
def origin1 : List Dihedral := [{ phi := 0, psi := 0 }]

/-! ## Machine arithmetic -/

theorem toInt32_of_range {x : Int} (h1 : -2147483648 ≤ x) (h2 : x ≤ 2147483647) :
    toInt32 x = x := by
  unfold toInt32; omega

theorem toInt32_sub_toInt32 (a b : Int) : toInt32 (a - toInt32 b) = toInt32 (a - b) := by
  unfold toInt32; omega

theorem toInt32_range (x : Int) : -2147483648 ≤ toInt32 x ∧ toInt32 x ≤ 2147483647 := by
  unfold toInt32; omega

theorem angle_abs_diff_eq (x y : Int) :
    angle_abs_diff x y = min ((x - y) % 65536) (65536 - (x - y) % 65536) := by
  unfold angle_abs_diff toInt16 toUInt16
  simp only []
  split <;> omega

theorem angle_abs_diff_range (x y : Int) :
    0 ≤ angle_abs_diff x y ∧ angle_abs_diff x y ≤ 32768 := by
  rw [angle_abs_diff_eq]; omega

theorem angle_abs_diff_comm (x y : Int) : angle_abs_diff x y = angle_abs_diff y x := by
  rw [angle_abs_diff_eq, angle_abs_diff_eq]; omega

theorem sq_le_of_range {d : Int} (h0 : 0 ≤ d) (h1 : d ≤ 32768) :
    0 ≤ d * d ∧ d * d ≤ 1073741824 := by
  constructor
  · exact mul_nonneg h0 h0
  · nlinarith

theorem dihedral_score_eq (a b : Dihedral) (s : Int) :
    dihedral_score a b s =
      toInt32 (s - (angle_abs_diff a.phi b.phi * angle_abs_diff a.phi b.phi
        + angle_abs_diff a.psi b.psi * angle_abs_diff a.psi b.psi)) := by
  unfold dihedral_score
  simp only []
  have h1 := sq_le_of_range (angle_abs_diff_range a.phi b.phi).1 (angle_abs_diff_range a.phi b.phi).2
  have h2 := sq_le_of_range (angle_abs_diff_range a.psi b.psi).1 (angle_abs_diff_range a.psi b.psi).2
  rw [toInt32_of_range (x := angle_abs_diff a.phi b.phi * angle_abs_diff a.phi b.phi)
      (by omega) (by omega),
    toInt32_of_range (x := angle_abs_diff a.psi b.psi * angle_abs_diff a.psi b.psi)
      (by omega) (by omega), toInt32_sub_toInt32]

theorem dihedral_score_comm (a b : Dihedral) (s : Int) :
    dihedral_score a b s = dihedral_score b a s := by
  rw [dihedral_score_eq, dihedral_score_eq, angle_abs_diff_comm a.phi, angle_abs_diff_comm a.psi]

theorem dihedral_score_exact (a b : Dihedral) (s : Int) (h0 : 0 ≤ s) (h1 : s ≤ 2147483647) :
    dihedral_score a b s =
      s - (angle_abs_diff a.phi b.phi * angle_abs_diff a.phi b.phi
        + angle_abs_diff a.psi b.psi * angle_abs_diff a.psi b.psi) := by
  have h1 := sq_le_of_range (angle_abs_diff_range a.phi b.phi).1 (angle_abs_diff_range a.phi b.phi).2
  have h2 := sq_le_of_range (angle_abs_diff_range a.psi b.psi).1 (angle_abs_diff_range a.psi b.psi).2
  rw [dihedral_score_eq, toInt32_of_range (by omega) (by omega)]

/-- C5: for signed 16-bit angles `x`, `y` the value of `angle_abs_diff x y` is the
shorter-arc distance `min d (65536 - d)` with `d = (x - y) mod 65536`; it lies in
`[0, 32768]`, it is 0 exactly when `x = y`, and it is 32768 when the difference
reinterpreted as a signed 16-bit value is -32768. -/
theorem angle_abs_diff_shorter_arc (x y : Int)
    (hx : -32768 ≤ x ∧ x ≤ 32767) (hy : -32768 ≤ y ∧ y ≤ 32767) :
    angle_abs_diff x y = min ((x - y) % 65536) (65536 - (x - y) % 65536)
    ∧ 0 ≤ angle_abs_diff x y ∧ angle_abs_diff x y ≤ 32768
    ∧ (angle_abs_diff x y = 0 ↔ x = y)
    ∧ (toInt16 (toUInt16 x - toUInt16 y) = -32768 → angle_abs_diff x y = 32768) := by
  refine ⟨angle_abs_diff_eq x y, (angle_abs_diff_range x y).1, (angle_abs_diff_range x y).2, ?_, ?_⟩
  · rw [angle_abs_diff_eq]; omega
  · rw [angle_abs_diff_eq]; unfold toInt16 toUInt16; omega

theorem angle_abs_diff_shorter_arc_witness :
    angle_abs_diff (-32768) 0 = min ((-32768 - 0) % 65536) (65536 - (-32768 - 0) % 65536)
    ∧ 0 ≤ angle_abs_diff (-32768) 0 ∧ angle_abs_diff (-32768) 0 ≤ 32768
    ∧ (angle_abs_diff (-32768) 0 = 0 ↔ (-32768 : Int) = 0)
    ∧ (toInt16 (toUInt16 (-32768) - toUInt16 0) = -32768 → angle_abs_diff (-32768) 0 = 32768) :=
  angle_abs_diff_shorter_arc (-32768) 0 (by decide) (by decide)

/-- C4: for a scoring offset `s` with `0 ≤ s ≤ 2^31 - 1` the wrap-around value of
`dihedral_score a b s` is the exact integer `s - (dphi^2 + dpsi^2)`; in the extreme case
`dphi = dpsi = 32768` this is `s - 2^31`. -/
theorem dihedral_score_no_wrap (a b : Dihedral) (s : Int) (h0 : 0 ≤ s) (h1 : s ≤ 2147483647) :
    dihedral_score a b s =
      s - (angle_abs_diff a.phi b.phi ^ 2 + angle_abs_diff a.psi b.psi ^ 2)
    ∧ (angle_abs_diff a.phi b.phi = 32768 → angle_abs_diff a.psi b.psi = 32768 →
        dihedral_score a b s = s - 2147483648) := by
  have h := dihedral_score_exact a b s h0 h1
  refine ⟨by rw [h]; ring, ?_⟩
  intro e1 e2
  rw [h, e1, e2]; norm_num

theorem dihedral_score_no_wrap_witness :
    dihedral_score ⟨-32768, -32768⟩ ⟨0, 0⟩ 2147483647 =
      2147483647 - (angle_abs_diff (-32768) 0 ^ 2 + angle_abs_diff (-32768) 0 ^ 2)
    ∧ (angle_abs_diff (-32768) 0 = 32768 → angle_abs_diff (-32768) 0 = 32768 →
        dihedral_score ⟨-32768, -32768⟩ ⟨0, 0⟩ 2147483647 = 2147483647 - 2147483648) :=
  dihedral_score_no_wrap ⟨-32768, -32768⟩ ⟨0, 0⟩ 2147483647 (by decide) (by decide)

/-! ## Buffers -/

theorem Buf.get_set {n : Nat} {α : Type} [Inhabited α] (b : Buf n α) (k x : Int) (v : α) :
    (b.set k v).get x = if x = k ∧ 0 ≤ k ∧ k < n then v else b.get x := by
  unfold Buf.set Buf.get
  have hs := b.size_eq
  by_cases hk : 0 ≤ k
  · by_cases hx : 0 ≤ x
    · simp only [hk, hx, if_true, true_and, Array.getD_eq_get?]
      by_cases hlt : k.toNat < b.data.size
      · by_cases hxk : x = k
        · subst hxk
          have h2 : x < n := by omega
          simp [Array.setD, hlt, h2, Array.getElem?_set_eq _ ⟨x.toNat, hlt⟩ v]
        · have hne : k.toNat ≠ x.toNat := by omega
          simp [Array.setD, hlt, hxk, Array.getElem?_set_ne _ ⟨k.toNat, hlt⟩ v hne]
      · have h2 : ¬ (k < n) := by omega
        simp [Array.setD, hlt, h2]
    · have : ¬ (x = k) := by omega
      simp [hk, hx, this]
  · simp [hk]

/-! ## One step of the column loop, field by field -/

theorem read_hor_prop_eq (h i j : Int) (st : State) :
    read_hor_prop h i j st =
      { st with
        hor_prop_buf_next_cells_0 :=
          if j = 0 ∧ i < 512 then (if 0 < i then st.hor_prop_buf_next_cells_1 else 0)
          else st.hor_prop_buf_next_cells_0
        hor_prop_buf_next_cells_1 :=
          if j = 0 ∧ i < 512 then (if 0 < h then st.hor_prop_buf.get i else 0)
          else st.hor_prop_buf_next_cells_1 } := by
  unfold read_hor_prop
  simp only [WIN_ROWS, MAX_SEQ_SIZE]
  split_ifs <;> rfl

theorem update_lah_eq (i j : Int) (st : State) :
    update_lah i j st =
      { st with
        lah_buf_00 :=
          if j = 0 then (if i < 1 then 0 else st.hor_prop_buf_next_cells_0) else st.lah_buf_01
        lah_buf_10 :=
          if j = 0 then (if i < 0 then 0 else st.hor_prop_buf_next_cells_1)
          else st.lah_buf_11 } := by
  unfold update_lah
  split_ifs <;> rfl

theorem read_ahead_eq (i j : Int) (st : State) :
    read_ahead i j st =
      { st with
        diag_buf_old_next_cell := if j ≤ i - 2 then st.diag_buf_old.get j else 0
        diag_buf_new_next_cell := if j ≤ i - 1 then st.diag_buf_new.get j else 0
        lah_buf_01 := if i < 2 then 0 else (if j ≤ i - 2 then st.diag_buf_old.get j else 0)
        lah_buf_11 := if i < 1 then 0 else (if j ≤ i - 1 then st.diag_buf_new.get j else 0) } := by
  rfl

theorem set_boundaries_eq (h i j r : Int) (st : State) :
    set_boundaries h i j r st =
      { st with
        in_bounds := decide (0 ≤ r ∧ r < 512)
        max_valid_row := if i = 0 ∧ j = 0 ∧ h = 0 then 512 else st.max_valid_row
        max_valid_col := if i = 0 ∧ j = 0 then 16 else st.max_valid_col } := by
  unfold set_boundaries
  simp only [WIN_ROWS, MAX_SEQ_SIZE, WIN_COLS]
  split_ifs <;> first | rfl | simp_all

theorem read_ver_eq (sr : Bool) (h j r : Int) (st : State) :
    read_ver sr h j r st =
      { st with
        max_valid_row :=
          if h = 0 ∧ j = 0 ∧ st.stream_size_ver = 0 ∧ r < st.max_valid_row then r
          else st.max_valid_row
        seq_ver_read_reg :=
          if h = 0 ∧ j = 0 ∧ st.stream_size_ver ≠ 0 ∧ st.in_bounds = true ∧ sr = true
          then stream_front st.stream_ver else st.seq_ver_read_reg
        stream_ver :=
          if h = 0 ∧ j = 0 ∧ st.stream_size_ver ≠ 0 ∧ st.in_bounds = true ∧ sr = true
          then st.stream_ver.tail else st.stream_ver
        seq_ver :=
          if h = 0 ∧ j = 0 ∧ st.stream_size_ver ≠ 0 ∧ st.in_bounds = true ∧ sr = true
          then st.seq_ver.set r (stream_front st.stream_ver) else st.seq_ver
        stream_size_ver :=
          if h = 0 ∧ j = 0 ∧ st.stream_size_ver ≠ 0 ∧ st.in_bounds = true
          then toInt16 (st.stream_size_ver - 1) else st.stream_size_ver } := by
  unfold read_ver
  split_ifs <;> first | rfl | simp_all

theorem read_hor_eq (r c : Int) (st : State) :
    read_hor r c st =
      { st with
        max_valid_col :=
          if r = 0 ∧ st.stream_size_hor = 0 ∧ c < st.max_valid_col then c
          else st.max_valid_col
        seq_hor_read_reg :=
          if r = 0 ∧ st.stream_size_hor ≠ 0 then stream_front st.stream_hor
          else st.seq_hor_read_reg
        stream_hor :=
          if r = 0 ∧ st.stream_size_hor ≠ 0 then st.stream_hor.tail else st.stream_hor
        seq_hor :=
          if r = 0 ∧ st.stream_size_hor ≠ 0 then st.seq_hor.set c (stream_front st.stream_hor)
          else st.seq_hor
        stream_size_hor :=
          if r = 0 ∧ st.stream_size_hor ≠ 0 then toInt16 (st.stream_size_hor - 1)
          else st.stream_size_hor } := by
  unfold read_hor
  split_ifs <;> first | rfl | simp_all

theorem accumulate_max_eq (r c : Int) (st : State) :
    accumulate_max r c st =
      { st with
        max_score :=
          if (st.in_bounds = true ∧ r < st.max_valid_row ∧ c < st.max_valid_col)
            ∧ st.cur_score > st.max_score
          then st.cur_score else st.max_score } := by
  unfold accumulate_max
  split_ifs <;> first | rfl | simp_all

theorem shift_and_propagate_eq (j r c : Int) (st : State) :
    shift_and_propagate j r c st =
      { st with
        diag_buf_old := st.diag_buf_old.set j st.diag_buf_new_next_cell
        diag_buf_new := st.diag_buf_new.set j st.cur_score
        hor_prop_buf :=
          if c = 15 ∧ st.in_bounds = true then st.hor_prop_buf.set r st.cur_score
          else st.hor_prop_buf } := by
  unfold shift_and_propagate
  simp only [WIN_COLS]
  split_ifs <;> first | rfl | simp_all

theorem cs_diag_buf_new (s g : Int) (sr : Bool) (h i j : Int) (st : State) :
    (cell_step s g sr h i j st).diag_buf_new
      = st.diag_buf_new.set j (cell_step s g sr h i j st).cur_score := by
  simp only [cell_step, read_hor_prop_eq, update_lah_eq, read_ahead_eq, set_boundaries_eq,
    read_ver_eq, read_hor_eq, compute_score, accumulate_max_eq, shift_and_propagate_eq]

theorem cs_diag_buf_old (s g : Int) (sr : Bool) (h i j : Int) (st : State) :
    (cell_step s g sr h i j st).diag_buf_old
      = st.diag_buf_old.set j (if j ≤ i - 1 then st.diag_buf_new.get j else 0) := by
  simp only [cell_step, read_hor_prop_eq, update_lah_eq, read_ahead_eq, set_boundaries_eq,
    read_ver_eq, read_hor_eq, compute_score, accumulate_max_eq, shift_and_propagate_eq]

theorem cs_hor_prop_buf (s g : Int) (sr : Bool) (h i j : Int) (st : State) :
    (cell_step s g sr h i j st).hor_prop_buf
      = if j = 15 ∧ 0 ≤ i - j ∧ i - j < 512
        then st.hor_prop_buf.set (i - j) (cell_step s g sr h i j st).cur_score
        else st.hor_prop_buf := by
  simp only [cell_step, read_hor_prop_eq, update_lah_eq, read_ahead_eq, set_boundaries_eq,
    read_ver_eq, read_hor_eq, compute_score, accumulate_max_eq, shift_and_propagate_eq,
    decide_eq_true_eq]

theorem cs_max_score (s g : Int) (sr : Bool) (h i j : Int) (st : State) :
    (cell_step s g sr h i j st).max_score
      = if ((0 ≤ i - j ∧ i - j < 512) ∧ i - j < (cell_step s g sr h i j st).max_valid_row
            ∧ j < (cell_step s g sr h i j st).max_valid_col)
          ∧ (cell_step s g sr h i j st).cur_score > st.max_score
        then (cell_step s g sr h i j st).cur_score else st.max_score := by
  simp only [cell_step, read_hor_prop_eq, update_lah_eq, read_ahead_eq, set_boundaries_eq,
    read_ver_eq, read_hor_eq, compute_score, accumulate_max_eq, shift_and_propagate_eq,
    decide_eq_true_eq]

theorem cs_cur_score (s g : Int) (sr : Bool) (h i j : Int) (st : State) :
    (cell_step s g sr h i j st).cur_score
      = array_max [
          toInt32 ((cell_step s g sr h i j st).lah_buf_00
            + dihedral_score (cell_step s g sr h i j st).seq_ver_comp_reg
                (cell_step s g sr h i j st).seq_hor_comp_reg s),
          toInt32 ((cell_step s g sr h i j st).lah_buf_10 + g),
          toInt32 ((cell_step s g sr h i j st).lah_buf_11 + g),
          0] := by
  simp only [cell_step, read_hor_prop_eq, update_lah_eq, read_ahead_eq, set_boundaries_eq,
    read_ver_eq, read_hor_eq, compute_score, accumulate_max_eq, shift_and_propagate_eq]

theorem cs_lah_buf_00 (s g : Int) (sr : Bool) (h i j : Int) (st : State) :
    (cell_step s g sr h i j st).lah_buf_00
      = if j = 0 then
          (if i < 1 then 0
           else if i < 512 then st.hor_prop_buf_next_cells_1
           else st.hor_prop_buf_next_cells_0)
        else st.lah_buf_01 := by
  simp only [cell_step, read_hor_prop_eq, update_lah_eq, read_ahead_eq, set_boundaries_eq,
    read_ver_eq, read_hor_eq, compute_score, accumulate_max_eq, shift_and_propagate_eq]
  split_ifs <;> first | rfl | (exfalso; omega)

theorem cs_hor_prop_buf_next_cells_1 (s g : Int) (sr : Bool) (h i j : Int) (st : State) :
    (cell_step s g sr h i j st).hor_prop_buf_next_cells_1
      = if j = 0 ∧ i < 512 then (if 0 < h then st.hor_prop_buf.get i else 0)
        else st.hor_prop_buf_next_cells_1 := by
  simp only [cell_step, read_hor_prop_eq, update_lah_eq, read_ahead_eq, set_boundaries_eq,
    read_ver_eq, read_hor_eq, compute_score, accumulate_max_eq, shift_and_propagate_eq]

theorem cs_lah_buf_10 (s g : Int) (sr : Bool) (h i j : Int) (st : State) :
    (cell_step s g sr h i j st).lah_buf_10
      = if j = 0 then
          (if i < 0 then 0 else (cell_step s g sr h i j st).hor_prop_buf_next_cells_1)
        else st.lah_buf_11 := by
  simp only [cell_step, read_hor_prop_eq, update_lah_eq, read_ahead_eq, set_boundaries_eq,
    read_ver_eq, read_hor_eq, compute_score, accumulate_max_eq, shift_and_propagate_eq]

theorem cs_lah_buf_01 (s g : Int) (sr : Bool) (h i j : Int) (st : State) :
    (cell_step s g sr h i j st).lah_buf_01
      = if i < 2 then 0 else (if j ≤ i - 2 then st.diag_buf_old.get j else 0) := by
  simp only [cell_step, read_hor_prop_eq, update_lah_eq, read_ahead_eq, set_boundaries_eq,
    read_ver_eq, read_hor_eq, compute_score, accumulate_max_eq, shift_and_propagate_eq]

theorem cs_lah_buf_11 (s g : Int) (sr : Bool) (h i j : Int) (st : State) :
    (cell_step s g sr h i j st).lah_buf_11
      = if i < 1 then 0 else (if j ≤ i - 1 then st.diag_buf_new.get j else 0) := by
  simp only [cell_step, read_hor_prop_eq, update_lah_eq, read_ahead_eq, set_boundaries_eq,
    read_ver_eq, read_hor_eq, compute_score, accumulate_max_eq, shift_and_propagate_eq]

theorem cs_seq_hor_comp_reg (s g : Int) (sr : Bool) (h i j : Int) (st : State) :
    (cell_step s g sr h i j st).seq_hor_comp_reg
      = if i - j = 0 then (cell_step s g sr h i j st).seq_hor_read_reg
        else (cell_step s g sr h i j st).seq_hor.get j := by
  simp only [cell_step, read_hor_prop_eq, update_lah_eq, read_ahead_eq, set_boundaries_eq,
    read_ver_eq, read_hor_eq, compute_score, accumulate_max_eq, shift_and_propagate_eq]

theorem cs_seq_ver_comp_reg (s g : Int) (sr : Bool) (h i j : Int) (st : State) :
    (cell_step s g sr h i j st).seq_ver_comp_reg
      = if h = 0 ∧ j = 0 ∧ sr = true then (cell_step s g sr h i j st).seq_ver_read_reg
        else (cell_step s g sr h i j st).seq_ver.get ((i - j) % 65536 % 512) := by
  simp only [cell_step, read_hor_prop_eq, update_lah_eq, read_ahead_eq, set_boundaries_eq,
    read_ver_eq, read_hor_eq, compute_score, accumulate_max_eq, shift_and_propagate_eq,
    toUInt16, WIN_ROWS_MASK, WIN_ROWS, MAX_SEQ_SIZE]
  rfl

theorem cs_stream_size_ver (s g : Int) (sr : Bool) (h i j : Int) (st : State) :
    (cell_step s g sr h i j st).stream_size_ver
      = if h = 0 ∧ j = 0 ∧ st.stream_size_ver ≠ 0 ∧ (0 ≤ i - j ∧ i - j < 512)
        then toInt16 (st.stream_size_ver - 1) else st.stream_size_ver := by
  simp only [cell_step, read_hor_prop_eq, update_lah_eq, read_ahead_eq, set_boundaries_eq,
    read_ver_eq, read_hor_eq, compute_score, accumulate_max_eq, shift_and_propagate_eq,
    decide_eq_true_eq]

theorem cs_stream_ver (s g : Int) (sr : Bool) (h i j : Int) (st : State) :
    (cell_step s g sr h i j st).stream_ver
      = if h = 0 ∧ j = 0 ∧ st.stream_size_ver ≠ 0 ∧ (0 ≤ i - j ∧ i - j < 512) ∧ sr = true
        then st.stream_ver.tail else st.stream_ver := by
  simp only [cell_step, read_hor_prop_eq, update_lah_eq, read_ahead_eq, set_boundaries_eq,
    read_ver_eq, read_hor_eq, compute_score, accumulate_max_eq, shift_and_propagate_eq,
    decide_eq_true_eq]

theorem cs_seq_ver (s g : Int) (sr : Bool) (h i j : Int) (st : State) :
    (cell_step s g sr h i j st).seq_ver
      = if h = 0 ∧ j = 0 ∧ st.stream_size_ver ≠ 0 ∧ (0 ≤ i - j ∧ i - j < 512) ∧ sr = true
        then st.seq_ver.set (i - j) (stream_front st.stream_ver) else st.seq_ver := by
  simp only [cell_step, read_hor_prop_eq, update_lah_eq, read_ahead_eq, set_boundaries_eq,
    read_ver_eq, read_hor_eq, compute_score, accumulate_max_eq, shift_and_propagate_eq,
    decide_eq_true_eq]

theorem cs_seq_ver_read_reg (s g : Int) (sr : Bool) (h i j : Int) (st : State) :
    (cell_step s g sr h i j st).seq_ver_read_reg
      = if h = 0 ∧ j = 0 ∧ st.stream_size_ver ≠ 0 ∧ (0 ≤ i - j ∧ i - j < 512) ∧ sr = true
        then stream_front st.stream_ver else st.seq_ver_read_reg := by
  simp only [cell_step, read_hor_prop_eq, update_lah_eq, read_ahead_eq, set_boundaries_eq,
    read_ver_eq, read_hor_eq, compute_score, accumulate_max_eq, shift_and_propagate_eq,
    decide_eq_true_eq]

theorem cs_max_valid_row (s g : Int) (sr : Bool) (h i j : Int) (st : State) :
    (cell_step s g sr h i j st).max_valid_row
      = if h = 0 ∧ j = 0 ∧ st.stream_size_ver = 0
            ∧ i - j < (if i = 0 ∧ j = 0 ∧ h = 0 then 512 else st.max_valid_row)
        then i - j
        else (if i = 0 ∧ j = 0 ∧ h = 0 then 512 else st.max_valid_row) := by
  simp only [cell_step, read_hor_prop_eq, update_lah_eq, read_ahead_eq, set_boundaries_eq,
    read_ver_eq, read_hor_eq, compute_score, accumulate_max_eq, shift_and_propagate_eq,
    decide_eq_true_eq]

theorem cs_stream_size_hor (s g : Int) (sr : Bool) (h i j : Int) (st : State) :
    (cell_step s g sr h i j st).stream_size_hor
      = if i - j = 0 ∧ st.stream_size_hor ≠ 0
        then toInt16 (st.stream_size_hor - 1) else st.stream_size_hor := by
  simp only [cell_step, read_hor_prop_eq, update_lah_eq, read_ahead_eq, set_boundaries_eq,
    read_ver_eq, read_hor_eq, compute_score, accumulate_max_eq, shift_and_propagate_eq,
    decide_eq_true_eq]

theorem cs_stream_hor (s g : Int) (sr : Bool) (h i j : Int) (st : State) :
    (cell_step s g sr h i j st).stream_hor
      = if i - j = 0 ∧ st.stream_size_hor ≠ 0
        then st.stream_hor.tail else st.stream_hor := by
  simp only [cell_step, read_hor_prop_eq, update_lah_eq, read_ahead_eq, set_boundaries_eq,
    read_ver_eq, read_hor_eq, compute_score, accumulate_max_eq, shift_and_propagate_eq,
    decide_eq_true_eq]

theorem cs_seq_hor (s g : Int) (sr : Bool) (h i j : Int) (st : State) :
    (cell_step s g sr h i j st).seq_hor
      = if i - j = 0 ∧ st.stream_size_hor ≠ 0
        then st.seq_hor.set j (stream_front st.stream_hor) else st.seq_hor := by
  simp only [cell_step, read_hor_prop_eq, update_lah_eq, read_ahead_eq, set_boundaries_eq,
    read_ver_eq, read_hor_eq, compute_score, accumulate_max_eq, shift_and_propagate_eq,
    decide_eq_true_eq]

theorem cs_seq_hor_read_reg (s g : Int) (sr : Bool) (h i j : Int) (st : State) :
    (cell_step s g sr h i j st).seq_hor_read_reg
      = if i - j = 0 ∧ st.stream_size_hor ≠ 0
        then stream_front st.stream_hor else st.seq_hor_read_reg := by
  simp only [cell_step, read_hor_prop_eq, update_lah_eq, read_ahead_eq, set_boundaries_eq,
    read_ver_eq, read_hor_eq, compute_score, accumulate_max_eq, shift_and_propagate_eq,
    decide_eq_true_eq]

theorem cs_max_valid_col (s g : Int) (sr : Bool) (h i j : Int) (st : State) :
    (cell_step s g sr h i j st).max_valid_col
      = if i - j = 0 ∧ st.stream_size_hor = 0
            ∧ j < (if i = 0 ∧ j = 0 then 16 else st.max_valid_col)
        then j
        else (if i = 0 ∧ j = 0 then 16 else st.max_valid_col) := by
  simp only [cell_step, read_hor_prop_eq, update_lah_eq, read_ahead_eq, set_boundaries_eq,
    read_ver_eq, read_hor_eq, compute_score, accumulate_max_eq, shift_and_propagate_eq,
    decide_eq_true_eq]

/-! ## Preservation of the invariant by one step -/

theorem toInt16_of_range {x : Int} (h1 : -32768 ≤ x) (h2 : x ≤ 32767) : toInt16 x = x := by
  unfold toInt16; omega

theorem stream_front_cons (x : Dihedral) (l : List Dihedral) : stream_front (x :: l) = x := rfl

theorem dcount_def (i j : Int) : dcount i j = if j = 0 then i else i + 1 := rfl

theorem dcount_succ (i : Int) {j : Int} (hj : 0 ≤ j) : dcount i (j + 1) = i + 1 := by
  unfold dcount; omega

theorem ecount_def (i j : Int) : ecount i j = min 16 (if i < j then i + 1 else i) := rfl

section step
variable {C : Ctx} {h i j : Int} {st : State}

theorem step_ver_size (hC : C.ok) (hI : Inv C h i j st) (hi : 0 ≤ i) (hj : 0 ≤ j) :
    h = 0 → (cell_step C.s C.g C.sr h i j st).stream_size_ver
      = C.m - min C.m (dcount i (j + 1)) := by
  intro h0
  have h1 := hI.ver_size h0
  have := hC.m_nonneg
  have := hC.m_le
  have hd := dcount_def i j
  rw [cs_stream_size_ver, dcount_succ i hj]
  split_ifs with hc
  · rw [toInt16_of_range (by omega) (by omega)]; omega
  · omega

theorem step_ver_stream (hC : C.ok) (hI : Inv C h i j st) (hi : 0 ≤ i) (hj : 0 ≤ j) :
    h = 0 → C.sr = true → (cell_step C.s C.g C.sr h i j st).stream_ver
      = C.sv (min C.m (dcount i (j + 1))) := by
  intro h0 hsr
  have h1 := hI.ver_size h0
  have h2 := hI.ver_stream h0 hsr
  have := hC.m_nonneg
  have := hC.m_le
  have hd := dcount_def i j
  rw [cs_stream_ver, dcount_succ i hj]
  split_ifs with hc
  · have e1 : min C.m (dcount i j) = i := by omega
    have e2 : min C.m (i + 1) = i + 1 := by omega
    rw [h2, e1, e2, hC.sv_step hsr i hi (by omega)]; rfl
  · have hc' : ¬ (j = 0 ∧ st.stream_size_ver ≠ 0 ∧ 0 ≤ i - j ∧ i - j < 512) :=
      fun hx => hc ⟨h0, hx.1, hx.2.1, hx.2.2, hsr⟩
    rw [h2]; congr 1; omega

theorem step_ver_stream_hi (hI : Inv C h i j st) :
    0 < h → C.sr = true → (cell_step C.s C.g C.sr h i j st).stream_ver = C.sv C.m := by
  intro hh0 hsr
  rw [cs_stream_ver, if_neg (by intro hx; omega)]
  exact hI.ver_stream_hi hh0 hsr

theorem step_seq_ver_read_reg (hC : C.ok) (hI : Inv C h i j st) (hi : 0 ≤ i) :
    h = 0 → j = 0 → C.sr = true → i < C.m →
      (cell_step C.s C.g C.sr h i j st).seq_ver_read_reg = C.Vf i := by
  intro h0 j0 hsr him
  have h1 := hI.ver_size h0
  have h2 := hI.ver_stream h0 hsr
  have := hC.m_le
  have hd := dcount_def i j
  rw [cs_seq_ver_read_reg]
  have e1 : min C.m (dcount i j) = i := by omega
  rw [if_pos (by refine ⟨h0, j0, ?_, ?_, hsr⟩ <;> omega), h2, e1, hC.sv_step hsr i hi him]; rfl

theorem step_seq_ver (hC : C.ok) (hI : Inv C h i j st) (hi : 0 ≤ i) (hj : 0 ≤ j) :
    ∀ r, 0 ≤ r → r < C.m → (C.sr = true → h = 0 → r < dcount i (j + 1)) →
      (cell_step C.s C.g C.sr h i j st).seq_ver.get r = C.Vf r := by
  intro r hr0 hrm hrd
  have := hC.m_le
  have hd := dcount_def i j
  rw [dcount_succ i hj] at hrd
  rw [cs_seq_ver]
  split_ifs with hc
  · obtain ⟨h0, j0, hne, hb, hsr⟩ := hc
    have h1 := hI.ver_size h0
    have h2 := hI.ver_stream h0 hsr
    have e1 : min C.m (dcount i j) = i := by omega
    rw [Buf.get_set]
    split_ifs with hx
    · rw [h2, e1, hC.sv_step hsr i hi (by omega)]
      have : r = i := by omega
      subst this; rfl
    · apply hI.seq_ver r hr0 hrm
      intro _ _
      have := hrd hsr h0
      by_contra hcon
      apply hx
      refine ⟨by omega, by omega, by omega⟩
  · apply hI.seq_ver r hr0 hrm
    intro hsr h0
    have h1 := hI.ver_size h0
    have := hrd hsr h0
    by_contra hcon
    apply hc
    refine ⟨h0, by omega, by omega, by omega, hsr⟩

theorem step_mvr_hi (hC : C.ok) (hI : Inv C h i j st) (hh : 0 ≤ h) (hi : 0 ≤ i) (hj : 0 ≤ j) :
    (0 < h ∨ C.m < dcount i (j + 1)) → (cell_step C.s C.g C.sr h i j st).max_valid_row = C.m := by
  intro hd'
  have := hC.m_nonneg
  have := hC.m_le
  have h1 := hI.ver_size
  have h2 := hI.mvr_hi
  have h3 := hI.mvr_lo
  have hd := dcount_def i j
  rw [dcount_succ i hj] at hd'
  rw [cs_max_valid_row]
  split_ifs <;> omega

theorem step_mvr_lo (hC : C.ok) (hI : Inv C h i j st) (hi : 0 ≤ i) (hj : 0 ≤ j) :
    h = 0 → 0 < dcount i (j + 1) → dcount i (j + 1) ≤ C.m →
      (cell_step C.s C.g C.sr h i j st).max_valid_row = 512 := by
  intro h0 hd1 hd2
  have := hC.m_nonneg
  have := hC.m_le
  have h1 := hI.ver_size
  have h2 := hI.mvr_hi
  have h3 := hI.mvr_lo
  have hd := dcount_def i j
  rw [dcount_succ i hj] at hd1 hd2
  rw [cs_max_valid_row]
  split_ifs <;> omega

theorem step_hor_size (hC : C.ok) (hI : Inv C h i j st) (hh : 0 ≤ h) (hk : 16 * h ≤ C.n)
    (hi : 0 ≤ i) (hj : 0 ≤ j) (hj16 : j < 16) :
    (cell_step C.s C.g C.sr h i j st).stream_size_hor
      = (C.n - 16 * h) - min (C.n - 16 * h) (ecount i (j + 1)) := by
  have h1 := hI.hor_size
  have := hC.n_le
  have he := ecount_def i j
  have he' := ecount_def i (j + 1)
  rw [cs_stream_size_hor]
  split_ifs with hc
  · rw [toInt16_of_range (by omega) (by omega)]; omega
  · omega

theorem step_hor_stream (hC : C.ok) (hI : Inv C h i j st) (hh : 0 ≤ h) (hk : 16 * h ≤ C.n)
    (hi : 0 ≤ i) (hj : 0 ≤ j) (hj16 : j < 16) :
    (cell_step C.s C.g C.sr h i j st).stream_hor
      = C.sh (16 * h + min (C.n - 16 * h) (ecount i (j + 1))) := by
  have h1 := hI.hor_size
  have h2 := hI.hor_stream
  have := hC.n_le
  have he := ecount_def i j
  have he' := ecount_def i (j + 1)
  rw [cs_stream_hor]
  split_ifs with hc
  · have e1 : 16 * h + min (C.n - 16 * h) (ecount i j) = 16 * h + j := by omega
    have e2 : 16 * h + min (C.n - 16 * h) (ecount i (j + 1)) = 16 * h + j + 1 := by omega
    rw [h2, e1, e2, hC.sh_step (16 * h + j) (by omega) (by omega)]; rfl
  · rw [h2]; congr 1; omega

theorem step_seq_hor_read_reg (hC : C.ok) (hI : Inv C h i j st) (hh : 0 ≤ h)
    (hj : 0 ≤ j) (hj16 : j < 16) :
    i = j → j < C.n - 16 * h →
      (cell_step C.s C.g C.sr h i j st).seq_hor_read_reg = C.Hf (16 * h + j) := by
  intro hij hjk
  have h1 := hI.hor_size
  have h2 := hI.hor_stream
  have he := ecount_def i j
  have e1 : 16 * h + min (C.n - 16 * h) (ecount i j) = 16 * h + j := by omega
  rw [cs_seq_hor_read_reg, if_pos (by constructor <;> omega), h2, e1,
    hC.sh_step (16 * h + j) (by omega) (by omega)]; rfl

theorem step_seq_hor (hC : C.ok) (hI : Inv C h i j st) (hh : 0 ≤ h) (hk : 16 * h ≤ C.n)
    (hi : 0 ≤ i) (hj : 0 ≤ j) (hj16 : j < 16) :
    ∀ c, 0 ≤ c → c < ecount i (j + 1) → c < C.n - 16 * h →
      (cell_step C.s C.g C.sr h i j st).seq_hor.get c = C.Hf (16 * h + c) := by
  intro c hc0 hce hck
  have h1 := hI.hor_size
  have h2 := hI.hor_stream
  have he := ecount_def i j
  have he' := ecount_def i (j + 1)
  rw [cs_seq_hor]
  split_ifs with hc
  · have e1 : 16 * h + min (C.n - 16 * h) (ecount i j) = 16 * h + j := by omega
    rw [Buf.get_set]
    split_ifs with hx
    · rw [h2, e1, hC.sh_step (16 * h + j) (by omega) (by omega)]
      have : c = j := by omega
      subst this; rfl
    · apply hI.seq_hor c hc0 _ hck
      by_contra hcon
      apply hx
      refine ⟨by omega, by omega, by omega⟩
  · apply hI.seq_hor c hc0 _ hck
    omega

theorem step_mvc_hi (hI : Inv C h i j st) (hk : 16 * h ≤ C.n)
    (hi : 0 ≤ i) (hj : 0 ≤ j) (hj16 : j < 16) :
    C.n - 16 * h < ecount i (j + 1) →
      (cell_step C.s C.g C.sr h i j st).max_valid_col = C.n - 16 * h := by
  intro hd'
  have h1 := hI.hor_size
  have h2 := hI.mvc_hi
  have h3 := hI.mvc_lo
  have he := ecount_def i j
  have he' := ecount_def i (j + 1)
  rw [cs_max_valid_col]
  split_ifs <;> omega

theorem step_mvc_lo (hI : Inv C h i j st)
    (hi : 0 ≤ i) (hj : 0 ≤ j) (hj16 : j < 16) :
    0 < ecount i (j + 1) → ecount i (j + 1) ≤ C.n - 16 * h →
      (cell_step C.s C.g C.sr h i j st).max_valid_col = 16 := by
  intro hd1 hd2
  have h1 := hI.hor_size
  have h2 := hI.mvc_hi
  have h3 := hI.mvc_lo
  have he := ecount_def i j
  have he' := ecount_def i (j + 1)
  rw [cs_max_valid_col]
  split_ifs <;> omega

theorem T_congr (C : Ctx) {r r' c c' : Int} (hr : r = r') (hc : c = c') :
    C.T r c = C.T r' c' := by
  subst hr; subst hc; rfl

theorem step_lah_buf_00 (hC : C.ok) (hI : Inv C h i j st) (hj : 0 ≤ j) (hj16 : j < 16)
    (hr0 : 0 ≤ i - j) (hrm : i - j < C.m) (hjk : j < C.n - 16 * h) :
    (cell_step C.s C.g C.sr h i j st).lah_buf_00 = C.T (i - j - 1) (16 * h + j - 1) := by
  have := hC.m_le
  have hd := dcount_def i j
  rw [cs_lah_buf_00]
  split_ifs with hj0 hi1 hi512
  · rw [hC.T_neg]; left; omega
  · rw [hI.hpnc (by omega) (by omega)]
    exact T_congr C (by omega) (by omega)
  · exfalso; omega
  · exact (hI.lah (by omega) hj16 (by omega) hrm hjk).1

theorem step_lah_buf_10 (hC : C.ok) (hI : Inv C h i j st) (hh : 0 ≤ h) (hj : 0 ≤ j)
    (hj16 : j < 16) (hr0 : 0 ≤ i - j) (hrm : i - j < C.m) (hjk : j < C.n - 16 * h) :
    (cell_step C.s C.g C.sr h i j st).lah_buf_10 = C.T (i - j) (16 * h + j - 1) := by
  have := hC.m_le
  rw [cs_lah_buf_10, cs_hor_prop_buf_next_cells_1]
  split_ifs with hj0 hi0 hc hh0
  · exfalso; omega
  · rw [hI.prop_old hh0 i (by omega) (by omega) (by unfold proc; omega)]
    exact T_congr C (by omega) (by omega)
  · rw [hC.T_neg]; right; omega
  · exfalso; apply hc; constructor <;> omega
  · exact (hI.lah (by omega) hj16 (by omega) hrm hjk).2

theorem step_lah_buf_11 (hC : C.ok) (hI : Inv C h i j st) (hj : 0 ≤ j)
    (hj16 : j < 16) (hr0 : 0 ≤ i - j) (hrm : i - j < C.m) (hjk : j < C.n - 16 * h) :
    (cell_step C.s C.g C.sr h i j st).lah_buf_11 = C.T (i - j - 1) (16 * h + j) := by
  rw [cs_lah_buf_11]
  split_ifs with hi1 hc
  · rw [hC.T_neg]; left; omega
  · exact hI.diag_new j hj hj16 hjk (i - j - 1) (by rw [if_neg (by omega)]; omega)
      (by omega) (by omega)
  · rw [hC.T_neg]; left; omega

theorem step_seq_ver_comp_reg (hC : C.ok) (hI : Inv C h i j st) (hi : 0 ≤ i) (hj : 0 ≤ j)
    (hr0 : 0 ≤ i - j) (hrm : i - j < C.m) :
    (cell_step C.s C.g C.sr h i j st).seq_ver_comp_reg = C.Vf (i - j) := by
  have := hC.m_le
  rw [cs_seq_ver_comp_reg]
  split_ifs with hc
  · obtain ⟨h0, j0, hsr⟩ := hc
    rw [step_seq_ver_read_reg hC hI hi h0 j0 hsr (by omega)]
    congr 1; omega
  · have e : (i - j) % 65536 % 512 = i - j := by omega
    rw [e]
    apply step_seq_ver hC hI hi hj (i - j) hr0 hrm
    intro _ _
    rw [dcount_succ i hj]; omega

theorem step_seq_hor_comp_reg (hC : C.ok) (hI : Inv C h i j st) (hh : 0 ≤ h)
    (hk : 16 * h ≤ C.n) (hi : 0 ≤ i) (hj : 0 ≤ j) (hj16 : j < 16)
    (hr0 : 0 ≤ i - j) (hjk : j < C.n - 16 * h) :
    (cell_step C.s C.g C.sr h i j st).seq_hor_comp_reg = C.Hf (16 * h + j) := by
  rw [cs_seq_hor_comp_reg]
  split_ifs with hc
  · exact step_seq_hor_read_reg hC hI hh hj hj16 (by omega) hjk
  · apply step_seq_hor hC hI hh hk hi hj hj16 j hj _ hjk
    have he' := ecount_def i (j + 1)
    omega

/-- The score computed for a valid cell is the entry of the matrix. -/
theorem step_cur_score (hC : C.ok) (hI : Inv C h i j st) (hh : 0 ≤ h)
    (hk : 16 * h ≤ C.n) (hi : 0 ≤ i) (hj : 0 ≤ j) (hj16 : j < 16)
    (hr0 : 0 ≤ i - j) (hrm : i - j < C.m) (hjk : j < C.n - 16 * h) :
    (cell_step C.s C.g C.sr h i j st).cur_score = C.T (i - j) (16 * h + j) := by
  rw [cs_cur_score, step_lah_buf_00 hC hI hj hj16 hr0 hrm hjk,
    step_lah_buf_10 hC hI hh hj hj16 hr0 hrm hjk,
    step_lah_buf_11 hC hI hj hj16 hr0 hrm hjk,
    step_seq_ver_comp_reg hC hI hi hj hr0 hrm,
    step_seq_hor_comp_reg hC hI hh hk hi hj hj16 hr0 hjk,
    hC.T_rec (i - j) (16 * h + j) hr0 hrm (by omega) (by omega)]

theorem step_diag_new (hC : C.ok) (hI : Inv C h i j st) (hh : 0 ≤ h)
    (hk : 16 * h ≤ C.n) (hi : 0 ≤ i) (hj : 0 ≤ j) (hj16 : j < 16) :
    ∀ c, 0 ≤ c → c < 16 → c < C.n - 16 * h →
      ∀ r, r = (if c < j + 1 then i - c else i - 1 - c) → 0 ≤ r → r < C.m →
        (cell_step C.s C.g C.sr h i j st).diag_buf_new.get c = C.T r (16 * h + c) := by
  intro c hc0 hc16 hck r hr hr0 hrm
  rw [cs_diag_buf_new, Buf.get_set]
  split_ifs with hx
  · have hcj : c = j := hx.1
    subst hcj
    rw [step_cur_score hC hI hh hk hi hc0 hc16 (by omega) (by omega) hck]
    exact T_congr C (by omega) rfl
  · have hne : c ≠ j := fun e => hx ⟨e, hj, by omega⟩
    exact hI.diag_new c hc0 hc16 hck r (by omega) hr0 hrm

theorem step_diag_old (hI : Inv C h i j st) (hj : 0 ≤ j) (hj16 : j < 16) :
    ∀ c, 0 ≤ c → c < 16 → c < C.n - 16 * h →
      ∀ r, r = (if c < j + 1 then i - 1 - c else i - 2 - c) → 0 ≤ r → r < C.m →
        (cell_step C.s C.g C.sr h i j st).diag_buf_old.get c = C.T r (16 * h + c) := by
  intro c hc0 hc16 hck r hr hr0 hrm
  rw [cs_diag_buf_old, Buf.get_set]
  split_ifs with hx hle
  · have hcj : c = j := hx.1
    subst hcj
    exact hI.diag_new c hc0 hc16 hck r (by omega) hr0 hrm
  · exfalso; omega
  · have hne : c ≠ j := fun e => hx ⟨e, hj, by omega⟩
    exact hI.diag_old c hc0 hc16 hck r (by omega) hr0 hrm

theorem step_lah (hC : C.ok) (hI : Inv C h i j st) (hj : 0 ≤ j) :
    1 ≤ j + 1 → j + 1 < 16 → j + 1 ≤ i → i - (j + 1) < C.m → j + 1 < C.n - 16 * h →
      (cell_step C.s C.g C.sr h i j st).lah_buf_01 = C.T (i - (j + 1) - 1) (16 * h + (j + 1) - 1)
      ∧ (cell_step C.s C.g C.sr h i j st).lah_buf_11 = C.T (i - (j + 1)) (16 * h + (j + 1) - 1) := by
  intro _ hj16 hji hrm hjk
  constructor
  · rw [cs_lah_buf_01]
    split_ifs with hi2 hle
    · rw [hC.T_neg]; left; omega
    · rw [hI.diag_old j hj (by omega) (by omega) (i - 2 - j) (by rw [if_neg (by omega)])
        (by omega) (by omega)]
      exact T_congr C (by omega) (by omega)
    · rw [hC.T_neg]; left; omega
  · rw [cs_lah_buf_11]
    split_ifs with hi1 hle
    · exfalso; omega
    · rw [hI.diag_new j hj (by omega) (by omega) (i - 1 - j) (by rw [if_neg (by omega)])
        (by omega) (by omega)]
      exact T_congr C (by omega) (by omega)
    · exfalso; omega

theorem step_hpnc (hC : C.ok) (hI : Inv C h i j st) (hh : 0 ≤ h) (hi : 0 ≤ i) (hj : 0 ≤ j) :
    1 ≤ dcount i (j + 1) → dcount i (j + 1) - 1 < C.m →
      (cell_step C.s C.g C.sr h i j st).hor_prop_buf_next_cells_1
        = C.T (dcount i (j + 1) - 1) (16 * h - 1) := by
  have := hC.m_le
  have hd := dcount_def i j
  rw [dcount_succ i hj]
  intro _ hdm
  rw [cs_hor_prop_buf_next_cells_1]
  split_ifs with hc hh0
  · rw [hI.prop_old hh0 i hi (by omega) (by unfold proc; omega)]
    exact T_congr C (by omega) rfl
  · rw [hC.T_neg]; right; omega
  · rw [hI.hpnc (by omega) (by omega)]
    exact T_congr C (by omega) rfl

theorem step_prop_old (hI : Inv C h i j st) (hj : 0 ≤ j) (hj16 : j < 16) :
    0 < h → ∀ r, 0 ≤ r → r < C.m → ¬ proc i (j + 1) r 15 →
      (cell_step C.s C.g C.sr h i j st).hor_prop_buf.get r = C.T r (16 * h - 1) := by
  intro hh0 r hr0 hrm hp
  have hp' : ¬ proc i j r 15 := by unfold proc at *; omega
  rw [cs_hor_prop_buf]
  split_ifs with hc
  · rw [Buf.get_set]
    split_ifs with hx
    · exfalso; unfold proc at hp; omega
    · exact hI.prop_old hh0 r hr0 hrm hp'
  · exact hI.prop_old hh0 r hr0 hrm hp'

theorem step_prop_new (hC : C.ok) (hI : Inv C h i j st) (hh : 0 ≤ h)
    (hk : 16 * h ≤ C.n) (hi : 0 ≤ i) (hj : 0 ≤ j) (hj16 : j < 16) :
    16 ≤ C.n - 16 * h → ∀ r, 0 ≤ r → r < C.m → proc i (j + 1) r 15 →
      (cell_step C.s C.g C.sr h i j st).hor_prop_buf.get r = C.T r (16 * h + 15) := by
  intro hk16 r hr0 hrm hp
  rw [cs_hor_prop_buf]
  split_ifs with hc
  · rw [Buf.get_set]
    split_ifs with hx
    · rw [step_cur_score hC hI hh hk hi hj hj16 (by omega) (by omega) (by omega)]
      exact T_congr C (by omega) (by omega)
    · have hp' : proc i j r 15 := by
        unfold proc at *
        by_contra hcon
        apply hx
        refine ⟨by omega, by omega, by omega⟩
      exact hI.prop_new hk16 r hr0 hrm hp'
  · have := hC.m_le
    have hp' : proc i j r 15 := by
      unfold proc at *
      by_contra hcon
      apply hc
      refine ⟨by omega, by omega, by omega⟩
    exact hI.prop_new hk16 r hr0 hrm hp'

theorem step_valid_iff (hC : C.ok) (hI : Inv C h i j st) (hh : 0 ≤ h)
    (hk : 16 * h ≤ C.n) (hi : 0 ≤ i) (hj : 0 ≤ j) (hj16 : j < 16) :
    ((0 ≤ i - j ∧ i - j < 512) ∧ i - j < (cell_step C.s C.g C.sr h i j st).max_valid_row
        ∧ j < (cell_step C.s C.g C.sr h i j st).max_valid_col)
      ↔ (0 ≤ i - j ∧ i - j < C.m ∧ j < C.n - 16 * h) := by
  have h1 := step_mvr_hi hC hI hh hi hj
  have h2 := step_mvr_lo hC hI hi hj
  have h3 := step_mvc_hi hI hk hi hj hj16
  have h4 := step_mvc_lo hI hi hj hj16
  have := hC.m_le
  have := hC.m_nonneg
  have he' := ecount_def i (j + 1)
  rw [dcount_succ i hj] at h1 h2
  constructor
  · rintro ⟨⟨a, b⟩, c, d⟩
    refine ⟨a, ?_, ?_⟩
    · by_cases hx : 0 < h ∨ C.m < i + 1
      · rw [h1 hx] at c; exact c
      · omega
    · by_cases hx : C.n - 16 * h < ecount i (j + 1)
      · rw [h3 hx] at d; exact d
      · omega
  · rintro ⟨a, b, c⟩
    refine ⟨⟨a, by omega⟩, ?_, ?_⟩
    · by_cases hx : 0 < h ∨ C.m < i + 1
      · rw [h1 hx]; exact b
      · rw [h2 (by omega) (by omega) (by omega)]; omega
    · by_cases hx : C.n - 16 * h < ecount i (j + 1)
      · rw [h3 hx]; exact c
      · rw [h4 (by omega) (by omega)]; exact hj16

theorem step_max_mono :
    st.max_score ≤ (cell_step C.s C.g C.sr h i j st).max_score := by
  rw [cs_max_score]
  split_ifs with hc
  · exact le_of_lt hc.2
  · exact le_refl _

theorem step_max_ub (hC : C.ok) (hI : Inv C h i j st) (hh : 0 ≤ h)
    (hk : 16 * h ≤ C.n) (hi : 0 ≤ i) (hj : 0 ≤ j) (hj16 : j < 16) :
    ∀ r c, 0 ≤ r → r < C.m → 0 ≤ c → c < C.n →
      (c < 16 * h ∨ (c < 16 * h + 16 ∧ proc i (j + 1) r (c - 16 * h))) →
        C.T r c ≤ (cell_step C.s C.g C.sr h i j st).max_score := by
  intro r c hr0 hrm hc0 hcn hp
  by_cases hold : c < 16 * h ∨ (c < 16 * h + 16 ∧ proc i j r (c - 16 * h))
  · exact le_trans (hI.max_ub r c hr0 hrm hc0 hcn hold) step_max_mono
  · have hrc : r = i - j ∧ c = 16 * h + j := by unfold proc at *; omega
    obtain ⟨e1, e2⟩ := hrc
    have hv := (step_valid_iff hC hI hh hk hi hj hj16).2 ⟨by omega, by omega, by omega⟩
    have hcur := step_cur_score hC hI hh hk hi hj hj16 (by omega) (by omega) (by omega)
    rw [cs_max_score]
    subst e1; subst e2
    split_ifs with hc
    · rw [hcur]
    · rw [← hcur]
      have : ¬ ((cell_step C.s C.g C.sr h i j st).cur_score > st.max_score) :=
        fun hgt => hc ⟨hv, hgt⟩
      omega

theorem step_max_wit (hC : C.ok) (hI : Inv C h i j st) (hh : 0 ≤ h)
    (hk : 16 * h ≤ C.n) (hi : 0 ≤ i) (hj : 0 ≤ j) (hj16 : j < 16) :
    (cell_step C.s C.g C.sr h i j st).max_score = 0 ∨
      ∃ r c, 0 ≤ r ∧ r < C.m ∧ 0 ≤ c ∧ c < C.n
        ∧ (cell_step C.s C.g C.sr h i j st).max_score = C.T r c := by
  rw [cs_max_score]
  split_ifs with hc
  · right
    have hv := (step_valid_iff hC hI hh hk hi hj hj16).1 hc.1
    exact ⟨i - j, 16 * h + j, hv.1, hv.2.1, by omega, by omega,
      step_cur_score hC hI hh hk hi hj hj16 hv.1 hv.2.1 hv.2.2⟩
  · exact hI.max_wit

/-- One step of the column loop takes the invariant from `(i, j)` to `(i, j + 1)`. -/
theorem step_inv (hC : C.ok) (hI : Inv C h i j st) (hh : 0 ≤ h)
    (hk : 16 * h ≤ C.n) (hi : 0 ≤ i) (hj : 0 ≤ j) (hj16 : j < 16) :
    Inv C h i (j + 1) (cell_step C.s C.g C.sr h i j st) where
  ver_size := step_ver_size hC hI hi hj
  ver_stream := step_ver_stream hC hI hi hj
  ver_stream_hi := step_ver_stream_hi hI
  seq_ver := step_seq_ver hC hI hi hj
  mvr_hi := step_mvr_hi hC hI hh hi hj
  mvr_lo := step_mvr_lo hC hI hi hj
  hor_size := step_hor_size hC hI hh hk hi hj hj16
  hor_stream := step_hor_stream hC hI hh hk hi hj hj16
  seq_hor := step_seq_hor hC hI hh hk hi hj hj16
  mvc_hi := step_mvc_hi hI hk hi hj hj16
  mvc_lo := step_mvc_lo hI hi hj hj16
  diag_new := step_diag_new hC hI hh hk hi hj hj16
  diag_old := step_diag_old hI hj hj16
  lah := step_lah hC hI hj
  hpnc := step_hpnc hC hI hh hi hj
  prop_old := step_prop_old hI hj hj16
  prop_new := step_prop_new hC hI hh hk hi hj hj16
  max_ub := step_max_ub hC hI hh hk hi hj hj16
  max_wit := step_max_wit hC hI hh hk hi hj hj16

/-- Passing from the end of a diagonal to the start of the next one. -/
theorem inv_next_diag (hI : Inv C h i 16 st) (hi : 0 ≤ i) : Inv C h (i + 1) 0 st := by
  have hd : dcount (i + 1) 0 = dcount i 16 := by unfold dcount; omega
  have he : ecount (i + 1) 0 = ecount i 16 := by unfold ecount; omega
  have hp : ∀ r c, 0 ≤ c → c < 16 → (proc (i + 1) 0 r c ↔ proc i 16 r c) := by
    intro r c _ _; unfold proc; omega
  constructor
  · rw [hd]; exact hI.ver_size
  · rw [hd]; exact hI.ver_stream
  · exact hI.ver_stream_hi
  · rw [hd]; exact hI.seq_ver
  · rw [hd]; exact hI.mvr_hi
  · rw [hd]; exact hI.mvr_lo
  · rw [he]; exact hI.hor_size
  · rw [he]; exact hI.hor_stream
  · rw [he]; exact hI.seq_hor
  · rw [he]; exact hI.mvc_hi
  · rw [he]; exact hI.mvc_lo
  · intro c hc0 hc16 hck r hr hr0 hrm
    exact hI.diag_new c hc0 hc16 hck r (by omega) hr0 hrm
  · intro c hc0 hc16 hck r hr hr0 hrm
    exact hI.diag_old c hc0 hc16 hck r (by omega) hr0 hrm
  · intro h1; omega
  · rw [hd]; exact hI.hpnc
  · intro hh0 r hr0 hrm hp'
    exact hI.prop_old hh0 r hr0 hrm (fun hx => hp' ((hp r 15 (by omega) (by omega)).2 hx))
  · intro hk16 r hr0 hrm hp'
    exact hI.prop_new hk16 r hr0 hrm ((hp r 15 (by omega) (by omega)).1 hp')
  · intro r c hr0 hrm hc0 hcn hx
    apply hI.max_ub r c hr0 hrm hc0 hcn
    rcases hx with hx | ⟨hx1, hx2⟩
    · left; exact hx
    · by_cases hlt : c < 16 * h
      · left; exact hlt
      · right; exact ⟨hx1, (hp r (c - 16 * h) (by omega) (by omega)).1 hx2⟩
  · exact hI.max_wit

end step

/-! ## The three loops -/

section loops
variable {C : Ctx}

theorem col_loop_inv (hC : C.ok) {h i : Int} (hh : 0 ≤ h) (hk : 16 * h ≤ C.n) (hi : 0 ≤ i) :
    ∀ (k : Nat) (j : Int) (st : State), 0 ≤ j → j + k = 16 → Inv C h i j st →
      Inv C h i 16 (col_loop C.s C.g C.sr h i k j st) := by
  intro k
  induction k with
  | zero =>
    intro j st _ hjk hI
    have : j = 16 := by omega
    subst this
    exact hI
  | succ k ih =>
    intro j st hj hjk hI
    unfold col_loop
    exact ih (j + 1) _ (by omega) (by push_cast at hjk; omega)
      (step_inv hC hI hh hk hi hj (by omega))

theorem diag_inv (hC : C.ok) {h i : Int} {st : State} (hh : 0 ≤ h) (hk : 16 * h ≤ C.n)
    (hi : 0 ≤ i) (hI : Inv C h i 0 st) :
    Inv C h (i + 1) 0 (col_loop C.s C.g C.sr h i WIN_COLS.toNat 0 st) :=
  inv_next_diag (col_loop_inv hC hh hk hi 16 0 st (le_refl 0) (by norm_num) hI) hi

theorem diag_loop_inv (hC : C.ok) {h : Int} (hh : 0 ≤ h) (hk : 16 * h ≤ C.n) :
    ∀ (k : Nat) (i : Int) (st : State), 0 ≤ i → i + k = 527 → i ≤ C.m + 15 →
      Inv C h i 0 st →
      ∃ i', C.m + 15 ≤ i' ∧ 16 ≤ i' ∧ Inv C h i' 0 (diag_loop C.s C.g C.sr C.m h k i st) := by
  intro k
  induction k with
  | zero =>
    intro i st _ hik _ hI
    have := hC.m_le
    exact ⟨i, by omega, by omega, hI⟩
  | succ k ih =>
    intro i st hi hik him hI
    have hI' := diag_inv hC hh hk hi hI
    have := hC.m_nonneg
    unfold diag_loop
    simp only []
    split_ifs with hb
    · exact ⟨i + 1, by simp only [WIN_COLS] at hb; omega, by simp only [WIN_COLS] at hb; omega, hI'⟩
    · exact ih (i + 1) _ (by omega) (by push_cast at hik; omega)
        (by simp only [WIN_COLS] at hb; omega) hI'

/-- Passing from the end of a window to the start of the next one. -/
theorem inv_next_window (hC : C.ok) {h i : Int} {st : State} (hh : 0 ≤ h)
    (hi : C.m + 15 ≤ i) (hi16 : 16 ≤ i) (hI : Inv C h i 0 st)
    (hne : st.stream_size_hor ≠ 0) : 16 * (h + 1) < C.n ∧ Inv C (h + 1) 0 0 st := by
  have hs := hI.hor_size
  have he := ecount_def i 0
  have hd := dcount_def i 0
  have hd0 : dcount 0 0 = 0 := rfl
  have he0 : ecount 0 0 = 0 := rfl
  have hm := hC.m_nonneg
  have hkc : 16 < C.n - 16 * h := by omega
  refine ⟨by omega, ?_⟩
  constructor
  · intro h0; omega
  · intro h0; omega
  · intro _ hsr
    by_cases h0 : h = 0
    · rw [hI.ver_stream h0 hsr]; congr 1; omega
    · exact hI.ver_stream_hi (by omega) hsr
  · intro r hr0 hrm _
    exact hI.seq_ver r hr0 hrm (by intro _ _; omega)
  · intro _
    exact hI.mvr_hi (by omega)
  · intro h0; omega
  · rw [hs, he0]; omega
  · rw [hI.hor_stream, he0]; congr 1; omega
  · intro c hc0 hce; omega
  · intro hx; omega
  · intro hx; omega
  · intro c hc0 hc16 hck r hr hr0 hrm
    rw [if_neg (by omega)] at hr; omega
  · intro c hc0 hc16 hck r hr hr0 hrm
    rw [if_neg (by omega)] at hr; omega
  · intro h1; omega
  · intro hx; omega
  · intro _ r hr0 hrm _
    rw [hI.prop_new (by omega) r hr0 hrm (by unfold proc; omega)]
    exact T_congr C rfl (by omega)
  · intro _ r hr0 hrm hp
    unfold proc at hp; omega
  · intro r c hr0 hrm hc0 hcn hx
    apply hI.max_ub r c hr0 hrm hc0 hcn
    by_cases hlt : c < 16 * h
    · left; exact hlt
    · right
      unfold proc at *
      omega
  · exact hI.max_wit

theorem done_of_inv (hC : C.ok) {h i : Int} {st : State} (hh : 0 ≤ h)
    (hi : C.m + 15 ≤ i) (hi16 : 16 ≤ i) (hI : Inv C h i 0 st)
    (hz : st.stream_size_hor = 0) : Done C st := by
  have hs := hI.hor_size
  have he := ecount_def i 0
  have hd := dcount_def i 0
  have hm := hC.m_nonneg
  constructor
  · intro r c hr0 hrm hc0 hcn
    apply hI.max_ub r c hr0 hrm hc0 hcn
    by_cases hlt : c < 16 * h
    · left; exact hlt
    · right
      unfold proc
      omega
  · exact hI.max_wit
  · intro r hr0 hrm
    exact hI.seq_ver r hr0 hrm (by intro _ _; omega)
  · intro hsr
    by_cases h0 : h = 0
    · rw [hI.ver_stream h0 hsr]; congr 1; omega
    · exact hI.ver_stream_hi (by omega) hsr
  · rw [hI.hor_stream]; congr 1; omega

theorem hor_window_loop_inv (hC : C.ok) :
    ∀ (k : Nat) (h : Int) (st : State), 0 ≤ h → h + k = 32 → 16 * h ≤ C.n →
      (0 < h → 16 * h < C.n) → Inv C h 0 0 st →
      Done C (hor_window_loop C.s C.g C.sr C.m k h st) := by
  intro k
  induction k with
  | zero =>
    intro h st _ hhk hk hk' _
    have := hC.n_le
    exfalso
    have : h = 32 := by omega
    have := hk' (by omega)
    omega
  | succ k ih =>
    intro h st hh hhk hk hk' hI
    obtain ⟨i', hi1, hi2, hI'⟩ :=
      diag_loop_inv hC hh hk 527 0 st (le_refl 0) (by norm_num)
        (by have := hC.m_nonneg; omega) hI
    unfold hor_window_loop
    simp only []
    have e527 : WIN_DIAGS.toNat = 527 := by decide
    rw [e527]
    split_ifs with hz
    · exact done_of_inv hC hh hi1 hi2 hI' hz
    · obtain ⟨hlt, hI''⟩ := inv_next_window hC hh hi1 hi2 hI' hz
      exact ih (h + 1) _ (by omega) (by push_cast at hhk; omega) (by omega)
        (fun _ => hlt) hI''

theorem inv_init (hC : C.ok) (st0 : State)
    (hV : C.sr = false → ∀ r, 0 ≤ r → r < C.m → st0.seq_ver.get r = C.Vf r) :
    Inv C 0 0 0
      { st0 with
        max_score := 0
        stream_ver := C.sv 0
        stream_size_ver := C.m
        stream_hor := C.sh 0
        stream_size_hor := C.n } := by
  have hd0 : dcount 0 0 = 0 := rfl
  have he0 : ecount 0 0 = 0 := rfl
  have hm := hC.m_nonneg
  have hn := hC.n_nonneg
  constructor
  · intro _; show C.m = _; rw [hd0]; omega
  · intro _ _; show C.sv 0 = _; rw [hd0]; congr 1; omega
  · intro hx; omega
  · intro r hr0 hrm hx
    show st0.seq_ver.get r = C.Vf r
    cases hsr : C.sr with
    | false => exact hV hsr r hr0 hrm
    | true => have := hx hsr rfl; omega
  · intro hx; omega
  · intro _ hx; omega
  · show C.n = _; rw [he0]; omega
  · show C.sh 0 = _; rw [he0]; congr 1; omega
  · intro c hc0 hce; omega
  · intro hx; omega
  · intro hx; omega
  · intro c hc0 hc16 hck r hr hr0 hrm
    rw [if_neg (by omega)] at hr; omega
  · intro c hc0 hc16 hck r hr hr0 hrm
    rw [if_neg (by omega)] at hr; omega
  · intro h1; omega
  · intro hx; omega
  · intro hx; omega
  · intro _ r hr0 hrm hp
    unfold proc at hp; omega
  · intro r c hr0 hrm hc0 hcn hx
    unfold proc at hx; omega
  · left; rfl

/-- The state in which `align_one` returns, for sequences within the window height. -/
theorem align_one_done (hC : C.ok) (st0 : State)
    (hV : C.sr = false → ∀ r, 0 ≤ r → r < C.m → st0.seq_ver.get r = C.Vf r) :
    Done C (align_one st0 (C.sv 0) C.m (C.sh 0) C.n C.s C.g C.sr) := by
  unfold align_one
  have e32 : WIN_COUNT_HOR.toNat = 32 := by decide
  rw [e32]
  exact hor_window_loop_inv hC 32 0 _ (le_refl 0) (by norm_num)
    (by have := hC.n_nonneg; omega) (by intro hx; omega) (inv_init hC st0 hV)

end loops

/-! ## The matrix of the specification -/

theorem array_max_four (a b c : Int) : array_max [a, b, c, 0] = max 0 (max a (max b c)) := by
  simp only [array_max, array_max_loop]
  split_ifs <;> omega

theorem sw_cell_eq (d l t : Int) (v h : Dihedral) (s g : Int) :
    sw_cell d l t v h s g
      = array_max [toInt32 (d + dihedral_score v h s), toInt32 (l + g), toInt32 (t + g), 0] := by
  rw [array_max_four]; rfl

theorem sw_cell_nonneg (d l t : Int) (v h : Dihedral) (s g : Int) :
    0 ≤ sw_cell d l t v h s g := by
  unfold sw_cell; omega

theorem sw_table_zero_left (V H : List Dihedral) (s g : Int) (c : Nat) :
    sw_table V H s g 0 c = 0 := rfl

theorem sw_table_zero_right (V H : List Dihedral) (s g : Int) (r : Nat) :
    sw_table V H s g r 0 = 0 := by
  cases r <;> rfl

theorem sw_table_succ (V H : List Dihedral) (s g : Int) (r c : Nat) :
    sw_table V H s g (r + 1) (c + 1)
      = sw_cell (sw_table V H s g r c) (sw_table V H s g (r + 1) c) (sw_table V H s g r (c + 1))
          (V.getD r { phi := 0, psi := 0 }) (H.getD c { phi := 0, psi := 0 }) s g := rfl

theorem sw_matrix_nonneg (V H : List Dihedral) (s g : Int) (r c : Nat) :
    0 ≤ sw_matrix V H s g r c := by
  unfold sw_matrix; rw [sw_table_succ]; exact sw_cell_nonneg _ _ _ _ _ _ _

theorem Tz_neg (V H : List Dihedral) (s g : Int) (r c : Int) (h : r < 0 ∨ c < 0) :
    Tz V H s g r c = 0 := by
  unfold Tz
  rcases h with h | h
  · have : (r + 1).toNat = 0 := by omega
    rw [this]; rfl
  · have : (c + 1).toNat = 0 := by omega
    rw [this]; exact sw_table_zero_right _ _ _ _ _

theorem Tz_eq_matrix (V H : List Dihedral) (s g : Int) (r c : Int) (hr : 0 ≤ r) (hc : 0 ≤ c) :
    Tz V H s g r c = sw_matrix V H s g r.toNat c.toNat := by
  unfold Tz sw_matrix
  have e1 : (r + 1).toNat = r.toNat + 1 := by omega
  have e2 : (c + 1).toNat = c.toNat + 1 := by omega
  rw [e1, e2]

theorem Tz_rec (V H : List Dihedral) (s g : Int) (r c : Int) (hr : 0 ≤ r) (hc : 0 ≤ c) :
    Tz V H s g r c
      = array_max [
          toInt32 (Tz V H s g (r - 1) (c - 1)
            + dihedral_score (V.getD r.toNat { phi := 0, psi := 0 })
                (H.getD c.toNat { phi := 0, psi := 0 }) s),
          toInt32 (Tz V H s g r (c - 1) + g),
          toInt32 (Tz V H s g (r - 1) c + g),
          0] := by
  rw [← sw_cell_eq]
  unfold Tz
  have e1 : (r + 1).toNat = r.toNat + 1 := by omega
  have e2 : (c + 1).toNat = c.toNat + 1 := by omega
  have e3 : (r - 1 + 1).toNat = r.toNat := by omega
  have e4 : (c - 1 + 1).toNat = c.toNat := by omega
  rw [e1, e2, e3, e4, sw_table_succ]

/-! ## The maximum of the matrix -/

theorem foldl_max_ge {α : Type} (f : α → Int) (l : List α) (a : Int) :
    a ≤ l.foldl (fun acc x => max acc (f x)) a := by
  induction l generalizing a with
  | nil => exact le_refl a
  | cons x l ih => exact le_trans (le_max_left a (f x)) (ih (max a (f x)))

theorem foldl_max_ub {α : Type} (f : α → Int) (l : List α) (a : Int) (x : α) (hx : x ∈ l) :
    f x ≤ l.foldl (fun acc x => max acc (f x)) a := by
  induction l generalizing a with
  | nil => cases hx
  | cons y l ih =>
    rcases List.mem_cons.1 hx with e | hm
    · subst e
      exact le_trans (le_max_right a (f x)) (foldl_max_ge f l (max a (f x)))
    · exact ih (max a (f y)) hm

theorem foldl_max_wit {α : Type} (f : α → Int) (l : List α) (a : Int) :
    l.foldl (fun acc x => max acc (f x)) a = a
      ∨ ∃ x, x ∈ l ∧ l.foldl (fun acc x => max acc (f x)) a = f x := by
  induction l generalizing a with
  | nil => left; rfl
  | cons y l ih =>
    rcases ih (max a (f y)) with e | ⟨x, hx, e⟩
    · rcases max_choice a (f y) with e' | e'
      · left; rw [List.foldl_cons, e, e']
      · right; exact ⟨y, List.mem_cons_self _ _, by rw [List.foldl_cons, e, e']⟩
    · right; exact ⟨x, List.mem_cons_of_mem _ hx, e⟩

theorem foldl2_max_ge {α β : Type} (F : α → β → Int) (cols : List β) (rows : List α) (a : Int) :
    a ≤ rows.foldl (fun acc r => cols.foldl (fun acc c => max acc (F r c)) acc) a := by
  induction rows generalizing a with
  | nil => exact le_refl a
  | cons r rows ih => exact le_trans (foldl_max_ge (F r) cols a) (ih _)

theorem foldl2_max_ub {α β : Type} (F : α → β → Int) (cols : List β) (rows : List α) (a : Int)
    (r : α) (c : β) (hr : r ∈ rows) (hc : c ∈ cols) :
    F r c ≤ rows.foldl (fun acc r => cols.foldl (fun acc c => max acc (F r c)) acc) a := by
  induction rows generalizing a with
  | nil => cases hr
  | cons y rows ih =>
    rcases List.mem_cons.1 hr with e | hm
    · subst e
      exact le_trans (foldl_max_ub (F r) cols a c hc) (foldl2_max_ge F cols rows _)
    · exact ih _ hm

theorem foldl2_max_wit {α β : Type} (F : α → β → Int) (cols : List β) (rows : List α) (a : Int) :
    rows.foldl (fun acc r => cols.foldl (fun acc c => max acc (F r c)) acc) a = a
      ∨ ∃ r c, r ∈ rows ∧ c ∈ cols
          ∧ rows.foldl (fun acc r => cols.foldl (fun acc c => max acc (F r c)) acc) a = F r c := by
  induction rows generalizing a with
  | nil => left; rfl
  | cons y rows ih =>
    rcases ih (cols.foldl (fun acc c => max acc (F y c)) a) with e | ⟨r, c, hr, hc, e⟩
    · rcases foldl_max_wit (F y) cols a with e' | ⟨c, hc, e'⟩
      · left; rw [List.foldl_cons, e, e']
      · right; exact ⟨y, c, List.mem_cons_self _ _, hc, by rw [List.foldl_cons, e, e']⟩
    · right; exact ⟨r, c, List.mem_cons_of_mem _ hr, hc, e⟩

theorem sw_score_ub (V H : List Dihedral) (s g : Int) (r c : Nat)
    (hr : r < V.length) (hc : c < H.length) : sw_matrix V H s g r c ≤ sw_score V H s g :=
  foldl2_max_ub (sw_matrix V H s g) _ _ 0 r c (List.mem_range.2 hr) (List.mem_range.2 hc)

theorem sw_score_wit (V H : List Dihedral) (s g : Int) :
    sw_score V H s g = 0
      ∨ ∃ r c, r < V.length ∧ c < H.length ∧ sw_score V H s g = sw_matrix V H s g r c := by
  rcases foldl2_max_wit (sw_matrix V H s g) (List.range H.length) (List.range V.length) 0
    with e | ⟨r, c, hr, hc, e⟩
  · left; exact e
  · right; exact ⟨r, c, List.mem_range.1 hr, List.mem_range.1 hc, e⟩

theorem sw_score_nonneg (V H : List Dihedral) (s g : Int) : 0 ≤ sw_score V H s g :=
  foldl2_max_ge (sw_matrix V H s g) _ _ 0

/-- A value that bounds every entry of the matrix and is 0 or one of the entries is the
local-alignment score. -/
theorem eq_sw_score (V H : List Dihedral) (s g : Int) (x : Int)
    (hub : ∀ r c, r < V.length → c < H.length → sw_matrix V H s g r c ≤ x)
    (hwit : x = 0 ∨ ∃ r c, r < V.length ∧ c < H.length ∧ x = sw_matrix V H s g r c) :
    x = sw_score V H s g := by
  apply le_antisymm
  · rcases hwit with e | ⟨r, c, hr, hc, e⟩
    · rw [e]; exact sw_score_nonneg V H s g
    · rw [e]; exact sw_score_ub V H s g r c hr hc
  · rcases sw_score_wit V H s g with e | ⟨r, c, hr, hc, e⟩
    · rw [e]
      rcases hwit with e' | ⟨r, c, _, _, e'⟩
      · rw [e']
      · rw [e']; exact sw_matrix_nonneg V H s g r c
    · rw [e]; exact hub r c hr hc

/-! ## `align_one` on two sequences -/

theorem drop_append_step (l rest : List Dihedral) (k : Int) (h0 : 0 ≤ k) (hk : k < l.length) :
    l.drop k.toNat ++ rest
      = l.getD k.toNat { phi := 0, psi := 0 } :: (l.drop (k + 1).toNat ++ rest) := by
  have hlt : k.toNat < l.length := by omega
  have e : (k + 1).toNat = k.toNat + 1 := by omega
  rw [e, List.getD_eq_getElem l _ hlt, ← List.cons_append, List.getElem_cons_drop]

theorem listCtx_ok (s g : Int) (sr : Bool) (V H : List Dihedral) (sv : Int → List Dihedral)
    (restH : List Dihedral) (hV : V.length ≤ 512) (hH : H.length ≤ 512)
    (hsv : sr = true → ∀ k : Int, 0 ≤ k → k < V.length →
      sv k = V.getD k.toNat { phi := 0, psi := 0 } :: sv (k + 1)) :
    (listCtx s g sr V H sv restH).ok where
  m_nonneg := by simp [listCtx]
  m_le := by simp only [listCtx]; omega
  n_nonneg := by simp [listCtx]
  n_le := by simp only [listCtx]; omega
  sv_step := hsv
  sh_step := fun k h0 hk => drop_append_step H restH k h0 hk
  T_neg := fun r c h => Tz_neg V H s g r c h
  T_rec := fun r c hr _ hc _ => Tz_rec V H s g r c hr hc

/-- The score of a finished call is the local-alignment score. -/
theorem done_score (s g : Int) (sr : Bool) (V H : List Dihedral) (sv : Int → List Dihedral)
    (restH : List Dihedral) (st : State) (hD : Done (listCtx s g sr V H sv restH) st) :
    st.max_score = sw_score V H s g := by
  apply eq_sw_score
  · intro r c hr hc
    have := hD.max_ub r c (by omega) (by simp only [listCtx]; omega) (by omega)
      (by simp only [listCtx]; omega)
    simp only [listCtx] at this
    rw [Tz_eq_matrix V H s g r c (by omega) (by omega)] at this
    simpa using this
  · rcases hD.max_wit with e | ⟨r, c, hr0, hrm, hc0, hcn, e⟩
    · left; exact e
    · right
      simp only [listCtx] at hrm hcn e
      refine ⟨r.toNat, c.toNat, by omega, by omega, ?_⟩
      rw [e, Tz_eq_matrix V H s g r c hr0 hc0]

theorem align_one_read (st0 : State) (V H restV restH : List Dihedral) (s g : Int)
    (hV : V.length ≤ 512) (hH : H.length ≤ 512) :
    Done (listCtx s g true V H (fun k => V.drop k.toNat ++ restV) restH)
      (align_one st0 (V ++ restV) V.length (H ++ restH) H.length s g true) :=
  align_one_done
    (listCtx_ok s g true V H _ restH hV hH (fun _ k h0 hk => drop_append_step V restV k h0 hk))
    st0 (fun h => by simp [listCtx] at h)

theorem align_one_resident (st0 : State) (V H stream_ver restH : List Dihedral) (s g : Int)
    (hV : V.length ≤ 512) (hH : H.length ≤ 512)
    (hres : ∀ r : Int, 0 ≤ r → r < V.length →
      st0.seq_ver.get r = V.getD r.toNat { phi := 0, psi := 0 }) :
    Done (listCtx s g false V H (fun _ => stream_ver) restH)
      (align_one st0 stream_ver V.length (H ++ restH) H.length s g false) :=
  align_one_done
    (listCtx_ok s g false V H _ restH hV hH (fun h => by simp at h))
    st0 (fun _ r h0 hr => hres r h0 hr)

theorem resident_length (st : State) (m : Nat) : (resident st m).length = m := by
  simp [resident]

theorem resident_getD (st : State) (m : Nat) (r : Int) (h0 : 0 ≤ r) (hr : r < m) :
    st.seq_ver.get r = (resident st m).getD r.toNat { phi := 0, psi := 0 } := by
  have hlt : r.toNat < m := by omega
  have e : ((r.toNat : Nat) : Int) = r := by omega
  simp [resident, List.getD_eq_getElem?_getD, hlt, e]

theorem align_one_score_read (st0 : State) (V H restV restH : List Dihedral) (s g : Int)
    (hV : V.length ≤ 512) (hH : H.length ≤ 512) :
    (align_one st0 (V ++ restV) V.length (H ++ restH) H.length s g true).max_score
      = sw_score V H s g :=
  done_score s g true V H _ restH _ (align_one_read st0 V H restV restH s g hV hH)

theorem align_one_score_resident (st0 : State) (m : Nat) (H stream_ver restH : List Dihedral)
    (s g : Int) (hm : m ≤ 512) (hH : H.length ≤ 512) :
    (align_one st0 stream_ver m (H ++ restH) H.length s g false).max_score
      = sw_score (resident st0 m) H s g := by
  have h := align_one_resident st0 (resident st0 m) H stream_ver restH s g
    (by rw [resident_length]; exact hm) hH
    (fun r h0 hr => resident_getD st0 m r h0 (by rw [resident_length] at hr; exact hr))
  rw [resident_length] at h
  exact done_score s g false _ H _ restH _ h

theorem sw_score_nil_left (H : List Dihedral) (s g : Int) : sw_score [] H s g = 0 := rfl

theorem sw_score_nil_right (V : List Dihedral) (s g : Int) : sw_score V [] s g = 0 := by
  unfold sw_score
  simp only [List.length_nil, List.range_zero, List.foldl_nil]
  induction (List.range V.length) with
  | nil => rfl
  | cons x l ih => simp [ih]

theorem sw_score_of_empty (V H : List Dihedral) (s g : Int)
    (h0 : V.length = 0 ∨ H.length = 0) : sw_score V H s g = 0 := by
  rcases h0 with h | h
  · rw [List.length_eq_zero.1 h]; exact sw_score_nil_left H s g
  · rw [List.length_eq_zero.1 h]; exact sw_score_nil_right V s g

/-! ## Symmetry of the matrix -/

theorem sw_cell_swap (d l t : Int) (v h : Dihedral) (s g : Int) :
    sw_cell d l t v h s g = sw_cell d t l h v s g := by
  unfold sw_cell
  rw [dihedral_score_comm v h s, max_comm (toInt32 (l + g))]

theorem sw_table_transpose (A B : List Dihedral) (s g : Int) :
    ∀ r c, sw_table A B s g r c = sw_table B A s g c r := by
  intro r
  induction r with
  | zero => intro c; rw [sw_table_zero_left, sw_table_zero_right]
  | succ r ihr =>
    intro c
    induction c with
    | zero => rw [sw_table_zero_left, sw_table_zero_right]
    | succ c ihc =>
      rw [sw_table_succ, sw_table_succ, ihr c, ihr (c + 1), ihc, sw_cell_swap]

theorem sw_score_comm (A B : List Dihedral) (s g : Int) :
    sw_score A B s g = sw_score B A s g := by
  apply eq_sw_score
  · intro r c hr hc
    have := sw_score_ub A B s g c r hc hr
    unfold sw_matrix at *
    rw [sw_table_transpose]; exact this
  · rcases sw_score_wit A B s g with e | ⟨r, c, hr, hc, e⟩
    · left; exact e
    · right
      refine ⟨c, r, hc, hr, ?_⟩
      rw [e]; unfold sw_matrix; rw [sw_table_transpose]

/-! ## Non-negativity -/

theorem cs_max_score_mono (s g : Int) (sr : Bool) (h i j : Int) (st : State) :
    st.max_score ≤ (cell_step s g sr h i j st).max_score := by
  rw [cs_max_score]
  split_ifs with hc
  · exact le_of_lt hc.2
  · exact le_refl _

theorem col_loop_max_mono (s g : Int) (sr : Bool) (h i : Int) :
    ∀ (k : Nat) (j : Int) (st : State), st.max_score ≤ (col_loop s g sr h i k j st).max_score := by
  intro k
  induction k with
  | zero => intro j st; exact le_refl _
  | succ k ih =>
    intro j st
    unfold col_loop
    exact le_trans (cs_max_score_mono s g sr h i j st) (ih _ _)

theorem diag_loop_max_mono (s g : Int) (sr : Bool) (orig h : Int) :
    ∀ (k : Nat) (i : Int) (st : State),
      st.max_score ≤ (diag_loop s g sr orig h k i st).max_score := by
  intro k
  induction k with
  | zero => intro i st; exact le_refl _
  | succ k ih =>
    intro i st
    unfold diag_loop
    simp only []
    split_ifs
    · exact col_loop_max_mono s g sr h i _ _ st
    · exact le_trans (col_loop_max_mono s g sr h i _ _ st) (ih _ _)

theorem hor_window_loop_max_mono (s g : Int) (sr : Bool) (orig : Int) :
    ∀ (k : Nat) (h : Int) (st : State),
      st.max_score ≤ (hor_window_loop s g sr orig k h st).max_score := by
  intro k
  induction k with
  | zero => intro h st; exact le_refl _
  | succ k ih =>
    intro h st
    unfold hor_window_loop
    simp only []
    split_ifs
    · exact diag_loop_max_mono s g sr orig h _ _ st
    · exact le_trans (diag_loop_max_mono s g sr orig h _ _ st) (ih _ _)

theorem align_one_nonneg (st0 : State) (stream_ver : List Dihedral) (stream_size_ver : Int)
    (stream_hor : List Dihedral) (stream_size_hor : Int) (s g : Int) (sr : Bool) :
    0 ≤ (align_one st0 stream_ver stream_size_ver stream_hor stream_size_hor s g sr).max_score := by
  unfold align_one
  exact hor_window_loop_max_mono s g sr stream_size_ver _ 0 _

theorem align_loop_nonneg (junk : Nat → State) (stream_size_ver num_streams_hor s g : Int) :
    ∀ (k : Nat) (i : Int) (sr : Bool) (ps : AlignPorts),
      (∀ x ∈ ps.out_scores, 0 ≤ x.data) →
      ∀ x ∈ (align_loop junk stream_size_ver num_streams_hor s g k i sr ps).out_scores,
        0 ≤ x.data := by
  intro k
  induction k with
  | zero => intro i sr ps h; exact h
  | succ k ih =>
    intro i sr ps h
    unfold align_loop
    apply ih
    intro x hx
    unfold align_body at hx
    rcases List.mem_append.1 hx with hx | hx
    · exact h x hx
    · rw [List.mem_singleton] at hx
      subst hx
      exact align_one_nonneg _ _ _ _ _ _ _ _

/-! ## The loop of `align` -/

theorem done_stream_hor (s g : Int) (sr : Bool) (V H : List Dihedral) (sv : Int → List Dihedral)
    (restH : List Dihedral) (st : State) (hD : Done (listCtx s g sr V H sv restH) st) :
    st.stream_hor = restH := by
  have h := hD.stream_hor
  simp only [listCtx] at h
  rw [h]
  simp

theorem done_seq_ver (s g : Int) (sr : Bool) (V H : List Dihedral) (sv : Int → List Dihedral)
    (restH : List Dihedral) (st : State) (hD : Done (listCtx s g sr V H sv restH) st) :
    ∀ r : Int, 0 ≤ r → r < V.length →
      st.seq_ver.get r = V.getD r.toNat { phi := 0, psi := 0 } := by
  intro r h0 hr
  exact hD.seq_ver r h0 (by simp only [listCtx]; exact hr)

/-- One call of `align_one` inside `align`, with or without reloading the vertical buffer. -/
theorem align_one_either (st0 : State) (V H restH stream_ver : List Dihedral) (s g : Int)
    (sr : Bool) (hV : V.length ≤ 512) (hH : H.length ≤ 512)
    (h1 : sr = true → ∃ restV, stream_ver = V ++ restV)
    (h2 : sr = false → ∀ r : Int, 0 ≤ r → r < V.length →
      st0.seq_ver.get r = V.getD r.toNat { phi := 0, psi := 0 }) :
    (align_one st0 stream_ver V.length (H ++ restH) H.length s g sr).max_score
        = sw_score V H s g
      ∧ (align_one st0 stream_ver V.length (H ++ restH) H.length s g sr).stream_hor = restH
      ∧ ∀ r : Int, 0 ≤ r → r < V.length →
          (align_one st0 stream_ver V.length (H ++ restH) H.length s g sr).seq_ver.get r
            = V.getD r.toNat { phi := 0, psi := 0 } := by
  cases sr with
  | true =>
    obtain ⟨restV, e⟩ := h1 rfl
    subst e
    have hD := align_one_read st0 V H restV restH s g hV hH
    exact ⟨done_score _ _ _ _ _ _ _ _ hD, done_stream_hor _ _ _ _ _ _ _ _ hD,
      done_seq_ver _ _ _ _ _ _ _ _ hD⟩
  | false =>
    have hD := align_one_resident st0 V H stream_ver restH s g hV hH (h2 rfl)
    exact ⟨done_score _ _ _ _ _ _ _ _ hD, done_stream_hor _ _ _ _ _ _ _ _ hD,
      done_seq_ver _ _ _ _ _ _ _ _ hD⟩

/-- One iteration of the loop of `align` on the next horizontal sequence `H`. -/
theorem align_body_spec (junk : Nat → State) (V H : List Dihedral) (num s g : Int)
    (i : Int) (sr : Bool) (ps : AlignPorts) (restH : List Dihedral) (restS : List Int)
    (hV : V.length ≤ 512) (hH : H.length ≤ 512)
    (h1 : sr = true → ∃ restV, ps.stream_ver = V ++ restV)
    (h2 : sr = false → ∀ r : Int, 0 ≤ r → r < V.length →
      ps.statics.seq_ver.get r = V.getD r.toNat { phi := 0, psi := 0 })
    (h3 : ps.streams_hor = H ++ restH)
    (h4 : ps.stream_sizes_hor = (H.length : Int) :: restS) :
    (∃ x, (align_body junk V.length num s g i sr ps).out_scores = ps.out_scores ++ [x]
        ∧ x.data = sw_score V H s g)
      ∧ (align_body junk V.length num s g i sr ps).streams_hor = restH
      ∧ (align_body junk V.length num s g i sr ps).stream_sizes_hor = restS
      ∧ ∀ r : Int, 0 ≤ r → r < V.length →
          (align_body junk V.length num s g i sr ps).statics.seq_ver.get r
            = V.getD r.toNat { phi := 0, psi := 0 } := by
  have hA := align_one_either
    { junk i.toNat with seq_ver := ps.statics.seq_ver, seq_hor := ps.statics.seq_hor }
    V H restH ps.stream_ver s g sr hV hH h1 h2
  unfold align_body
  simp only []
  rw [h3, h4]
  obtain ⟨hs, hh, hv⟩ := hA
  exact ⟨⟨_, rfl, hs⟩, hh, rfl, hv⟩

theorem align_loop_scores (junk : Nat → State) (V : List Dihedral) (num s g : Int)
    (hV : V.length ≤ 512) :
    ∀ (Hs : List (List Dihedral)) (i : Int) (sr : Bool) (ps : AlignPorts)
      (restH : List Dihedral) (restS : List Int),
      (∀ H ∈ Hs, H.length ≤ 512) →
      (sr = true → ∃ restV, ps.stream_ver = V ++ restV) →
      (sr = false → ∀ r : Int, 0 ≤ r → r < V.length →
        ps.statics.seq_ver.get r = V.getD r.toNat { phi := 0, psi := 0 }) →
      ps.streams_hor = Hs.flatten ++ restH →
      ps.stream_sizes_hor = Hs.map (fun H => (H.length : Int)) ++ restS →
      ∃ written,
        (align_loop junk V.length num s g Hs.length i sr ps).out_scores
            = ps.out_scores ++ written
          ∧ written.map (fun x => x.data) = Hs.map (fun H => sw_score V H s g) := by
  intro Hs
  induction Hs with
  | nil =>
    intro i sr ps restH restS _ _ _ _ _
    exact ⟨[], by simp [align_loop], rfl⟩
  | cons H Hs ih =>
    intro i sr ps restH restS hH h1 h2 h3 h4
    rw [List.flatten_cons, List.append_assoc] at h3
    rw [List.map_cons, List.cons_append] at h4
    obtain ⟨⟨x, ex, hx⟩, hh, hsz, hv⟩ := align_body_spec junk V H num s g i sr ps
      (Hs.flatten ++ restH) (Hs.map (fun H => (H.length : Int)) ++ restS) hV
      (hH H (List.mem_cons_self _ _)) h1 h2 h3 h4
    rw [List.length_cons]
    unfold align_loop
    obtain ⟨written, e1, e2⟩ := ih (i + 1) false (align_body junk V.length num s g i sr ps)
      restH restS (fun H' hH' => hH H' (List.mem_cons_of_mem _ hH'))
      (fun h => by cases h) (fun _ => hv) hh hsz
    refine ⟨x :: written, ?_, ?_⟩
    · rw [e1, ex, List.append_assoc]; rfl
    · rw [List.map_cons, List.map_cons, e2, hx]

theorem align_scores_aux (junk : Nat → State) (statics : State) (V restV : List Dihedral)
    (Hs : List (List Dihedral)) (restH : List Dihedral) (restS : List Int) (s g : Int)
    (out : List axi_out_score_type) (stream_ver streams_hor : List Dihedral)
    (stream_sizes_hor : List Int) (size_ver num : Int)
    (hV : V.length ≤ 512) (hHs : ∀ H ∈ Hs, H.length ≤ 512)
    (e1 : stream_ver = V ++ restV) (e2 : size_ver = V.length)
    (e3 : streams_hor = Hs.flatten ++ restH)
    (e4 : stream_sizes_hor = Hs.map (fun H => (H.length : Int)) ++ restS)
    (e5 : num = Hs.length) :
    ∃ written,
      (align junk statics stream_ver size_ver streams_hor stream_sizes_hor num s g out).out_scores
        = out ++ written
      ∧ written.map (fun x => x.data) = Hs.map (fun H => sw_score V H s g) := by
  subst e1 e2 e3 e4 e5
  unfold align
  have e : ((Hs.length : Int)).toNat = Hs.length := by omega
  rw [e]
  exact align_loop_scores junk V Hs.length s g hV Hs 0 true _ restH restS hHs
    (fun _ => ⟨restV, rfl⟩) (fun h => by cases h) rfl rfl

/-! ## The all-pairs driver -/

theorem flatten_length_le (S : List (List Dihedral)) (hlen : ∀ V ∈ S, V.length ≤ 512) :
    S.flatten.length ≤ 512 * S.length := by
  induction S with
  | nil => simp
  | cons V S ih =>
    have h1 := hlen V (List.mem_cons_self _ _)
    have h2 := ih (fun W hW => hlen W (List.mem_cons_of_mem _ hW))
    rw [List.flatten_cons, List.length_append, List.length_cons]
    omega

theorem fill_stream_mid {α : Type} (a b c : List α) (x y : Int)
    (hx : x = a.length) (hy : y = a.length + b.length) :
    fill_stream (a ++ (b ++ c)) x y = b := by
  subst hx hy
  unfold fill_stream
  have e1 : ((a.length : Int)).toNat = a.length := by omega
  have e2 : ((a.length : Int) + (b.length : Int)).toNat - a.length = b.length := by omega
  rw [e1, e2, List.drop_left, List.take_left]

theorem fill_stream_end {α : Type} (a b : List α) (x y : Int)
    (hx : x = a.length) (hy : y = a.length + b.length) :
    fill_stream (a ++ b) x y = b := by
  have := fill_stream_mid a b [] x y hx hy
  rw [List.append_nil] at this
  exact this

theorem main_body_spec (junk : Nat → Nat → State) (P Q : List (List Dihedral))
    (V : List Dihedral) (s g : Int) (i : Int) (ms : MainState)
    (hN : (P ++ V :: Q).length ≤ 4294967296)
    (hlen : ∀ W ∈ P ++ V :: Q, W.length ≤ 512)
    (hi : i = P.length) (hb : ms.ver_begin = P.flatten.length) :
    (main_body junk ((P ++ V :: Q).map (fun W => (W.length : Int))) (P ++ V :: Q).flatten
        s g i ms).ver_begin = (P ++ [V]).flatten.length
      ∧ ∃ written,
          (main_body junk ((P ++ V :: Q).map (fun W => (W.length : Int))) (P ++ V :: Q).flatten
            s g i ms).out_scores = ms.out_scores ++ written
          ∧ written.map (fun x => x.data) = Q.map (fun H => sw_score V H s g) := by
  have htot := flatten_length_le (P ++ V :: Q) hlen
  have hV : V.length ≤ 512 := hlen V (by simp)
  have hQ : ∀ H ∈ Q, H.length ≤ 512 := fun H hH => hlen H (by simp [hH])
  have hfl : (P ++ V :: Q).flatten = P.flatten ++ (V ++ Q.flatten) := by simp
  have hfl' : (P ++ V :: Q).flatten = (P.flatten ++ V) ++ Q.flatten := by simp
  have hlenfl : (P ++ V :: Q).flatten.length = P.flatten.length + V.length + Q.flatten.length := by
    rw [hfl']; simp only [List.length_append]
  have hlens : ((P ++ V :: Q).map (fun W => (W.length : Int)))
      = (P.map (fun W => (W.length : Int)) ++ [(V.length : Int)])
          ++ Q.map (fun W => (W.length : Int)) := by simp
  have hgetD : ((P ++ V :: Q).map (fun W => (W.length : Int))).getD i.toNat 0 = V.length := by
    have e : i.toNat = (P.map (fun W => (W.length : Int))).length := by simp; omega
    rw [List.map_append, List.map_cons, e, List.getD_eq_getElem?_getD,
      List.getElem?_append_right (le_refl _)]
    simp
  have hend : toSizeT (ms.ver_begin + V.length) = P.flatten.length + V.length := by
    rw [hb]; unfold toSizeT; omega
  have hNl : (P ++ V :: Q).length = P.length + 1 + Q.length := by simp; omega
  unfold main_body
  simp only []
  rw [hgetD, hend]
  have hsv : fill_stream (P ++ V :: Q).flatten ms.ver_begin (P.flatten.length + V.length) = V := by
    rw [hfl]; exact fill_stream_mid _ _ _ _ _ hb rfl
  have hsh : fill_stream (P ++ V :: Q).flatten (P.flatten.length + V.length)
      ((P ++ V :: Q).flatten.length) = Q.flatten := by
    rw [hlenfl, hfl']
    exact fill_stream_end _ _ _ _ (by simp) (by simp)
  have hss : fill_stream ((P ++ V :: Q).map (fun W => (W.length : Int))) (i + 1)
      (((P ++ V :: Q).map (fun W => (W.length : Int))).length)
        = Q.map (fun W => (W.length : Int)) := by
    rw [hlens]
    exact fill_stream_end _ _ _ _ (by simp; omega) (by simp; omega)
  rw [hsv, hsh, hss]
  refine ⟨by simp, ?_⟩
  exact align_scores_aux (junk i.toNat) ms.statics V [] Q [] [] s g ms.out_scores _ _ _ _ _
    hV hQ (by simp) (by apply toInt16_of_range <;> omega) (by simp) (by simp)
    (by rw [List.length_map]; unfold toUInt32; omega)

theorem main_loop_spec (junk : Nat → Nat → State) (s g : Int) :
    ∀ (k : Nat) (Q P : List (List Dihedral)) (V : List Dihedral) (i : Int) (ms : MainState),
      Q.length = k → (P ++ V :: Q).length ≤ 4294967296 →
      (∀ W ∈ P ++ V :: Q, W.length ≤ 512) →
      i = P.length → ms.ver_begin = P.flatten.length →
      ∃ written,
        (main_loop junk ((P ++ V :: Q).map (fun W => (W.length : Int))) (P ++ V :: Q).flatten
            s g k i ms).out_scores = ms.out_scores ++ written
          ∧ written.map (fun x => x.data) = tri_scores s g (V :: Q) := by
  intro k
  induction k with
  | zero =>
    intro Q P V i ms hQ _ _ _ _
    have : Q = [] := List.length_eq_zero.1 hQ
    subst this
    exact ⟨[], by simp [main_loop], by simp [tri_scores]⟩
  | succ k ih =>
    intro Q P V i ms hQ hN hlen hi hb
    obtain ⟨hvb, w1, e1, d1⟩ := main_body_spec junk P Q V s g i ms hN hlen hi hb
    cases Q with
    | nil => simp at hQ
    | cons W Q' =>
      have hS : P ++ V :: W :: Q' = (P ++ [V]) ++ W :: Q' := by simp
      unfold main_loop
      rw [hS] at hN hlen e1 hvb ⊢
      obtain ⟨w2, e2, d2⟩ := ih Q' (P ++ [V]) W (i + 1) _ (by simpa using hQ) hN hlen
        (by simp; omega) hvb
      refine ⟨w1 ++ w2, ?_, ?_⟩
      · rw [e2, e1, List.append_assoc]
      · rw [List.map_append, d1, d2]; rfl

theorem map_range_getD {α β : Type} (l : List α) (d : α) (f : α → β) :
    (List.range l.length).map (fun t => f (l.getD t d)) = l.map f := by
  apply List.ext_getElem
  · simp
  · intro n h1 h2
    simp only [List.length_map, List.length_range] at h1
    simp [List.getD_eq_getElem?_getD, h1]

theorem pair_scores_cons (V W : List Dihedral) (rest : List (List Dihedral)) (s g : Int) :
    pair_scores (V :: W :: rest) s g
      = (W :: rest).map (fun H => sw_score V H s g) :: pair_scores (W :: rest) s g := by
  unfold pair_scores
  simp only [List.length_cons, Nat.add_sub_cancel]
  rw [List.range_succ_eq_map, List.map_cons, List.map_map]
  congr 1
  · have := map_range_getD (W :: rest) [] (fun H => sw_score V H s g)
    simp only [List.length_cons] at this
    rw [← this]
    apply List.map_congr_left
    intro t _
    simp only [Nat.sub_zero, List.getD_cons_zero]
    have e : 0 + 1 + t = t + 1 := by omega
    rw [e, List.getD_cons_succ]
  · apply List.map_congr_left
    intro i _
    simp only [Function.comp, Nat.succ_eq_add_one, List.getD_cons_succ]
    have e1 : rest.length + 1 - (i + 1) = rest.length - i := by omega
    rw [e1]
    apply List.map_congr_left
    intro t _
    have e2 : i + 1 + 1 + t = (i + 1 + t) + 1 := by omega
    rw [e2, List.getD_cons_succ]

theorem pair_scores_flatten (s g : Int) :
    ∀ S : List (List Dihedral), (pair_scores S s g).flatten = tri_scores s g S := by
  intro S
  induction S with
  | nil => rfl
  | cons V rest ih =>
    cases rest with
    | nil => rfl
    | cons W rest =>
      rw [pair_scores_cons, List.flatten_cons, ih]
      rfl

theorem tri_scores_length (s g : Int) :
    ∀ S : List (List Dihedral), 2 * (tri_scores s g S).length + S.length = S.length * S.length := by
  intro S
  induction S with
  | nil => rfl
  | cons V rest ih =>
    simp only [tri_scores, List.length_append, List.length_map, List.length_cons]
    nlinarith

theorem tri_scores_count (s g : Int) (S : List (List Dihedral)) :
    (tri_scores s g S).length = S.length * (S.length - 1) / 2 := by
  have h := tri_scores_length s g S
  have e : S.length * (S.length - 1) = 2 * (tri_scores s g S).length := by
    cases hS : S.length with
    | zero => rw [hS] at h; omega
    | succ n =>
      rw [hS] at h
      simp only [Nat.add_sub_cancel]
      nlinarith
  rw [e]; omega

theorem main_scores (junk : Nat → Nat → State) (statics : State) (S : List (List Dihedral))
    (s g : Int) (hN1 : 1 ≤ S.length) (hN : S.length ≤ 4294967296)
    (hlen : ∀ V ∈ S, V.length ≤ 512) :
    (main junk statics (S.map (fun W => (W.length : Int))) S.flatten s g).map (fun x => x.data)
      = tri_scores s g S := by
  cases S with
  | nil => simp at hN1
  | cons V Q =>
    unfold main
    have e : (toSizeT (((List.map (fun W => (W.length : Int)) (V :: Q)).length : Int) - 1)).toNat
        = Q.length := by
      simp only [List.length_map, List.length_cons] at hN ⊢
      unfold toSizeT
      omega
    rw [e]
    obtain ⟨written, e1, e2⟩ := main_loop_spec junk s g Q.length Q [] V 0
      { ver_begin := 0, statics := statics, out_scores := [] } rfl (by simpa using hN)
      (by simpa using hlen) rfl rfl
    simp only [List.nil_append] at e1
    rw [e1, e2]

/-! ## The recurrence without wrap-around -/

theorem sq_dist_range (a b : Dihedral) : 0 ≤ sq_dist a b ∧ sq_dist a b ≤ 2147483648 := by
  have h1 := sq_le_of_range (angle_abs_diff_range a.phi b.phi).1 (angle_abs_diff_range a.phi b.phi).2
  have h2 := sq_le_of_range (angle_abs_diff_range a.psi b.psi).1 (angle_abs_diff_range a.psi b.psi).2
  unfold sq_dist; omega

theorem sq_dist_self (a : Dihedral) : sq_dist a a = 0 := by
  have h1 : angle_abs_diff a.phi a.phi = 0 := by rw [angle_abs_diff_eq]; omega
  have h2 : angle_abs_diff a.psi a.psi = 0 := by rw [angle_abs_diff_eq]; omega
  unfold sq_dist; rw [h1, h2]; rfl

theorem dihedral_score_sq_dist (a b : Dihedral) (s : Int) (h0 : 0 ≤ s) (h1 : s ≤ 2147483647) :
    dihedral_score a b s = s - sq_dist a b :=
  dihedral_score_exact a b s h0 h1

theorem sw_cell_exact (d l t : Int) (v h : Dihedral) (s g B : Int)
    (hs0 : 0 ≤ s) (hd0 : 0 ≤ d) (hdB : d + s ≤ B) (hl0 : 0 ≤ l) (hlB : l ≤ B)
    (ht0 : 0 ≤ t) (htB : t ≤ B) (hB : B ≤ 2147483647)
    (hg1 : -2147483648 ≤ g) (hg2 : g ≤ 0) :
    sw_cell d l t v h s g = max 0 (max (d + (s - sq_dist v h)) (max (l + g) (t + g))) := by
  have hq := sq_dist_range v h
  unfold sw_cell
  rw [dihedral_score_sq_dist v h s hs0 (by omega),
    toInt32_of_range (x := d + (s - sq_dist v h)) (by omega) (by omega),
    toInt32_of_range (x := l + g) (by omega) (by omega),
    toInt32_of_range (x := t + g) (by omega) (by omega)]

theorem cast_mul_le_of_le {p q : Nat} {s : Int} (hpq : p ≤ q) (hs0 : 0 ≤ s) :
    (p : Int) * s ≤ (q : Int) * s :=
  mul_le_mul_of_nonneg_right (by exact_mod_cast hpq) hs0

theorem sw_table_bounds (V H : List Dihedral) (s g : Int) (K : Nat)
    (hs0 : 0 ≤ s) (hKs : (K : Int) * s ≤ 2147483647)
    (hg1 : -2147483648 ≤ g) (hg2 : g ≤ 0) :
    ∀ r c, min r c ≤ K →
      0 ≤ sw_table V H s g r c ∧ sw_table V H s g r c ≤ ((min r c : Nat) : Int) * s := by
  intro r
  induction r with
  | zero =>
    intro c _
    rw [sw_table_zero_left]; simp
  | succ r ihr =>
    intro c
    induction c with
    | zero =>
      intro _
      rw [sw_table_zero_right]; simp
    | succ c ihc =>
      intro hK
      have hx := ihr c (by omega)
      have ht := ihr (c + 1) (by omega)
      have hl := ihc (by omega)
      have e : ((min (r + 1) (c + 1) : Nat) : Int) * s = ((min r c : Nat) : Int) * s + s := by
        have : min (r + 1) (c + 1) = min r c + 1 := by omega
        rw [this]; push_cast; ring
      have h1 : ((min r (c + 1) : Nat) : Int) * s ≤ ((min (r + 1) (c + 1) : Nat) : Int) * s :=
        cast_mul_le_of_le (by omega) hs0
      have h2 : ((min (r + 1) c : Nat) : Int) * s ≤ ((min (r + 1) (c + 1) : Nat) : Int) * s :=
        cast_mul_le_of_le (by omega) hs0
      have h3 : ((min (r + 1) (c + 1) : Nat) : Int) * s ≤ (K : Int) * s :=
        cast_mul_le_of_le hK hs0
      have hq := sq_dist_range (V.getD r { phi := 0, psi := 0 }) (H.getD c { phi := 0, psi := 0 })
      rw [sw_table_succ, sw_cell_exact _ _ _ _ _ s g (((min (r + 1) (c + 1) : Nat) : Int) * s)
        hs0 hx.1 (by omega) hl.1 (by omega) ht.1 (by omega) (by omega) hg1 hg2]
      omega

theorem sw_table_succ_exact (V H : List Dihedral) (s g : Int) (K : Nat)
    (hs0 : 0 ≤ s) (hKs : (K : Int) * s ≤ 2147483647)
    (hg1 : -2147483648 ≤ g) (hg2 : g ≤ 0) (r c : Nat) (hK : min (r + 1) (c + 1) ≤ K) :
    sw_table V H s g (r + 1) (c + 1)
      = max 0 (max (sw_table V H s g r c
            + (s - sq_dist (V.getD r { phi := 0, psi := 0 }) (H.getD c { phi := 0, psi := 0 })))
          (max (sw_table V H s g (r + 1) c + g) (sw_table V H s g r (c + 1) + g))) := by
  have hb := sw_table_bounds V H s g K hs0 hKs hg1 hg2
  have hx := hb r c (by omega)
  have ht := hb r (c + 1) (by omega)
  have hl := hb (r + 1) c (by omega)
  have e : ((min (r + 1) (c + 1) : Nat) : Int) * s = ((min r c : Nat) : Int) * s + s := by
    have : min (r + 1) (c + 1) = min r c + 1 := by omega
    rw [this]; push_cast; ring
  have h1 : ((min r (c + 1) : Nat) : Int) * s ≤ ((min (r + 1) (c + 1) : Nat) : Int) * s :=
    cast_mul_le_of_le (by omega) hs0
  have h2 : ((min (r + 1) c : Nat) : Int) * s ≤ ((min (r + 1) (c + 1) : Nat) : Int) * s :=
    cast_mul_le_of_le (by omega) hs0
  have h3 : ((min (r + 1) (c + 1) : Nat) : Int) * s ≤ (K : Int) * s :=
    cast_mul_le_of_le hK hs0
  rw [sw_table_succ]
  exact sw_cell_exact _ _ _ _ _ s g (((min (r + 1) (c + 1) : Nat) : Int) * s)
    hs0 hx.1 (by omega) hl.1 (by omega) ht.1 (by omega) (by omega) hg1 hg2

/-- Without wrap-around, a larger scoring offset gives larger entries. -/
theorem sw_table_mono (V H : List Dihedral) (s s' g : Int) (K : Nat)
    (hs0 : 0 ≤ s) (hss : s ≤ s') (hKs : (K : Int) * s' ≤ 2147483647)
    (hg1 : -2147483648 ≤ g) (hg2 : g ≤ 0) :
    ∀ r c, min r c ≤ K → sw_table V H s g r c ≤ sw_table V H s' g r c := by
  have hKs0 : (K : Int) * s ≤ 2147483647 :=
    le_trans (mul_le_mul_of_nonneg_left hss (by exact_mod_cast Nat.zero_le K)) hKs
  intro r
  induction r with
  | zero => intro c _; exact le_refl _
  | succ r ihr =>
    intro c
    induction c with
    | zero => intro _; rw [sw_table_zero_right, sw_table_zero_right]
    | succ c ihc =>
      intro hK
      have hx := ihr c (by omega)
      have ht := ihr (c + 1) (by omega)
      have hl := ihc (by omega)
      rw [sw_table_succ_exact V H s g K hs0 hKs0 hg1 hg2 r c hK,
        sw_table_succ_exact V H s' g K (by omega) hKs hg1 hg2 r c hK]
      omega

theorem sw_score_mono (V H : List Dihedral) (s s' g : Int)
    (hs0 : 0 ≤ s) (hss : s ≤ s') (hKs : ((min V.length H.length : Nat) : Int) * s' ≤ 2147483647)
    (hg1 : -2147483648 ≤ g) (hg2 : g ≤ 0) :
    sw_score V H s g ≤ sw_score V H s' g := by
  rcases sw_score_wit V H s g with e | ⟨r, c, hr, hc, e⟩
  · rw [e]; exact sw_score_nonneg V H s' g
  · rw [e]
    refine le_trans ?_ (sw_score_ub V H s' g r c hr hc)
    exact sw_table_mono V H s s' g _ hs0 hss hKs hg1 hg2 (r + 1) (c + 1) (by omega)

/-- Without wrap-around, the diagonal of the matrix of a sequence against itself grows by
the scoring offset at every step. -/
theorem sw_table_diag (S : List Dihedral) (s g : Int)
    (hs0 : 0 ≤ s) (hKs : (S.length : Int) * s ≤ 2147483647)
    (hg1 : -2147483648 ≤ g) (hg2 : g ≤ 0) :
    ∀ k, k ≤ S.length → (k : Int) * s ≤ sw_table S S s g k k := by
  intro k
  induction k with
  | zero => intro _; rw [sw_table_zero_left]; simp
  | succ k ih =>
    intro hk
    have h := ih (by omega)
    rw [sw_table_succ_exact S S s g S.length hs0 hKs hg1 hg2 k k (by omega), sq_dist_self]
    have e : ((k + 1 : Nat) : Int) * s = (k : Int) * s + s := by push_cast; ring
    omega

theorem sw_score_self (S : List Dihedral) (s g : Int)
    (hs0 : 0 ≤ s) (hKs : (S.length : Int) * s ≤ 2147483647)
    (hg1 : -2147483648 ≤ g) (hg2 : g ≤ 0) :
    (S.length : Int) * s ≤ sw_score S S s g := by
  cases hS : S.length with
  | zero => simp; exact sw_score_nonneg S S s g
  | succ n =>
    have h := sw_table_diag S s g hs0 hKs hg1 hg2 (n + 1) (by omega)
    exact le_trans h (sw_score_ub S S s g n n (by omega) (by omega))

/-! ## The claims -/

theorem align_one_score (st0 : State) (V H : List Dihedral) (s g : Int)
    (hV : V.length ≤ 512) (hH : H.length ≤ 512) :
    (align_one st0 V V.length H H.length s g true).max_score = sw_score V H s g := by
  have h := align_one_score_read st0 V H [] [] s g hV hH
  simp only [List.append_nil] at h
  exact h

/-- C1: for sequences `V` and `H` of at most 512 elements at the front of the two
streams, `align_one` called with `should_read_ver_stream = true` returns the maximum of
the textbook matrix `M` over all cells (0 when there is no cell), whatever the initial
contents `st0` of its buffers and registers: the returned score is `sw_score V H s g`,
which bounds every `M[r, c]` and is 0 or one of the entries. -/
theorem align_one_refines_recurrence (st0 : State) (V H restV restH : List Dihedral)
    (s g : Int) (hV : V.length ≤ 512) (hH : H.length ≤ 512) :
    (align_one st0 (V ++ restV) V.length (H ++ restH) H.length s g true).max_score
        = sw_score V H s g
      ∧ (∀ r c, r < V.length → c < H.length → sw_matrix V H s g r c ≤ sw_score V H s g)
      ∧ (sw_score V H s g = 0
          ∨ ∃ r c, r < V.length ∧ c < H.length ∧ sw_score V H s g = sw_matrix V H s g r c) :=
  ⟨align_one_score_read st0 V H restV restH s g hV hH,
    fun r c hr hc => sw_score_ub V H s g r c hr hc, sw_score_wit V H s g⟩

theorem align_one_refines_recurrence_witness :
    ([⟨10, 20⟩, ⟨30, 40⟩] : List Dihedral).length ≤ 512
      ∧ ([⟨10, 20⟩, ⟨30, 40⟩] : List Dihedral).length ≤ 512
      ∧ (align_one sim_state ([⟨10, 20⟩, ⟨30, 40⟩] ++ [])
            ([⟨10, 20⟩, ⟨30, 40⟩] : List Dihedral).length ([⟨10, 20⟩, ⟨30, 40⟩] ++ [⟨7, 7⟩])
            ([⟨10, 20⟩, ⟨30, 40⟩] : List Dihedral).length 10000 (-1000) true).max_score
          = 20000 :=
  ⟨by decide, by decide,
    (align_one_refines_recurrence sim_state [⟨10, 20⟩, ⟨30, 40⟩] [⟨10, 20⟩, ⟨30, 40⟩] []
      [⟨7, 7⟩] 10000 (-1000) (by decide) (by decide)).1.trans (by decide)⟩

/-- C8: if the vertical or the horizontal sequence is empty (the other one having at
most 512 elements), `align_one` returns 0, for every scoring offset and gap penalty and
whether or not `should_read_ver_stream` is set. -/
theorem align_one_empty (st0 : State) (V H restV restH : List Dihedral) (s g : Int)
    (sr : Bool) (hV : V.length ≤ 512) (hH : H.length ≤ 512)
    (h0 : V.length = 0 ∨ H.length = 0) :
    (align_one st0 (V ++ restV) V.length (H ++ restH) H.length s g sr).max_score = 0 := by
  cases sr with
  | true =>
    rw [align_one_score_read st0 V H restV restH s g hV hH]
    exact sw_score_of_empty V H s g h0
  | false =>
    rw [align_one_score_resident st0 V.length H (V ++ restV) restH s g hV hH]
    exact sw_score_of_empty _ H s g (by rw [resident_length]; exact h0)

theorem align_one_empty_witness :
    ([⟨1, 2⟩, ⟨3, 4⟩] : List Dihedral).length ≤ 512
      ∧ ([] : List Dihedral).length ≤ 512
      ∧ (([⟨1, 2⟩, ⟨3, 4⟩] : List Dihedral).length = 0 ∨ ([] : List Dihedral).length = 0)
      ∧ (align_one sim_state ([⟨1, 2⟩, ⟨3, 4⟩] ++ [])
            ([⟨1, 2⟩, ⟨3, 4⟩] : List Dihedral).length ([] ++ [⟨1, 2⟩])
            ([] : List Dihedral).length 1000 (-1) false).max_score = 0 :=
  ⟨by decide, by decide, by decide,
    align_one_empty sim_state [⟨1, 2⟩, ⟨3, 4⟩] [] [] [⟨1, 2⟩] 1000 (-1) false
      (by decide) (by decide) (by decide)⟩

/-- C6: for sequences `A` and `B` of at most 512 elements, `align_one` with `A`
vertical and `B` horizontal returns the same score as with `B` vertical and `A`
horizontal (each call loading its vertical sequence, from any initial buffer contents);
and `dihedral_score` is symmetric in its two dihedrals. -/
theorem align_one_symmetric (stA stB : State) (A B : List Dihedral) (s g : Int)
    (hA : A.length ≤ 512) (hB : B.length ≤ 512) :
    (align_one stA A A.length B B.length s g true).max_score
        = (align_one stB B B.length A A.length s g true).max_score
      ∧ ∀ (a b : Dihedral) (o : Int), dihedral_score a b o = dihedral_score b a o := by
  refine ⟨?_, fun a b o => dihedral_score_comm a b o⟩
  rw [align_one_score stA A B s g hA hB, align_one_score stB B A s g hB hA]
  exact sw_score_comm A B s g

theorem align_one_symmetric_witness :
    ([⟨10, 20⟩, ⟨30, 40⟩] : List Dihedral).length ≤ 512
      ∧ ([⟨30, 40⟩] : List Dihedral).length ≤ 512
      ∧ (align_one sim_state [⟨10, 20⟩, ⟨30, 40⟩] ([⟨10, 20⟩, ⟨30, 40⟩] : List Dihedral).length
            [⟨30, 40⟩] ([⟨30, 40⟩] : List Dihedral).length 500 (-100) true).max_score
          = (align_one sim_state [⟨30, 40⟩] ([⟨30, 40⟩] : List Dihedral).length
              [⟨10, 20⟩, ⟨30, 40⟩] ([⟨10, 20⟩, ⟨30, 40⟩] : List Dihedral).length
              500 (-100) true).max_score :=
  ⟨by decide, by decide,
    (align_one_symmetric sim_state sim_state [⟨10, 20⟩, ⟨30, 40⟩] [⟨30, 40⟩] 500 (-100)
      (by decide) (by decide)).1⟩

/-- C7: for any inputs whatsoever (any stream contents, any declared lengths, any
scoring offset and gap penalty, any prior contents of the buffers and registers, with
or without reading the vertical stream), the score returned by `align_one` is
non-negative, and so is every score that `align` writes. -/
theorem scores_nonneg (st0 : State) (stream_ver : List Dihedral) (stream_size_ver : Int)
    (stream_hor : List Dihedral) (stream_size_hor : Int) (s g : Int) (sr : Bool)
    (junk : Nat → State) (stream_sizes_hor : List Int) (num_streams_hor : Int) :
    0 ≤ (align_one st0 stream_ver stream_size_ver stream_hor stream_size_hor s g sr).max_score
      ∧ (align junk st0 stream_ver stream_size_ver stream_hor stream_sizes_hor
          num_streams_hor s g []).out_scores.all (fun x => decide (0 ≤ x.data)) = true := by
  refine ⟨align_one_nonneg _ _ _ _ _ _ _ _, ?_⟩
  rw [List.all_eq_true]
  intro x hx
  rw [decide_eq_true_eq]
  unfold align at hx
  exact align_loop_nonneg junk stream_size_ver num_streams_hor s g _ _ _ _
    (fun y hy => by cases hy) x hx

/-- C3: for a vertical sequence `V` and horizontal sequences `Hs` (each of at most 512
elements) supplied concatenated on `streams_hor` with their lengths on
`stream_sizes_hor`, `align` appends exactly one score per horizontal sequence to
`out_scores`, and the score for `H` is the one `align_one` returns for `(V, H)` when it
reloads the vertical buffer: reusing the resident buffer changes no score. -/
theorem align_reuses_vertical_buffer (junk : Nat → State) (statics st1 : State)
    (V : List Dihedral) (Hs : List (List Dihedral)) (s g : Int)
    (out : List axi_out_score_type)
    (hV : V.length ≤ 512) (hHs : ∀ H ∈ Hs, H.length ≤ 512) :
    ∃ written,
      (align junk statics V V.length Hs.flatten (Hs.map (fun H => (H.length : Int)))
          Hs.length s g out).out_scores = out ++ written
      ∧ written.length = Hs.length
      ∧ written.map (fun x => x.data)
          = Hs.map (fun H => (align_one st1 V V.length H H.length s g true).max_score) := by
  obtain ⟨written, e1, e2⟩ := align_scores_aux junk statics V [] Hs [] [] s g out
    V Hs.flatten (Hs.map (fun H => (H.length : Int))) V.length Hs.length hV hHs
    (by simp) rfl (by simp) (by simp) rfl
  refine ⟨written, e1, ?_, ?_⟩
  · have := congrArg List.length e2
    simpa using this
  · rw [e2]
    apply List.map_congr_left
    intro H hH
    exact (align_one_score st1 V H s g hV (hHs H hH)).symm

theorem align_reuses_vertical_buffer_witness :
    ([⟨5, 5⟩, ⟨5, 5⟩] : List Dihedral).length ≤ 512
      ∧ (∀ H ∈ ([[], [⟨5, 5⟩, ⟨5, 5⟩]] : List (List Dihedral)), H.length ≤ 512)
      ∧ ∃ written,
          (align (fun _ => sim_state) sim_state [⟨5, 5⟩, ⟨5, 5⟩]
              ([⟨5, 5⟩, ⟨5, 5⟩] : List Dihedral).length
              ([[], [⟨5, 5⟩, ⟨5, 5⟩]] : List (List Dihedral)).flatten
              (([[], [⟨5, 5⟩, ⟨5, 5⟩]] : List (List Dihedral)).map
                (fun H => (H.length : Int)))
              ([[], [⟨5, 5⟩, ⟨5, 5⟩]] : List (List Dihedral)).length 1000 (-1) []).out_scores
            = [] ++ written
          ∧ written.length = ([[], [⟨5, 5⟩, ⟨5, 5⟩]] : List (List Dihedral)).length
          ∧ written.map (fun x => x.data)
              = ([[], [⟨5, 5⟩, ⟨5, 5⟩]] : List (List Dihedral)).map
                  (fun H => (align_one sim_state [⟨5, 5⟩, ⟨5, 5⟩]
                    ([⟨5, 5⟩, ⟨5, 5⟩] : List Dihedral).length H H.length
                    1000 (-1) true).max_score) :=
  ⟨by decide, by decide,
    align_reuses_vertical_buffer (fun _ => sim_state) sim_state sim_state [⟨5, 5⟩, ⟨5, 5⟩]
      [[], [⟨5, 5⟩, ⟨5, 5⟩]] 1000 (-1) [] (by decide) (by decide)⟩

theorem getD_map_range {β : Type} (f : Nat → β) (n i : Nat) (d : β) (h : i < n) :
    ((List.range n).map f).getD i d = f i := by
  simp [List.getD_eq_getElem?_getD, List.getElem?_range h]

/-- C2: for sequences `S_0, ..., S_{N-1}` with `2 ≤ N` (`N` a 32-bit count) and every
length at most 512, the pair loop of `main` emits the scores grouped by `i = 0..N-2` in
increasing `i`: there are `N(N-1)/2` scores in `N-1` groups, group `i` holds `N-1-i`
scores, and the score at position `t = j-i-1` of group `i` is the local-alignment score
of `S_i` (vertical) against `S_j` (horizontal). -/
theorem main_all_pairs (junk : Nat → Nat → State) (statics : State)
    (S : List (List Dihedral)) (s g : Int)
    (hN2 : 2 ≤ S.length) (hN : S.length ≤ 4294967296) (hlen : ∀ V ∈ S, V.length ≤ 512) :
    (main junk statics (S.map (fun W => (W.length : Int))) S.flatten s g).map (fun x => x.data)
        = (pair_scores S s g).flatten
      ∧ (main junk statics (S.map (fun W => (W.length : Int))) S.flatten s g).length
          = S.length * (S.length - 1) / 2
      ∧ (pair_scores S s g).length = S.length - 1
      ∧ ∀ i, i < S.length - 1 →
          ((pair_scores S s g).getD i []).length = S.length - 1 - i
          ∧ ∀ t, t < S.length - 1 - i →
              ((pair_scores S s g).getD i []).getD t 0
                = sw_score (S.getD i []) (S.getD (i + 1 + t) []) s g := by
  have h := main_scores junk statics S s g (by omega) hN hlen
  refine ⟨by rw [h, pair_scores_flatten], ?_, by simp [pair_scores], ?_⟩
  · have := congrArg List.length h
    rw [List.length_map, tri_scores_count] at this
    exact this
  · intro i hi
    unfold pair_scores
    rw [getD_map_range _ _ _ _ hi]
    refine ⟨by simp, ?_⟩
    intro t ht
    rw [getD_map_range _ _ _ _ ht]

theorem main_all_pairs_witness :
    2 ≤ triangle.length ∧ triangle.length ≤ 4294967296
      ∧ (∀ V ∈ triangle, V.length ≤ 512)
      ∧ (main (fun _ _ => sim_state) sim_state (triangle.map (fun W => (W.length : Int)))
          triangle.flatten 100 (-50)).map (fun x => x.data) = [200, 0, 0] :=
  ⟨by decide, by decide, by decide,
    (main_all_pairs (fun _ _ => sim_state) sim_state triangle 100 (-50)
      (by decide) (by decide) (by decide)).1.trans (by decide)⟩

/-- C9 fails as stated: with 32-bit wrap-around the score of a sequence against itself
is below `|S| * scoring_offset` for `S = [(0,0), (0,0)]` with offset `2^30` and gap
penalty 0 (the product exceeds `2^31 - 1`), and also with offset `2^30 - 1` and the
positive gap penalty `2^30 + 1`. -/
theorem align_one_self_bound_fails :
    zeros2.length ≤ 512 ∧ (0 : Int) < 1073741824 ∧ (0 : Int) < 1073741823
      ∧ ¬ ((zeros2.length : Int) * 1073741824
            ≤ (align_one sim_state zeros2 zeros2.length zeros2 zeros2.length
                1073741824 0 true).max_score)
      ∧ ¬ ((zeros2.length : Int) * 1073741823
            ≤ (align_one sim_state zeros2 zeros2.length zeros2 zeros2.length
                1073741823 1073741825 true).max_score) := by
  refine ⟨by decide, by decide, by decide, ?_, ?_⟩
  · rw [align_one_score sim_state zeros2 zeros2 _ _ (by decide) (by decide)]; decide
  · rw [align_one_score sim_state zeros2 zeros2 _ _ (by decide) (by decide)]; decide

/-- C9, amended: for a sequence `S` of at most 512 elements, a scoring offset `s > 0`
with `|S| * s ≤ 2^31 - 1` and a gap penalty `g` with `-2^31 ≤ g ≤ 0`, the score of `S`
against itself is at least `|S| * s`. -/
theorem align_one_self_bound (st0 : State) (S : List Dihedral) (s g : Int)
    (hS : S.length ≤ 512) (hs : 0 < s) (hno : (S.length : Int) * s ≤ 2147483647)
    (hg1 : -2147483648 ≤ g) (hg2 : g ≤ 0) :
    (S.length : Int) * s ≤ (align_one st0 S S.length S S.length s g true).max_score := by
  rw [align_one_score st0 S S s g hS hS]
  exact sw_score_self S s g (le_of_lt hs) hno hg1 hg2

theorem align_one_self_bound_witness :
    zeros2.length ≤ 512 ∧ (0 : Int) < 1073741823
      ∧ (zeros2.length : Int) * 1073741823 ≤ 2147483647
      ∧ (-2147483648 : Int) ≤ -4000 ∧ (-4000 : Int) ≤ 0
      ∧ (zeros2.length : Int) * 1073741823
          ≤ (align_one sim_state zeros2 zeros2.length zeros2 zeros2.length
              1073741823 (-4000) true).max_score :=
  ⟨by decide, by decide, by decide, by decide, by decide,
    align_one_self_bound sim_state zeros2 1073741823 (-4000)
      (by decide) (by decide) (by decide) (by decide) (by decide)⟩

/-- C10 fails as stated: with 32-bit wrap-around a larger scoring offset can give a
smaller score. For `V = H = [(0,0), (0,0)]` and gap penalty 0 the offset `2^30 - 1`
scores `2^31 - 2` and the offset `2^30` scores `2^30`; for `V = [(0,0)]`, `H = [(1,0)]`
the negative offset `-2^31` scores `2^31 - 1` and `-2^31 + 1` scores 0; and with the
positive gap penalty `2^30 + 1` the offset `2^30 - 2` scores `2^31 - 1` and `2^30 - 1`
scores `2^30 + 1`. -/
theorem align_one_mono_offset_fails :
    ((1073741823 : Int) ≤ 1073741824
        ∧ ¬ ((align_one sim_state zeros2 zeros2.length zeros2 zeros2.length
                1073741823 0 true).max_score
              ≤ (align_one sim_state zeros2 zeros2.length zeros2 zeros2.length
                  1073741824 0 true).max_score))
      ∧ ((-2147483648 : Int) ≤ -2147483647
        ∧ ¬ ((align_one sim_state [⟨0, 0⟩] ([⟨0, 0⟩] : List Dihedral).length
                [⟨1, 0⟩] ([⟨1, 0⟩] : List Dihedral).length (-2147483648) 0 true).max_score
              ≤ (align_one sim_state [⟨0, 0⟩] ([⟨0, 0⟩] : List Dihedral).length
                  [⟨1, 0⟩] ([⟨1, 0⟩] : List Dihedral).length (-2147483647) 0 true).max_score))
      ∧ ((1073741822 : Int) ≤ 1073741823
        ∧ ¬ ((align_one sim_state zeros2 zeros2.length zeros2 zeros2.length
                1073741822 1073741825 true).max_score
              ≤ (align_one sim_state zeros2 zeros2.length zeros2 zeros2.length
                  1073741823 1073741825 true).max_score)) := by
  refine ⟨⟨by decide, ?_⟩, ⟨by decide, ?_⟩, ⟨by decide, ?_⟩⟩
  · rw [align_one_score sim_state zeros2 zeros2 _ _ (by decide) (by decide),
      align_one_score sim_state zeros2 zeros2 _ _ (by decide) (by decide)]
    decide
  · rw [align_one_score sim_state [⟨0, 0⟩] [⟨1, 0⟩] _ _ (by decide) (by decide),
      align_one_score sim_state [⟨0, 0⟩] [⟨1, 0⟩] _ _ (by decide) (by decide)]
    decide
  · rw [align_one_score sim_state zeros2 zeros2 _ _ (by decide) (by decide),
      align_one_score sim_state zeros2 zeros2 _ _ (by decide) (by decide)]
    decide

/-- C10, amended: for sequences `V`, `H` of lengths `m, n ≤ 512`, a gap penalty `g` with
`-2^31 ≤ g ≤ 0` and scoring offsets `0 ≤ s ≤ s'` with `min(m, n) * s' ≤ 2^31 - 1`, the
score for `s` is at most the score for `s'`. -/
theorem align_one_mono_offset (stA stB : State) (V H : List Dihedral) (s s' g : Int)
    (hV : V.length ≤ 512) (hH : H.length ≤ 512) (hs0 : 0 ≤ s) (hss : s ≤ s')
    (hno : ((min V.length H.length : Nat) : Int) * s' ≤ 2147483647)
    (hg1 : -2147483648 ≤ g) (hg2 : g ≤ 0) :
    (align_one stA V V.length H H.length s g true).max_score
      ≤ (align_one stB V V.length H H.length s' g true).max_score := by
  rw [align_one_score stA V H s g hV hH, align_one_score stB V H s' g hV hH]
  exact sw_score_mono V H s s' g hs0 hss hno hg1 hg2

theorem align_one_mono_offset_witness :
    zeros2.length ≤ 512 ∧ zeros2.length ≤ 512 ∧ (0 : Int) ≤ 65536 ∧ (65536 : Int) ≤ 1073741823
      ∧ ((min zeros2.length zeros2.length : Nat) : Int) * 1073741823 ≤ 2147483647
      ∧ (-2147483648 : Int) ≤ -4000 ∧ (-4000 : Int) ≤ 0
      ∧ (align_one sim_state zeros2 zeros2.length zeros2 zeros2.length
            65536 (-4000) true).max_score
          ≤ (align_one sim_state zeros2 zeros2.length zeros2 zeros2.length
              1073741823 (-4000) true).max_score :=
  ⟨by decide, by decide, by decide, by decide, by decide, by decide, by decide,
    align_one_mono_offset sim_state sim_state zeros2 zeros2 65536 1073741823 (-4000)
      (by decide) (by decide) (by decide) (by decide) (by decide) (by decide) (by decide)⟩

/-! ## Bounds on the score -/

theorem sw_cell_le (d l t : Int) (v h : Dihedral) (s g : Int) :
    sw_cell d l t v h s g ≤ 2147483647 := by
  have h1 := toInt32_range (d + dihedral_score v h s)
  have h2 := toInt32_range (l + g)
  have h3 := toInt32_range (t + g)
  unfold sw_cell; omega

theorem sw_score_le_int_max (V H : List Dihedral) (s g : Int) :
    sw_score V H s g ≤ 2147483647 := by
  rcases sw_score_wit V H s g with e | ⟨r, c, _, _, e⟩
  · rw [e]; decide
  · rw [e]; unfold sw_matrix; rw [sw_table_succ]; exact sw_cell_le _ _ _ _ _ _ _

theorem sw_score_le_bound (V H : List Dihedral) (s g : Int)
    (hs0 : 0 ≤ s) (hg1 : -2147483648 ≤ g) (hg2 : g ≤ 0) :
    sw_score V H s g ≤ ((min V.length H.length : Nat) : Int) * s := by
  have hK0 : 0 ≤ ((min V.length H.length : Nat) : Int) * s :=
    mul_nonneg (by exact_mod_cast Nat.zero_le _) hs0
  by_cases hKs : ((min V.length H.length : Nat) : Int) * s ≤ 2147483647
  · rcases sw_score_wit V H s g with e | ⟨r, c, hr, hc, e⟩
    · rw [e]; exact hK0
    · rw [e]
      have hb := (sw_table_bounds V H s g (min V.length H.length) hs0 hKs hg1 hg2
        (r + 1) (c + 1) (by omega)).2
      exact le_trans hb (cast_mul_le_of_le (by omega) hs0)
  · have := sw_score_le_int_max V H s g
    omega

theorem getD_take_drop (V : List Dihedral) (k n t : Nat) (d : Dihedral) (ht : t < n) :
    ((V.drop k).take n).getD t d = V.getD (k + t) d := by
  simp [List.getD_eq_getElem?_getD, List.getElem?_take, ht]

theorem sw_table_slice_diag (V : List Dihedral) (k n : Nat) (s g : Int)
    (hs0 : 0 ≤ s) (hKs : (n : Int) * s ≤ 2147483647)
    (hg1 : -2147483648 ≤ g) (hg2 : g ≤ 0) :
    ∀ t, t ≤ n → (t : Int) * s ≤ sw_table V ((V.drop k).take n) s g (k + t) t := by
  intro t
  induction t with
  | zero => intro _; rw [sw_table_zero_right]; simp
  | succ t ih =>
    intro ht
    have h := ih (by omega)
    have e1 : k + (t + 1) = (k + t) + 1 := by omega
    rw [e1, sw_table_succ_exact V _ s g n hs0 hKs hg1 hg2 (k + t) t (by omega),
      getD_take_drop V k n t _ (by omega), sq_dist_self]
    have e : ((t + 1 : Nat) : Int) * s = (t : Int) * s + s := by push_cast; ring
    omega

theorem sw_score_slice (V : List Dihedral) (k n : Nat) (s g : Int)
    (hV : V.length ≤ 512) (hk : k + n ≤ V.length)
    (hs0 : 0 ≤ s) (hs1 : s ≤ 4194303) (hg1 : -2147483648 ≤ g) (hg2 : g ≤ 0) :
    sw_score V ((V.drop k).take n) s g = (n : Int) * s := by
  have hlen : ((V.drop k).take n).length = n := by
    rw [List.length_take, List.length_drop]; omega
  have hn : (n : Int) ≤ 512 := by omega
  have hKs : (n : Int) * s ≤ 2147483647 := by nlinarith
  apply le_antisymm
  · have h := sw_score_le_bound V ((V.drop k).take n) s g hs0 hg1 hg2
    rw [hlen] at h
    have e : min V.length n = n := by omega
    rw [e] at h
    exact h
  · cases n with
    | zero => simp; exact sw_score_nonneg _ _ _ _
    | succ n =>
      have h := sw_table_slice_diag V k (n + 1) s g hs0 hKs hg1 hg2 (n + 1) (le_refl _)
      have hub := sw_score_ub V ((V.drop k).take (n + 1)) s g (k + n) n (by omega)
        (by rw [hlen]; omega)
      unfold sw_matrix at hub
      have e1 : k + (n + 1) = k + n + 1 := by omega
      rw [e1] at h
      exact le_trans h hub

theorem sw_table_zero_of_nonpositive (V H : List Dihedral) (s g : Int)
    (hsc : ∀ v ∈ V, ∀ h ∈ H, dihedral_score v h s ≤ 0)
    (hg1 : -2147483648 ≤ g) (hg2 : g ≤ 0) :
    ∀ r c, r ≤ V.length → c ≤ H.length → sw_table V H s g r c = 0 := by
  intro r
  induction r with
  | zero => intro c _ _; rfl
  | succ r ihr =>
    intro c
    induction c with
    | zero => intro _ _; exact sw_table_zero_right _ _ _ _ _
    | succ c ihc =>
      intro hr hc
      have hv : V.getD r { phi := 0, psi := 0 } ∈ V := by
        rw [List.getD_eq_getElem V _ (by omega)]; exact List.getElem_mem _
      have hh : H.getD c { phi := 0, psi := 0 } ∈ H := by
        rw [List.getD_eq_getElem H _ (by omega)]; exact List.getElem_mem _
      have hd := hsc _ hv _ hh
      have hrange : -2147483648 ≤ dihedral_score (V.getD r { phi := 0, psi := 0 })
          (H.getD c { phi := 0, psi := 0 }) s := by
        unfold dihedral_score
        exact (toInt32_range _).1
      rw [sw_table_succ, ihr c (by omega) (by omega), ihr (c + 1) (by omega) hc,
        ihc (by omega) (by omega)]
      unfold sw_cell
      rw [toInt32_of_range (x := 0 + dihedral_score _ _ s) (by omega) (by omega),
        toInt32_of_range (x := 0 + g) (by omega) (by omega)]
      omega

theorem sw_score_zero_of_nonpositive (V H : List Dihedral) (s g : Int)
    (hsc : ∀ v ∈ V, ∀ h ∈ H, dihedral_score v h s ≤ 0)
    (hg1 : -2147483648 ≤ g) (hg2 : g ≤ 0) : sw_score V H s g = 0 := by
  rcases sw_score_wit V H s g with e | ⟨r, c, hr, hc, e⟩
  · exact e
  · rw [e]; unfold sw_matrix
    exact sw_table_zero_of_nonpositive V H s g hsc hg1 hg2 (r + 1) (c + 1) (by omega) (by omega)

/-- C11: for sequences `V`, `H` of lengths `m, n ≤ 512`, a scoring offset `s ≥ 0` and a
gap penalty `g ≤ 0` (a `score_type` value, so `-2^31 ≤ g`), the score returned by
`align_one` is at most `min(m, n) * s`. -/
theorem align_one_upper_bound (st0 : State) (V H : List Dihedral) (s g : Int)
    (hV : V.length ≤ 512) (hH : H.length ≤ 512)
    (hs0 : 0 ≤ s) (hg1 : -2147483648 ≤ g) (hg2 : g ≤ 0) :
    (align_one st0 V V.length H H.length s g true).max_score
      ≤ ((min V.length H.length : Nat) : Int) * s := by
  rw [align_one_score st0 V H s g hV hH]
  exact sw_score_le_bound V H s g hs0 hg1 hg2

theorem align_one_upper_bound_witness :
    zeros2.length ≤ 512 ∧ quarter2.length ≤ 512 ∧ (0 : Int) ≤ 2147483647
      ∧ (-2147483648 : Int) ≤ -2147483648 ∧ (-2147483648 : Int) ≤ 0
      ∧ (align_one sim_state zeros2 zeros2.length quarter2 quarter2.length
            2147483647 (-2147483648) true).max_score
          ≤ ((min zeros2.length quarter2.length : Nat) : Int) * 2147483647 :=
  ⟨by decide, by decide, by decide, by decide, by decide,
    align_one_upper_bound sim_state zeros2 quarter2 2147483647 (-2147483648)
      (by decide) (by decide) (by decide) (by decide) (by decide)⟩

/-- C12: for a vertical sequence `V` of at most 512 elements, a horizontal sequence that
is the contiguous slice `V[k .. k+n)` of it (including `H = V`), a scoring offset `s`
with `0 ≤ s ≤ 4194303` and a gap penalty `g ≤ 0` (a `score_type` value), `align_one`
returns `n * s`. -/
theorem align_one_slice (st0 : State) (V : List Dihedral) (k n : Nat) (s g : Int)
    (hV : V.length ≤ 512) (hk : k + n ≤ V.length)
    (hs0 : 0 ≤ s) (hs1 : s ≤ 4194303) (hg1 : -2147483648 ≤ g) (hg2 : g ≤ 0) :
    (align_one st0 V V.length ((V.drop k).take n) ((V.drop k).take n).length
        s g true).max_score = (n : Int) * s := by
  have hlen : ((V.drop k).take n).length = n := by
    rw [List.length_take, List.length_drop]; omega
  rw [align_one_score st0 V _ s g hV (by omega)]
  exact sw_score_slice V k n s g hV hk hs0 hs1 hg1 hg2

theorem align_one_slice_witness :
    seq17.length ≤ 512 ∧ 7 + 3 ≤ seq17.length ∧ (0 : Int) ≤ 500 ∧ (500 : Int) ≤ 4194303
      ∧ (-2147483648 : Int) ≤ -100 ∧ (-100 : Int) ≤ 0
      ∧ (align_one sim_state seq17 seq17.length ((seq17.drop 7).take 3)
            ((seq17.drop 7).take 3).length 500 (-100) true).max_score = ((3 : Nat) : Int) * 500 :=
  ⟨by decide, by decide, by decide, by decide, by decide, by decide,
    align_one_slice sim_state seq17 7 3 500 (-100)
      (by decide) (by decide) (by decide) (by decide) (by decide) (by decide)⟩

/-- C13: for sequences `V`, `H` of at most 512 elements, if `dihedral_score v h s ≤ 0`
for every element `v` of `V` and `h` of `H`, and the gap penalty is a `score_type` value
`g ≤ 0`, then `align_one` returns 0. -/
theorem align_one_zero_of_nonpositive (st0 : State) (V H : List Dihedral) (s g : Int)
    (hV : V.length ≤ 512) (hH : H.length ≤ 512)
    (hsc : ∀ v ∈ V, ∀ h ∈ H, dihedral_score v h s ≤ 0)
    (hg1 : -2147483648 ≤ g) (hg2 : g ≤ 0) :
    (align_one st0 V V.length H H.length s g true).max_score = 0 := by
  rw [align_one_score st0 V H s g hV hH]
  exact sw_score_zero_of_nonpositive V H s g hsc hg1 hg2

theorem align_one_zero_of_nonpositive_witness :
    zeros2.length ≤ 512 ∧ quarter2.length ≤ 512
      ∧ (∀ v ∈ zeros2, ∀ h ∈ quarter2, dihedral_score v h 0 ≤ 0)
      ∧ (-2147483648 : Int) ≤ -1 ∧ (-1 : Int) ≤ 0
      ∧ (align_one sim_state zeros2 zeros2.length quarter2 quarter2.length
            0 (-1) true).max_score = 0 :=
  ⟨by decide, by decide, by decide, by decide, by decide,
    align_one_zero_of_nonpositive sim_state zeros2 quarter2 0 (-1)
      (by decide) (by decide) (by decide) (by decide) (by decide)⟩

/-- C14: for sequences of at most 512 elements, the score returned by `align_one` with
`should_read_ver_stream = true` does not depend on the prior contents of the static
buffers nor on the initial contents of the other buffers and registers (`st0`, `st1`);
and two runs of `align` on the same streams write the same scores, whatever the initial
contents (`st0`, `junk` and `st1`, `junk1`). -/
theorem align_one_deterministic (st0 st1 : State) (junk junk1 : Nat → State)
    (V H : List Dihedral) (Hs : List (List Dihedral)) (s g : Int)
    (out : List axi_out_score_type)
    (hV : V.length ≤ 512) (hH : H.length ≤ 512) (hHs : ∀ W ∈ Hs, W.length ≤ 512) :
    (align_one st0 V V.length H H.length s g true).max_score
        = (align_one st1 V V.length H H.length s g true).max_score
      ∧ (align junk st0 V V.length Hs.flatten (Hs.map (fun W => (W.length : Int)))
            Hs.length s g out).out_scores.map (fun x => x.data)
          = (align junk1 st1 V V.length Hs.flatten (Hs.map (fun W => (W.length : Int)))
              Hs.length s g out).out_scores.map (fun x => x.data) := by
  refine ⟨?_, ?_⟩
  · rw [align_one_score st0 V H s g hV hH, align_one_score st1 V H s g hV hH]
  · obtain ⟨w0, e0, d0⟩ := align_scores_aux junk st0 V [] Hs [] [] s g out
      V Hs.flatten (Hs.map (fun W => (W.length : Int))) V.length Hs.length hV hHs
      (by simp) rfl (by simp) (by simp) rfl
    obtain ⟨w1, e1, d1⟩ := align_scores_aux junk1 st1 V [] Hs [] [] s g out
      V Hs.flatten (Hs.map (fun W => (W.length : Int))) V.length Hs.length hV hHs
      (by simp) rfl (by simp) (by simp) rfl
    rw [e0, e1, List.map_append, List.map_append, d0, d1]

theorem align_one_deterministic_witness :
    zeros2.length ≤ 512 ∧ quarter2.length ≤ 512 ∧ (∀ W ∈ triangle, W.length ≤ 512)
      ∧ (align_one sim_state zeros2 zeros2.length quarter2 quarter2.length
            100 (-50) true).max_score
          = (align_one
              { sim_state with
                seq_ver := Buf.fill 512 { phi := 7, psi := 7 }
                diag_buf_new := Buf.fill 16 123456
                hor_prop_buf := Buf.fill 512 654321 }
              zeros2 zeros2.length quarter2 quarter2.length 100 (-50) true).max_score :=
  ⟨by decide, by decide, by decide,
    (align_one_deterministic sim_state
      { sim_state with
        seq_ver := Buf.fill 512 { phi := 7, psi := 7 }
        diag_buf_new := Buf.fill 16 123456
        hor_prop_buf := Buf.fill 512 654321 }
      (fun _ => sim_state) (fun _ => sim_state) zeros2 quarter2 triangle 100 (-50) []
      (by decide) (by decide) (by decide)).1⟩

/-! ## Bytes in memory -/

theorem toByte_val (x : Int) : ((toByte x).val : Int) = x % 256 := by
  unfold toByte
  simp only
  omega

theorem decode_encode_u32 (x : Int) : decode_u32 (encode_u32 x) = toUInt32 x := by
  unfold decode_u32 encode_u32 toUInt32
  simp only [List.getD_cons_zero, List.getD_cons_succ, toByte_val]
  omega

theorem toInt32_decode_encode_u32 (x : Int) (h1 : -2147483648 ≤ x) (h2 : x ≤ 2147483647) :
    toInt32 (decode_u32 (encode_u32 x)) = x := by
  rw [decode_encode_u32]
  unfold toInt32 toUInt32
  omega

theorem encode_u32_length (x : Int) : (encode_u32 x).length = 4 := rfl

theorem encode_scores_length (scores : List Int) :
    (encode_scores scores).length = 4 * scores.length := by
  induction scores with
  | nil => rfl
  | cons x xs ih =>
    have : encode_scores (x :: xs) = encode_u32 x ++ encode_scores xs := by
      simp [encode_scores]
    rw [this, List.length_append, ih, encode_u32_length, List.length_cons]
    omega

theorem encode_scores_append (a b : List Int) :
    encode_scores (a ++ b) = encode_scores a ++ encode_scores b := by
  simp [encode_scores]

theorem encode_scores_cons (x : Int) (xs : List Int) :
    encode_scores (x :: xs) = encode_u32 x ++ encode_scores xs := by
  simp [encode_scores]

theorem decode_i16_encode (x : Int) (rest : List Byte) :
    decode_i16s (encode_i16 x ++ rest) = toInt16 x :: decode_i16s rest := by
  unfold encode_i16
  simp only [List.cons_append, List.nil_append, decode_i16s, decode_i16, toByte_val]
  congr 1
  unfold toInt16
  omega

theorem decode_i16s_encode (lens : List Int) :
    decode_i16s (lens.flatMap encode_i16) = lens.map toInt16 := by
  induction lens with
  | nil => rfl
  | cons x xs ih =>
    rw [List.flatMap_cons, decode_i16_encode, ih, List.map_cons]

theorem flatMap_encode_i16_length (lens : List Int) :
    (lens.flatMap encode_i16).length = 2 * lens.length := by
  induction lens with
  | nil => rfl
  | cons x xs ih =>
    rw [List.flatMap_cons, List.length_append, ih, List.length_cons]
    simp [encode_i16]
    omega

/-! ## The checked file operations -/

theorem f_write_chk_eq (file : FIL) (buf : List Byte) (size : Int) (hs : 0 ≤ size)
    (hb : size ≤ buf.length) (hroom : (file.fptr : Int) + size < 4294967296) :
    f_write_chk file buf size
      = (FRESULT.FR_OK,
          { data := file.data.take file.fptr ++ buf.take size.toNat
              ++ file.data.drop (file.fptr + size.toNat)
            fptr := file.fptr + size.toNat }) := by
  have hlen : (buf.take size.toNat).length = size.toNat := by
    rw [List.length_take]; omega
  unfold f_write_chk f_write
  simp only [if_neg (not_le.mpr hroom), hlen, ne_eq, not_true_eq_false, if_false]
  rw [if_pos (by omega)]

theorem f_write_chk_ok (file file1 : FIL) (buf : List Byte) (size : Int) (hs : 0 ≤ size)
    (h : f_write_chk file buf size = (FRESULT.FR_OK, file1)) :
    size ≤ buf.length ∧ (size = 0 ∨ (file.fptr : Int) + size < 4294967296)
      ∧ file1 = { data := file.data.take file.fptr ++ buf.take size.toNat
                    ++ file.data.drop (file.fptr + size.toNat)
                  fptr := file.fptr + size.toNat } := by
  unfold f_write_chk f_write at h
  simp only [ne_eq, not_true_eq_false, if_false] at h
  by_cases hroom : 4294967296 ≤ (file.fptr : Int) + size
  · simp only [if_pos hroom] at h
    by_cases h0 : size = 0
    · subst h0
      simp at h
      refine ⟨by omega, Or.inl rfl, ?_⟩
      rw [← h]
      simp
    · simp at h
      exact absurd h.1.symm h0
  · simp only [if_neg hroom] at h
    by_cases hb : size ≤ buf.length
    · have hlen : (buf.take size.toNat).length = size.toNat := by
        rw [List.length_take]; omega
      rw [hlen] at h
      simp only [Prod.mk.injEq] at h
      exact ⟨hb, Or.inr (by omega), h.2.symm⟩
    · have hlen : (buf.take size.toNat).length = buf.length := by
        rw [List.length_take]; omega
      rw [hlen] at h
      simp only [Prod.mk.injEq] at h
      have : ((buf.length : Int) = size) := by
        by_contra hne
        rw [if_neg hne] at h
        exact absurd h.1 (by decide)
      omega

theorem f_read_chk_eq (file : FIL) (size : Int) (hs : 0 ≤ size) :
    f_read_chk file size
      = ((if size ≤ ((file.data.length - file.fptr : Nat) : Int) then FRESULT.FR_OK
            else FRESULT.FR_INT_ERR),
          (file.data.drop file.fptr).take size.toNat,
          { file with fptr := file.fptr + min size.toNat (file.data.length - file.fptr) }) := by
  unfold f_read_chk f_read
  simp only [ne_eq, not_true_eq_false, if_false, List.length_take, List.length_drop]
  by_cases h : size ≤ ((file.data.length - file.fptr : Nat) : Int)
  · rw [if_pos h, if_pos (by omega)]
  · rw [if_neg h, if_neg (by omega)]

/-! ## Padding to the sector size -/

theorem padding_size_cases (S t : Int) (hS : 0 < S) :
    (t % S = 0 ∧ padding_size S t = 0) ∨ (t % S ≠ 0 ∧ padding_size S t = S - t % S) := by
  have h1 := Int.emod_nonneg t (ne_of_gt hS)
  have h2 := Int.emod_lt_of_pos t hS
  unfold padding_size
  by_cases h : t % S = 0
  · left
    refine ⟨h, ?_⟩
    rw [h, sub_zero, Int.emod_self]
  · right
    refine ⟨h, ?_⟩
    apply Int.emod_eq_of_lt <;> omega

theorem padding_size_range (S t : Int) (hS : 0 < S) :
    0 ≤ padding_size S t ∧ padding_size S t < S := by
  have h1 := Int.emod_nonneg t (ne_of_gt hS)
  have h2 := Int.emod_lt_of_pos t hS
  rcases padding_size_cases S t hS with ⟨_, hp⟩ | ⟨_, hp⟩ <;> omega

theorem padding_size_dvd (S t : Int) (hS : 0 < S) : S ∣ t + padding_size S t := by
  have h3 := Int.emod_add_ediv t S
  rcases padding_size_cases S t hS with ⟨h0, hp⟩ | ⟨_, hp⟩
  · rw [hp, add_zero]
    exact Int.dvd_of_emod_eq_zero h0
  · rw [hp]
    refine ⟨t / S + 1, ?_⟩
    rw [mul_add, mul_one]
    omega

theorem padding_size_least (S t q : Int) (hS : 0 < S) (hq : 0 ≤ q) (hd : S ∣ t + q) :
    padding_size S t ≤ q := by
  have h1 := Int.emod_nonneg t (ne_of_gt hS)
  have h2 := Int.emod_lt_of_pos t hS
  rcases padding_size_cases S t hS with ⟨_, hp⟩ | ⟨hne, hp⟩
  · omega
  · by_contra hlt
    have hmod : (t + q) % S = t % S + q := by
      rw [Int.add_emod, Int.emod_eq_of_lt (a := q) hq (by omega)]
      apply Int.emod_eq_of_lt <;> omega
    have := Int.emod_eq_zero_of_dvd hd
    omega

theorem pad_file_eq (S t : Int) (file : FIL) (hS : 0 < S) (hS2 : S < 4294967296)
    (hroom : (file.fptr : Int) + padding_size S t < 4294967296) :
    pad_file S file t
      = (FRESULT.FR_OK,
          { data := file.data.take file.fptr ++ List.replicate (padding_size S t).toNat 0
              ++ file.data.drop (file.fptr + (padding_size S t).toNat)
            fptr := file.fptr + (padding_size S t).toNat }) := by
  have h1 := Int.emod_nonneg t (ne_of_gt hS)
  have h2 := Int.emod_lt_of_pos t hS
  unfold pad_file
  rcases padding_size_cases S t hS with ⟨h0, hp⟩ | ⟨hne, hp⟩
  · simp only [h0, ne_eq, not_true_eq_false, if_false, hp, Int.toNat_zero, List.replicate_zero,
      List.append_nil, Nat.add_zero, List.take_append_drop]
  · have htr : toSizeArm (S - t % S) = S - t % S := by
      unfold toSizeArm
      apply Int.emod_eq_of_lt <;> omega
    simp only [ne_eq, hne, not_false_eq_true, if_true, htr]
    rw [hp] at hroom ⊢
    obtain ⟨n, hn⟩ := Int.eq_ofNat_of_zero_le (show 0 ≤ S - t % S by omega)
    rw [hn] at hroom ⊢
    rw [f_write_chk_eq _ _ _ (by simp) (by simp) (by simp; omega)]
    simp

theorem pad_file_none (S t : Int) (file : FIL) (h : t % S = 0) :
    pad_file S file t = (FRESULT.FR_OK, file) := by
  unfold pad_file
  simp [h]

/-- C17: `pad_file`, called with `total_bytes_written = t` on a file of sector size `S`
(512 in the reference configuration) that has room for the padding, writes exactly
`p = (S - t mod S) mod S` bytes at the file pointer, all of them zero, and reports
`FR_OK`; with the pointer at the end of the file these bytes are appended. `0 ≤ p < S`,
`t + p` is the smallest multiple of `S` that is at least `t`, and nothing is written
when `t` is a multiple of `S`. -/
theorem pad_file_rounds_up (S t : Int) (file : FIL) (hS : 0 < S) (hS2 : S < 4294967296)
    (hroom : (file.fptr : Int) + (S - t % S) % S < 4294967296) :
    pad_file S file t
        = (FRESULT.FR_OK,
            { data := file.data.take file.fptr ++ List.replicate ((S - t % S) % S).toNat 0
                ++ file.data.drop (file.fptr + ((S - t % S) % S).toNat)
              fptr := file.fptr + ((S - t % S) % S).toNat })
      ∧ (file.fptr = file.data.length →
          (pad_file S file t).2.data
            = file.data ++ List.replicate ((S - t % S) % S).toNat 0)
      ∧ 0 ≤ (S - t % S) % S ∧ (S - t % S) % S < S
      ∧ S ∣ t + (S - t % S) % S
      ∧ (∀ q : Int, 0 ≤ q → S ∣ t + q → (S - t % S) % S ≤ q)
      ∧ (S ∣ t → pad_file S file t = (FRESULT.FR_OK, file)) := by
  have heq := pad_file_eq S t file hS hS2 hroom
  refine ⟨heq, ?_, (padding_size_range S t hS).1, (padding_size_range S t hS).2,
    padding_size_dvd S t hS, fun q hq hd => padding_size_least S t q hS hq hd,
    fun hd => pad_file_none S t file (Int.emod_eq_zero_of_dvd hd)⟩
  intro hend
  rw [heq]
  simp only [hend, List.take_length]
  rw [List.drop_eq_nil_of_le (by omega), List.append_nil]
  rfl

theorem pad_file_rounds_up_witness :
    (0 : Int) < 512 ∧ (512 : Int) < 4294967296
      ∧ (new_file.fptr : Int) + (512 - 1020 % 512) % 512 < 4294967296
      ∧ pad_file 512 new_file 1020 = (FRESULT.FR_OK, { data := [0, 0, 0, 0], fptr := 4 }) :=
  ⟨by decide, by decide, by decide,
    (pad_file_rounds_up 512 1020 new_file (by decide) (by decide) (by decide)).1.trans rfl⟩

/-! ## The pair loop of `run_align` -/

theorem toSizeArm_range (x : Int) : 0 ≤ toSizeArm x ∧ toSizeArm x < 4294967296 := by
  unfold toSizeArm; omega

theorem toSizeArm_of_range {x : Int} (h1 : 0 ≤ x) (h2 : x < 4294967296) : toSizeArm x = x := by
  unfold toSizeArm; omega

theorem score_bytes_nonneg : ∀ (k : Nat) (M : Int), 0 ≤ score_bytes k M
  | 0, _ => le_refl _
  | k + 1, M => by
    have h1 := toSizeArm_range ((M - 1) * 4)
    have h2 := score_bytes_nonneg k (M - 1)
    show 0 ≤ toSizeArm ((M - 1) * 4) + score_bytes k (M - 1)
    omega

theorem run_align_body_ok
    (block : Nat → List Dihedral → Int → List Dihedral → List Int → Int → List Int)
    (seqs : Sequences) (i : Int) (rs rs1 : RunState)
    (hM1 : 1 ≤ rs.num_seqs_hor) (hM2 : rs.num_seqs_hor ≤ 4294967296)
    (h : run_align_body block seqs i rs = some rs1) :
    rs1.num_seqs_hor = rs.num_seqs_hor - 1
      ∧ rs1.total_bytes_written
          = toSizeArm (rs.total_bytes_written + toSizeArm ((rs.num_seqs_hor - 1) * 4))
      ∧ (toSizeArm ((rs.num_seqs_hor - 1) * 4) = 0
          ∨ (rs.out_file.fptr : Int) + toSizeArm ((rs.num_seqs_hor - 1) * 4) < 4294967296)
      ∧ rs1.out_file
          = { data := rs.out_file.data.take rs.out_file.fptr
                ++ (encode_scores (block i.toNat
                      (dma_slice seqs.buffer rs.seq_ver
                        (toSizeArm (seqs.sequence_lengths.getD i.toNat 0)))
                      (seqs.sequence_lengths.getD i.toNat 0)
                      (dma_slice seqs.buffer (rs.seq_ver + seqs.sequence_lengths.getD i.toNat 0)
                        (toSizeArm (rs.len_hor - seqs.sequence_lengths.getD i.toNat 0)))
                      (dma_slice seqs.sequence_lengths (i + 1) (rs.num_seqs_hor - 1))
                      (rs.num_seqs_hor - 1))).take
                    (toSizeArm ((rs.num_seqs_hor - 1) * 4)).toNat
                ++ rs.out_file.data.drop
                    (rs.out_file.fptr + (toSizeArm ((rs.num_seqs_hor - 1) * 4)).toNat)
              fptr := rs.out_file.fptr + (toSizeArm ((rs.num_seqs_hor - 1) * 4)).toNat }
      ∧ toSizeArm ((rs.num_seqs_hor - 1) * 4)
          ≤ (encode_scores (block i.toNat
                      (dma_slice seqs.buffer rs.seq_ver
                        (toSizeArm (seqs.sequence_lengths.getD i.toNat 0)))
                      (seqs.sequence_lengths.getD i.toNat 0)
                      (dma_slice seqs.buffer (rs.seq_ver + seqs.sequence_lengths.getD i.toNat 0)
                        (toSizeArm (rs.len_hor - seqs.sequence_lengths.getD i.toNat 0)))
                      (dma_slice seqs.sequence_lengths (i + 1) (rs.num_seqs_hor - 1))
                      (rs.num_seqs_hor - 1))).length := by
  have hM : toSizeArm (rs.num_seqs_hor - 1) = rs.num_seqs_hor - 1 :=
    toSizeArm_of_range (by omega) (by omega)
  unfold run_align_body at h
  simp only [hM] at h
  generalize hw : f_write_chk rs.out_file _ _ = w at h
  obtain ⟨res, f1⟩ := w
  simp only [ne_eq] at h
  by_cases hres : res = FRESULT.FR_OK
  · subst hres
    simp only [not_true_eq_false, if_false, Option.some.injEq] at h
    obtain ⟨h1, h2, h3⟩ := f_write_chk_ok _ _ _ _ (toSizeArm_range _).1 hw
    subst h
    exact ⟨rfl, rfl, h2, h3, h1⟩
  · simp only [hres, not_false_eq_true, if_true] at h
    exact absurd h (by simp)

theorem run_align_loop_succ
    (block : Nat → List Dihedral → Int → List Dihedral → List Int → Int → List Int)
    (seqs : Sequences) (k : Nat) (i : Int) (rs rs1 : RunState)
    (h : run_align_loop block seqs (k + 1) i rs = some rs1) :
    ∃ rs2, run_align_body block seqs i rs = some rs2
      ∧ run_align_loop block seqs k (i + 1) rs2 = some rs1 := by
  rw [run_align_loop] at h
  cases hb : run_align_body block seqs i rs with
  | none => rw [hb] at h; exact absurd h (by simp)
  | some rs2 => rw [hb] at h; exact ⟨rs2, rfl, h⟩

theorem run_align_loop_ok
    (block : Nat → List Dihedral → Int → List Dihedral → List Int → Int → List Int)
    (seqs : Sequences) :
    ∀ (k : Nat) (i : Int) (rs rs1 : RunState),
      (k : Int) ≤ rs.num_seqs_hor → rs.num_seqs_hor ≤ 4294967296 →
      0 ≤ rs.total_bytes_written → rs.total_bytes_written < 4294967296 →
      (rs.out_file.fptr : Int) < 4294967296 →
      run_align_loop block seqs k i rs = some rs1 →
      rs1.num_seqs_hor = rs.num_seqs_hor - k
        ∧ rs1.total_bytes_written
            = toSizeArm (rs.total_bytes_written + score_bytes k rs.num_seqs_hor)
        ∧ (rs1.out_file.fptr : Int) = rs.out_file.fptr + score_bytes k rs.num_seqs_hor
        ∧ (rs1.out_file.fptr : Int) < 4294967296
  | 0, i, rs, rs1, _, _, ht1, ht2, hf, h => by
    rw [run_align_loop, Option.some.injEq] at h
    subst h
    refine ⟨by simp, ?_, by simp [score_bytes], hf⟩
    rw [score_bytes, add_zero, toSizeArm_of_range ht1 ht2]
  | k + 1, i, rs, rs1, hk, hM, ht1, ht2, hf, h => by
    obtain ⟨rs2, hb, hl⟩ := run_align_loop_succ block seqs k i rs rs1 h
    obtain ⟨b1, b2, b3, b4, _⟩ := run_align_body_ok block seqs i rs rs2
      (by push_cast at hk; omega) hM hb
    have hsb := toSizeArm_range ((rs.num_seqs_hor - 1) * 4)
    have hfp : (rs2.out_file.fptr : Int)
        = rs.out_file.fptr + toSizeArm ((rs.num_seqs_hor - 1) * 4) := by
      rw [b4]
      simp only
      push_cast
      rw [Int.toNat_of_nonneg hsb.1]
    have ht := toSizeArm_range (rs.total_bytes_written + toSizeArm ((rs.num_seqs_hor - 1) * 4))
    obtain ⟨c1, c2, c3, c4⟩ := run_align_loop_ok block seqs k (i + 1) rs2 rs1
      (by rw [b1]; push_cast at hk; omega) (by rw [b1]; omega)
      (by rw [b2]; exact ht.1) (by rw [b2]; exact ht.2)
      (by rw [hfp]; omega) hl
    refine ⟨by rw [c1, b1]; push_cast; ring, ?_, ?_, c4⟩
    · rw [c2, b2, b1]
      show _ = toSizeArm (_ + (toSizeArm ((rs.num_seqs_hor - 1) * 4)
        + score_bytes k (rs.num_seqs_hor - 1)))
      unfold toSizeArm
      omega
    · rw [c3, hfp, b1]
      show _ = _ + (toSizeArm ((rs.num_seqs_hor - 1) * 4) + score_bytes k (rs.num_seqs_hor - 1))
      ring

theorem score_bytes_exact :
    ∀ k : Nat, score_bytes k ((k : Int) + 1) < 4294967296 →
      score_bytes k ((k : Int) + 1) = 2 * (k : Int) * ((k : Int) + 1)
  | 0, _ => by simp [score_bytes]
  | k + 1, h => by
    have e : score_bytes (k + 1) (((k + 1 : Nat) : Int) + 1)
        = toSizeArm (((k : Int) + 1) * 4) + score_bytes k ((k : Int) + 1) := by
      rw [score_bytes]
      push_cast
      rw [add_sub_cancel_right]
    rw [e] at h ⊢
    have h1 := toSizeArm_range (((k : Int) + 1) * 4)
    have h2 := score_bytes_nonneg k ((k : Int) + 1)
    have ih := score_bytes_exact k (by omega)
    have hk : (k : Int) < 65536 := by
      by_contra hge
      have : (65536 : Int) * 65536 ≤ (k : Int) * ((k : Int) + 1) := by nlinarith
      nlinarith
    rw [ih, toSizeArm_of_range (by omega) (by omega)]
    push_cast
    ring

theorem pairs_even (N : Int) : 2 * (N * (N - 1) / 2) = N * (N - 1) := by
  have h : Even (N * (N - 1)) := by
    have := Int.even_mul_pred_self N
    exact this
  obtain ⟨c, hc⟩ := h
  rw [hc]
  omega

theorem score_bytes_small :
    ∀ k : Nat, (k : Int) < 1073741824 →
      score_bytes k ((k : Int) + 1) = 2 * (k : Int) * ((k : Int) + 1)
  | 0, _ => by simp [score_bytes]
  | k + 1, h => by
    have e : score_bytes (k + 1) (((k + 1 : Nat) : Int) + 1)
        = toSizeArm (((k : Int) + 1) * 4) + score_bytes k ((k : Int) + 1) := by
      rw [score_bytes]
      push_cast
      rw [add_sub_cancel_right]
    push_cast at h
    rw [e, score_bytes_small k (by omega), toSizeArm_of_range (by omega) (by omega)]
    push_cast
    ring

theorem range_map_succ {α : Type} (f : Nat → α) (k : Nat) :
    (List.range (k + 1)).map f = f 0 :: (List.range k).map (fun j => f (j + 1)) := by
  rw [List.range_succ_eq_map, List.map_cons, List.map_map]
  rfl

theorem run_align_body_replay (G : List (List Int)) (seqs : Sequences) (i : Nat)
    (rs : RunState) (hM1 : 1 ≤ rs.num_seqs_hor) (hM2 : rs.num_seqs_hor ≤ 1073741824)
    (hg : ((G.getD i []).length : Int) = rs.num_seqs_hor - 1)
    (hend : rs.out_file.fptr = rs.out_file.data.length)
    (hroom : (rs.out_file.fptr : Int) + 4 * (rs.num_seqs_hor - 1) < 4294967296) :
    ∃ rs1, run_align_body (replay_block G) seqs (i : Int) rs = some rs1
      ∧ rs1.out_file.data = rs.out_file.data ++ encode_scores (G.getD i [])
      ∧ rs1.out_file.fptr = rs1.out_file.data.length := by
  have hM : toSizeArm (rs.num_seqs_hor - 1) = rs.num_seqs_hor - 1 :=
    toSizeArm_of_range (by omega) (by omega)
  have hsb : toSizeArm ((rs.num_seqs_hor - 1) * 4) = (rs.num_seqs_hor - 1) * 4 :=
    toSizeArm_of_range (by omega) (by omega)
  have hlen : ((encode_scores (G.getD i [])).length : Int) = (rs.num_seqs_hor - 1) * 4 := by
    rw [encode_scores_length]
    push_cast
    omega
  have hn : ((rs.num_seqs_hor - 1) * 4).toNat = (encode_scores (G.getD i [])).length := by
    omega
  unfold run_align_body
  simp only [hM, hsb, replay_block, Int.toNat_ofNat]
  rw [f_write_chk_eq _ _ _ (by omega) (by omega) (by omega)]
  simp only [ne_eq, not_true_eq_false, if_false]
  refine ⟨_, rfl, ?_, ?_⟩
  · simp only [hn, hend, List.take_length]
    rw [List.drop_eq_nil_of_le (by omega), List.append_nil]
  · simp only [hn, hend, List.take_length]
    rw [List.drop_eq_nil_of_le (by omega), List.append_nil, List.length_append]

theorem run_align_loop_replay (G : List (List Int)) (seqs : Sequences) :
    ∀ (k i : Nat) (rs : RunState),
      (k : Int) ≤ rs.num_seqs_hor → rs.num_seqs_hor ≤ 1073741824 →
      (∀ j, j < k → ((G.getD (i + j) []).length : Int) = rs.num_seqs_hor - 1 - j) →
      rs.out_file.fptr = rs.out_file.data.length →
      (rs.out_file.fptr : Int) + score_bytes k rs.num_seqs_hor < 4294967296 →
      ∃ rs1, run_align_loop (replay_block G) seqs k (i : Int) rs = some rs1
        ∧ rs1.out_file.data
            = rs.out_file.data
              ++ encode_scores ((List.range k).map (fun j => G.getD (i + j) [])).flatten
        ∧ rs1.out_file.fptr = rs1.out_file.data.length
  | 0, i, rs, _, _, _, hend, _ => by
    refine ⟨rs, rfl, ?_, hend⟩
    simp [encode_scores]
  | k + 1, i, rs, hk, hM, hg, hend, hroom => by
    have hsb : toSizeArm ((rs.num_seqs_hor - 1) * 4) = (rs.num_seqs_hor - 1) * 4 :=
      toSizeArm_of_range (by push_cast at hk; omega) (by omega)
    have hsn := score_bytes_nonneg k (rs.num_seqs_hor - 1)
    rw [score_bytes, hsb] at hroom
    obtain ⟨rs2, hb, hd, he⟩ := run_align_body_replay G seqs i rs
      (by push_cast at hk; omega) hM
      (by have := hg 0 (by omega); simpa using this) hend (by omega)
    obtain ⟨b1, _, _, b4, _⟩ := run_align_body_ok (replay_block G) seqs i rs rs2
      (by push_cast at hk; omega) (by omega) hb
    have hfp : (rs2.out_file.fptr : Int) = rs.out_file.fptr + (rs.num_seqs_hor - 1) * 4 := by
      rw [b4]
      simp only
      push_cast
      rw [hsb, Int.toNat_of_nonneg (by push_cast at hk; omega)]
    obtain ⟨rs1, hl, hd1, he1⟩ := run_align_loop_replay G seqs k (i + 1) rs2
      (by rw [b1]; push_cast at hk; omega) (by rw [b1]; omega)
      (fun j hj => by
        have := hg (j + 1) (by omega)
        rw [b1]
        have e : i + 1 + j = i + (j + 1) := by omega
        rw [e, this]
        push_cast
        ring)
      he (by rw [hfp, b1]; omega)
    refine ⟨rs1, ?_, ?_, he1⟩
    · rw [run_align_loop, hb]
      exact hl
    · rw [hd1, hd, range_map_succ, List.flatten_cons, encode_scores_append,
        List.append_assoc]
      simp only [Nat.add_zero]
      have e : ∀ j, i + 1 + j = i + (j + 1) := fun j => by omega
      simp only [e]

/-! ## The function `run_align` -/

theorem run_align_some (S : Int)
    (block : Nat → List Dihedral → Int → List Dihedral → List Int → Int → List Int)
    (seqs : Sequences) (out_file : FIL) (r : RunResult)
    (h : run_align S block seqs out_file = some r) :
    ∃ f1 rs f2,
      f_write_chk out_file (encode_u32 seqs.num_sequences) 4 = (FRESULT.FR_OK, f1)
      ∧ run_align_loop block seqs (run_align_iterations seqs.num_sequences) 0
          { out_file := f1
            total_bytes_written := toSizeArm (0 + 4)
            num_seqs_hor := toSizeArm seqs.num_sequences
            len_hor := total_seq_len seqs.sequence_lengths seqs.num_sequences
            seq_ver := 0 } = some rs
      ∧ pad_file S rs.out_file rs.total_bytes_written = (FRESULT.FR_OK, f2)
      ∧ r = { out_file := f2, total_bytes_written := rs.total_bytes_written } := by
  unfold run_align at h
  generalize hw : f_write_chk out_file (encode_u32 seqs.num_sequences) 4 = w at h
  obtain ⟨res, f1⟩ := w
  simp only [ne_eq] at h
  by_cases hres : res = FRESULT.FR_OK
  · subst hres
    simp only [not_true_eq_false, if_false] at h
    cases hl : run_align_loop block seqs (run_align_iterations seqs.num_sequences) 0
        { out_file := f1
          total_bytes_written := toSizeArm (0 + 4)
          num_seqs_hor := toSizeArm seqs.num_sequences
          len_hor := total_seq_len seqs.sequence_lengths seqs.num_sequences
          seq_ver := 0 } with
    | none => rw [hl] at h; exact absurd h (by simp)
    | some rs =>
      rw [hl] at h
      simp only at h
      generalize hp : pad_file S rs.out_file rs.total_bytes_written = w at h
      obtain ⟨res2, f2⟩ := w
      simp only at h
      by_cases hres2 : res2 = FRESULT.FR_OK
      · subst hres2
        simp only [not_true_eq_false, if_false, Option.some.injEq] at h
        exact ⟨f1, rs, f2, rfl, hl, hp, h.symm⟩
      · simp only [hres2, not_false_eq_true, if_true] at h
        exact absurd h (by simp)
  · simp only [hres, not_false_eq_true, if_true] at h
    exact absurd h (by simp)

theorem run_align_iterations_eq (N : Int) (h1 : 1 ≤ N) (h2 : N ≤ 4294967296) :
    run_align_iterations N = (N - 1).toNat := by
  unfold run_align_iterations toUInt32
  congr 1
  omega

theorem run_align_total (S : Int)
    (block : Nat → List Dihedral → Int → List Dihedral → List Int → Int → List Int)
    (seqs : Sequences) (out_file : FIL) (r : RunResult)
    (hN1 : 1 ≤ seqs.num_sequences) (hN2 : seqs.num_sequences < 4294967296)
    (h : run_align S block seqs out_file = some r) :
    r.total_bytes_written = 4 + 2 * seqs.num_sequences * (seqs.num_sequences - 1)
      ∧ 4 + 2 * seqs.num_sequences * (seqs.num_sequences - 1) < 4294967296 := by
  obtain ⟨f1, rs, f2, hw, hl, _, hr⟩ := run_align_some S block seqs out_file r h
  obtain ⟨_, w2, w3⟩ := f_write_chk_ok _ _ _ _ (by decide) hw
  have hf1 : (f1.fptr : Int) = out_file.fptr + 4 := by
    rw [w3]
    simp
  rw [run_align_iterations_eq _ hN1 (by omega), toSizeArm_of_range (by omega) hN2] at hl
  obtain ⟨_, c2, c3, c4⟩ := run_align_loop_ok block seqs _ 0 _ rs
    (by simp only; omega) (by simp only; omega) (toSizeArm_range _).1 (toSizeArm_range _).2
    (by simp only; omega) hl
  simp only at c2 c3
  have hsn := score_bytes_nonneg (seqs.num_sequences - 1).toNat seqs.num_sequences
  obtain ⟨k, hk⟩ := Int.eq_ofNat_of_zero_le (show 0 ≤ seqs.num_sequences - 1 by omega)
  have hN : seqs.num_sequences = (k : Int) + 1 := by omega
  rw [hk, Int.toNat_ofNat, hN] at c2 c3 hsn
  have hex := score_bytes_exact k (by omega)
  rw [hr]
  simp only
  rw [c2, hN, hex]
  have e : toSizeArm (0 + 4) = 4 := rfl
  rw [e]
  rw [hex] at c3
  constructor
  · rw [toSizeArm_of_range (by omega) (by omega)]
    ring
  · have : 2 * ((k : Int) + 1) * ((k : Int) + 1 - 1) = 2 * (k : Int) * ((k : Int) + 1) := by ring
    omega

theorem range_sum_groups : ∀ (k : Nat) (M : Int),
    ((List.range k).map (fun (i : Nat) => 4 * (M - (i : Int)))).sum
      = 4 * (k : Int) * M - 2 * (k : Int) * ((k : Int) - 1)
  | 0, M => by simp
  | k + 1, M => by
    rw [range_map_succ, List.sum_cons]
    have e : (fun (j : Nat) => 4 * (M - ((j + 1 : Nat) : Int)))
        = (fun (j : Nat) => 4 * ((M - 1) - (j : Int))) := by
      funext j
      push_cast
      ring
    rw [e, range_sum_groups k (M - 1)]
    push_cast
    ring

/-- C16: for every `N ≥ 1` (a `seq_count_type`), when `run_align` succeeds, with every
write succeeding, the value of `total_bytes_written` that it passes to `pad_file` is
`4 + 4 * N(N-1)/2`: 4 bytes for `N` and `4 * (N-1-i)` bytes for each group
`i = 0..N-2`. -/
theorem run_align_total_bytes (S : Int)
    (block : Nat → List Dihedral → Int → List Dihedral → List Int → Int → List Int)
    (seqs : Sequences) (out_file : FIL) (r : RunResult)
    (hN1 : 1 ≤ seqs.num_sequences) (hN2 : seqs.num_sequences < 4294967296)
    (h : run_align S block seqs out_file = some r) :
    r.total_bytes_written = 4 + 4 * (seqs.num_sequences * (seqs.num_sequences - 1) / 2)
      ∧ r.total_bytes_written
          = 4 + ((List.range (seqs.num_sequences - 1).toNat).map
                  (fun (i : Nat) => 4 * (seqs.num_sequences - 1 - (i : Int)))).sum := by
  obtain ⟨ht, _⟩ := run_align_total S block seqs out_file r hN1 hN2 h
  have hp := pairs_even seqs.num_sequences
  constructor
  · rw [ht]
    have : 2 * seqs.num_sequences * (seqs.num_sequences - 1)
        = 2 * (seqs.num_sequences * (seqs.num_sequences - 1)) := by ring
    omega
  · rw [ht, range_sum_groups, Int.toNat_of_nonneg (by omega)]
    ring

theorem range_map_getD {α : Type} (G : List α) (d : α) :
    (List.range G.length).map (fun j => G.getD (0 + j) d) = G := by
  apply List.ext_getElem
  · simp
  · intro n h1 h2
    simp [List.getD_eq_getElem?_getD, List.getElem?_eq_getElem h2]

theorem run_align_replay (S : Int) (G : List (List Int)) (seqs : Sequences) (out_file : FIL)
    (hS : 0 < S) (hS2 : S < 4294967296)
    (hN1 : 1 ≤ seqs.num_sequences) (hG : (G.length : Int) = seqs.num_sequences - 1)
    (hg : ∀ j, j < G.length → ((G.getD j []).length : Int) = seqs.num_sequences - 1 - j)
    (hend : out_file.fptr = out_file.data.length)
    (hroom : (out_file.fptr : Int) + (4 + 2 * seqs.num_sequences * (seqs.num_sequences - 1))
        + padding_size S (4 + 2 * seqs.num_sequences * (seqs.num_sequences - 1)) < 4294967296) :
    ∃ r, run_align S (replay_block G) seqs out_file = some r
      ∧ r.out_file.data
          = out_file.data ++ (encode_u32 seqs.num_sequences ++ encode_scores G.flatten
              ++ List.replicate
                (padding_size S (4 + 2 * seqs.num_sequences * (seqs.num_sequences - 1))).toNat 0)
      ∧ r.total_bytes_written = 4 + 2 * seqs.num_sequences * (seqs.num_sequences - 1)
      ∧ 2 * (G.flatten.length : Int) = seqs.num_sequences * (seqs.num_sequences - 1) := by
  have hp := padding_size_range S (4 + 2 * seqs.num_sequences * (seqs.num_sequences - 1)) hS
  have hN2 : seqs.num_sequences < 65537 := by
    by_contra hge
    have : (65536 : Int) * 65537 ≤ seqs.num_sequences * (seqs.num_sequences - 1) := by nlinarith
    have e : 2 * seqs.num_sequences * (seqs.num_sequences - 1)
        = 2 * (seqs.num_sequences * (seqs.num_sequences - 1)) := by ring
    omega
  have hpos : 0 ≤ 2 * seqs.num_sequences * (seqs.num_sequences - 1) := by
    have : 0 ≤ seqs.num_sequences * (seqs.num_sequences - 1) :=
      mul_nonneg (by omega) (by omega)
    have e : 2 * seqs.num_sequences * (seqs.num_sequences - 1)
        = 2 * (seqs.num_sequences * (seqs.num_sequences - 1)) := by ring
    omega
  have hsc : score_bytes G.length seqs.num_sequences
      = 2 * seqs.num_sequences * (seqs.num_sequences - 1) := by
    have h1 := score_bytes_small G.length (by omega)
    have e : (G.length : Int) + 1 = seqs.num_sequences := by omega
    rw [e] at h1
    rw [h1, hG]
    ring
  -- the first write
  have hw := f_write_chk_eq out_file (encode_u32 seqs.num_sequences) 4 (by decide)
    (by rw [encode_u32_length]; decide) (by omega)
  have hf1 : ({ data := out_file.data.take out_file.fptr
                  ++ (encode_u32 seqs.num_sequences).take (4 : Int).toNat
                  ++ out_file.data.drop (out_file.fptr + (4 : Int).toNat)
                fptr := out_file.fptr + (4 : Int).toNat } : FIL)
      = { data := out_file.data ++ encode_u32 seqs.num_sequences
          fptr := out_file.data.length + 4 } := by
    rw [hend, List.take_length, List.drop_eq_nil_of_le (by omega), List.append_nil]
    rfl
  rw [hf1] at hw
  -- the loop
  obtain ⟨rs, hl, hd, he⟩ := run_align_loop_replay G seqs G.length 0
    { out_file := { data := out_file.data ++ encode_u32 seqs.num_sequences
                    fptr := out_file.data.length + 4 }
      total_bytes_written := toSizeArm (0 + 4)
      num_seqs_hor := seqs.num_sequences
      len_hor := total_seq_len seqs.sequence_lengths seqs.num_sequences
      seq_ver := 0 }
    (by simp only; omega) (by simp only; omega)
    (fun j hj => by
      have := hg j hj
      simp only [Nat.zero_add]
      exact this)
    (by simp [encode_u32_length])
    (by simp only [hsc]; push_cast; rw [← hend]; omega)
  obtain ⟨_, c2, c3, _⟩ := run_align_loop_ok (replay_block G) seqs _ _ _ rs
    (by simp only; omega) (by simp only; omega) (toSizeArm_range _).1 (toSizeArm_range _).2
    (by simp only; push_cast; rw [← hend]; omega) hl
  simp only [hsc] at c2 c3
  have e4 : toSizeArm (0 + 4) = 4 := rfl
  rw [e4, toSizeArm_of_range (by omega) (by omega)] at c2
  simp only [range_map_getD] at hd
  have hpad := pad_file_eq S rs.total_bytes_written rs.out_file hS hS2
    (by rw [c2, c3]; push_cast; rw [← hend]; omega)
  rw [c2] at hpad
  refine ⟨{ out_file :=
              { data := rs.out_file.data.take rs.out_file.fptr
                  ++ List.replicate (padding_size S
                      (4 + 2 * seqs.num_sequences * (seqs.num_sequences - 1))).toNat 0
                  ++ rs.out_file.data.drop (rs.out_file.fptr + (padding_size S
                      (4 + 2 * seqs.num_sequences * (seqs.num_sequences - 1))).toNat)
                fptr := rs.out_file.fptr + (padding_size S
                      (4 + 2 * seqs.num_sequences * (seqs.num_sequences - 1))).toNat }
            total_bytes_written := rs.total_bytes_written }, ?_, ?_, c2, ?_⟩
  · unfold run_align
    rw [hw]
    simp only [ne_eq, not_true_eq_false, if_false]
    have hit : run_align_iterations seqs.num_sequences = G.length := by
      rw [run_align_iterations_eq _ hN1 (by omega)]
      omega
    rw [hit, toSizeArm_of_range (x := seqs.num_sequences) (by omega) (by omega)]
    have hl0 : run_align_loop (replay_block G) seqs G.length 0
        { out_file := { data := out_file.data ++ encode_u32 seqs.num_sequences
                        fptr := out_file.data.length + 4 }
          total_bytes_written := toSizeArm (0 + 4)
          num_seqs_hor := seqs.num_sequences
          len_hor := total_seq_len seqs.sequence_lengths seqs.num_sequences
          seq_ver := 0 } = some rs := hl
    rw [hl0]
    simp only
    rw [c2, hpad]
    simp only [not_true_eq_false, if_false]
  · simp only
    rw [he, List.take_length, List.drop_eq_nil_of_le (by omega), List.append_nil, hd]
    simp only [List.append_assoc]
  · have hlen : (rs.out_file.data.length : Int)
        = out_file.data.length + 4 + 4 * (G.flatten.length : Int) := by
      rw [hd]
      simp only [List.length_append, encode_u32_length, encode_scores_length]
      push_cast
      ring
    rw [he] at c3
    push_cast at c3
    have e : 2 * seqs.num_sequences * (seqs.num_sequences - 1)
        = 2 * (seqs.num_sequences * (seqs.num_sequences - 1)) := by ring
    omega

/-! ## Decoding the score file -/

theorem fread4_encode (x : Int) (rest : List Byte) :
    fread4 (encode_u32 x ++ rest) = some (encode_u32 x, rest) := by
  simp [fread4, encode_u32]

theorem dump_score_group_encode :
    ∀ (g : List Int) (rest : List Byte),
      (∀ x ∈ g, -2147483648 ≤ x ∧ x ≤ 2147483647) →
      dump_score_group g.length (encode_scores g ++ rest) = some (g, rest)
  | [], _, _ => rfl
  | x :: xs, rest, h => by
    rw [encode_scores_cons, List.append_assoc, List.length_cons, dump_score_group,
      fread4_encode]
    simp only
    rw [dump_score_group_encode xs rest (fun y hy => h y (List.mem_cons_of_mem _ hy))]
    simp only
    rw [toInt32_decode_encode_u32 x (h x (List.mem_cons_self _ _)).1
      (h x (List.mem_cons_self _ _)).2]

theorem dump_score_groups_encode (N : Int) (G : List (List Int)) :
    ∀ (k i : Nat) (rest : List Byte),
      (i : Int) + k < 4294967296 →
      (∀ j, j < k → ((G.getD (i + j) []).length : Int) = N - 1 - i - j) →
      (∀ j, j < k → ∀ x ∈ G.getD (i + j) [], -2147483648 ≤ x ∧ x ≤ 2147483647) →
      dump_score_groups N k (i : Int)
          (encode_scores ((List.range k).map (fun j => G.getD (i + j) [])).flatten ++ rest)
        = some ((List.range k).map (fun j => G.getD (i + j) []), rest)
  | 0, _, _, _, _, _ => rfl
  | k + 1, i, rest, hi, hg, hx => by
    have h0 := hg 0 (by omega)
    simp only [Nat.add_zero, Nat.cast_zero, sub_zero] at h0
    have hcount : (N - toUInt32 ((i : Int) + 1)).toNat = (G.getD i []).length := by
      unfold toUInt32
      push_cast at hi
      omega
    have e : ∀ j, i + 1 + j = i + (j + 1) := fun j => by omega
    rw [range_map_succ, List.flatten_cons, encode_scores_append, List.append_assoc,
      dump_score_groups, hcount]
    simp only [Nat.add_zero]
    rw [dump_score_group_encode _ _ (by have := hx 0 (by omega); simpa using this)]
    simp only
    have ih := dump_score_groups_encode N G k (i + 1) rest (by push_cast at hi ⊢; omega)
      (fun j hj => by
        have := hg (j + 1) (by omega)
        rw [e, this]
        push_cast
        ring)
      (fun j hj x hxm => by
        rw [e] at hxm
        exact hx (j + 1) (by omega) x hxm)
    simp only [e] at ih
    have ih1 : dump_score_groups N k ((i : Int) + 1)
        (encode_scores ((List.range k).map (fun j => G.getD (i + (j + 1)) [])).flatten ++ rest)
        = some ((List.range k).map (fun j => G.getD (i + (j + 1)) []), rest) := ih
    rw [ih1]

theorem dump_score_encode (N : Int) (G : List (List Int)) (rest : List Byte)
    (hN1 : 1 ≤ N) (hN2 : N < 4294967296) (hG : (G.length : Int) = N - 1)
    (hg : ∀ i, i < G.length → ((G.getD i []).length : Int) = N - 1 - i)
    (hx : ∀ g ∈ G, ∀ x ∈ g, -2147483648 ≤ x ∧ x ≤ 2147483647) :
    dump_score (encode_u32 N ++ (encode_scores G.flatten ++ rest)) = some (G, rest) := by
  have hk : (toUInt32 (toUInt32 N - 1)).toNat = G.length := by
    unfold toUInt32
    omega
  have hmem : ∀ j, j < G.length → G.getD (0 + j) [] ∈ G := by
    intro j hj
    rw [Nat.zero_add, List.getD_eq_getElem?_getD, List.getElem?_eq_getElem hj]
    exact List.getElem_mem hj
  have h := dump_score_groups_encode N G G.length 0 rest (by push_cast; omega)
    (fun j hj => by
      have := hg j hj
      simp only [Nat.zero_add, Nat.cast_zero, sub_zero]
      exact this)
    (fun j hj x hxm => hx _ (hmem j hj) x hxm)
  simp only [range_map_getD] at h
  unfold dump_score
  rw [fread4_encode]
  simp only [decode_encode_u32, hk]
  have e : toUInt32 N = N := by unfold toUInt32; omega
  rw [e]
  exact h

theorem run_align_total_bytes_witness :
    1 ≤ seqs3.num_sequences ∧ seqs3.num_sequences < 4294967296
      ∧ run_align 512 (replay_block groups3) seqs3 new_file = some run3
      ∧ run3.total_bytes_written = 4 + 4 * (3 * (3 - 1) / 2) :=
  ⟨by decide, by decide, by set_option maxRecDepth 100000 in rfl,
    (run_align_total_bytes 512 (replay_block groups3) seqs3 new_file run3 (by decide)
      (by decide) (by set_option maxRecDepth 100000 in rfl)).1⟩

/-- C18: for every `N ≥ 1` and every list of `N(N-1)/2` scores (of `score_type`), given
as the groups `G_0, ..., G_{N-2}` with `N-1-i` scores in `G_i` that the block delivers,
`run_align` on an output file with room for the result appends `N`, the groups in order
and the zero padding, and `dump_score` decodes these bytes to the same scores in the
same order and grouping, leaving exactly the padding bytes unread. -/
theorem dump_score_run_align (S : Int) (G : List (List Int)) (seqs : Sequences)
    (out_file : FIL) (hS : 0 < S) (hS2 : S < 4294967296)
    (hN1 : 1 ≤ seqs.num_sequences) (hG : (G.length : Int) = seqs.num_sequences - 1)
    (hg : ∀ i, i < G.length → ((G.getD i []).length : Int) = seqs.num_sequences - 1 - i)
    (hx : ∀ g ∈ G, ∀ x ∈ g, -2147483648 ≤ x ∧ x ≤ 2147483647)
    (hend : out_file.fptr = out_file.data.length)
    (hroom : (out_file.fptr : Int)
        + (4 + 4 * (seqs.num_sequences * (seqs.num_sequences - 1) / 2))
        + (S - (4 + 4 * (seqs.num_sequences * (seqs.num_sequences - 1) / 2)) % S) % S
          < 4294967296) :
    ∃ r, run_align S (replay_block G) seqs out_file = some r
      ∧ r.out_file.data
          = out_file.data ++ (encode_u32 seqs.num_sequences ++ encode_scores G.flatten
              ++ List.replicate
                  ((S - (4 + 4 * (seqs.num_sequences * (seqs.num_sequences - 1) / 2)) % S)
                    % S).toNat 0)
      ∧ dump_score (r.out_file.data.drop out_file.data.length)
          = some (G, List.replicate
              ((S - (4 + 4 * (seqs.num_sequences * (seqs.num_sequences - 1) / 2)) % S)
                % S).toNat 0)
      ∧ (G.flatten.length : Int) = seqs.num_sequences * (seqs.num_sequences - 1) / 2 := by
  have hp := pairs_even seqs.num_sequences
  have e : 4 + 4 * (seqs.num_sequences * (seqs.num_sequences - 1) / 2)
      = 4 + 2 * seqs.num_sequences * (seqs.num_sequences - 1) := by
    have : 2 * seqs.num_sequences * (seqs.num_sequences - 1)
        = 2 * (seqs.num_sequences * (seqs.num_sequences - 1)) := by ring
    omega
  rw [e] at hroom ⊢
  have hpr := padding_size_range S (4 + 2 * seqs.num_sequences * (seqs.num_sequences - 1)) hS
  obtain ⟨r, h1, h2, h3, h4⟩ := run_align_replay S G seqs out_file hS hS2 hN1 hG hg hend hroom
  have hN2 : seqs.num_sequences < 4294967296 := by
    by_contra hge
    have h5 : (4294967296 : Int) * 4294967295
        ≤ seqs.num_sequences * (seqs.num_sequences - 1) := by nlinarith
    have e2 : 2 * seqs.num_sequences * (seqs.num_sequences - 1)
        = 2 * (seqs.num_sequences * (seqs.num_sequences - 1)) := by ring
    unfold padding_size at hpr
    rw [e2] at hroom hpr
    omega
  refine ⟨r, h1, h2, ?_, by omega⟩
  rw [h2, List.drop_left, List.append_assoc]
  exact dump_score_encode seqs.num_sequences G _ hN1 hN2 hG hg hx

theorem dump_score_run_align_witness :
    (0 : Int) < 512 ∧ (512 : Int) < 4294967296 ∧ 1 ≤ seqs3.num_sequences
      ∧ (groups3.length : Int) = seqs3.num_sequences - 1
      ∧ (∀ i, i < groups3.length →
          ((groups3.getD i []).length : Int) = seqs3.num_sequences - 1 - i)
      ∧ (∀ g ∈ groups3, ∀ x ∈ g, (-2147483648 : Int) ≤ x ∧ x ≤ 2147483647)
      ∧ new_file.fptr = new_file.data.length
      ∧ ∃ r, run_align 512 (replay_block groups3) seqs3 new_file = some r
          ∧ dump_score (r.out_file.data.drop new_file.data.length)
              = some (groups3, List.replicate 496 0) := by
  refine ⟨by decide, by decide, by decide, by decide, by decide, by decide, rfl, ?_⟩
  obtain ⟨r, h1, _, h3, _⟩ := dump_score_run_align 512 groups3 seqs3 new_file (by decide)
    (by decide) (by decide) (by decide) (by decide) (by decide) rfl (by decide)
  exact ⟨r, h1, h3⟩

/-! ## Reading the input container -/

theorem total_seq_len_loop_eq :
    ∀ (suf pre : List Int) (len : Int), 0 ≤ len → len < 4294967296 →
      total_seq_len_loop (pre ++ suf) suf.length pre.length len = toSizeArm (len + suf.sum)
  | [], pre, len, h1, h2 => by
    rw [List.length_nil, total_seq_len_loop, List.sum_nil, add_zero, toSizeArm_of_range h1 h2]
  | x :: xs, pre, len, h1, h2 => by
    have hget : (pre ++ x :: xs).getD pre.length 0 = x := by
      rw [List.getD_eq_getElem?_getD, List.getElem?_append_right (le_refl _)]
      simp
    have e : pre ++ x :: xs = (pre ++ [x]) ++ xs := by simp
    have hr := toSizeArm_range (len + x)
    rw [List.length_cons, total_seq_len_loop, hget, e]
    have := total_seq_len_loop_eq xs (pre ++ [x]) (toSizeArm (len + x)) hr.1 hr.2
    rw [List.length_append, List.length_singleton] at this
    rw [this, List.sum_cons]
    unfold toSizeArm
    omega

theorem total_seq_len_eq (lens : List Int) :
    total_seq_len lens (lens.length : Int) = toSizeArm lens.sum := by
  unfold total_seq_len
  rw [Int.toNat_ofNat]
  have := total_seq_len_loop_eq lens [] 0 (le_refl _) (by decide)
  simpa using this

theorem map_toInt16_of_range (lens : List Int) (hl : ∀ l ∈ lens, -32768 ≤ l ∧ l ≤ 32767) :
    lens.map toInt16 = lens := by
  induction lens with
  | nil => rfl
  | cons x xs ih =>
    rw [List.map_cons, toInt16_of_range (hl x (List.mem_cons_self _ _)).1
      (hl x (List.mem_cons_self _ _)).2, ih (fun l h => hl l (List.mem_cons_of_mem _ h))]

theorem container_length (lens : List Int) (rest : List Byte) :
    (container lens rest).length = 4 + 2 * lens.length + rest.length := by
  unfold container
  rw [List.length_append, List.length_append, encode_u32_length, flatMap_encode_i16_length]

theorem read_sequences_container (lens : List Int) (rest : List Byte)
    (hN : lens.length < 2147483648) (hl : ∀ l ∈ lens, -32768 ≤ l ∧ l ≤ 32767) :
    (read_sequences_from_file { data := container lens rest, fptr := 0 }).1
        = (if (4 * lens.sum) % 4294967296 ≤ (rest.length : Int) then FRESULT.FR_OK
            else FRESULT.FR_INT_ERR)
      ∧ (read_sequences_from_file { data := container lens rest, fptr := 0 }).2.1
        = (if (4 * lens.sum) % 4294967296 ≤ (rest.length : Int) then
            some { buffer := decode_dihedrals (rest.take ((4 * lens.sum) % 4294967296).toNat)
                   sequence_lengths := lens
                   num_sequences := lens.length }
            else none) := by
  have hlen := container_length lens rest
  have hL := flatMap_encode_i16_length lens
  have hsz : toSizeArm (toSizeArm lens.sum * 4) = (4 * lens.sum) % 4294967296 := by
    unfold toSizeArm
    omega
  have hszr := toSizeArm_range (toSizeArm lens.sum * 4)
  rw [hsz] at hszr
  have hnum : decode_u32 (encode_u32 (lens.length : Int)) = lens.length := by
    rw [decode_encode_u32]
    unfold toUInt32
    omega
  have hsl : toSizeArm ((lens.length : Int) * 2) = ((2 * lens.length : Nat) : Int) := by
    rw [toSizeArm_of_range (by omega) (by omega)]
    push_cast
    ring
  -- the three reads
  have h1 : f_read_chk { data := container lens rest, fptr := 0 } 4
      = (FRESULT.FR_OK, encode_u32 (lens.length : Int),
          { data := container lens rest, fptr := 4 }) := by
    rw [f_read_chk_eq _ _ (by decide)]
    simp only [hlen, Nat.sub_zero, List.drop_zero, Nat.zero_add]
    rw [if_pos (by push_cast; omega)]
    have : List.take (4 : Int).toNat (container lens rest) = encode_u32 (lens.length : Int) := by
      unfold container
      rw [List.append_assoc]
      exact List.take_left' (encode_u32_length _)
    rw [this]
    congr 3
    have : (4 : Int).toNat = 4 := rfl
    omega
  have h2 : f_read_chk { data := container lens rest, fptr := 4 }
        ((2 * lens.length : Nat) : Int)
      = (FRESULT.FR_OK, lens.flatMap encode_i16,
          { data := container lens rest, fptr := 4 + 2 * lens.length }) := by
    rw [f_read_chk_eq _ _ (by omega)]
    simp only [hlen, Int.toNat_ofNat]
    rw [if_pos (by push_cast; omega)]
    have : List.take (2 * lens.length) (List.drop 4 (container lens rest))
        = lens.flatMap encode_i16 := by
      unfold container
      rw [List.append_assoc, List.drop_left' (encode_u32_length _)]
      exact List.take_left' hL
    rw [this]
    congr 3
    omega
  have h3 : f_read_chk { data := container lens rest, fptr := 4 + 2 * lens.length }
        ((4 * lens.sum) % 4294967296)
      = ((if (4 * lens.sum) % 4294967296 ≤ (rest.length : Int) then FRESULT.FR_OK
            else FRESULT.FR_INT_ERR),
          rest.take ((4 * lens.sum) % 4294967296).toNat,
          { data := container lens rest
            fptr := 4 + 2 * lens.length
              + min ((4 * lens.sum) % 4294967296).toNat rest.length }) := by
    rw [f_read_chk_eq _ _ hszr.1]
    simp only [hlen]
    have e : 4 + 2 * lens.length + rest.length - (4 + 2 * lens.length) = rest.length := by
      omega
    have : List.drop (4 + 2 * lens.length) (container lens rest) = rest := by
      unfold container
      exact List.drop_left' (by
        rw [List.length_append, encode_u32_length, hL])
    rw [e, this]
  unfold read_sequences_from_file
  rw [h1]
  simp only [ne_eq, not_true_eq_false, if_false, hnum, hsl]
  rw [h2]
  simp only [ne_eq, not_true_eq_false, if_false, decode_i16s_encode,
    map_toInt16_of_range lens hl, total_seq_len_eq, hsz]
  rw [h3]
  by_cases hc : (4 * lens.sum) % 4294967296 ≤ (rest.length : Int)
  · simp [hc]
  · simp [hc]

theorem decode_dihedrals_length :
    ∀ (n : Nat) (b : List Byte), b.length = 4 * n → (decode_dihedrals b).length = n
  | 0, b, h => by
    have : b = [] := List.length_eq_zero.mp (by omega)
    rw [this]
    rfl
  | n + 1, b, h => by
    match b, h with
    | b0 :: b1 :: b2 :: b3 :: rest, h =>
      rw [decode_dihedrals, List.length_cons,
        decode_dihedrals_length n rest (by simp only [List.length_cons] at h; omega)]

theorem read_sequences_fits (lens : List Int) (rest : List Byte)
    (hN : lens.length < 2147483648) (hl : ∀ l ∈ lens, 0 ≤ l ∧ l ≤ 32767)
    (hsum : 4 * lens.sum < 4294967296) :
    ((read_sequences_from_file { data := container lens rest, fptr := 0 }).1 = FRESULT.FR_OK
        ↔ 4 + 2 * (lens.length : Int) + 4 * lens.sum ≤ ((container lens rest).length : Int))
      ∧ (4 + 2 * (lens.length : Int) + 4 * lens.sum ≤ ((container lens rest).length : Int) →
          (read_sequences_from_file { data := container lens rest, fptr := 0 }).2.1
              = some { buffer := decode_dihedrals (rest.take (4 * lens.sum).toNat)
                       sequence_lengths := lens
                       num_sequences := lens.length }
            ∧ ((decode_dihedrals (rest.take (4 * lens.sum).toNat)).length : Int) = lens.sum) := by
  have hpos : 0 ≤ lens.sum := List.sum_nonneg (fun l h => (hl l h).1)
  have hm : (4 * lens.sum) % 4294967296 = 4 * lens.sum := by omega
  obtain ⟨r1, r2⟩ := read_sequences_container lens rest hN
    (fun l h => ⟨by have := (hl l h).1; omega, (hl l h).2⟩)
  rw [hm] at r1 r2
  rw [container_length]
  push_cast
  constructor
  · rw [r1]
    by_cases hc : 4 * lens.sum ≤ (rest.length : Int)
    · simp only [if_pos hc, true_iff]
      omega
    · simp only [if_neg hc]
      constructor
      · intro h
        exact absurd h (by decide)
      · intro h
        omega
  · intro h
    have hc : 4 * lens.sum ≤ (rest.length : Int) := by omega
    rw [r2, if_pos hc]
    refine ⟨rfl, ?_⟩
    rw [decode_dihedrals_length lens.sum.toNat _ (by rw [List.length_take]; omega)]
    omega

/-- C19, at the failing input: a container of 4194308 bytes that declares 2097152
sequences of length 512 (`2^30` dihedrals, 4 GiB of sequence data) and holds no sequence
data is accepted with `FR_OK` and an empty buffer, because `seq_bufsize` is computed
modulo `2^32`. -/
theorem read_sequences_accepts_overflow :
    (read_sequences_from_file { data := overflow_file, fptr := 0 }).1 = FRESULT.FR_OK
      ∧ (read_sequences_from_file { data := overflow_file, fptr := 0 }).2.1
          = some { buffer := []
                   sequence_lengths := List.replicate 2097152 512
                   num_sequences := 2097152 }
      ∧ (overflow_file.length : Int) = 4 + 2 * 2097152
      ∧ (overflow_file.length : Int)
          < 4 + 2 * 2097152 + 4 * (List.replicate 2097152 (512 : Int)).sum := by
  have hs : (List.replicate 2097152 (512 : Int)).sum = 1073741824 := by
    rw [List.sum_replicate]
    rfl
  obtain ⟨r1, r2⟩ := read_sequences_container (List.replicate 2097152 512) []
    (by rw [List.length_replicate]; decide)
    (fun l h => by rw [List.eq_of_mem_replicate h]; decide)
  rw [hs] at r1 r2
  have hc : (4 * 1073741824 : Int) % 4294967296 ≤ (([] : List Byte).length : Int) := by decide
  rw [if_pos hc] at r1 r2
  have hlen : (overflow_file.length : Int) = 4 + 2 * 2097152 := by
    unfold overflow_file
    rw [container_length, List.length_replicate]
    rfl
  refine ⟨r1, ?_, hlen, ?_⟩
  · unfold overflow_file
    rw [r2, List.length_replicate]
    rfl
  · rw [hlen, hs]
    decide

/-- C20 fails as stated: a container that declares one sequence of length 513 and holds
513 dihedrals, and a container that declares the lengths -1 and 1 and holds no data, are
both accepted with `FR_OK`, and the lengths are handed to the caller as declared. -/
theorem read_sequences_accepts_bad_lengths :
    (read_sequences_from_file { data := long_file, fptr := 0 }).1 = FRESULT.FR_OK
      ∧ Option.map (fun q => q.sequence_lengths)
          (read_sequences_from_file { data := long_file, fptr := 0 }).2.1 = some [513]
      ∧ (read_sequences_from_file { data := negative_file, fptr := 0 }).1 = FRESULT.FR_OK
      ∧ Option.map (fun q => q.sequence_lengths)
          (read_sequences_from_file { data := negative_file, fptr := 0 }).2.1
            = some [-1, 1] := by
  obtain ⟨a1, a2⟩ := read_sequences_container [513] (List.replicate 2052 0) (by decide)
    (by decide)
  obtain ⟨b1, b2⟩ := read_sequences_container [-1, 1] [] (by decide) (by decide)
  have ha : (4 * ([513] : List Int).sum) % 4294967296
      ≤ ((List.replicate 2052 (0 : Byte)).length : Int) := by
    rw [List.length_replicate]
    decide
  have hb : (4 * ([-1, 1] : List Int).sum) % 4294967296 ≤ (([] : List Byte).length : Int) := by
    decide
  rw [if_pos ha] at a1 a2
  rw [if_pos hb] at b1 b2
  unfold long_file negative_file
  rw [a1, a2, b1, b2]
  exact ⟨rfl, rfl, rfl, rfl⟩

/-- C20, amended: `read_sequences_from_file` does not compare the declared lengths with
0 or `MAX_SEQ_LEN`. For a container that declares `N < 2^31` lengths of which some is
negative or greater than 512, and whose declared sizes do not overflow 32 bits
(`0 ≤ 4 * sum of the lengths < 2^32`), it returns `FR_OK` exactly when the file holds at
least `4 + 2 * N + 4 * (sum of the lengths)` bytes; it then hands over the lengths as
declared, the invalid ones included, and otherwise it produces no sequence set. -/
theorem read_sequences_no_range_check (lens : List Int) (rest : List Byte)
    (hN : lens.length < 2147483648) (hl : ∀ l ∈ lens, -32768 ≤ l ∧ l ≤ 32767)
    (hbad : ∃ l ∈ lens, l < 0 ∨ 512 < l)
    (hsum0 : 0 ≤ 4 * lens.sum) (hsum : 4 * lens.sum < 4294967296) :
    ((read_sequences_from_file { data := container lens rest, fptr := 0 }).1 = FRESULT.FR_OK
        ↔ 4 + 2 * (lens.length : Int) + 4 * lens.sum ≤ ((container lens rest).length : Int))
      ∧ (4 + 2 * (lens.length : Int) + 4 * lens.sum ≤ ((container lens rest).length : Int) →
          (read_sequences_from_file { data := container lens rest, fptr := 0 }).2.1
            = some { buffer := decode_dihedrals (rest.take (4 * lens.sum).toNat)
                     sequence_lengths := lens
                     num_sequences := lens.length })
      ∧ (4 + 2 * (lens.length : Int) + 4 * lens.sum ≤ ((container lens rest).length : Int) →
          ∃ q, (read_sequences_from_file { data := container lens rest, fptr := 0 }).2.1
              = some q
            ∧ ∃ l ∈ q.sequence_lengths, l < 0 ∨ 512 < l)
      ∧ ((read_sequences_from_file { data := container lens rest, fptr := 0 }).1
            ≠ FRESULT.FR_OK →
          (read_sequences_from_file { data := container lens rest, fptr := 0 }).2.1 = none) := by
  have hm : (4 * lens.sum) % 4294967296 = 4 * lens.sum := by omega
  obtain ⟨r1, r2⟩ := read_sequences_container lens rest hN hl
  rw [hm] at r1 r2
  rw [r1, r2, container_length]
  have hiff : 4 + 2 * (lens.length : Int) + 4 * lens.sum
        ≤ ((4 + 2 * lens.length + rest.length : Nat) : Int)
      ↔ 4 * lens.sum ≤ (rest.length : Int) := by
    push_cast
    omega
  rw [hiff]
  by_cases hc : 4 * lens.sum ≤ (rest.length : Int)
  · simp only [hc, if_true, true_iff, forall_true_left, ne_eq, not_true_eq_false,
      false_implies, and_true, true_and]
    exact ⟨_, rfl, hbad⟩
  · simp [hc]

theorem read_sequences_no_range_check_witness :
    ([513] : List Int).length < 2147483648
      ∧ (∀ l ∈ ([513] : List Int), -32768 ≤ l ∧ l ≤ 32767)
      ∧ (∃ l ∈ ([513] : List Int), l < 0 ∨ 512 < l)
      ∧ 0 ≤ 4 * ([513] : List Int).sum ∧ 4 * ([513] : List Int).sum < 4294967296
      ∧ ((read_sequences_from_file
            { data := container [513] (List.replicate 2052 0), fptr := 0 }).1 = FRESULT.FR_OK
          ↔ 4 + 2 * (([513] : List Int).length : Int) + 4 * ([513] : List Int).sum
              ≤ ((container [513] (List.replicate 2052 0)).length : Int)) :=
  ⟨by decide, by decide, by decide, by decide, by decide,
    (read_sequences_no_range_check [513] (List.replicate 2052 0) (by decide) (by decide)
      (by decide) (by decide) (by decide)).1⟩

theorem f_write_chk_full (file : FIL) (buf : List Byte) (size : Int) (hs : size ≠ 0)
    (hfull : 4294967296 ≤ (file.fptr : Int) + size) :
    (f_write_chk file buf size).1 = FRESULT.FR_INT_ERR := by
  unfold f_write_chk f_write
  simp only [if_pos hfull, Int.toNat_zero, List.take_zero, List.length_nil, ne_eq,
    not_true_eq_false, if_false, Nat.cast_zero]
  rw [if_neg (fun h => hs h.symm)]

theorem run_align_zero (S : Int)
    (block : Nat → List Dihedral → Int → List Dihedral → List Int → Int → List Int) :
    run_align S block seqs0 new_file = none := by
  have hw : f_write_chk new_file (encode_u32 seqs0.num_sequences) 4
      = (FRESULT.FR_OK, { data := [0, 0, 0, 0], fptr := 4 }) := rfl
  have hit : run_align_iterations seqs0.num_sequences = 4294967294 + 1 := by decide
  unfold run_align
  rw [hw]
  simp only [ne_eq, not_true_eq_false, if_false]
  rw [hit, run_align_loop]
  have hb : ∀ rs : RunState, rs.out_file.fptr = 4 → rs.num_seqs_hor = 0 →
      run_align_body block seqs0 0 rs = none := by
    intro rs hf hn
    unfold run_align_body
    simp only [hn]
    have hsz : toSizeArm (toSizeArm (0 - 1) * 4) = 4294967292 := by decide
    rw [hsz]
    generalize hwr : f_write_chk rs.out_file _ 4294967292 = w
    have h1 := f_write_chk_full rs.out_file
      (encode_scores (block (0 : Int).toNat
        (dma_slice seqs0.buffer rs.seq_ver
          (toSizeArm (seqs0.sequence_lengths.getD (0 : Int).toNat 0)))
        (seqs0.sequence_lengths.getD (0 : Int).toNat 0)
        (dma_slice seqs0.buffer (rs.seq_ver + seqs0.sequence_lengths.getD (0 : Int).toNat 0)
          (toSizeArm (rs.len_hor - seqs0.sequence_lengths.getD (0 : Int).toNat 0)))
        (dma_slice seqs0.sequence_lengths (0 + 1) (toSizeArm (0 - 1)))
        (toSizeArm (0 - 1)))) 4294967292 (by decide) (by rw [hf]; decide)
    rw [hwr] at h1
    obtain ⟨res, f1⟩ := w
    simp only at h1
    subst h1
    rfl
  rw [hb _ rfl rfl]

/-- C15, at the failing input `N = 0` (an input container that consists of the count 0):
the bound `N - 1` of the pair loop is computed in an unsigned type and wraps. The loop of
`run_align` is entered with a bound of `2^32 - 1` iterations, and `run_align` fails on
the write of `2^32 - 4` bytes of scores instead of writing an empty result; the loop of
`main` runs `(lengths.size() - 1) mod 2^64` times, which is `2^64 - 1` for no lengths.
For `N = 1` both loops run zero times. -/
theorem pair_loop_bound_wraps (S : Int)
    (block : Nat → List Dihedral → Int → List Dihedral → List Int → Int → List Int)
    (junk : Nat → Nat → State) (statics : State) (s g : Int) :
    (read_sequences_from_file { data := encode_u32 0, fptr := 0 }).2.1 = some seqs0
      ∧ run_align_iterations seqs0.num_sequences = 4294967295
      ∧ run_align S block seqs0 new_file = none
      ∧ (∀ (lengths : List Int) (sequences : List Dihedral),
          main junk statics lengths sequences s g
            = (main_loop junk lengths sequences s g
                (toSizeT ((lengths.length : Int) - 1)).toNat 0
                { ver_begin := 0, statics := statics, out_scores := [] }).out_scores)
      ∧ (toSizeT ((([] : List Int).length : Int) - 1)).toNat = 18446744073709551615
      ∧ run_align_iterations 1 = 0
      ∧ ∀ (n : Int) (sequences : List Dihedral), main junk statics [n] sequences s g = [] :=
  ⟨rfl, by decide, run_align_zero S block, fun _ _ => rfl, by decide, by decide,
    fun _ _ => rfl⟩

/-! ## The side-band signals of the scores -/

theorem align_body_out (junk : Nat → State) (m num s g : Int) (i : Int) (sr : Bool)
    (ps : AlignPorts) :
    ∃ x, (align_body junk m num s g i sr ps).out_scores = ps.out_scores ++ [x]
      ∧ x.keep = 15 ∧ x.strb = 15 ∧ x.last = decide (i = toUInt32 (num - 1)) :=
  ⟨_, rfl, rfl, rfl, rfl⟩

theorem align_loop_flags (junk : Nat → State) (m num s g : Int) :
    ∀ (k : Nat) (i : Int) (sr : Bool) (ps : AlignPorts),
      ∃ written,
        (align_loop junk m num s g k i sr ps).out_scores = ps.out_scores ++ written
          ∧ written.length = k
          ∧ ∀ t, t < k → ∃ x, written[t]? = some x ∧ x.keep = 15 ∧ x.strb = 15
              ∧ x.last = decide (i + (t : Int) = toUInt32 (num - 1))
  | 0, i, sr, ps => ⟨[], by simp [align_loop], rfl, fun t ht => absurd ht (by omega)⟩
  | k + 1, i, sr, ps => by
    obtain ⟨x, ex, hk, hs, hl⟩ := align_body_out junk m num s g i sr ps
    obtain ⟨written, e1, e2, e3⟩ := align_loop_flags junk m num s g k (i + 1) false
      (align_body junk m num s g i sr ps)
    refine ⟨x :: written, ?_, by simp [e2], ?_⟩
    · rw [align_loop, e1, ex, List.append_assoc]
      rfl
    · intro t ht
      cases t with
      | zero => exact ⟨x, by simp, hk, hs, by simpa using hl⟩
      | succ t =>
        obtain ⟨y, hy, h1, h2, h3⟩ := e3 t (by omega)
        refine ⟨y, by simpa using hy, h1, h2, ?_⟩
        rw [h3]
        congr 1
        push_cast
        apply propext
        constructor <;> intro h <;> omega

/-- C30: a call of `align` with `num_streams_hor = k` (a `seq_count_type`) appends exactly
`k` elements to `out_scores`; every one of them has `keep` and `strb` set to all ones
(15 for the 4-bit signals of a 32-bit word), and the element of index `t` has `last` set
exactly when `t = k - 1`. For `k = 0` nothing is written. This holds for all streams,
sizes and parameters. -/
theorem align_side_band (junk : Nat → State) (statics : State)
    (stream_ver streams_hor : List Dihedral) (stream_size_ver : Int)
    (stream_sizes_hor : List Int) (k : Nat) (s g : Int) (out : List axi_out_score_type)
    (hk : k < 4294967296) :
    ∃ written,
      (align junk statics stream_ver stream_size_ver streams_hor stream_sizes_hor k s g
          out).out_scores = out ++ written
        ∧ written.length = k
        ∧ (∀ t, t < k → ∃ x, written[t]? = some x ∧ x.keep = 15 ∧ x.strb = 15
            ∧ (x.last = true ↔ t + 1 = k))
        ∧ (k = 0 → written = []) := by
  obtain ⟨written, e1, e2, e3⟩ := align_loop_flags junk stream_size_ver (k : Int) s g k 0 true
    { statics := statics, stream_ver := stream_ver, streams_hor := streams_hor,
      stream_sizes_hor := stream_sizes_hor, out_scores := out }
  refine ⟨written, ?_, e2, ?_, ?_⟩
  · unfold align
    rw [Int.toNat_ofNat]
    exact e1
  · intro t ht
    obtain ⟨x, hx, h1, h2, h3⟩ := e3 t ht
    refine ⟨x, hx, h1, h2, ?_⟩
    rw [h3, decide_eq_true_iff]
    unfold toUInt32
    omega
  · intro h0
    subst h0
    exact List.length_eq_zero.mp e2

theorem align_side_band_witness :
    (3 : Nat) < 4294967296
      ∧ ∃ written,
          (align (fun _ => sim_state) sim_state [] 0 [] [0, 0, 0] (3 : Nat) 100 (-50)
              []).out_scores = [] ++ written
            ∧ written.length = 3
            ∧ (∀ t, t < 3 → ∃ x, written[t]? = some x ∧ x.keep = 15 ∧ x.strb = 15
                ∧ (x.last = true ↔ t + 1 = 3))
            ∧ ((3 : Nat) = 0 → written = []) :=
  ⟨by decide,
    align_side_band (fun _ => sim_state) sim_state [] [] 0 [0, 0, 0] 3 100 (-50) []
      (by decide)⟩

/-! ## What `align_one` reads from the horizontal stream -/

theorem align_loop_add (junk : Nat → State) (m num s g : Int) (b : Nat) :
    ∀ (a : Nat) (i : Int) (sr : Bool) (ps : AlignPorts),
      align_loop junk m num s g (a + b) i sr ps
        = align_loop junk m num s g b (i + a) (sr && decide (a = 0))
            (align_loop junk m num s g a i sr ps)
  | 0, i, sr, ps => by
    simp [align_loop]
  | a + 1, i, sr, ps => by
    have e : a + 1 + b = (a + b) + 1 := by omega
    rw [e, align_loop, align_loop_add junk m num s g b a (i + 1) false, align_loop]
    have e2 : i + 1 + (a : Int) = i + ((a + 1 : Nat) : Int) := by push_cast; ring
    rw [e2]
    simp

theorem align_loop_split (junk : Nat → State) (V : List Dihedral) (num s g : Int)
    (hV : V.length ≤ 512) :
    ∀ (Pre : List (List Dihedral)) (i : Int) (sr : Bool) (ps : AlignPorts)
      (restH : List Dihedral) (restS : List Int),
      (∀ H ∈ Pre, H.length ≤ 512) →
      (sr = true → ∃ restV, ps.stream_ver = V ++ restV) →
      (sr = false → ∀ r : Int, 0 ≤ r → r < V.length →
        ps.statics.seq_ver.get r = V.getD r.toNat { phi := 0, psi := 0 }) →
      ps.streams_hor = Pre.flatten ++ restH →
      ps.stream_sizes_hor = Pre.map (fun H => (H.length : Int)) ++ restS →
      (align_loop junk V.length num s g Pre.length i sr ps).streams_hor = restH
        ∧ (align_loop junk V.length num s g Pre.length i sr ps).stream_sizes_hor = restS := by
  intro Pre
  induction Pre with
  | nil =>
    intro i sr ps restH restS _ _ _ h3 h4
    simp only [List.length_nil, align_loop]
    exact ⟨by simpa using h3, by simpa using h4⟩
  | cons H Pre ih =>
    intro i sr ps restH restS hH h1 h2 h3 h4
    rw [List.flatten_cons, List.append_assoc] at h3
    rw [List.map_cons, List.cons_append] at h4
    obtain ⟨_, hh, hsz, hv⟩ := align_body_spec junk V H num s g i sr ps
      (Pre.flatten ++ restH) (Pre.map (fun H => (H.length : Int)) ++ restS) hV
      (hH H (List.mem_cons_self _ _)) h1 h2 h3 h4
    rw [List.length_cons]
    unfold align_loop
    exact ih (i + 1) false (align_body junk V.length num s g i sr ps)
      restH restS (fun H' hH' => hH H' (List.mem_cons_of_mem _ hH'))
      (fun h => by cases h) (fun _ => hv) hh hsz

theorem align_one_stream_hor (st0 : State) (m : Nat) (H restH stream_ver : List Dihedral)
    (s g : Int) (sr : Bool) (hm : m ≤ 512) (hH : H.length ≤ 512)
    (hver : sr = true → m ≤ stream_ver.length) :
    (align_one st0 stream_ver m (H ++ restH) H.length s g sr).stream_hor = restH := by
  cases sr with
  | true =>
    have hlen : (stream_ver.take m).length = m := by
      rw [List.length_take]
      exact Nat.min_eq_left (hver rfl)
    have h := (align_one_either st0 (stream_ver.take m) H restH stream_ver s g true
      (by omega) hH (fun _ => ⟨stream_ver.drop m, (List.take_append_drop m stream_ver).symm⟩)
      (fun h => by cases h)).2.1
    rw [hlen] at h
    exact h
  | false =>
    have h := (align_one_either st0 (resident st0 m) H restH stream_ver s g false
      (by rw [resident_length]; exact hm) hH (fun h => by cases h)
      (fun _ r h0 hr => by
        rw [resident_length] at hr
        exact resident_getD st0 m r h0 hr)).2.1
    rw [resident_length] at h
    exact h

/-- C21: a call of `align_one` with `stream_size_hor = n`, `0 ≤ n ≤ 512`, and a vertical
length `0 ≤ m ≤ 512` (the vertical stream holding at least `m` elements when it is read)
removes exactly the first `n` elements from the horizontal stream: what follows them is
left on the stream. Hence in `align`, the state before the call of index `t` being that
of the loop after `t` iterations, the call of index `t` finds the horizontal stream at
the first element of `H_t`. -/
theorem align_one_reads_declared (st0 statics : State) (junk : Nat → State)
    (V restV H restH : List Dihedral) (Hs : List (List Dihedral)) (restHs : List Dihedral)
    (restS : List Int) (s g : Int) (out : List axi_out_score_type)
    (hV : V.length ≤ 512) (hH : H.length ≤ 512) (hHs : ∀ W ∈ Hs, W.length ≤ 512) :
    (∀ (m : Nat) (stream_ver : List Dihedral) (sr : Bool), m ≤ 512 →
        (sr = true → m ≤ stream_ver.length) →
        (align_one st0 stream_ver m (H ++ restH) H.length s g sr).stream_hor = restH)
      ∧ ∀ t, t ≤ Hs.length →
          (align_loop junk V.length Hs.length s g t 0 true
              { statics := statics
                stream_ver := V ++ restV
                streams_hor := Hs.flatten ++ restHs
                stream_sizes_hor := Hs.map (fun W => (W.length : Int)) ++ restS
                out_scores := out }).streams_hor = (Hs.drop t).flatten ++ restHs
            ∧ align junk statics (V ++ restV) V.length (Hs.flatten ++ restHs)
                (Hs.map (fun W => (W.length : Int)) ++ restS) Hs.length s g out
              = align_loop junk V.length Hs.length s g (Hs.length - t) t (decide (t = 0))
                  (align_loop junk V.length Hs.length s g t 0 true
                    { statics := statics
                      stream_ver := V ++ restV
                      streams_hor := Hs.flatten ++ restHs
                      stream_sizes_hor := Hs.map (fun W => (W.length : Int)) ++ restS
                      out_scores := out }) := by
  refine ⟨fun m stream_ver sr hm hver =>
    align_one_stream_hor st0 m H restH stream_ver s g sr hm hH hver, ?_⟩
  intro t ht
  constructor
  · have hsplit : Hs = Hs.take t ++ Hs.drop t := (List.take_append_drop t Hs).symm
    have hlen : (Hs.take t).length = t := by
      rw [List.length_take]
      exact Nat.min_eq_left ht
    have h := (align_loop_split junk V Hs.length s g hV (Hs.take t) 0 true
      { statics := statics
        stream_ver := V ++ restV
        streams_hor := Hs.flatten ++ restHs
        stream_sizes_hor := Hs.map (fun W => (W.length : Int)) ++ restS
        out_scores := out }
      ((Hs.drop t).flatten ++ restHs)
      ((Hs.drop t).map (fun W => (W.length : Int)) ++ restS)
      (fun W hW => hHs W (List.mem_of_mem_take hW))
      (fun _ => ⟨restV, rfl⟩) (fun h => by cases h)
      (by
        show Hs.flatten ++ restHs = _
        rw [← List.append_assoc, ← List.flatten_append, List.take_append_drop])
      (by
        show Hs.map (fun W => (W.length : Int)) ++ restS = _
        rw [← List.append_assoc, ← List.map_append, List.take_append_drop])).1
    rw [hlen] at h
    exact h
  · unfold align
    have e : ((Hs.length : Int)).toNat = t + (Hs.length - t) := by omega
    rw [e, align_loop_add]
    simp

theorem align_one_reads_declared_witness :
    zeros2.length ≤ 512 ∧ quarter2.length ≤ 512 ∧ (∀ W ∈ triangle, W.length ≤ 512)
      ∧ (align_one sim_state [] (0 : Nat) (quarter2 ++ zeros2) quarter2.length 100 (-50)
            false).stream_hor = zeros2 :=
  ⟨by decide, by decide, by decide,
    (align_one_reads_declared sim_state sim_state (fun _ => sim_state) zeros2 [] quarter2
      zeros2 triangle [] [] 100 (-50) [] (by decide) (by decide) (by decide)).1
      0 [] false (by decide) (fun h => by cases h)⟩

/-! ## Calls that do not read the vertical stream -/

theorem cell_step_no_read (s g : Int) (h i j : Int) (st : State) :
    (cell_step s g false h i j st).stream_ver = st.stream_ver
      ∧ (cell_step s g false h i j st).seq_ver = st.seq_ver := by
  rw [cs_stream_ver, cs_seq_ver]
  simp

theorem col_loop_no_read (s g : Int) (h i : Int) :
    ∀ (k : Nat) (j : Int) (st : State),
      (col_loop s g false h i k j st).stream_ver = st.stream_ver
        ∧ (col_loop s g false h i k j st).seq_ver = st.seq_ver
  | 0, _, _ => ⟨rfl, rfl⟩
  | k + 1, j, st => by
    rw [col_loop]
    obtain ⟨a1, a2⟩ := col_loop_no_read s g h i k (j + 1) (cell_step s g false h i j st)
    obtain ⟨b1, b2⟩ := cell_step_no_read s g h i j st
    exact ⟨a1.trans b1, a2.trans b2⟩

theorem diag_loop_no_read (s g m : Int) (h : Int) :
    ∀ (k : Nat) (i : Int) (st : State),
      (diag_loop s g false m h k i st).stream_ver = st.stream_ver
        ∧ (diag_loop s g false m h k i st).seq_ver = st.seq_ver
  | 0, _, _ => ⟨rfl, rfl⟩
  | k + 1, i, st => by
    obtain ⟨b1, b2⟩ := col_loop_no_read s g h i WIN_COLS.toNat 0 st
    rw [diag_loop]
    split_ifs
    · exact ⟨b1, b2⟩
    · obtain ⟨a1, a2⟩ := diag_loop_no_read s g m h k (i + 1)
        (col_loop s g false h i WIN_COLS.toNat 0 st)
      exact ⟨a1.trans b1, a2.trans b2⟩

theorem hor_window_loop_no_read (s g m : Int) :
    ∀ (k : Nat) (h : Int) (st : State),
      (hor_window_loop s g false m k h st).stream_ver = st.stream_ver
        ∧ (hor_window_loop s g false m k h st).seq_ver = st.seq_ver
  | 0, _, _ => ⟨rfl, rfl⟩
  | k + 1, h, st => by
    obtain ⟨b1, b2⟩ := diag_loop_no_read s g m h WIN_DIAGS.toNat 0 st
    rw [hor_window_loop]
    split_ifs
    · exact ⟨b1, b2⟩
    · obtain ⟨a1, a2⟩ := hor_window_loop_no_read s g m k (h + 1)
        (diag_loop s g false m h WIN_DIAGS.toNat 0 st)
      exact ⟨a1.trans b1, a2.trans b2⟩

theorem align_one_no_read (st0 : State) (stream_ver stream_hor : List Dihedral)
    (m n s g : Int) :
    (align_one st0 stream_ver m stream_hor n s g false).stream_ver = stream_ver
      ∧ (align_one st0 stream_ver m stream_hor n s g false).seq_ver = st0.seq_ver := by
  unfold align_one
  exact hor_window_loop_no_read s g m _ 0 _

theorem diag_loop_no_break_no_read (s g : Int) (h : Int) :
    ∀ (k : Nat) (i : Int) (st : State),
      (diag_loop_no_break s g false h k i st).stream_ver = st.stream_ver
  | 0, _, _ => rfl
  | k + 1, i, st => by
    rw [diag_loop_no_break, diag_loop_no_break_no_read s g h k (i + 1)]
    exact (col_loop_no_read s g h i WIN_COLS.toNat 0 st).1

theorem hor_window_loop_no_break_no_read (s g : Int) :
    ∀ (k : Nat) (h : Int) (st : State),
      (hor_window_loop_no_break s g false k h st).stream_ver = st.stream_ver
  | 0, _, _ => rfl
  | k + 1, h, st => by
    have b := diag_loop_no_break_no_read s g h WIN_DIAGS.toNat 0 st
    rw [hor_window_loop_no_break]
    split_ifs
    · exact b
    · exact (hor_window_loop_no_break_no_read s g k (h + 1) _).trans b

/-! ## The early exit of the diagonal loop -/

section no_break
variable {C : Ctx}

theorem diag_loop_no_break_inv (hC : C.ok) {h : Int} (hh : 0 ≤ h) (hk : 16 * h ≤ C.n) :
    ∀ (k : Nat) (i : Int) (st : State), 0 ≤ i → i + k = 527 → Inv C h i 0 st →
      Inv C h 527 0 (diag_loop_no_break C.s C.g C.sr h k i st)
  | 0, i, st, _, hik, hI => by
    have : i = 527 := by omega
    subst this
    exact hI
  | k + 1, i, st, hi, hik, hI => by
    rw [diag_loop_no_break]
    exact diag_loop_no_break_inv hC hh hk k (i + 1) _ (by omega) (by push_cast at hik; omega)
      (diag_inv hC hh hk hi hI)

theorem hor_window_loop_no_break_inv (hC : C.ok) :
    ∀ (k : Nat) (h : Int) (st : State), 0 ≤ h → h + k = 32 → 16 * h ≤ C.n →
      (0 < h → 16 * h < C.n) → Inv C h 0 0 st →
      Done C (hor_window_loop_no_break C.s C.g C.sr k h st)
  | 0, h, st, _, hhk, _, hk', _ => by
    have := hC.n_le
    exfalso
    have : h = 32 := by omega
    have := hk' (by omega)
    omega
  | k + 1, h, st, hh, hhk, hk, hk', hI => by
    have hI' := diag_loop_no_break_inv hC hh hk 527 0 st (le_refl 0) (by norm_num) hI
    have hm := hC.m_le
    rw [hor_window_loop_no_break]
    have e527 : WIN_DIAGS.toNat = 527 := by decide
    rw [e527]
    split_ifs with hz
    · exact done_of_inv hC hh (by omega) (by omega) hI' hz
    · obtain ⟨hlt, hI''⟩ := inv_next_window hC hh (by omega) (by omega) hI' hz
      exact hor_window_loop_no_break_inv hC k (h + 1) _ (by omega)
        (by push_cast at hhk; omega) (by omega) (fun _ => hlt) hI''

theorem align_one_no_break_done (hC : C.ok) (st0 : State)
    (hV : C.sr = false → ∀ r, 0 ≤ r → r < C.m → st0.seq_ver.get r = C.Vf r) :
    Done C (align_one_no_break st0 (C.sv 0) C.m (C.sh 0) C.n C.s C.g C.sr) := by
  unfold align_one_no_break
  have e32 : WIN_COUNT_HOR.toNat = 32 := by decide
  rw [e32]
  exact hor_window_loop_no_break_inv hC 32 0 _ (le_refl 0) (by norm_num)
    (by have := hC.n_nonneg; omega) (by intro hx; omega) (inv_init hC st0 hV)

end no_break

theorem done_stream_ver (s g : Int) (V H restV restH : List Dihedral) (st : State)
    (hD : Done (listCtx s g true V H (fun k => V.drop k.toNat ++ restV) restH) st) :
    st.stream_ver = restV := by
  have h := hD.stream_ver rfl
  simp only [listCtx] at h
  rw [h]
  simp

theorem align_one_no_break_read (st0 : State) (V H restV restH : List Dihedral) (s g : Int)
    (hV : V.length ≤ 512) (hH : H.length ≤ 512) :
    Done (listCtx s g true V H (fun k => V.drop k.toNat ++ restV) restH)
      (align_one_no_break st0 (V ++ restV) V.length (H ++ restH) H.length s g true) :=
  align_one_no_break_done
    (listCtx_ok s g true V H _ restH hV hH (fun _ k h0 hk => drop_append_step V restV k h0 hk))
    st0 (fun h => by simp [listCtx] at h)

theorem align_one_no_break_resident (st0 : State) (V H stream_ver restH : List Dihedral)
    (s g : Int) (hV : V.length ≤ 512) (hH : H.length ≤ 512)
    (hres : ∀ r : Int, 0 ≤ r → r < V.length →
      st0.seq_ver.get r = V.getD r.toNat { phi := 0, psi := 0 }) :
    Done (listCtx s g false V H (fun _ => stream_ver) restH)
      (align_one_no_break st0 stream_ver V.length (H ++ restH) H.length s g false) :=
  align_one_no_break_done
    (listCtx_ok s g false V H _ restH hV hH (fun h => by simp at h))
    st0 (fun _ r h0 hr => hres r h0 hr)

theorem early_exit_read (st0 : State) (V H restV restH : List Dihedral) (s g : Int)
    (hV : V.length ≤ 512) (hH : H.length ≤ 512) :
    (align_one_no_break st0 (V ++ restV) V.length (H ++ restH) H.length s g true).max_score
        = (align_one st0 (V ++ restV) V.length (H ++ restH) H.length s g true).max_score
      ∧ (align_one_no_break st0 (V ++ restV) V.length (H ++ restH) H.length s g true).stream_hor
        = (align_one st0 (V ++ restV) V.length (H ++ restH) H.length s g true).stream_hor
      ∧ (align_one_no_break st0 (V ++ restV) V.length (H ++ restH) H.length s g true).stream_ver
        = (align_one st0 (V ++ restV) V.length (H ++ restH) H.length s g true).stream_ver := by
  have hD1 := align_one_read st0 V H restV restH s g hV hH
  have hD2 := align_one_no_break_read st0 V H restV restH s g hV hH
  refine ⟨?_, ?_, ?_⟩
  · rw [done_score _ _ _ _ _ _ _ _ hD1, done_score _ _ _ _ _ _ _ _ hD2]
  · rw [done_stream_hor _ _ _ _ _ _ _ _ hD1, done_stream_hor _ _ _ _ _ _ _ _ hD2]
  · rw [done_stream_ver _ _ _ _ _ _ _ hD1, done_stream_ver _ _ _ _ _ _ _ hD2]

theorem early_exit_resident (st0 : State) (V H stream_ver restH : List Dihedral) (s g : Int)
    (hV : V.length ≤ 512) (hH : H.length ≤ 512)
    (hres : ∀ r : Int, 0 ≤ r → r < V.length →
      st0.seq_ver.get r = V.getD r.toNat { phi := 0, psi := 0 }) :
    (align_one_no_break st0 stream_ver V.length (H ++ restH) H.length s g false).max_score
        = (align_one st0 stream_ver V.length (H ++ restH) H.length s g false).max_score
      ∧ (align_one_no_break st0 stream_ver V.length (H ++ restH) H.length s g false).stream_hor
        = (align_one st0 stream_ver V.length (H ++ restH) H.length s g false).stream_hor
      ∧ (align_one_no_break st0 stream_ver V.length (H ++ restH) H.length s g false).stream_ver
        = (align_one st0 stream_ver V.length (H ++ restH) H.length s g false).stream_ver := by
  have hD1 := align_one_resident st0 V H stream_ver restH s g hV hH hres
  have hD2 := align_one_no_break_resident st0 V H stream_ver restH s g hV hH hres
  refine ⟨?_, ?_, ?_⟩
  · rw [done_score _ _ _ _ _ _ _ _ hD1, done_score _ _ _ _ _ _ _ _ hD2]
  · rw [done_stream_hor _ _ _ _ _ _ _ _ hD1, done_stream_hor _ _ _ _ _ _ _ _ hD2]
  · rw [(align_one_no_read st0 stream_ver (H ++ restH) V.length H.length s g).1]
    unfold align_one_no_break
    exact hor_window_loop_no_break_no_read s g _ 0 _

/-- C25: for sequences of at most 512 elements, the variant of `align_one` that runs all
`WIN_DIAGS = 527` diagonals of every window returns the same score as `align_one` with
its early exit at `i = m + WIN_COLS - 1`, and leaves the same elements on the horizontal
and on the vertical stream (it reads the same number of elements from both), with and
without `should_read_ver_stream`. -/
theorem early_exit_unobservable (st0 : State) (m : Nat) (H restH stream_ver : List Dihedral)
    (s g : Int) (sr : Bool) (hm : m ≤ 512) (hH : H.length ≤ 512)
    (hver : sr = true → m ≤ stream_ver.length) :
    (align_one_no_break st0 stream_ver m (H ++ restH) H.length s g sr).max_score
        = (align_one st0 stream_ver m (H ++ restH) H.length s g sr).max_score
      ∧ (align_one_no_break st0 stream_ver m (H ++ restH) H.length s g sr).stream_hor
        = (align_one st0 stream_ver m (H ++ restH) H.length s g sr).stream_hor
      ∧ (align_one_no_break st0 stream_ver m (H ++ restH) H.length s g sr).stream_ver
        = (align_one st0 stream_ver m (H ++ restH) H.length s g sr).stream_ver := by
  cases sr with
  | true =>
    have hlen : (stream_ver.take m).length = m := by
      rw [List.length_take]
      exact Nat.min_eq_left (hver rfl)
    have h := early_exit_read st0 (stream_ver.take m) H (stream_ver.drop m) restH s g
      (by omega) hH
    rw [List.take_append_drop, hlen] at h
    exact h
  | false =>
    have h := early_exit_resident st0 (resident st0 m) H stream_ver restH s g
      (by rw [resident_length]; exact hm) hH
      (fun r h0 hr => by
        rw [resident_length] at hr
        exact resident_getD st0 m r h0 hr)
    rw [resident_length] at h
    exact h

theorem early_exit_unobservable_witness :
    (2 : Nat) ≤ 512 ∧ quarter2.length ≤ 512 ∧ ((true : Bool) = true → 2 ≤ zeros2.length)
      ∧ (align_one_no_break sim_state zeros2 (2 : Nat) (quarter2 ++ []) quarter2.length
            100 (-50) true).max_score
          = (align_one sim_state zeros2 (2 : Nat) (quarter2 ++ []) quarter2.length
              100 (-50) true).max_score :=
  ⟨by decide, by decide, by decide,
    (early_exit_unobservable sim_state 2 quarter2 [] zeros2 100 (-50) true (by decide)
      (by decide) (by decide)).1⟩

/-! ## What `align_one` reads from the vertical stream -/

theorem ver_read_step (V restV : List Dihedral) (st0 : State) (s g : Int)
    (hV : V.length ≤ 512) (i j : Int) (st : State) (hi : 0 ≤ i) (hj : 0 ≤ j)
    (hR : VerRead V restV st0 (min (V.length : Int) (dcount i j)) st) :
    VerRead V restV st0 (min (V.length : Int) (dcount i (j + 1)))
      (cell_step s g true 0 i j st) := by
  obtain ⟨h1, h2, h3⟩ := hR
  have hd := dcount_def i j
  have hd1 := dcount_def i (j + 1)
  unfold VerRead
  rw [cs_stream_size_ver, cs_stream_ver, cs_seq_ver]
  by_cases hj0 : j = 0
  · subst hj0
    have e0 : dcount i 0 = i := by rw [hd]; simp
    have e1 : dcount i (0 + 1) = i + 1 := by rw [hd1]; simp
    rw [e0] at h1 h2 h3
    rw [e1]
    by_cases him : i < V.length
    · have hne : st.stream_size_ver ≠ 0 := by omega
      have hmin : min (V.length : Int) i = i := by omega
      have hmin1 : min (V.length : Int) (i + 1) = i + 1 := by omega
      rw [hmin] at h1 h2 h3
      rw [hmin1]
      have hc1 : (0 : Int) = 0 ∧ (0 : Int) = 0 ∧ st.stream_size_ver ≠ 0
          ∧ (0 ≤ i - 0 ∧ i - 0 < 512) := ⟨rfl, rfl, hne, by omega, by omega⟩
      have hc2 : (0 : Int) = 0 ∧ (0 : Int) = 0 ∧ st.stream_size_ver ≠ 0
          ∧ (0 ≤ i - 0 ∧ i - 0 < 512) ∧ true = true := ⟨rfl, rfl, hne, ⟨by omega, by omega⟩, rfl⟩
      rw [if_pos hc1, if_pos hc2, if_pos hc2]
      have hstep := drop_append_step V restV i hi him
      refine ⟨?_, ?_, ?_⟩
      · rw [h1]
        unfold toInt16
        omega
      · rw [h2, hstep]
        rfl
      · intro r
        rw [Buf.get_set, h3 r, h2, hstep, stream_front_cons, sub_zero]
        by_cases hri : r = i
        · subst hri
          rw [if_pos ⟨rfl, by omega, by omega⟩, if_pos ⟨by omega, by omega⟩]
        · rw [if_neg (by intro hx; exact hri hx.1)]
          by_cases hr : 0 ≤ r ∧ r < i
          · rw [if_pos hr, if_pos ⟨hr.1, by omega⟩]
          · rw [if_neg hr, if_neg (by omega)]
    · have hz : st.stream_size_ver = 0 := by omega
      have hmin : min (V.length : Int) (i + 1) = min (V.length : Int) i := by omega
      rw [hmin]
      rw [if_neg (by intro hx; exact hx.2.2.1 hz), if_neg (by intro hx; exact hx.2.2.1 hz),
        if_neg (by intro hx; exact hx.2.2.1 hz)]
      exact ⟨h1, h2, h3⟩
  · have e : dcount i (j + 1) = dcount i j := by
      rw [hd, hd1, if_neg hj0, if_neg (by omega)]
    rw [e, if_neg (by intro hx; exact hj0 hx.2.1), if_neg (by intro hx; exact hj0 hx.2.1),
      if_neg (by intro hx; exact hj0 hx.2.1)]
    exact ⟨h1, h2, h3⟩

theorem ver_read_keep (V restV : List Dihedral) (st0 : State) (s g : Int) (sr : Bool)
    (h i j d : Int) (st : State) (hh : h ≠ 0) (hR : VerRead V restV st0 d st) :
    VerRead V restV st0 d (cell_step s g sr h i j st) := by
  unfold VerRead
  rw [cs_stream_size_ver, cs_stream_ver, cs_seq_ver,
    if_neg (by intro hx; exact hh hx.1), if_neg (by intro hx; exact hh hx.1),
    if_neg (by intro hx; exact hh hx.1)]
  exact hR

theorem col_loop_ver_read (V restV : List Dihedral) (st0 : State) (s g : Int)
    (hV : V.length ≤ 512) (i : Int) (hi : 0 ≤ i) :
    ∀ (k : Nat) (j : Int) (st : State), 0 ≤ j →
      VerRead V restV st0 (min (V.length : Int) (dcount i j)) st →
      VerRead V restV st0 (min (V.length : Int) (dcount i (j + k)))
        (col_loop s g true 0 i k j st)
  | 0, j, st, _, hR => by
    rw [col_loop]
    simpa using hR
  | k + 1, j, st, hj, hR => by
    rw [col_loop]
    have := col_loop_ver_read V restV st0 s g hV i hi k (j + 1) _ (by omega)
      (ver_read_step V restV st0 s g hV i j st hi hj hR)
    have e : j + 1 + (k : Int) = j + ((k + 1 : Nat) : Int) := by push_cast; ring
    rw [e] at this
    exact this

theorem col_loop_ver_keep (V restV : List Dihedral) (st0 : State) (s g : Int) (sr : Bool)
    (h i d : Int) (hh : h ≠ 0) :
    ∀ (k : Nat) (j : Int) (st : State), VerRead V restV st0 d st →
      VerRead V restV st0 d (col_loop s g sr h i k j st)
  | 0, _, _, hR => hR
  | k + 1, j, st, hR => by
    rw [col_loop]
    exact col_loop_ver_keep V restV st0 s g sr h i d hh k (j + 1) _
      (ver_read_keep V restV st0 s g sr h i j d st hh hR)

theorem diag_loop_ver_read (V restV : List Dihedral) (st0 : State) (s g : Int)
    (hV : V.length ≤ 512) :
    ∀ (k : Nat) (i : Int) (st : State), 0 ≤ i → i + k = 527 → i ≤ (V.length : Int) + 15 →
      VerRead V restV st0 (min (V.length : Int) i) st →
      VerRead V restV st0 V.length (diag_loop s g true V.length 0 k i st)
  | 0, i, st, _, hik, _, hR => by
    rw [diag_loop]
    have e : min (V.length : Int) i = V.length := by omega
    rw [e] at hR
    exact hR
  | k + 1, i, st, hi, hik, him, hR => by
    have h16 : WIN_COLS.toNat = 16 := by decide
    have hcol := col_loop_ver_read V restV st0 s g hV i hi 16 0 st (le_refl 0)
      (by rw [dcount_def]; simpa using hR)
    have e1 : dcount i (0 + ((16 : Nat) : Int)) = i + 1 := by
      rw [dcount_def]
      simp
    rw [e1] at hcol
    rw [diag_loop, h16]
    split_ifs with hb
    · simp only [WIN_COLS] at hb
      have e : min (V.length : Int) (i + 1) = V.length := by omega
      rw [e] at hcol
      exact hcol
    · simp only [WIN_COLS] at hb
      exact diag_loop_ver_read V restV st0 s g hV k (i + 1) _ (by omega)
        (by push_cast at hik; omega) (by omega) hcol

theorem diag_loop_ver_keep (V restV : List Dihedral) (st0 : State) (s g m : Int) (sr : Bool)
    (h d : Int) (hh : h ≠ 0) :
    ∀ (k : Nat) (i : Int) (st : State), VerRead V restV st0 d st →
      VerRead V restV st0 d (diag_loop s g sr m h k i st)
  | 0, _, _, hR => hR
  | k + 1, i, st, hR => by
    have hcol := col_loop_ver_keep V restV st0 s g sr h i d hh WIN_COLS.toNat 0 st hR
    rw [diag_loop]
    split_ifs
    · exact hcol
    · exact diag_loop_ver_keep V restV st0 s g m sr h d hh k (i + 1) _ hcol

theorem hor_window_loop_ver_keep (V restV : List Dihedral) (st0 : State) (s g m : Int)
    (sr : Bool) (d : Int) :
    ∀ (k : Nat) (h : Int) (st : State), 0 < h → VerRead V restV st0 d st →
      VerRead V restV st0 d (hor_window_loop s g sr m k h st)
  | 0, _, _, _, hR => hR
  | k + 1, h, st, hh, hR => by
    have hd := diag_loop_ver_keep V restV st0 s g m sr h d (by omega) WIN_DIAGS.toNat 0 st hR
    rw [hor_window_loop]
    split_ifs
    · exact hd
    · exact hor_window_loop_ver_keep V restV st0 s g m sr d k (h + 1) _ (by omega) hd

theorem ver_read_init (V restV : List Dihedral) (st0 : State) (stream_hor : List Dihedral)
    (n : Int) :
    VerRead V restV st0 (min (V.length : Int) 0)
      { st0 with
        max_score := 0
        stream_ver := V ++ restV
        stream_size_ver := V.length
        stream_hor := stream_hor
        stream_size_hor := n } := by
  have e : min (V.length : Int) 0 = 0 := by omega
  rw [e]
  refine ⟨by simp, by simp, ?_⟩
  intro r
  rw [if_neg (by omega)]

theorem first_window_ver_read (V restV : List Dihedral) (st0 : State)
    (stream_hor : List Dihedral) (n s g : Int) (hV : V.length ≤ 512) :
    VerRead V restV st0 V.length
      (diag_loop s g true V.length 0 WIN_DIAGS.toNat 0
        { st0 with
          max_score := 0
          stream_ver := V ++ restV
          stream_size_ver := V.length
          stream_hor := stream_hor
          stream_size_hor := n }) := by
  have e527 : WIN_DIAGS.toNat = 527 := by decide
  rw [e527]
  exact diag_loop_ver_read V restV st0 s g hV 527 0 _ (le_refl 0) (by norm_num) (by omega)
    (ver_read_init V restV st0 stream_hor n)

theorem align_one_ver_read (V restV : List Dihedral) (st0 : State)
    (stream_hor : List Dihedral) (n s g : Int) (hV : V.length ≤ 512) :
    VerRead V restV st0 V.length
      (align_one st0 (V ++ restV) V.length stream_hor n s g true) := by
  have h1 := first_window_ver_read V restV st0 stream_hor n s g hV
  have e32 : WIN_COUNT_HOR.toNat = 31 + 1 := by decide
  unfold align_one
  rw [e32, hor_window_loop]
  split_ifs
  · exact h1
  · exact hor_window_loop_ver_keep V restV st0 s g V.length true V.length 31 (0 + 1) _
      (by norm_num) h1

/-- C26: for a vertical sequence `V` of `m ≤ 512` elements, a call of `align_one` with
`should_read_ver_stream = true` removes exactly the `m` elements of `V` from the vertical
stream, whatever the horizontal stream and its declared length are; they are all gone
once the first window (`h = 0`) has been processed; on return `seq_ver[r] = V[r]` for
`r < m` and `seq_ver[r]` is unchanged for `r ≥ m`. A call with
`should_read_ver_stream = false` leaves the vertical stream and `seq_ver` unchanged. -/
theorem vertical_stream_frame (st0 : State) (V restV stream_ver stream_hor : List Dihedral)
    (m n s g : Int) (hV : V.length ≤ 512) :
    (align_one st0 (V ++ restV) V.length stream_hor n s g true).stream_ver = restV
      ∧ (∀ r : Int, 0 ≤ r → r < V.length →
          (align_one st0 (V ++ restV) V.length stream_hor n s g true).seq_ver.get r
            = V.getD r.toNat { phi := 0, psi := 0 })
      ∧ (∀ r : Int, (V.length : Int) ≤ r →
          (align_one st0 (V ++ restV) V.length stream_hor n s g true).seq_ver.get r
            = st0.seq_ver.get r)
      ∧ (diag_loop s g true V.length 0 WIN_DIAGS.toNat 0
          { st0 with
            max_score := 0
            stream_ver := V ++ restV
            stream_size_ver := V.length
            stream_hor := stream_hor
            stream_size_hor := n }).stream_ver = restV
      ∧ (align_one st0 stream_ver m stream_hor n s g false).stream_ver = stream_ver
      ∧ (align_one st0 stream_ver m stream_hor n s g false).seq_ver = st0.seq_ver := by
  obtain ⟨_, a2, a3⟩ := align_one_ver_read V restV st0 stream_hor n s g hV
  obtain ⟨_, b2, _⟩ := first_window_ver_read V restV st0 stream_hor n s g hV
  have hdrop : V.drop ((V.length : Int)).toNat ++ restV = restV := by
    rw [Int.toNat_ofNat, List.drop_length, List.nil_append]
  rw [hdrop] at a2 b2
  refine ⟨a2, ?_, ?_, b2, (align_one_no_read st0 stream_ver stream_hor m n s g).1,
    (align_one_no_read st0 stream_ver stream_hor m n s g).2⟩
  · intro r h0 hr
    rw [a3 r, if_pos ⟨h0, hr⟩]
  · intro r hr
    rw [a3 r, if_neg (by omega)]

theorem vertical_stream_frame_witness :
    zeros2.length ≤ 512
      ∧ (align_one sim_state (zeros2 ++ quarter2) zeros2.length [] 0 100 (-50)
          true).stream_ver = quarter2 :=
  ⟨by decide,
    (vertical_stream_frame sim_state zeros2 quarter2 [] [] 0 0 100 (-50) (by decide)).1⟩

/-! ## The indices of the cells that the sweep visits -/

theorem col_trace_range (s g : Int) (sr : Bool) (h i : Int) :
    ∀ (k : Nat) (j : Int) (st : State),
      ∀ e ∈ col_loop_trace s g sr h i k j st, e.h = h ∧ e.i = i ∧ j ≤ e.j ∧ e.j < j + k
  | 0, _, _, e, he => by simp [col_loop_trace] at he
  | k + 1, j, st, e, he => by
    rw [col_loop_trace, List.mem_cons] at he
    rcases he with he | he
    · subst he
      exact ⟨rfl, rfl, le_refl _, by push_cast; omega⟩
    · obtain ⟨a, b, c, d⟩ := col_trace_range s g sr h i k (j + 1) _ e he
      exact ⟨a, b, by omega, by push_cast; omega⟩

theorem diag_trace_range (s g : Int) (sr : Bool) (m h : Int) :
    ∀ (k : Nat) (i : Int) (st : State),
      ∀ e ∈ diag_loop_trace s g sr m h k i st,
        e.h = h ∧ i ≤ e.i ∧ e.i < i + k ∧ 0 ≤ e.j ∧ e.j < 16
  | 0, _, _, e, he => by simp [diag_loop_trace] at he
  | k + 1, i, st, e, he => by
    rw [diag_loop_trace, List.mem_append] at he
    rcases he with he | he
    · obtain ⟨a, b, c, d⟩ := col_trace_range s g sr h i _ 0 st e he
      have h16 : ((WIN_COLS.toNat : Nat) : Int) = 16 := by decide
      exact ⟨a, by omega, by push_cast; omega, c, by omega⟩
    · split_ifs at he with hb
      · simp at he
      · obtain ⟨a, b, c, d⟩ := diag_trace_range s g sr m h k (i + 1) _ e he
        exact ⟨a, by omega, by push_cast; omega, d⟩

theorem hor_trace_range (s g : Int) (sr : Bool) (m : Int) :
    ∀ (k : Nat) (h : Int) (st : State),
      ∀ e ∈ hor_window_loop_trace s g sr m k h st,
        h ≤ e.h ∧ e.h < h + k ∧ 0 ≤ e.i ∧ e.i < 527 ∧ 0 ≤ e.j ∧ e.j < 16
  | 0, _, _, e, he => by simp [hor_window_loop_trace] at he
  | k + 1, h, st, e, he => by
    rw [hor_window_loop_trace, List.mem_append] at he
    rcases he with he | he
    · obtain ⟨a, b, c, d⟩ := diag_trace_range s g sr m h _ 0 st e he
      have h527 : ((WIN_DIAGS.toNat : Nat) : Int) = 527 := by decide
      exact ⟨by omega, by push_cast; omega, b, by omega, d⟩
    · split_ifs at he with hb
      · simp at he
      · obtain ⟨a, b, c⟩ := hor_trace_range s g sr m k (h + 1) _ e he
        exact ⟨by omega, by push_cast; omega, c⟩

theorem align_one_trace_range (st0 : State) (stream_ver stream_hor : List Dihedral)
    (m n s g : Int) (sr : Bool) :
    ∀ e ∈ align_one_trace st0 stream_ver m stream_hor n s g sr,
      0 ≤ e.h ∧ e.h < 32 ∧ 0 ≤ e.i ∧ e.i < 527 ∧ 0 ≤ e.j ∧ e.j < 16 := by
  intro e he
  unfold align_one_trace at he
  obtain ⟨a, b, c⟩ := hor_trace_range s g sr m _ 0 _ e he
  have h32 : ((WIN_COUNT_HOR.toNat : Nat) : Int) = 32 := by decide
  exact ⟨a, by omega, c⟩

/-! ## Array accesses -/

theorem cell_accesses_in_bounds (sr : Bool) (h i j : Int) (st : State)
    (hi : 0 ≤ i) (hj : 0 ≤ j) (hj16 : j < 16) :
    ∀ a ∈ cell_accesses sr h i j st, 0 ≤ a.index ∧ a.index < a.buf.size := by
  intro a ha
  have hmask : 0 ≤ toUInt16 (i - j) % (WIN_ROWS_MASK + 1)
      ∧ toUInt16 (i - j) % (WIN_ROWS_MASK + 1) < 512 := by
    simp only [WIN_ROWS_MASK, WIN_ROWS, MAX_SEQ_SIZE]
    omega
  unfold cell_accesses at ha
  simp only [List.mem_append, List.mem_cons, List.mem_singleton, List.not_mem_nil, or_false,
    decide_eq_true_eq] at ha
  rcases ha with ((((((ha | ha) | ha) | ha) | ha) | ha) | ha) | ha
  · split_ifs at ha with hc
    · simp only [List.mem_singleton] at ha
      subst ha
      simp only [WIN_ROWS, MAX_SEQ_SIZE] at hc
      exact ⟨hi, by simp only [BufName.size, WIN_ROWS, MAX_SEQ_SIZE]; omega⟩
    · simp at ha
  · split_ifs at ha with hc
    · simp only [List.mem_singleton] at ha
      subst ha
      exact ⟨hj, by simp only [BufName.size, WIN_COLS]; omega⟩
    · simp at ha
  · split_ifs at ha with hc
    · simp only [List.mem_singleton] at ha
      subst ha
      exact ⟨hj, by simp only [BufName.size, WIN_COLS]; omega⟩
    · simp at ha
  · split_ifs at ha with hc hd
    · simp only [List.mem_append, List.mem_singleton] at ha
      rcases ha with ha | ha
      · subst ha
        simp only [WIN_ROWS, MAX_SEQ_SIZE] at hd
        exact ⟨hd.1.1, by simp only [BufName.size, WIN_ROWS, MAX_SEQ_SIZE]; exact hd.1.2⟩
      · subst ha
        exact ⟨hmask.1, by simp only [BufName.size, WIN_ROWS, MAX_SEQ_SIZE]; exact hmask.2⟩
    · simp only [List.nil_append, List.mem_singleton] at ha
      subst ha
      exact ⟨hmask.1, by simp only [BufName.size, WIN_ROWS, MAX_SEQ_SIZE]; exact hmask.2⟩
    · simp at ha
  · split_ifs at ha with hc hd
    · simp only [List.mem_cons, List.mem_singleton, List.not_mem_nil, or_false] at ha
      rcases ha with ha | ha <;> subst ha <;>
        exact ⟨hj, by simp only [BufName.size, WIN_COLS]; omega⟩
    · simp at ha
    · simp only [List.mem_singleton] at ha
      subst ha
      exact ⟨hj, by simp only [BufName.size, WIN_COLS]; omega⟩
  · split_ifs at ha with hc
    · simp at ha
    · simp only [List.mem_singleton] at ha
      subst ha
      exact ⟨hmask.1, by simp only [BufName.size, WIN_ROWS, MAX_SEQ_SIZE]; exact hmask.2⟩
  · rcases ha with ha | ha <;> subst ha <;>
      exact ⟨hj, by simp only [BufName.size, WIN_COLS]; omega⟩
  · split_ifs at ha with hc
    · simp only [List.mem_singleton] at ha
      subst ha
      simp only [WIN_ROWS, MAX_SEQ_SIZE] at hc
      exact ⟨hc.2.1, by simp only [BufName.size, WIN_ROWS, MAX_SEQ_SIZE]; exact hc.2.2⟩
    · simp at ha

theorem col_loop_eq_foldl (s g : Int) (sr : Bool) (h i : Int) :
    ∀ (k : Nat) (j : Int) (st : State),
      col_loop s g sr h i k j st
        = (col_loop_trace s g sr h i k j st).foldl
            (fun x e => cell_step s g sr e.h e.i e.j x) st
  | 0, _, _ => rfl
  | k + 1, j, st => by
    rw [col_loop, col_loop_trace, List.foldl_cons]
    exact col_loop_eq_foldl s g sr h i k (j + 1) _

theorem diag_loop_eq_foldl (s g : Int) (sr : Bool) (m h : Int) :
    ∀ (k : Nat) (i : Int) (st : State),
      diag_loop s g sr m h k i st
        = (diag_loop_trace s g sr m h k i st).foldl
            (fun x e => cell_step s g sr e.h e.i e.j x) st
  | 0, _, _ => rfl
  | k + 1, i, st => by
    rw [diag_loop, diag_loop_trace, List.foldl_append, ← col_loop_eq_foldl]
    split_ifs
    · rfl
    · exact diag_loop_eq_foldl s g sr m h k (i + 1) _

theorem hor_window_loop_eq_foldl (s g : Int) (sr : Bool) (m : Int) :
    ∀ (k : Nat) (h : Int) (st : State),
      hor_window_loop s g sr m k h st
        = (hor_window_loop_trace s g sr m k h st).foldl
            (fun x e => cell_step s g sr e.h e.i e.j x) st
  | 0, _, _ => rfl
  | k + 1, h, st => by
    rw [hor_window_loop, hor_window_loop_trace, List.foldl_append, ← diag_loop_eq_foldl]
    split_ifs
    · rfl
    · exact hor_window_loop_eq_foldl s g sr m k (h + 1) _

/-- The result of `align_one` is that of running the body of `col_loop` over the visits
of `align_one_trace`, in order. -/
theorem align_one_eq_foldl (st0 : State) (stream_ver stream_hor : List Dihedral)
    (m n s g : Int) (sr : Bool) :
    align_one st0 stream_ver m stream_hor n s g sr
      = (align_one_trace st0 stream_ver m stream_hor n s g sr).foldl
          (fun x e => cell_step s g sr e.h e.i e.j x)
          { st0 with
            max_score := 0
            stream_ver := stream_ver
            stream_size_ver := m
            stream_hor := stream_hor
            stream_size_hor := n } := by
  unfold align_one align_one_trace
  exact hor_window_loop_eq_foldl s g sr m _ 0 _

theorem align_one_trace_length (st0 : State) (stream_ver stream_hor : List Dihedral)
    (m n s g : Int) (sr : Bool) :
    16 ≤ (align_one_trace st0 stream_ver m stream_hor n s g sr).length := by
  have e32 : WIN_COUNT_HOR.toNat = 31 + 1 := by decide
  have e527 : WIN_DIAGS.toNat = 526 + 1 := by decide
  have e16 : WIN_COLS.toNat = 16 := by decide
  have hcol : ∀ (h i : Int) (k : Nat) (j : Int) (st : State),
      (col_loop_trace s g sr h i k j st).length = k := by
    intro h i k
    induction k with
    | zero => intro j st; rfl
    | succ k ih => intro j st; rw [col_loop_trace, List.length_cons, ih]
  unfold align_one_trace
  rw [e32, hor_window_loop_trace, e527, diag_loop_trace, e16, List.length_append,
    List.length_append, hcol]
  omega

/-- C27: for every input (any streams, any declared lengths, any contents of the
buffers), in every execution of the body of `col_loop` during `align_one` the assertion
`0 ≤ c && c < WIN_COLS` holds and every array access is within the array: `seq_ver` and
`hor_prop_buf` are written at `r` only when `0 ≤ r < 512`, `hor_prop_buf` is read at `i`
only when `i < 512`, `seq_ver` is read at `size_type(r) & 511`, and `seq_hor`,
`diag_buf_old` and `diag_buf_new` are accessed at `j` with `0 ≤ j < 16`. The body is
executed at least 16 times. -/
theorem accesses_in_bounds (st0 : State) (stream_ver stream_hor : List Dihedral)
    (m n s g : Int) (sr : Bool) :
    (∀ e ∈ align_one_trace st0 stream_ver m stream_hor n s g sr,
        (0 ≤ e.j ∧ e.j < WIN_COLS)
          ∧ ∀ a ∈ cell_accesses sr e.h e.i e.j e.st, 0 ≤ a.index ∧ a.index < a.buf.size)
      ∧ 16 ≤ (align_one_trace st0 stream_ver m stream_hor n s g sr).length := by
  refine ⟨?_, align_one_trace_length st0 stream_ver stream_hor m n s g sr⟩
  intro e he
  obtain ⟨_, _, hi, _, hj, hj16⟩ :=
    align_one_trace_range st0 stream_ver stream_hor m n s g sr e he
  exact ⟨⟨hj, by simp only [WIN_COLS]; exact hj16⟩,
    cell_accesses_in_bounds sr e.h e.i e.j e.st hi hj hj16⟩

/-! ## The order of the visits -/

theorem col_trace_sorted (s g : Int) (sr : Bool) (h i : Int) :
    ∀ (k : Nat) (j : Int) (st : State),
      (col_loop_trace s g sr h i k j st).Pairwise Visit.before
  | 0, _, _ => by rw [col_loop_trace]; exact List.Pairwise.nil
  | k + 1, j, st => by
    rw [col_loop_trace, List.pairwise_cons]
    refine ⟨?_, col_trace_sorted s g sr h i k (j + 1) _⟩
    intro e he
    obtain ⟨a, b, c, _⟩ := col_trace_range s g sr h i k (j + 1) _ e he
    exact Or.inr ⟨a.symm, Or.inr ⟨b.symm, by show j < e.j; omega⟩⟩

theorem diag_trace_sorted (s g : Int) (sr : Bool) (m h : Int) :
    ∀ (k : Nat) (i : Int) (st : State),
      (diag_loop_trace s g sr m h k i st).Pairwise Visit.before
  | 0, _, _ => by rw [diag_loop_trace]; exact List.Pairwise.nil
  | k + 1, i, st => by
    rw [diag_loop_trace, List.pairwise_append]
    refine ⟨col_trace_sorted s g sr h i _ 0 st, ?_, ?_⟩
    · split_ifs
      · exact List.Pairwise.nil
      · exact diag_trace_sorted s g sr m h k (i + 1) _
    · intro a ha b hb
      split_ifs at hb
      · simp at hb
      · obtain ⟨a1, a2, _⟩ := col_trace_range s g sr h i _ 0 st a ha
        obtain ⟨b1, b2, _⟩ := diag_trace_range s g sr m h k (i + 1) _ b hb
        exact Or.inr ⟨by rw [a1, b1], Or.inl (by omega)⟩

theorem hor_trace_sorted (s g : Int) (sr : Bool) (m : Int) :
    ∀ (k : Nat) (h : Int) (st : State),
      (hor_window_loop_trace s g sr m k h st).Pairwise Visit.before
  | 0, _, _ => by rw [hor_window_loop_trace]; exact List.Pairwise.nil
  | k + 1, h, st => by
    rw [hor_window_loop_trace, List.pairwise_append]
    refine ⟨diag_trace_sorted s g sr m h _ 0 st, ?_, ?_⟩
    · split_ifs
      · exact List.Pairwise.nil
      · exact hor_trace_sorted s g sr m k (h + 1) _
    · intro a ha b hb
      split_ifs at hb
      · simp at hb
      · obtain ⟨a1, _⟩ := diag_trace_range s g sr m h _ 0 st a ha
        obtain ⟨b1, _⟩ := hor_trace_range s g sr m k (h + 1) _ b hb
        exact Or.inl (by omega)

theorem visit_count_of_sorted :
    ∀ (l : List Visit) (h i j : Int), l.Pairwise Visit.before →
      (∃ e ∈ l, e.h = h ∧ e.i = i ∧ e.j = j) → visit_count l h i j = 1
  | [], _, _, _, _, ⟨e, he, _⟩ => by simp at he
  | a :: l, h, i, j, hp, ⟨e, he, hx⟩ => by
    rw [List.pairwise_cons] at hp
    unfold visit_count
    by_cases ha : a.h = h ∧ a.i = i ∧ a.j = j
    · rw [List.filter_cons_of_pos (by simpa using ha)]
      have hnil : l.filter (fun e => decide (e.h = h ∧ e.i = i ∧ e.j = j)) = [] := by
        rw [List.filter_eq_nil_iff]
        intro b hb hb2
        have hb3 : b.h = h ∧ b.i = i ∧ b.j = j := by simpa using hb2
        have := hp.1 b hb
        unfold Visit.before at this
        omega
      rw [hnil]
      rfl
    · rw [List.filter_cons_of_neg (by simpa using ha)]
      rcases List.mem_cons.1 he with he | he
      · subst he
        exact absurd hx ha
      · exact visit_count_of_sorted l h i j hp.2 ⟨e, he, hx⟩

/-! ## The invariant at every visit -/

theorem col_trace_mem (s g : Int) (sr : Bool) (h i : Int) :
    ∀ (k : Nat) (j : Int) (st : State) (c : Int), j ≤ c → c < j + k →
      ∃ e ∈ col_loop_trace s g sr h i k j st, e.h = h ∧ e.i = i ∧ e.j = c
  | 0, j, _, c, h1, h2 => by
    exfalso
    push_cast at h2
    omega
  | k + 1, j, st, c, h1, h2 => by
    rw [col_loop_trace]
    by_cases hc : c = j
    · exact ⟨_, List.mem_cons_self _ _, rfl, rfl, hc.symm⟩
    · obtain ⟨e, he, hx⟩ := col_trace_mem s g sr h i k (j + 1) _ c (by omega)
        (by push_cast at h2; omega)
      exact ⟨e, List.mem_cons_of_mem _ he, hx⟩

theorem diag_trace_mem (s g : Int) (sr : Bool) (m h : Int) :
    ∀ (k : Nat) (i : Int) (st : State) (i' c : Int), i ≤ i' → i' < i + k → i' ≤ m + 15 →
      0 ≤ c → c < 16 →
      ∃ e ∈ diag_loop_trace s g sr m h k i st, e.h = h ∧ e.i = i' ∧ e.j = c
  | 0, i, _, i', c, h1, h2, _, _, _ => by
    exfalso
    push_cast at h2
    omega
  | k + 1, i, st, i', c, h1, h2, h3, hc0, hc16 => by
    rw [diag_loop_trace]
    by_cases hi : i' = i
    · subst hi
      obtain ⟨e, he, hx⟩ := col_trace_mem s g sr h i' WIN_COLS.toNat 0 st c hc0
        (by have : ((WIN_COLS.toNat : Nat) : Int) = 16 := by decide
            omega)
      exact ⟨e, List.mem_append_left _ he, hx⟩
    · rw [if_neg (by simp only [WIN_COLS]; omega)]
      obtain ⟨e, he, hx⟩ := diag_trace_mem s g sr m h k (i + 1) _ i' c (by omega)
        (by push_cast at h2; omega) h3 hc0 hc16
      exact ⟨e, List.mem_append_right _ he, hx⟩

section trace
variable {C : Ctx}

theorem col_trace_inv (hC : C.ok) {h i : Int} (hh : 0 ≤ h) (hk : 16 * h ≤ C.n) (hi : 0 ≤ i) :
    ∀ (k : Nat) (j : Int) (st : State), 0 ≤ j → j + k = 16 → Inv C h i j st →
      ∀ e ∈ col_loop_trace C.s C.g C.sr h i k j st, Inv C e.h e.i e.j e.st
  | 0, _, _, _, _, _, e, he => by simp [col_loop_trace] at he
  | k + 1, j, st, hj, hjk, hI, e, he => by
    rw [col_loop_trace, List.mem_cons] at he
    rcases he with he | he
    · subst he
      exact hI
    · exact col_trace_inv hC hh hk hi k (j + 1) _ (by omega) (by push_cast at hjk; omega)
        (step_inv hC hI hh hk hi hj (by omega)) e he

theorem diag_trace_inv (hC : C.ok) {h : Int} (hh : 0 ≤ h) (hk : 16 * h ≤ C.n) :
    ∀ (k : Nat) (i : Int) (st : State), 0 ≤ i → i + k = 527 → Inv C h i 0 st →
      ∀ e ∈ diag_loop_trace C.s C.g C.sr C.m h k i st, Inv C e.h e.i e.j e.st
  | 0, _, _, _, _, _, e, he => by simp [diag_loop_trace] at he
  | k + 1, i, st, hi, hik, hI, e, he => by
    rw [diag_loop_trace, List.mem_append] at he
    rcases he with he | he
    · exact col_trace_inv hC hh hk hi 16 0 st (le_refl 0) (by norm_num) hI e he
    · split_ifs at he
      · simp at he
      · exact diag_trace_inv hC hh hk k (i + 1) _ (by omega) (by push_cast at hik; omega)
          (diag_inv hC hh hk hi hI) e he

theorem hor_trace_inv (hC : C.ok) :
    ∀ (k : Nat) (h : Int) (st : State), 0 ≤ h → h + k = 32 → 16 * h ≤ C.n →
      (0 < h → 16 * h < C.n) → Inv C h 0 0 st →
      ∀ e ∈ hor_window_loop_trace C.s C.g C.sr C.m k h st,
        16 * e.h ≤ C.n ∧ Inv C e.h e.i e.j e.st
  | 0, _, _, _, _, _, _, _, e, he => by simp [hor_window_loop_trace] at he
  | k + 1, h, st, hh, hhk, hk, hk', hI, e, he => by
    have e527 : WIN_DIAGS.toNat = 527 := by decide
    rw [hor_window_loop_trace, e527, List.mem_append] at he
    rcases he with he | he
    · have := (diag_trace_range C.s C.g C.sr C.m h 527 0 st e he).1
      exact ⟨by rw [this]; exact hk,
        diag_trace_inv hC hh hk 527 0 st (le_refl 0) (by norm_num) hI e he⟩
    · split_ifs at he with hz
      · simp at he
      · obtain ⟨i', hi1, hi2, hI'⟩ :=
          diag_loop_inv hC hh hk 527 0 st (le_refl 0) (by norm_num)
            (by have := hC.m_nonneg; omega) hI
        obtain ⟨hlt, hI''⟩ := inv_next_window hC hh hi1 hi2 hI' hz
        exact hor_trace_inv hC k (h + 1) _ (by omega) (by push_cast at hhk; omega)
          (by omega) (fun _ => hlt) hI'' e he

theorem hor_trace_mem (hC : C.ok) :
    ∀ (k : Nat) (h : Int) (st : State), 0 ≤ h → h + k = 32 → 16 * h ≤ C.n →
      (0 < h → 16 * h < C.n) → Inv C h 0 0 st →
      ∀ (h' i' c : Int), h ≤ h' → 16 * h' < C.n → 0 ≤ i' → i' ≤ C.m + 14 → 0 ≤ c → c < 16 →
        ∃ e ∈ hor_window_loop_trace C.s C.g C.sr C.m k h st, e.h = h' ∧ e.i = i' ∧ e.j = c
  | 0, h, _, _, hhk, _, _, _, h', _, _, h1, h2, _, _, _, _ => by
    exfalso
    have := hC.n_le
    push_cast at hhk
    omega
  | k + 1, h, st, hh, hhk, hk, hk', hI, h', i', c, h1, h2, hi0, hi1, hc0, hc16 => by
    have e527 : WIN_DIAGS.toNat = 527 := by decide
    have hm := hC.m_le
    rw [hor_window_loop_trace, e527]
    by_cases hh' : h' = h
    · subst hh'
      obtain ⟨e, he, hx⟩ := diag_trace_mem C.s C.g C.sr C.m h' 527 0 st i' c hi0
        (by push_cast; omega) (by omega) hc0 hc16
      exact ⟨e, List.mem_append_left _ he, hx⟩
    · obtain ⟨i'', hi1', hi2', hI'⟩ :=
        diag_loop_inv hC hh hk 527 0 st (le_refl 0) (by norm_num)
          (by have := hC.m_nonneg; omega) hI
      have hsz := hI'.hor_size
      have hec : ecount i'' 0 = 16 := by
        rw [ecount_def]
        omega
      rw [hec] at hsz
      have hne : (diag_loop C.s C.g C.sr C.m h 527 0 st).stream_size_hor ≠ 0 := by
        rw [hsz]
        omega
      rw [if_neg hne]
      obtain ⟨hlt, hI''⟩ := inv_next_window hC hh hi1' hi2' hI' hne
      obtain ⟨e, he, hx⟩ := hor_trace_mem hC k (h + 1) _ (by omega)
        (by push_cast at hhk; omega) (by omega) (fun _ => hlt) hI'' h' i' c (by omega) h2
        hi0 hi1 hc0 hc16
      exact ⟨e, List.mem_append_right _ he, hx⟩

/-- Every visit of a call of `align_one` on a coherent context satisfies the invariant
of the sweep. -/
theorem align_one_trace_inv (hC : C.ok) (st0 : State)
    (hV : C.sr = false → ∀ r, 0 ≤ r → r < C.m → st0.seq_ver.get r = C.Vf r) :
    ∀ e ∈ align_one_trace st0 (C.sv 0) C.m (C.sh 0) C.n C.s C.g C.sr,
      0 ≤ e.h ∧ 16 * e.h ≤ C.n ∧ 0 ≤ e.i ∧ 0 ≤ e.j ∧ e.j < 16 ∧ Inv C e.h e.i e.j e.st := by
  intro e he
  obtain ⟨a, _, b, _, c, d⟩ := align_one_trace_range st0 _ _ _ _ _ _ _ e he
  unfold align_one_trace at he
  have e32 : WIN_COUNT_HOR.toNat = 32 := by decide
  rw [e32] at he
  obtain ⟨x, y⟩ := hor_trace_inv hC 32 0 _ (le_refl 0) (by norm_num)
    (by have := hC.n_nonneg; omega) (by intro hx; omega) (inv_init hC st0 hV) e he
  exact ⟨a, x, b, c, d, y⟩

/-- Every cell of the matrix is visited exactly once. -/
theorem align_one_trace_once (hC : C.ok) (st0 : State)
    (hV : C.sr = false → ∀ r, 0 ≤ r → r < C.m → st0.seq_ver.get r = C.Vf r)
    (h r c : Int) (hh : 0 ≤ h) (hr0 : 0 ≤ r) (hrm : r < C.m) (hc0 : 0 ≤ c) (hc16 : c < 16)
    (hcn : 16 * h + c < C.n) :
    visit_count (align_one_trace st0 (C.sv 0) C.m (C.sh 0) C.n C.s C.g C.sr) h (r + c) c
      = 1 := by
  apply visit_count_of_sorted
  · unfold align_one_trace
    exact hor_trace_sorted _ _ _ _ _ 0 _
  · unfold align_one_trace
    have e32 : WIN_COUNT_HOR.toNat = 32 := by decide
    rw [e32]
    exact hor_trace_mem hC 32 0 _ (le_refl 0) (by norm_num)
      (by have := hC.n_nonneg; omega) (by intro hx; omega) (inv_init hC st0 hV)
      h (r + c) c hh (by omega) (by omega) (by omega) hc0 hc16

end trace

/-! ## The cells that update the maximum -/

theorem max_update_enabled_iff (s g : Int) (sr : Bool) (h i j : Int) (st : State) :
    max_update_enabled s g sr h i j st = true
      ↔ ((0 ≤ i - j ∧ i - j < 512) ∧ i - j < (cell_step s g sr h i j st).max_valid_row
          ∧ j < (cell_step s g sr h i j st).max_valid_col) := by
  simp only [max_update_enabled, cell_step, read_hor_prop_eq, update_lah_eq, read_ahead_eq,
    set_boundaries_eq, read_ver_eq, read_hor_eq, compute_score, accumulate_max_eq,
    shift_and_propagate_eq, decide_eq_true_eq]

/-- A call of `align_one` on the sequences `V` and `H`, with or without reloading the
vertical buffer, runs in a coherent context whose matrix is that of `V` and `H`; every
visit satisfies the invariant and every cell of the matrix is visited exactly once. -/
theorem align_one_trace_ctx (st0 : State) (V H restH stream_ver : List Dihedral) (s g : Int)
    (sr : Bool) (hV : V.length ≤ 512) (hH : H.length ≤ 512)
    (h1 : sr = true → ∃ restV, stream_ver = V ++ restV)
    (h2 : sr = false → ∀ r : Int, 0 ≤ r → r < V.length →
      st0.seq_ver.get r = V.getD r.toNat { phi := 0, psi := 0 }) :
    ∃ C : Ctx, C.ok ∧ C.s = s ∧ C.g = g ∧ C.sr = sr ∧ C.m = V.length ∧ C.n = H.length
      ∧ C.T = Tz V H s g
      ∧ (∀ e ∈ align_one_trace st0 stream_ver V.length (H ++ restH) H.length s g sr,
          0 ≤ e.h ∧ 16 * e.h ≤ C.n ∧ 0 ≤ e.i ∧ 0 ≤ e.j ∧ e.j < 16 ∧ Inv C e.h e.i e.j e.st)
      ∧ (∀ h r c : Int, 0 ≤ h → 0 ≤ r → r < C.m → 0 ≤ c → c < 16 → 16 * h + c < C.n →
          visit_count (align_one_trace st0 stream_ver V.length (H ++ restH) H.length s g sr)
            h (r + c) c = 1) := by
  cases sr with
  | true =>
    obtain ⟨restV, e⟩ := h1 rfl
    subst e
    have hC := listCtx_ok s g true V H (fun k => V.drop k.toNat ++ restV) restH hV hH
      (fun _ k h0 hk => drop_append_step V restV k h0 hk)
    exact ⟨_, hC, rfl, rfl, rfl, rfl, rfl, rfl,
      align_one_trace_inv hC st0 (fun h => by simp [listCtx] at h),
      fun h r c hh hr0 hrm hc0 hc16 hcn =>
        align_one_trace_once hC st0 (fun h => by simp [listCtx] at h) h r c hh hr0 hrm hc0
          hc16 hcn⟩
  | false =>
    have hC := listCtx_ok s g false V H (fun _ => stream_ver) restH hV hH
      (fun h => by simp at h)
    exact ⟨_, hC, rfl, rfl, rfl, rfl, rfl, rfl,
      align_one_trace_inv hC st0 (fun _ r h0 hr => h2 rfl r h0 hr),
      fun h r c hh hr0 hrm hc0 hc16 hcn =>
        align_one_trace_once hC st0 (fun _ r h0 hr => h2 rfl r h0 hr) h r c hh hr0 hrm hc0
          hc16 hcn⟩

/-- C22: for sequences `V`, `H` of lengths `m, n ≤ 512`, an execution of the body of
`col_loop` for the cell `(r, c) = (i - j, j)` of window `h` passes the test of line 314
exactly when `0 ≤ r < m` and `c < min(16, n - 16h)`; a cell with `r ≥ m` finds
`max_valid_row = m`, a cell of a row `r ≥ 0` with `16h + c ≥ n` finds
`max_valid_col = n - 16h`. The execution leaves `max_score` at the maximum of its former
value and the score of the cell when the test passes, and leaves `max_score` as it was
otherwise: at a cell with `0 ≤ r < m`, `c < min(16, n - 16h)` it becomes
`max(max_score, M[r, 16h + c])`, at every other cell (`r < 0`, `r ≥ m` or `16h + c ≥ n`)
it is unchanged. Each cell `(r, c)` with `0 ≤ r < m`, `0 ≤ c < min(16, n - 16h)` of a
window `h ≥ 0` is visited exactly once. -/
theorem max_update_cells (st0 : State) (V H restH stream_ver : List Dihedral) (s g : Int)
    (sr : Bool) (hV : V.length ≤ 512) (hH : H.length ≤ 512)
    (h1 : sr = true → ∃ restV, stream_ver = V ++ restV)
    (h2 : sr = false → ∀ r : Int, 0 ≤ r → r < V.length →
      st0.seq_ver.get r = V.getD r.toNat { phi := 0, psi := 0 }) :
    (∀ e ∈ align_one_trace st0 stream_ver V.length (H ++ restH) H.length s g sr,
        (max_update_enabled s g sr e.h e.i e.j e.st = true
          ↔ (0 ≤ e.i - e.j ∧ e.i - e.j < V.length
              ∧ e.j < min 16 ((H.length : Int) - 16 * e.h)))
        ∧ ((V.length : Int) ≤ e.i - e.j →
            (cell_step s g sr e.h e.i e.j e.st).max_valid_row = V.length)
        ∧ (0 ≤ e.i - e.j → (H.length : Int) - 16 * e.h ≤ e.j →
            (cell_step s g sr e.h e.i e.j e.st).max_valid_col = (H.length : Int) - 16 * e.h)
        ∧ (cell_step s g sr e.h e.i e.j e.st).max_score
            = (if max_update_enabled s g sr e.h e.i e.j e.st = true
                then max e.st.max_score (cell_step s g sr e.h e.i e.j e.st).cur_score
                else e.st.max_score)
        ∧ ((0 ≤ e.i - e.j ∧ e.i - e.j < V.length
              ∧ e.j < min 16 ((H.length : Int) - 16 * e.h)) →
            (cell_step s g sr e.h e.i e.j e.st).max_score
              = max e.st.max_score
                  (sw_matrix V H s g (e.i - e.j).toNat (16 * e.h + e.j).toNat))
        ∧ (¬(0 ≤ e.i - e.j ∧ e.i - e.j < V.length
              ∧ e.j < min 16 ((H.length : Int) - 16 * e.h)) →
            (cell_step s g sr e.h e.i e.j e.st).max_score = e.st.max_score))
      ∧ ∀ h r c : Int, 0 ≤ h → 0 ≤ r → r < V.length → 0 ≤ c →
          c < min 16 ((H.length : Int) - 16 * h) →
          visit_count (align_one_trace st0 stream_ver V.length (H ++ restH) H.length s g sr)
            h (r + c) c = 1 := by
  obtain ⟨C, hC, es, eg, esr, em, en, eT, hinv, honce⟩ :=
    align_one_trace_ctx st0 V H restH stream_ver s g sr hV hH h1 h2
  subst es eg esr
  constructor
  · intro e he
    obtain ⟨hh, hk, hi, hj, hj16, hI⟩ := hinv e he
    have hI' := step_inv hC hI hh hk hi hj hj16
    have hiff : max_update_enabled C.s C.g C.sr e.h e.i e.j e.st = true
        ↔ (0 ≤ e.i - e.j ∧ e.i - e.j < V.length
            ∧ e.j < min 16 ((H.length : Int) - 16 * e.h)) := by
      rw [max_update_enabled_iff, step_valid_iff hC hI hh hk hi hj hj16, em, en]
      constructor
      · rintro ⟨a, b, c⟩
        exact ⟨a, b, by omega⟩
      · rintro ⟨a, b, c⟩
        exact ⟨a, b, by omega⟩
    have hmax : (cell_step C.s C.g C.sr e.h e.i e.j e.st).max_score
        = (if max_update_enabled C.s C.g C.sr e.h e.i e.j e.st = true
            then max e.st.max_score (cell_step C.s C.g C.sr e.h e.i e.j e.st).cur_score
            else e.st.max_score) := by
      rw [cs_max_score]
      by_cases hA : ((0 ≤ e.i - e.j ∧ e.i - e.j < 512)
          ∧ e.i - e.j < (cell_step C.s C.g C.sr e.h e.i e.j e.st).max_valid_row
          ∧ e.j < (cell_step C.s C.g C.sr e.h e.i e.j e.st).max_valid_col)
      · rw [if_pos ((max_update_enabled_iff C.s C.g C.sr e.h e.i e.j e.st).2 hA)]
        by_cases hc : (cell_step C.s C.g C.sr e.h e.i e.j e.st).cur_score > e.st.max_score
        · rw [if_pos ⟨hA, hc⟩, max_eq_right (le_of_lt hc)]
        · rw [if_neg (fun h => hc h.2), max_eq_left (not_lt.1 hc)]
      · rw [if_neg (fun h => hA ((max_update_enabled_iff C.s C.g C.sr e.h e.i e.j e.st).1 h)),
          if_neg (fun h => hA h.1)]
    refine ⟨hiff, ?_, ?_, hmax, ?_, ?_⟩
    · intro hr
      have := hI'.mvr_hi (Or.inr (by rw [dcount_def, em]; split_ifs <;> omega))
      rw [this, em]
    · intro hr0 hc
      have := hI'.mvc_hi (by rw [ecount_def, en]; split_ifs <;> omega)
      rw [this, en]
    · intro hv
      obtain ⟨hr0, hrm, hc⟩ := hv
      rw [hmax, if_pos (hiff.2 ⟨hr0, hrm, hc⟩),
        step_cur_score hC hI hh hk hi hj hj16 hr0 (by rw [em]; exact hrm)
          (by rw [en]; omega), eT,
        Tz_eq_matrix V H C.s C.g _ _ hr0 (by omega)]
    · intro hv
      rw [hmax, if_neg (fun h => hv (hiff.1 h))]
  · intro h r c hh hr0 hrm hc0 hc
    exact honce h r c hh hr0 (by rw [em]; exact hrm) hc0 (by omega) (by rw [en]; omega)

theorem max_update_cells_witness :
    zeros2.length ≤ 512 ∧ quarter2.length ≤ 512
      ∧ visit_count
          (align_one_trace sim_state (zeros2 ++ []) zeros2.length (quarter2 ++ [])
            quarter2.length 100 (-50) true) 0 (1 + 1) 1 = 1 :=
  ⟨by decide, by decide,
    (max_update_cells sim_state zeros2 quarter2 [] (zeros2 ++ []) 100 (-50) true (by decide)
      (by decide) (fun _ => ⟨[], rfl⟩) (fun h => by cases h)).2 0 1 1 (by decide) (by decide)
      (by decide) (by decide) (by decide)⟩

/-! ## The diagonal buffers -/

theorem col_loop_diag_bufs (s g : Int) (sr : Bool) (h i : Int) :
    ∀ (k : Nat) (j : Int) (st : State), 0 ≤ j → j + k = 16 →
      (∀ c, j ≤ c → c < 16 →
        ∃ e ∈ col_loop_trace s g sr h i k j st, e.h = h ∧ e.i = i ∧ e.j = c
          ∧ (col_loop s g sr h i k j st).diag_buf_new.get c
              = (cell_step s g sr h i c e.st).cur_score
          ∧ (col_loop s g sr h i k j st).diag_buf_old.get c
              = if c ≤ i - 1 then st.diag_buf_new.get c else 0)
        ∧ ∀ c, 0 ≤ c → c < j →
            (col_loop s g sr h i k j st).diag_buf_new.get c = st.diag_buf_new.get c
              ∧ (col_loop s g sr h i k j st).diag_buf_old.get c = st.diag_buf_old.get c
  | 0, j, st, _, hjk => by
    refine ⟨fun c h1 h2 => ?_, fun c _ _ => ⟨rfl, rfl⟩⟩
    exfalso
    push_cast at hjk
    omega
  | k + 1, j, st, hj, hjk => by
    obtain ⟨ih1, ih2⟩ := col_loop_diag_bufs s g sr h i k (j + 1)
      (cell_step s g sr h i j st) (by omega) (by push_cast at hjk; omega)
    have hj16 : j < 16 := by push_cast at hjk; omega
    rw [col_loop, col_loop_trace]
    constructor
    · intro c h1 h2
      by_cases hc : c = j
      · subst hc
        obtain ⟨f1, f2⟩ := ih2 c hj (by omega)
        refine ⟨_, List.mem_cons_self _ _, rfl, rfl, rfl, ?_, ?_⟩
        · rw [f1, cs_diag_buf_new, Buf.get_set, if_pos ⟨rfl, hj, by exact_mod_cast h2⟩]
        · rw [f2, cs_diag_buf_old, Buf.get_set, if_pos ⟨rfl, hj, by exact_mod_cast h2⟩]
      · obtain ⟨e, he, e1, e2, e3, e4, e5⟩ := ih1 c (by omega) h2
        refine ⟨e, List.mem_cons_of_mem _ he, e1, e2, e3, e4, ?_⟩
        rw [e5]
        by_cases hci : c ≤ i - 1
        · rw [if_pos hci, if_pos hci, cs_diag_buf_new, Buf.get_set,
            if_neg (by intro hx; exact hc hx.1)]
        · rw [if_neg hci, if_neg hci]
    · intro c hc0 hcj
      obtain ⟨f1, f2⟩ := ih2 c hc0 (by omega)
      rw [f1, f2, cs_diag_buf_new, cs_diag_buf_old, Buf.get_set, Buf.get_set,
        if_neg (by intro hx; omega), if_neg (by intro hx; omega)]
      exact ⟨rfl, rfl⟩

/-- C23: for sequences `V`, `H` of at most 512 elements, at every visit of window `h`
that starts a diagonal `i` (`j = 0`), `diag_buf_new[c]` holds the matrix entry of the cell
`(i-1-c, c)` of the window for every `c ≤ i - 1` and `diag_buf_old[c]` that of the cell
`(i-2-c, c)` for every `c ≤ i - 2`, for the cells that lie within the matrix; and when a
cell `(r, c) = (i - j, j)` within the matrix is computed, `lah_buf[0][0]`, `lah_buf[1][0]`
and `lah_buf[1][1]` are `M[r-1, 16h+c-1]`, `M[r, 16h+c-1]` and `M[r-1, 16h+c]`, and the
score computed is `M[r, 16h+c]`, where `Tz` is `M` inside the matrix and 0 at negative
indices. Whatever the inputs, after the 16 steps of a diagonal `i`, `diag_buf_new[c]` is
the score that step `c` computed and `diag_buf_old[c]` is what `diag_buf_new[c]` held
before the diagonal (0 when `c > i - 1`). -/
theorem sweep_invariant (st0 : State) (V H restH stream_ver : List Dihedral) (s g : Int)
    (sr : Bool) (hV : V.length ≤ 512) (hH : H.length ≤ 512)
    (h1 : sr = true → ∃ restV, stream_ver = V ++ restV)
    (h2 : sr = false → ∀ r : Int, 0 ≤ r → r < V.length →
      st0.seq_ver.get r = V.getD r.toNat { phi := 0, psi := 0 }) :
    (∀ e ∈ align_one_trace st0 stream_ver V.length (H ++ restH) H.length s g sr,
        (e.j = 0 → ∀ c : Int, 0 ≤ c → c < 16 → 16 * e.h + c < H.length →
          (c ≤ e.i - 1 → e.i - 1 - c < V.length →
            e.st.diag_buf_new.get c = Tz V H s g (e.i - 1 - c) (16 * e.h + c))
          ∧ (c ≤ e.i - 2 → e.i - 2 - c < V.length →
            e.st.diag_buf_old.get c = Tz V H s g (e.i - 2 - c) (16 * e.h + c)))
        ∧ (0 ≤ e.i - e.j → e.i - e.j < V.length → 16 * e.h + e.j < H.length →
            (cell_step s g sr e.h e.i e.j e.st).lah_buf_00
                = Tz V H s g (e.i - e.j - 1) (16 * e.h + e.j - 1)
              ∧ (cell_step s g sr e.h e.i e.j e.st).lah_buf_10
                = Tz V H s g (e.i - e.j) (16 * e.h + e.j - 1)
              ∧ (cell_step s g sr e.h e.i e.j e.st).lah_buf_11
                = Tz V H s g (e.i - e.j - 1) (16 * e.h + e.j)
              ∧ (cell_step s g sr e.h e.i e.j e.st).cur_score
                = Tz V H s g (e.i - e.j) (16 * e.h + e.j)))
      ∧ (∀ r c : Int, (0 ≤ r → 0 ≤ c → Tz V H s g r c = sw_matrix V H s g r.toNat c.toNat)
          ∧ (r < 0 ∨ c < 0 → Tz V H s g r c = 0))
      ∧ ∀ (st : State) (h i c : Int), 0 ≤ c → c < 16 →
          ∃ e ∈ col_loop_trace s g sr h i WIN_COLS.toNat 0 st, e.h = h ∧ e.i = i ∧ e.j = c
            ∧ (col_loop s g sr h i WIN_COLS.toNat 0 st).diag_buf_new.get c
                = (cell_step s g sr h i c e.st).cur_score
            ∧ (col_loop s g sr h i WIN_COLS.toNat 0 st).diag_buf_old.get c
                = if c ≤ i - 1 then st.diag_buf_new.get c else 0 := by
  obtain ⟨C, hC, es, eg, esr, em, en, eT, hinv, _⟩ :=
    align_one_trace_ctx st0 V H restH stream_ver s g sr hV hH h1 h2
  subst es eg esr
  refine ⟨?_, ?_, ?_⟩
  · intro e he
    obtain ⟨hh, hk, hi, hj, hj16, hI⟩ := hinv e he
    constructor
    · intro hj0 c hc0 hc16 hcn
      constructor
      · intro hci hr
        have := hI.diag_new c hc0 hc16 (by rw [en]; omega) (e.i - 1 - c)
          (by rw [hj0, if_neg (by omega)]) (by omega) (by rw [em]; exact hr)
        rw [this, eT]
      · intro hci hr
        have := hI.diag_old c hc0 hc16 (by rw [en]; omega) (e.i - 2 - c)
          (by rw [hj0, if_neg (by omega)]) (by omega) (by rw [em]; exact hr)
        rw [this, eT]
    · intro hr0 hrm hcn
      have hrm' : e.i - e.j < C.m := by rw [em]; exact hrm
      have hjk : e.j < C.n - 16 * e.h := by rw [en]; omega
      rw [step_lah_buf_00 hC hI hj hj16 hr0 hrm' hjk,
        step_lah_buf_10 hC hI hh hj hj16 hr0 hrm' hjk,
        step_lah_buf_11 hC hI hj hj16 hr0 hrm' hjk,
        step_cur_score hC hI hh hk hi hj hj16 hr0 hrm' hjk, eT]
      exact ⟨rfl, rfl, rfl, rfl⟩
  · intro r c
    exact ⟨fun hr hc => Tz_eq_matrix V H C.s C.g r c hr hc, fun h => Tz_neg V H C.s C.g r c h⟩
  · intro st h i c hc0 hc16
    have e16 : WIN_COLS.toNat = 16 := by decide
    rw [e16]
    exact (col_loop_diag_bufs C.s C.g C.sr h i 16 0 st (le_refl 0) (by norm_num)).1 c hc0 hc16

theorem sweep_invariant_witness :
    zeros2.length ≤ 512 ∧ quarter2.length ≤ 512
      ∧ ∀ r c : Int, (0 ≤ r → 0 ≤ c →
            Tz zeros2 quarter2 100 (-50) r c = sw_matrix zeros2 quarter2 100 (-50) r.toNat c.toNat)
          ∧ (r < 0 ∨ c < 0 → Tz zeros2 quarter2 100 (-50) r c = 0) :=
  ⟨by decide, by decide,
    (sweep_invariant sim_state zeros2 quarter2 [] (zeros2 ++ []) 100 (-50) true (by decide)
      (by decide) (fun _ => ⟨[], rfl⟩) (fun h => by cases h)).2.1⟩

/-- C24: for sequences `V`, `H` of at most 512 elements, whenever a window `h > 0` is
processed, `hor_prop_buf[r]` holds `M[r, 16(h-1) + 15]`, the last column of the window
before, for every row `r < m` as long as the cell `(r, 15)` of the current window has not
been processed (`i ≤ r + 15`), in particular at the start of the window; the value read
for row `r = i` at `j = 0` is that entry, and it is the left neighbour fed to the cell; in
the window `h = 0` the value fed is 0. Once the cell `(r, 15)` of a full window has been
processed, `hor_prop_buf[r]` holds `M[r, 16h + 15]`. -/
theorem tile_boundary_invariant (st0 : State) (V H restH stream_ver : List Dihedral)
    (s g : Int) (sr : Bool) (hV : V.length ≤ 512) (hH : H.length ≤ 512)
    (h1 : sr = true → ∃ restV, stream_ver = V ++ restV)
    (h2 : sr = false → ∀ r : Int, 0 ≤ r → r < V.length →
      st0.seq_ver.get r = V.getD r.toNat { phi := 0, psi := 0 }) :
    ∀ e ∈ align_one_trace st0 stream_ver V.length (H ++ restH) H.length s g sr,
      (0 < e.h → ∀ r : Int, 0 ≤ r → r < V.length → e.i ≤ r + 15 →
          e.st.hor_prop_buf.get r = Tz V H s g r (16 * (e.h - 1) + 15))
        ∧ (16 * e.h + 16 ≤ H.length → ∀ r : Int, 0 ≤ r → r < V.length → r + 15 < e.i →
            e.st.hor_prop_buf.get r = Tz V H s g r (16 * e.h + 15))
        ∧ (e.j = 0 → e.i < V.length →
            (cell_step s g sr e.h e.i e.j e.st).hor_prop_buf_next_cells_1
                = Tz V H s g e.i (16 * e.h - 1)
              ∧ (cell_step s g sr e.h e.i e.j e.st).lah_buf_10
                = (cell_step s g sr e.h e.i e.j e.st).hor_prop_buf_next_cells_1
              ∧ (0 < e.h → (cell_step s g sr e.h e.i e.j e.st).hor_prop_buf_next_cells_1
                  = e.st.hor_prop_buf.get e.i)
              ∧ (e.h = 0 → (cell_step s g sr e.h e.i e.j e.st).lah_buf_10 = 0)) := by
  obtain ⟨C, hC, es, eg, esr, em, en, eT, hinv, _⟩ :=
    align_one_trace_ctx st0 V H restH stream_ver s g sr hV hH h1 h2
  subst es eg esr
  intro e he
  obtain ⟨hh, hk, hi, hj, hj16, hI⟩ := hinv e he
  refine ⟨?_, ?_, ?_⟩
  · intro hpos r hr0 hrm hir
    have := hI.prop_old hpos r hr0 (by rw [em]; exact hrm) (by unfold proc; omega)
    rw [this, eT]
    congr 1
    ring
  · intro hfull r hr0 hrm hir
    have := hI.prop_new (by rw [en]; omega) r hr0 (by rw [em]; exact hrm)
      (by unfold proc; omega)
    rw [this, eT]
  · intro hj0 him
    have hnc : (cell_step C.s C.g C.sr e.h e.i e.j e.st).hor_prop_buf_next_cells_1
        = Tz V H C.s C.g e.i (16 * e.h - 1) := by
      have := step_hpnc hC hI hh hi hj (by rw [dcount_def]; split_ifs <;> omega)
        (by rw [dcount_def, em]; split_ifs <;> omega)
      rw [this, eT, dcount_def, hj0]
      simp
    have hl : (cell_step C.s C.g C.sr e.h e.i e.j e.st).lah_buf_10
        = (cell_step C.s C.g C.sr e.h e.i e.j e.st).hor_prop_buf_next_cells_1 := by
      rw [cs_lah_buf_10, if_pos hj0, if_neg (by omega)]
    refine ⟨hnc, hl, ?_, ?_⟩
    · intro hpos
      rw [cs_hor_prop_buf_next_cells_1, if_pos ⟨hj0, by omega⟩, if_pos hpos]
    · intro h0
      rw [hl, hnc, Tz_neg V H C.s C.g e.i (16 * e.h - 1) (Or.inr (by omega))]

theorem tile_boundary_invariant_witness :
    seq17.length ≤ 512 ∧ seq17.length ≤ 512
      ∧ ∀ e ∈ align_one_trace sim_state (seq17 ++ []) seq17.length (seq17 ++ []) seq17.length
          500 (-100) true,
        0 < e.h → ∀ r : Int, 0 ≤ r → r < seq17.length → e.i ≤ r + 15 →
          e.st.hor_prop_buf.get r = Tz seq17 seq17 500 (-100) r (16 * (e.h - 1) + 15) :=
  ⟨by decide, by decide, fun e he =>
    (tile_boundary_invariant sim_state seq17 seq17 [] (seq17 ++ []) 500 (-100) true
      (by decide) (by decide) (fun _ => ⟨[], rfl⟩) (fun h => by cases h) e he).1⟩

/-! ## Thirty-two bits are enough -/

theorem exact_table_succ (V H : List Dihedral) (s g : Int) (r c : Nat) :
    exact_table V H s g (r + 1) (c + 1)
      = exact_cell (exact_table V H s g r c) (exact_table V H s g (r + 1) c)
          (exact_table V H s g r (c + 1))
          (V.getD r { phi := 0, psi := 0 }) (H.getD c { phi := 0, psi := 0 }) s g := rfl

theorem sw_table_eq_exact (V H : List Dihedral) (s g : Int)
    (hs0 : 0 ≤ s) (hs1 : s ≤ 4194303) (hg1 : -2147483648 ≤ g) (hg2 : g ≤ 0) :
    ∀ r c : Nat, r ≤ 512 → c ≤ 512 → sw_table V H s g r c = exact_table V H s g r c := by
  intro r
  induction r with
  | zero => intro c _ _; rfl
  | succ r ihr =>
    intro c
    induction c with
    | zero => intro _ _; rfl
    | succ c ihc =>
      intro hr hc
      rw [sw_table_succ_exact V H s g 512 hs0 (by omega) hg1 hg2 r c (by omega),
        exact_table_succ, ihr c (by omega) (by omega), ihr (c + 1) (by omega) hc,
        ihc hr (by omega)]
      rfl

theorem Tz_bounds (V H : List Dihedral) (s g : Int)
    (hs0 : 0 ≤ s) (hs1 : s ≤ 4194303) (hg1 : -2147483648 ≤ g) (hg2 : g ≤ 0)
    (r c : Int) (h : r < 511 ∨ c < 511) :
    0 ≤ Tz V H s g r c ∧ Tz V H s g r c ≤ 511 * s := by
  have hmin : min (r + 1).toNat (c + 1).toNat ≤ 511 := by omega
  obtain ⟨b1, b2⟩ := sw_table_bounds V H s g 511 hs0 (by push_cast; omega) hg1 hg2
    (r + 1).toNat (c + 1).toNat hmin
  have h3 : ((min (r + 1).toNat (c + 1).toNat : Nat) : Int) * s ≤ ((511 : Nat) : Int) * s :=
    cast_mul_le_of_le hmin hs0
  have h4 : ((511 : Nat) : Int) * s = 511 * s := by norm_num
  unfold Tz
  exact ⟨b1, by rw [h4] at h3; exact le_trans b2 h3⟩

theorem exact_score_eq (V H : List Dihedral) (s g : Int) (hV : V.length ≤ 512)
    (hH : H.length ≤ 512)
    (hs0 : 0 ≤ s) (hs1 : s ≤ 4194303) (hg1 : -2147483648 ≤ g) (hg2 : g ≤ 0) :
    sw_score V H s g = exact_score V H s g := by
  unfold sw_score exact_score
  apply List.foldl_ext
  intro a r hr
  apply List.foldl_ext
  intro b c hc
  rw [List.mem_range] at hr hc
  unfold sw_matrix exact_matrix
  rw [sw_table_eq_exact V H s g hs0 hs1 hg1 hg2 (r + 1) (c + 1) (by omega) (by omega)]

/-! ## The operations inside the similarity -/

theorem dihedral_score_squares_sum (a b : Dihedral) (s : Int) :
    dihedral_score a b s = toInt32 (s - toInt32 (squares_sum a b)) := rfl

theorem sq_eq_iff {d : Int} (h0 : 0 ≤ d) (h1 : d ≤ 32768) :
    d * d = 1073741824 ↔ d = 32768 := by
  constructor
  · intro h
    by_contra hne
    have h2 : d ≤ 32767 := by omega
    have h3 : d * d ≤ 32767 * 32767 := by nlinarith
    omega
  · intro h
    subst h
    rfl

theorem squares_sum_facts (a b : Dihedral) (s : Int) (hs0 : 0 ≤ s) (hs1 : s ≤ 4194303) :
    toInt32 (angle_abs_diff a.phi b.phi * angle_abs_diff a.phi b.phi)
        = angle_abs_diff a.phi b.phi * angle_abs_diff a.phi b.phi
      ∧ toInt32 (angle_abs_diff a.psi b.psi * angle_abs_diff a.psi b.psi)
        = angle_abs_diff a.psi b.psi * angle_abs_diff a.psi b.psi
      ∧ squares_sum a b = sq_dist a b
      ∧ (toInt32 (squares_sum a b) = squares_sum a b
          ↔ ¬(angle_abs_diff a.phi b.phi = 32768 ∧ angle_abs_diff a.psi b.psi = 32768))
      ∧ (toInt32 (s - toInt32 (squares_sum a b)) = s - toInt32 (squares_sum a b)
          ↔ ¬(angle_abs_diff a.phi b.phi = 32768 ∧ angle_abs_diff a.psi b.psi = 32768))
      ∧ dihedral_score a b s = s - sq_dist a b := by
  have hp := angle_abs_diff_range a.phi b.phi
  have hq := angle_abs_diff_range a.psi b.psi
  have hP := sq_le_of_range hp.1 hp.2
  have hQ := sq_le_of_range hq.1 hq.2
  have eP := sq_eq_iff hp.1 hp.2
  have eQ := sq_eq_iff hq.1 hq.2
  have hd := dihedral_score_sq_dist a b s hs0 (by omega)
  have h1 : toInt32 (angle_abs_diff a.phi b.phi * angle_abs_diff a.phi b.phi)
      = angle_abs_diff a.phi b.phi * angle_abs_diff a.phi b.phi :=
    toInt32_of_range (by omega) (by omega)
  have h2 : toInt32 (angle_abs_diff a.psi b.psi * angle_abs_diff a.psi b.psi)
      = angle_abs_diff a.psi b.psi * angle_abs_diff a.psi b.psi :=
    toInt32_of_range (by omega) (by omega)
  have h3 : squares_sum a b = sq_dist a b := by
    unfold squares_sum sq_dist
    simp only []
    rw [h1, h2]
  refine ⟨h1, h2, h3, ?_, ?_, hd⟩
  · rw [h3]
    unfold sq_dist toInt32
    rw [← eP, ← eQ]
    generalize angle_abs_diff a.phi b.phi * angle_abs_diff a.phi b.phi = P at hP ⊢
    generalize angle_abs_diff a.psi b.psi * angle_abs_diff a.psi b.psi = Q at hQ ⊢
    omega
  · rw [h3]
    unfold sq_dist toInt32
    rw [← eP, ← eQ]
    generalize angle_abs_diff a.phi b.phi * angle_abs_diff a.phi b.phi = P at hP ⊢
    generalize angle_abs_diff a.psi b.psi * angle_abs_diff a.psi b.psi = Q at hQ ⊢
    omega

theorem visit_of_count (l : List Visit) (h i j : Int) (hc : visit_count l h i j = 1) :
    ∃ e ∈ l, e.h = h ∧ e.i = i ∧ e.j = j := by
  unfold visit_count at hc
  cases hf : l.filter (fun e => decide (e.h = h ∧ e.i = i ∧ e.j = j)) with
  | nil => rw [hf] at hc; simp at hc
  | cons e rest =>
    have he : e ∈ l.filter (fun e => decide (e.h = h ∧ e.i = i ∧ e.j = j)) := by
      rw [hf]; exact List.mem_cons_self _ _
    rw [List.mem_filter] at he
    exact ⟨e, he.1, by simpa using he.2⟩

/-- A call of `align_one` on the sequences `V` and `H` runs in a coherent context whose
sequences are `V` and `H`; every visit satisfies the invariant. -/
theorem align_one_trace_ctx_seq (st0 : State) (V H restH stream_ver : List Dihedral)
    (s g : Int) (sr : Bool) (hV : V.length ≤ 512) (hH : H.length ≤ 512)
    (h1 : sr = true → ∃ restV, stream_ver = V ++ restV)
    (h2 : sr = false → ∀ r : Int, 0 ≤ r → r < V.length →
      st0.seq_ver.get r = V.getD r.toNat { phi := 0, psi := 0 }) :
    ∃ C : Ctx, C.ok ∧ C.s = s ∧ C.g = g ∧ C.sr = sr ∧ C.m = V.length ∧ C.n = H.length
      ∧ C.Vf = (fun r => V.getD r.toNat { phi := 0, psi := 0 })
      ∧ C.Hf = (fun c => H.getD c.toNat { phi := 0, psi := 0 })
      ∧ (∀ e ∈ align_one_trace st0 stream_ver V.length (H ++ restH) H.length s g sr,
          0 ≤ e.h ∧ 16 * e.h ≤ C.n ∧ 0 ≤ e.i ∧ 0 ≤ e.j ∧ e.j < 16
            ∧ Inv C e.h e.i e.j e.st) := by
  cases sr with
  | true =>
    obtain ⟨restV, e⟩ := h1 rfl
    subst e
    have hC := listCtx_ok s g true V H (fun k => V.drop k.toNat ++ restV) restH hV hH
      (fun _ k h0 hk => drop_append_step V restV k h0 hk)
    exact ⟨_, hC, rfl, rfl, rfl, rfl, rfl, rfl, rfl,
      align_one_trace_inv hC st0 (fun h => by simp [listCtx] at h)⟩
  | false =>
    have hC := listCtx_ok s g false V H (fun _ => stream_ver) restH hV hH
      (fun h => by simp at h)
    exact ⟨_, hC, rfl, rfl, rfl, rfl, rfl, rfl, rfl,
      align_one_trace_inv hC st0 (fun _ r h0 hr => h2 rfl r h0 hr)⟩

/-- At a visit of a cell within the matrix the two dihedrals compared are the element of
`V` of the row and the element of `H` of the column. -/
theorem align_one_trace_regs (st0 : State) (V H restH stream_ver : List Dihedral) (s g : Int)
    (sr : Bool) (hV : V.length ≤ 512) (hH : H.length ≤ 512)
    (h1 : sr = true → ∃ restV, stream_ver = V ++ restV)
    (h2 : sr = false → ∀ r : Int, 0 ≤ r → r < V.length →
      st0.seq_ver.get r = V.getD r.toNat { phi := 0, psi := 0 }) :
    ∀ e ∈ align_one_trace st0 stream_ver V.length (H ++ restH) H.length s g sr,
      0 ≤ e.i - e.j → e.i - e.j < V.length → 16 * e.h + e.j < H.length →
        (cell_step s g sr e.h e.i e.j e.st).seq_ver_comp_reg
            = V.getD (e.i - e.j).toNat { phi := 0, psi := 0 }
          ∧ (cell_step s g sr e.h e.i e.j e.st).seq_hor_comp_reg
            = H.getD (16 * e.h + e.j).toNat { phi := 0, psi := 0 } := by
  obtain ⟨C, hC, es, eg, esr, em, en, eV, eH, hinv⟩ :=
    align_one_trace_ctx_seq st0 V H restH stream_ver s g sr hV hH h1 h2
  subst es eg esr
  intro e he hr0 hrm hcn
  obtain ⟨hh, hk, hi, hj, hj16, hI⟩ := hinv e he
  rw [step_seq_ver_comp_reg hC hI hi hj hr0 (by rw [em]; exact hrm),
    step_seq_hor_comp_reg hC hI hh hk hi hj hj16 hr0 (by rw [en]; omega), eV, eH]
  exact ⟨rfl, rfl⟩

/-- C28 fails as stated: for `V = [(-32768, -32768)]`, `H = [(0, 0)]`,
`scoring_offset = 65536` and `gap_penalty = -4000` the only cell of the matrix is
computed; the sum `dphi * dphi + dpsi * dpsi` of its similarity is `2^31`, which the
32-bit `score_type` holds as `-2^31`, and the subtraction `65536 - (-2^31)` exceeds
`2^31 - 1` as well: two additions that feed a valid cell wrap. The value that
`dihedral_score` delivers is nevertheless `65536 - 2^31`. -/
theorem squares_sum_wraps :
    ∃ e ∈ align_one_trace sim_state (half_turn ++ []) half_turn.length (origin1 ++ [])
        origin1.length 65536 (-4000) true,
      (0 ≤ e.i - e.j ∧ e.i - e.j < half_turn.length ∧ 16 * e.h + e.j < origin1.length)
        ∧ squares_sum (cell_step 65536 (-4000) true e.h e.i e.j e.st).seq_ver_comp_reg
            (cell_step 65536 (-4000) true e.h e.i e.j e.st).seq_hor_comp_reg = 2147483648
        ∧ toInt32 (squares_sum (cell_step 65536 (-4000) true e.h e.i e.j e.st).seq_ver_comp_reg
            (cell_step 65536 (-4000) true e.h e.i e.j e.st).seq_hor_comp_reg) = -2147483648
        ∧ 65536 - toInt32 (squares_sum
              (cell_step 65536 (-4000) true e.h e.i e.j e.st).seq_ver_comp_reg
              (cell_step 65536 (-4000) true e.h e.i e.j e.st).seq_hor_comp_reg) = 2147549184
        ∧ dihedral_score (cell_step 65536 (-4000) true e.h e.i e.j e.st).seq_ver_comp_reg
            (cell_step 65536 (-4000) true e.h e.i e.j e.st).seq_hor_comp_reg 65536
          = 65536 - 2147483648 := by
  obtain ⟨C, _, _, _, _, em, en, _, _, honce⟩ :=
    align_one_trace_ctx sim_state half_turn origin1 [] (half_turn ++ []) 65536 (-4000) true
      (by decide) (by decide) (fun _ => ⟨[], rfl⟩) (fun h => by cases h)
  obtain ⟨e, he, e1, e2, e3⟩ := visit_of_count _ 0 (0 + 0) 0
    (honce 0 0 0 (le_refl _) (le_refl _) (by rw [em]; decide) (le_refl _) (by decide)
      (by rw [en]; decide))
  have hv : 0 ≤ e.i - e.j ∧ e.i - e.j < half_turn.length ∧ 16 * e.h + e.j < origin1.length := by
    rw [e1, e2, e3]; decide
  obtain ⟨r1, r2⟩ := align_one_trace_regs sim_state half_turn origin1 [] (half_turn ++ [])
    65536 (-4000) true (by decide) (by decide) (fun _ => ⟨[], rfl⟩) (fun h => by cases h)
    e he hv.1 hv.2.1 hv.2.2
  refine ⟨e, he, hv, ?_⟩
  rw [r1, r2, e1, e2, e3]
  decide

/-- C28, amended: for sequences `V`, `H` of lengths `m, n ≤ 512`,
`0 ≤ scoring_offset ≤ 4194303` and `-2^31 ≤ gap_penalty ≤ 0`, every entry of the matrix
computed in 32 bits equals the entry of the recurrence evaluated in unbounded integers.
When a cell within the matrix is computed, the dihedrals compared are `V[r]` and
`H[16h + c]`; the two squares do not wrap; the sum `dphi * dphi + dpsi * dpsi` and the
subtraction from `scoring_offset` inside `dihedral_score` each wrap exactly when
`dphi = dpsi = 32768`, and the value delivered is `s - (dphi^2 + dpsi^2)` in every case;
none of the three additions of the recurrence wraps, and the score computed for the cell
is the exact entry. The score returned by `align_one` is the exact Smith-Waterman
score. -/
theorem exact_in_32_bits (st0 : State) (V H restH stream_ver : List Dihedral) (s g : Int)
    (sr : Bool) (hV : V.length ≤ 512) (hH : H.length ≤ 512)
    (hs0 : 0 ≤ s) (hs1 : s ≤ 4194303) (hg1 : -2147483648 ≤ g) (hg2 : g ≤ 0)
    (h1 : sr = true → ∃ restV, stream_ver = V ++ restV)
    (h2 : sr = false → ∀ r : Int, 0 ≤ r → r < V.length →
      st0.seq_ver.get r = V.getD r.toNat { phi := 0, psi := 0 }) :
    (∀ r c : Nat, r < V.length → c < H.length →
        sw_matrix V H s g r c = exact_matrix V H s g r c)
      ∧ (∀ e ∈ align_one_trace st0 stream_ver V.length (H ++ restH) H.length s g sr,
          0 ≤ e.i - e.j → e.i - e.j < V.length → 16 * e.h + e.j < H.length →
            (cell_step s g sr e.h e.i e.j e.st).seq_ver_comp_reg
                = V.getD (e.i - e.j).toNat { phi := 0, psi := 0 }
            ∧ (cell_step s g sr e.h e.i e.j e.st).seq_hor_comp_reg
                = H.getD (16 * e.h + e.j).toNat { phi := 0, psi := 0 }
            ∧ squares_sum (cell_step s g sr e.h e.i e.j e.st).seq_ver_comp_reg
                  (cell_step s g sr e.h e.i e.j e.st).seq_hor_comp_reg
                = sq_dist (cell_step s g sr e.h e.i e.j e.st).seq_ver_comp_reg
                    (cell_step s g sr e.h e.i e.j e.st).seq_hor_comp_reg
            ∧ (toInt32 (squares_sum (cell_step s g sr e.h e.i e.j e.st).seq_ver_comp_reg
                    (cell_step s g sr e.h e.i e.j e.st).seq_hor_comp_reg)
                  = squares_sum (cell_step s g sr e.h e.i e.j e.st).seq_ver_comp_reg
                      (cell_step s g sr e.h e.i e.j e.st).seq_hor_comp_reg
                ↔ ¬(angle_abs_diff (cell_step s g sr e.h e.i e.j e.st).seq_ver_comp_reg.phi
                        (cell_step s g sr e.h e.i e.j e.st).seq_hor_comp_reg.phi = 32768
                    ∧ angle_abs_diff (cell_step s g sr e.h e.i e.j e.st).seq_ver_comp_reg.psi
                        (cell_step s g sr e.h e.i e.j e.st).seq_hor_comp_reg.psi = 32768))
            ∧ (toInt32 (s - toInt32 (squares_sum (cell_step s g sr e.h e.i e.j e.st).seq_ver_comp_reg
                    (cell_step s g sr e.h e.i e.j e.st).seq_hor_comp_reg))
                  = s - toInt32 (squares_sum (cell_step s g sr e.h e.i e.j e.st).seq_ver_comp_reg
                      (cell_step s g sr e.h e.i e.j e.st).seq_hor_comp_reg)
                ↔ ¬(angle_abs_diff (cell_step s g sr e.h e.i e.j e.st).seq_ver_comp_reg.phi
                        (cell_step s g sr e.h e.i e.j e.st).seq_hor_comp_reg.phi = 32768
                    ∧ angle_abs_diff (cell_step s g sr e.h e.i e.j e.st).seq_ver_comp_reg.psi
                        (cell_step s g sr e.h e.i e.j e.st).seq_hor_comp_reg.psi = 32768))
            ∧ dihedral_score (cell_step s g sr e.h e.i e.j e.st).seq_ver_comp_reg
                  (cell_step s g sr e.h e.i e.j e.st).seq_hor_comp_reg s
                = toInt32 (s - toInt32 (squares_sum (cell_step s g sr e.h e.i e.j e.st).seq_ver_comp_reg
                    (cell_step s g sr e.h e.i e.j e.st).seq_hor_comp_reg))
            ∧ toInt32 ((cell_step s g sr e.h e.i e.j e.st).lah_buf_00
                + dihedral_score (cell_step s g sr e.h e.i e.j e.st).seq_ver_comp_reg
                    (cell_step s g sr e.h e.i e.j e.st).seq_hor_comp_reg s)
              = (cell_step s g sr e.h e.i e.j e.st).lah_buf_00
                + (s - sq_dist (cell_step s g sr e.h e.i e.j e.st).seq_ver_comp_reg
                    (cell_step s g sr e.h e.i e.j e.st).seq_hor_comp_reg)
            ∧ toInt32 ((cell_step s g sr e.h e.i e.j e.st).lah_buf_10 + g)
              = (cell_step s g sr e.h e.i e.j e.st).lah_buf_10 + g
            ∧ toInt32 ((cell_step s g sr e.h e.i e.j e.st).lah_buf_11 + g)
              = (cell_step s g sr e.h e.i e.j e.st).lah_buf_11 + g
            ∧ (cell_step s g sr e.h e.i e.j e.st).cur_score
              = exact_matrix V H s g (e.i - e.j).toNat (16 * e.h + e.j).toNat)
      ∧ (align_one st0 stream_ver V.length (H ++ restH) H.length s g sr).max_score
          = exact_score V H s g := by
  have hmat : ∀ r c : Nat, r < V.length → c < H.length →
      sw_matrix V H s g r c = exact_matrix V H s g r c := by
    intro r c hr hc
    unfold sw_matrix exact_matrix
    exact sw_table_eq_exact V H s g hs0 hs1 hg1 hg2 (r + 1) (c + 1) (by omega) (by omega)
  refine ⟨hmat, ?_, ?_⟩
  · have hregs := align_one_trace_regs st0 V H restH stream_ver s g sr hV hH h1 h2
    obtain ⟨C, hC, es, eg, esr, em, en, eT, hinv, _⟩ :=
      align_one_trace_ctx st0 V H restH stream_ver s g sr hV hH h1 h2
    subst es eg esr
    intro e he hr0 hrm hcn
    obtain ⟨hh, hk, hi, hj, hj16, hI⟩ := hinv e he
    have hrm' : e.i - e.j < C.m := by rw [em]; exact hrm
    have hjk : e.j < C.n - 16 * e.h := by rw [en]; omega
    obtain ⟨f1, f2, f3, f4, f5, f6⟩ :=
      squares_sum_facts (cell_step C.s C.g C.sr e.h e.i e.j e.st).seq_ver_comp_reg
        (cell_step C.s C.g C.sr e.h e.i e.j e.st).seq_hor_comp_reg C.s hs0 hs1
    refine ⟨(hregs e he hr0 hrm hcn).1, (hregs e he hr0 hrm hcn).2, f3, f4, f5, rfl, ?_⟩
    rw [step_lah_buf_00 hC hI hj hj16 hr0 hrm' hjk,
      step_lah_buf_10 hC hI hh hj hj16 hr0 hrm' hjk,
      step_lah_buf_11 hC hI hj hj16 hr0 hrm' hjk,
      step_cur_score hC hI hh hk hi hj hj16 hr0 hrm' hjk, eT, f6]
    have b00 := Tz_bounds V H C.s C.g hs0 hs1 hg1 hg2 (e.i - e.j - 1) (16 * e.h + e.j - 1)
      (Or.inl (by omega))
    have b10 := Tz_bounds V H C.s C.g hs0 hs1 hg1 hg2 (e.i - e.j) (16 * e.h + e.j - 1)
      (Or.inr (by omega))
    have b11 := Tz_bounds V H C.s C.g hs0 hs1 hg1 hg2 (e.i - e.j - 1) (16 * e.h + e.j)
      (Or.inl (by omega))
    have hq := sq_dist_range (cell_step C.s C.g C.sr e.h e.i e.j e.st).seq_ver_comp_reg
      (cell_step C.s C.g C.sr e.h e.i e.j e.st).seq_hor_comp_reg
    refine ⟨toInt32_of_range (by omega) (by omega), toInt32_of_range (by omega) (by omega),
      toInt32_of_range (by omega) (by omega), ?_⟩
    rw [Tz_eq_matrix V H C.s C.g _ _ hr0 (by omega)]
    exact hmat _ _ (by omega) (by omega)
  · rw [(align_one_either st0 V H restH stream_ver s g sr hV hH h1 h2).1]
    exact exact_score_eq V H s g hV hH hs0 hs1 hg1 hg2

theorem exact_in_32_bits_witness :
    zeros2.length ≤ 512 ∧ zeros2.length ≤ 512 ∧ (0 : Int) ≤ 65536 ∧ (65536 : Int) ≤ 4194303
      ∧ (-2147483648 : Int) ≤ -4000 ∧ (-4000 : Int) ≤ 0
      ∧ (align_one sim_state (zeros2 ++ []) zeros2.length (zeros2 ++ []) zeros2.length
            65536 (-4000) true).max_score = exact_score zeros2 zeros2 65536 (-4000) :=
  ⟨by decide, by decide, by decide, by decide, by decide, by decide,
    (exact_in_32_bits sim_state zeros2 zeros2 [] (zeros2 ++ []) 65536 (-4000) true
      (by decide) (by decide) (by decide) (by decide) (by decide) (by decide)
      (fun _ => ⟨[], rfl⟩) (fun h => by cases h)).2.2⟩

/-! ## The slices of the pair loops -/

theorem sum_lengths_flatten (S : List (List Dihedral)) :
    (S.map (fun W => (W.length : Int))).sum = (S.flatten.length : Int) := by
  induction S with
  | nil => rfl
  | cons V S ih =>
    rw [List.map_cons, List.sum_cons, List.flatten_cons, List.length_append, ih]
    push_cast
    rfl

theorem lengths_getD (P Q : List (List Dihedral)) (V : List Dihedral) :
    ((P ++ V :: Q).map (fun W => (W.length : Int))).getD P.length 0 = V.length := by
  have e : P.length = (P.map (fun W => (W.length : Int))).length := by simp
  rw [List.map_append, List.map_cons, List.getD_eq_getElem?_getD, e,
    List.getElem?_append_right (le_refl _)]
  simp

theorem dma_slice_mid {α : Type} (a b c : List α) (x y : Int)
    (hx : x = a.length) (hy : y = b.length) :
    dma_slice (a ++ (b ++ c)) x y = b := by
  subst hx hy
  unfold dma_slice
  rw [Int.toNat_ofNat, Int.toNat_ofNat, List.drop_left, List.take_left]

theorem dma_slice_end {α : Type} (a b : List α) (x y : Int)
    (hx : x = a.length) (hy : y = b.length) :
    dma_slice (a ++ b) x y = b := by
  have := dma_slice_mid a b [] x y hx hy
  rw [List.append_nil] at this
  exact this

theorem run_align_body_fields
    (block : Nat → List Dihedral → Int → List Dihedral → List Int → Int → List Int)
    (seqs : Sequences) (i : Int) (rs rs1 : RunState)
    (h : run_align_body block seqs i rs = some rs1) :
    rs1.seq_ver = rs.seq_ver + seqs.sequence_lengths.getD i.toNat 0
      ∧ rs1.len_hor = toSizeArm (rs.len_hor - seqs.sequence_lengths.getD i.toNat 0)
      ∧ rs1.num_seqs_hor = toSizeArm (rs.num_seqs_hor - 1) := by
  unfold run_align_body at h
  dsimp only at h
  split_ifs at h with hres
  rw [Option.some.injEq] at h
  subst h
  exact ⟨rfl, rfl, rfl⟩

theorem run_align_loop_state
    (block : Nat → List Dihedral → Int → List Dihedral → List Int → Int → List Int) :
    ∀ (P2 P1 R : List (List Dihedral)) (rs rs1 : RunState),
      (P1 ++ (P2 ++ R)).flatten.length < 4294967296 →
      (P1 ++ (P2 ++ R)).length < 4294967296 →
      rs.seq_ver = P1.flatten.length → rs.len_hor = (P2 ++ R).flatten.length →
      rs.num_seqs_hor = (P2 ++ R).length →
      run_align_loop block
        { buffer := (P1 ++ (P2 ++ R)).flatten
          sequence_lengths := (P1 ++ (P2 ++ R)).map (fun W => (W.length : Int))
          num_sequences := (P1 ++ (P2 ++ R)).length } P2.length P1.length rs = some rs1 →
      rs1.seq_ver = (P1 ++ P2).flatten.length ∧ rs1.len_hor = R.flatten.length
        ∧ rs1.num_seqs_hor = R.length
  | [], P1, R, rs, rs1, _, _, h1, h2, h3, h => by
    rw [List.length_nil, run_align_loop, Option.some.injEq] at h
    subst h
    rw [List.append_nil]
    exact ⟨h1, h2, h3⟩
  | W :: P2, P1, R, rs, rs1, ht, hN, h1, h2, h3, h => by
    rw [List.length_cons] at h
    obtain ⟨rs2, hb, hl⟩ := run_align_loop_succ block _ _ _ rs rs1 h
    obtain ⟨b1, b2, b3⟩ := run_align_body_fields block _ _ rs rs2 hb
    have hg := lengths_getD P1 (P2 ++ R) W
    simp only [Int.toNat_ofNat, List.cons_append] at b1 b2 b3
    rw [hg] at b1 b2
    have hS : P1 ++ (W :: P2 ++ R) = (P1 ++ [W]) ++ (P2 ++ R) := by simp
    have hi : ((P1.length : Int) + 1) = ((P1 ++ [W]).length : Int) := by simp
    rw [hS] at hl ht hN
    rw [hi] at hl
    have e1 : ((P1 ++ [W]) ++ (P2 ++ R)).flatten.length
        = P1.flatten.length + W.length + (P2 ++ R).flatten.length := by
      simp only [List.flatten_append, List.length_append, List.flatten_cons, List.flatten_nil,
        List.append_nil]
    have e2 : ((P1 ++ [W]) ++ (P2 ++ R)).length = P1.length + 1 + (P2 ++ R).length := by
      simp only [List.length_append, List.length_cons, List.length_nil]
    have e3 : (W :: P2 ++ R).flatten.length = W.length + (P2 ++ R).flatten.length := by
      simp only [List.cons_append, List.flatten_cons, List.length_append]
    have e4 : (W :: P2 ++ R).length = (P2 ++ R).length + 1 := by
      simp only [List.cons_append, List.length_cons]
    obtain ⟨c1, c2, c3⟩ := run_align_loop_state block P2 (P1 ++ [W]) R rs2 rs1 ht hN
      (by rw [b1, h1]; simp)
      (by rw [b2, h2, e3]; unfold toSizeArm; push_cast; omega)
      (by rw [b3, h3, e4]; unfold toSizeArm; push_cast; omega) hl
    refine ⟨?_, c2, c3⟩
    rw [c1]
    simp

theorem main_body_ver_begin (junk : Nat → Nat → State) (lengths : List Int)
    (sequences : List Dihedral) (s g : Int) (i : Int) (ms : MainState) :
    (main_body junk lengths sequences s g i ms).ver_begin
      = toSizeT (ms.ver_begin + lengths.getD i.toNat 0) := rfl

theorem main_loop_ver_begin (junk : Nat → Nat → State) (s g : Int) :
    ∀ (P2 P1 R : List (List Dihedral)) (ms : MainState),
      (P1 ++ (P2 ++ R)).flatten.length < 18446744073709551616 →
      ms.ver_begin = P1.flatten.length →
      (main_loop junk ((P1 ++ (P2 ++ R)).map (fun W => (W.length : Int)))
          (P1 ++ (P2 ++ R)).flatten s g P2.length P1.length ms).ver_begin
        = (P1 ++ P2).flatten.length
  | [], P1, R, ms, _, h1 => by
    rw [List.length_nil, main_loop, h1]
    simp
  | W :: P2, P1, R, ms, ht, h1 => by
    rw [List.length_cons, main_loop]
    have hg := lengths_getD P1 (P2 ++ R) W
    have hS : P1 ++ (W :: P2 ++ R) = (P1 ++ [W]) ++ (P2 ++ R) := by simp
    have hi : ((P1.length : Int) + 1) = ((P1 ++ [W]).length : Int) := by simp
    have e1 : (P1 ++ (W :: P2 ++ R)).flatten.length
        = P1.flatten.length + W.length + (P2 ++ R).flatten.length := by
      simp only [List.flatten_append, List.length_append, List.flatten_cons, List.cons_append]
      omega
    have hb : (main_body junk ((P1 ++ (W :: P2 ++ R)).map (fun W => (W.length : Int)))
        (P1 ++ (W :: P2 ++ R)).flatten s g P1.length ms).ver_begin
          = (P1 ++ [W]).flatten.length := by
      rw [main_body_ver_begin, Int.toNat_ofNat]
      simp only [List.cons_append]
      rw [hg, h1]
      unfold toSizeT
      simp only [List.flatten_append, List.length_append, List.flatten_cons, List.flatten_nil,
        List.append_nil]
      omega
    rw [hi]
    have := main_loop_ver_begin junk s g P2 (P1 ++ [W]) R
      (main_body junk ((P1 ++ (W :: P2 ++ R)).map (fun W => (W.length : Int)))
        (P1 ++ (W :: P2 ++ R)).flatten s g P1.length ms) (by rw [← hS]; exact ht) hb
    rw [← hS] at this
    rw [this]
    simp

/-- C29: for sequences `S_0, ..., S_{N-1}` stored back to back in `buffer` with their
lengths in `sequence_lengths` (the buffer and the count being addressable in 32 bits), at
the iteration of index `i` of the pair loop of `run_align` the pointer `seq_ver` is
`off_i`, the sum of the lengths before `i`; the vertical transfer delivers
`buffer[off_i, off_i + lengths[i]) = S_i`; the horizontal transfer starts where the
vertical slice ends, has `len_hor` = the sum of the lengths after `i` elements, ends at
the end of the buffer and delivers the concatenation of `S_{i+1}..S_{N-1}`; and
`num_seqs_hor = N - 1 - i` lengths, those of `S_{i+1}..S_{N-1}`, are sent. The loop of
`main` takes the same slices: `ver_begin = off_i`, `[ver_begin, ver_end)` is `S_i`, and
`[hor_begin, hor_end)` is the concatenation of the later sequences. Both loops run
`N - 1` iterations. -/
theorem pair_loop_slices
    (block : Nat → List Dihedral → Int → List Dihedral → List Int → Int → List Int)
    (junk : Nat → Nat → State) (statics : State) (s g : Int)
    (P Q : List (List Dihedral)) (V : List Dihedral) (seqs : Sequences)
    (f : FIL) (t : Int) (rs : RunState)
    (hbuf : seqs.buffer = (P ++ V :: Q).flatten)
    (hlens : seqs.sequence_lengths = (P ++ V :: Q).map (fun W => (W.length : Int)))
    (hnum : seqs.num_sequences = (P ++ V :: Q).length)
    (htot : (P ++ V :: Q).flatten.length < 4294967296)
    (hN : (P ++ V :: Q).length < 4294967296)
    (hrs : run_align_loop block seqs P.length 0
        { out_file := f
          total_bytes_written := t
          num_seqs_hor := toSizeArm seqs.num_sequences
          len_hor := total_seq_len seqs.sequence_lengths seqs.num_sequences
          seq_ver := 0 } = some rs) :
    seqs.buffer = P.flatten ++ (V ++ Q.flatten)
      ∧ run_align_iterations seqs.num_sequences = P.length + Q.length
      ∧ rs.seq_ver = (seqs.sequence_lengths.take P.length).sum
      ∧ rs.seq_ver = P.flatten.length
      ∧ dma_slice seqs.buffer rs.seq_ver (toSizeArm (seqs.sequence_lengths.getD P.length 0)) = V
      ∧ rs.seq_ver + seqs.sequence_lengths.getD P.length 0 = P.flatten.length + V.length
      ∧ toSizeArm (rs.len_hor - seqs.sequence_lengths.getD P.length 0)
          = (seqs.sequence_lengths.drop (P.length + 1)).sum
      ∧ rs.seq_ver + seqs.sequence_lengths.getD P.length 0
          + toSizeArm (rs.len_hor - seqs.sequence_lengths.getD P.length 0)
          = seqs.buffer.length
      ∧ dma_slice seqs.buffer (rs.seq_ver + seqs.sequence_lengths.getD P.length 0)
          (toSizeArm (rs.len_hor - seqs.sequence_lengths.getD P.length 0)) = Q.flatten
      ∧ toSizeArm (rs.num_seqs_hor - 1) = seqs.num_sequences - 1 - P.length
      ∧ dma_slice seqs.sequence_lengths ((P.length : Int) + 1) (toSizeArm (rs.num_seqs_hor - 1))
          = Q.map (fun W => (W.length : Int))
      ∧ (toSizeT ((seqs.sequence_lengths.length : Int) - 1)).toNat = P.length + Q.length
      ∧ (main_loop junk seqs.sequence_lengths seqs.buffer s g P.length 0
            { ver_begin := 0, statics := statics, out_scores := [] }).ver_begin
          = P.flatten.length
      ∧ fill_stream seqs.buffer
          (main_loop junk seqs.sequence_lengths seqs.buffer s g P.length 0
            { ver_begin := 0, statics := statics, out_scores := [] }).ver_begin
          (toSizeT ((main_loop junk seqs.sequence_lengths seqs.buffer s g P.length 0
            { ver_begin := 0, statics := statics, out_scores := [] }).ver_begin
              + seqs.sequence_lengths.getD P.length 0)) = V
      ∧ fill_stream seqs.buffer
          (toSizeT ((main_loop junk seqs.sequence_lengths seqs.buffer s g P.length 0
            { ver_begin := 0, statics := statics, out_scores := [] }).ver_begin
              + seqs.sequence_lengths.getD P.length 0)) seqs.buffer.length = Q.flatten
      ∧ fill_stream seqs.sequence_lengths ((P.length : Int) + 1) seqs.sequence_lengths.length
          = Q.map (fun W => (W.length : Int)) := by
  obtain ⟨buffer, lens, num⟩ := seqs
  simp only at hbuf hlens hnum
  subst hbuf hlens hnum
  simp only at hrs ⊢
  have hfl : (P ++ V :: Q).flatten = P.flatten ++ (V ++ Q.flatten) := by simp
  have hlenfl : (P ++ V :: Q).flatten.length
      = P.flatten.length + V.length + Q.flatten.length := by
    rw [hfl]; simp only [List.length_append]; omega
  have hNl : (P ++ V :: Q).length = P.length + 1 + Q.length := by simp; omega
  have hg := lengths_getD P Q V
  have hmap : (P ++ V :: Q).map (fun W => (W.length : Int))
      = P.map (fun W => (W.length : Int))
        ++ ([(V.length : Int)] ++ Q.map (fun W => (W.length : Int))) := by simp
  have htake : (((P ++ V :: Q).map (fun W => (W.length : Int))).take P.length).sum
      = (P.flatten.length : Int) := by
    have e : P.length = (P.map (fun W => (W.length : Int))).length := by simp
    rw [hmap, e, List.take_left, sum_lengths_flatten]
  have hdrop : (((P ++ V :: Q).map (fun W => (W.length : Int))).drop (P.length + 1)).sum
      = (Q.flatten.length : Int) := by
    have e : P.length + 1
        = (P.map (fun W => (W.length : Int)) ++ [(V.length : Int)]).length := by simp
    rw [hmap, ← List.append_assoc, e, List.drop_left, sum_lengths_flatten]
  have hsum : total_seq_len ((P ++ V :: Q).map (fun W => (W.length : Int)))
      ((P ++ V :: Q).length : Int) = ((P ++ V :: Q).flatten.length : Int) := by
    have := total_seq_len_eq ((P ++ V :: Q).map (fun W => (W.length : Int)))
    rw [List.length_map, sum_lengths_flatten] at this
    rw [this]
    exact toSizeArm_of_range (by omega) (by omega)
  have hn0 : toSizeArm ((P ++ V :: Q).length : Int) = ((P ++ V :: Q).length : Int) :=
    toSizeArm_of_range (by omega) (by omega)
  rw [hsum, hn0] at hrs
  obtain ⟨c1, c2, c3⟩ := run_align_loop_state block P [] (V :: Q) _ rs
    htot hN rfl rfl rfl hrs
  have hsv : rs.seq_ver = P.flatten.length := c1
  have hlh : rs.len_hor = (V.length : Int) + Q.flatten.length := by
    rw [c2, List.flatten_cons, List.length_append]; push_cast; rfl
  have hnh : rs.num_seqs_hor = (Q.length : Int) + 1 := by
    rw [c3, List.length_cons]; push_cast; rfl
  have hml : (main_loop junk ((P ++ V :: Q).map (fun W => (W.length : Int)))
      (P ++ V :: Q).flatten s g P.length 0
        { ver_begin := 0, statics := statics, out_scores := [] }).ver_begin
      = P.flatten.length :=
    main_loop_ver_begin junk s g P [] (V :: Q)
      { ver_begin := 0, statics := statics, out_scores := [] } (by
        show (P ++ V :: Q).flatten.length < 18446744073709551616
        omega) rfl
  have hfl2 : (P ++ V :: Q).flatten = (P.flatten ++ V) ++ Q.flatten := by simp
  have hmap2 : (P ++ V :: Q).map (fun W => (W.length : Int))
      = (P.map (fun W => (W.length : Int)) ++ [(V.length : Int)])
        ++ Q.map (fun W => (W.length : Int)) := by simp
  have hend : toSizeT ((P.flatten.length : Int) + V.length) = P.flatten.length + V.length := by
    unfold toSizeT; omega
  refine ⟨hfl, ?_, ?_, hsv, ?_, ?_, ?_, ?_, ?_, ?_, ?_, ?_, hml, ?_, ?_, ?_⟩
  · unfold run_align_iterations toUInt32
    rw [hNl]; push_cast; omega
  · rw [htake]; exact hsv
  · rw [hg, hfl]
    exact dma_slice_mid _ _ _ _ _ hsv (toSizeArm_of_range (by omega) (by omega))
  · rw [hg, hsv]
  · rw [hg, hdrop, hlh]; unfold toSizeArm; omega
  · rw [hg, hsv, hlh, hlenfl]; unfold toSizeArm; push_cast; omega
  · rw [hg, hsv, hlh, hfl2]
    exact dma_slice_end _ _ _ _ (by simp) (by unfold toSizeArm; omega)
  · rw [hnh, hNl]; unfold toSizeArm; push_cast; omega
  · rw [hnh, hmap2]
    exact dma_slice_end _ _ _ _ (by simp) (by
      rw [List.length_map]; unfold toSizeArm; omega)
  · rw [List.length_map, hNl]; unfold toSizeT; push_cast; omega
  · rw [hml, hg, hend, hfl]
    exact fill_stream_mid _ _ _ _ _ rfl rfl
  · rw [hml, hg, hend, hlenfl, hfl2]
    exact fill_stream_end _ _ _ _ (by simp) (by simp)
  · rw [hmap2]
    exact fill_stream_end _ _ _ _ (by simp) (by simp; omega)

theorem pair_loop_slices_witness :
    seqs_triangle.buffer = (triangle.take 1 ++ zeros2 :: triangle.drop 2).flatten
      ∧ run_align_loop (replay_block groups3) seqs_triangle (triangle.take 1).length 0
          { out_file := new_file
            total_bytes_written := 4
            num_seqs_hor := toSizeArm seqs_triangle.num_sequences
            len_hor := total_seq_len seqs_triangle.sequence_lengths seqs_triangle.num_sequences
            seq_ver := 0 } = some after_first
      ∧ dma_slice seqs_triangle.buffer after_first.seq_ver
          (toSizeArm (seqs_triangle.sequence_lengths.getD (triangle.take 1).length 0)) = zeros2
      ∧ dma_slice seqs_triangle.buffer
          (after_first.seq_ver + seqs_triangle.sequence_lengths.getD (triangle.take 1).length 0)
          (toSizeArm (after_first.len_hor
            - seqs_triangle.sequence_lengths.getD (triangle.take 1).length 0))
          = (triangle.drop 2).flatten :=
  have h := pair_loop_slices (replay_block groups3) (fun _ _ => sim_state) sim_state 0 0
    (triangle.take 1) (triangle.drop 2) zeros2 seqs_triangle new_file 4 after_first
    rfl rfl rfl (by decide) (by decide) (by set_option maxRecDepth 100000 in rfl)
  ⟨rfl, by set_option maxRecDepth 100000 in rfl, h.2.2.2.2.1, h.2.2.2.2.2.2.2.2.1⟩

end Align
